import Mathlib

/-!
# State-history replay (`TableStateHistory.cc`)

A shallow embedding of the replay core of `packages/livestatus/src/TableStateHistory.cc`:
the log cursor (`LogEntryForwardIterator`), the per-object state machine
(`updateHostServiceState`, `update`, `insert_new_state`), the driver
(`answerQueryInternal`) and the finalisation (`final_reports`).

Conventions of the embedding

* time points and durations are integers (seconds);
* a pointer is an address (`Nat`), `0` is `nullptr`; a nullable pointer to a registry
  object is an `Option`;
* `std::map` is a key-sorted association list, iterated in list order;
* a `HostServiceState &` is a pair of the key under which the object is stored in the state
  table and the value of the object; the back-link list `_services` holds keys;
* the rows handed to `process` are recorded, in order, in `Sink.emitted`;
* dereferencing a null pointer is undefined behaviour in the source; the embedding records it
  in `Replay.null_deref` and stops the replay at that point.
-/

namespace StateHistory

/-! ## Data model -/

/-- The opaque identity handle `HostServiceKey` (a `const void *`); `0` is `nullptr`. -/
abbrev HostServiceKey := Nat

/-- The part of `IHost` the replay reads. -/
structure IHost where
  handleForStateHistory : HostServiceKey
  notificationPeriodName : String
  servicePeriodName : String
deriving DecidableEq, Repr

/-- The part of `IService` the replay reads. -/
structure IService where
  handleForStateHistory : HostServiceKey
  notificationPeriodName : String
  servicePeriodName : String
deriving DecidableEq, Repr

/-- The monitored-object registry (`ICore`), read-only. -/
structure ICore where
  find_host : String → Option IHost
  find_service : String → String → Option IService

/-- The tagged variant `LogEntryKind`. -/
inductive LogEntryKind where
  | none
  | core_starting
  | core_stopping
  | log_version
  | log_initial_states
  | acknowledge_alert_host
  | acknowledge_alert_service
  | alert_host
  | alert_service
  | state_host
  | state_host_initial
  | state_service
  | state_service_initial
  | downtime_alert_host
  | downtime_alert_service
  | flapping_host
  | flapping_service
  | timeperiod_transition
deriving DecidableEq, Repr

/-- The fields of `LogEntry` the replay reads. -/
structure LogEntry where
  time : Int
  lineno : Nat := 0
  kind : LogEntryKind
  host_name : String := ""
  service_description : String := ""
  state : Int := 0
  state_type : String := ""
  plugin_output : String := ""
  long_plugin_output : String := ""
  options : String := ""
  message : String := ""
deriving DecidableEq, Repr

/-- The query window `LogPeriod`, half-open `[since, until)`. -/
structure LogPeriod where
  since : Int
  «until» : Int
deriving DecidableEq, Repr

/-- Modelled from the spec: `LogPeriod::empty()` (declared in a header that is not part of the
sources): "`empty()` iff `since >= until`". -/
def LogPeriod.empty (p : LogPeriod) : Bool := decide (p.since ≥ p.until)

/-- Modelled from the spec: `LogPeriod::duration()`: "`duration() = until - since`". -/
def LogPeriod.duration (p : LogPeriod) : Int := p.until - p.since

/-- The class `HostServiceState` (declared in a header that is not part of the sources; the
members are the ones used by `TableStateHistory.cc`, value-initialised). The floating point
members `_duration_part*` are not represented. -/
structure HostServiceState where
  _is_host : Bool := false
  _time : Int := 0
  _lineno : Nat := 0
  _from : Int := 0
  _until : Int := 0
  _duration : Int := 0
  _duration_unmonitored : Int := 0
  _duration_ok : Int := 0
  _duration_warning : Int := 0
  _duration_critical : Int := 0
  _duration_unknown : Int := 0
  _host_down : Int := 0
  _state : Int := 0
  _in_notification_period : Int := 0
  _in_service_period : Int := 0
  _in_downtime : Int := 0
  _in_host_downtime : Int := 0
  _is_flapping : Int := 0
  _may_no_longer_exist : Bool := false
  _has_vanished : Bool := false
  _last_known_time : Int := 0
  _debug_info : String := ""
  _log_output : String := ""
  _long_log_output : String := ""
  _notification_period : String := ""
  _service_period : String := ""
  _host : Option IHost := Option.none
  _service : Option IService := Option.none
  _host_name : String := ""
  _service_description : String := ""
  _services : List HostServiceKey := []

/-- Modelled from the spec: `HostServiceState::computePerStateDurations` (defined in a file
that is not part of the sources): the duration goes to the accumulator of the current state,
`-1` unmonitored, `0..3` ok / warning / critical / unknown, the other accumulators are zero. -/
def HostServiceState.computePerStateDurations (hss : HostServiceState)
    (_query_timeframe : Int) : HostServiceState :=
  { hss with _duration_unmonitored := if hss._state = -1 then hss._duration else 0,
             _duration_ok := if hss._state = 0 then hss._duration else 0,
             _duration_warning := if hss._state = 1 then hss._duration else 0,
             _duration_critical := if hss._state = 2 then hss._duration else 0,
             _duration_unknown := if hss._state = 3 then hss._duration else 0 }

/-- The user: `User::is_authorized_for_object(host, service, service_auth_only)`. -/
structure User where
  is_authorized_for_object : Option IHost → Option IService → Bool → Bool

/-- The query: the filter restricted to the identity columns (the result of
`createPartialFilter`), the time zone offset, and the sink `processDataset`, which may depend
on the rows it was offered before; `false` asks to abort. -/
structure Query where
  object_filter : HostServiceState → User → Int → Bool
  timezoneOffset : Int
  processDataset : List HostServiceState → HostServiceState → Bool

/-- One call of `process`: the object (its key in the state table), the row as `processDataset`
sees it, and whether the row was offered to `processDataset` (the user is authorised). -/
structure Emission where
  key : HostServiceKey
  row : HostServiceState
  offered : Bool

/-- The member `abort_query_` together with the record of all calls of `process`. -/
structure Sink where
  abort_query_ : Bool := false
  emitted : List Emission := []

/-- The rows offered to `processDataset` so far. -/
def Sink.offered_rows (s : Sink) : List HostServiceState :=
  (s.emitted.filter (fun e => e.offered)).map (fun e => e.row)

/-- The type `state_info_t`, a `std::map` from key to the owned `HostServiceState`. -/
abbrev state_info_t := List (HostServiceKey × HostServiceState)

/-- The type `object_blacklist_t`, a `std::set` of keys. -/
abbrev object_blacklist_t := List HostServiceKey

/-- The type `notification_periods_t`, a `std::map` from period name to active(1)/inactive(0). -/
abbrev notification_periods_t := List (String × Int)

/-- The result type `ModificationStatus`. -/
inductive ModificationStatus where
  | unchanged
  | changed
deriving DecidableEq, Repr

/-! ## Associative containers -/

/-- Lookup in a `std::map`: `m.find(k)`. -/
def map_find {α β : Type} [DecidableEq α] (k : α) : List (α × β) → Option β
  | [] => Option.none
  | (k', v) :: m => if k' = k then some v else map_find k m

/-- Membership `m.contains(k)`. -/
def map_contains {α β : Type} [DecidableEq α] (k : α) (m : List (α × β)) : Bool :=
  (map_find k m).isSome

/-- Assignment `m[k] = v` on a map ordered by `lt`: replaces the value of an existing key, or
inserts the pair at its place in the order. -/
def map_set {α β : Type} [DecidableEq α] (lt : α → α → Bool) (k : α) (v : β) :
    List (α × β) → List (α × β)
  | [] => [(k, v)]
  | (k', v') :: m =>
    if k' = k then (k, v) :: m
    else if lt k k' then (k, v) :: (k', v') :: m
    else (k', v') :: map_set lt k v m

/-- In-place modification through a reference obtained from `m.find(k)`. -/
def map_modify {α β : Type} [DecidableEq α] (k : α) (f : β → β) : List (α × β) → List (α × β)
  | [] => []
  | (k', v) :: m => if k' = k then (k', f v) :: m else (k', v) :: map_modify k f m

/-- Order of the keys of `state_info_t`. -/
def key_lt (a b : HostServiceKey) : Bool := decide (a < b)

/-- Order of the keys of `notification_periods_t`. -/
def name_lt (a b : String) : Bool := decide (a < b)

/-! ## The payload of `TIMEPERIOD TRANSITION` -/

/-- Modelled from the spec: `mk::split` (defined in a file that is not part of the sources):
the fields of a string separated by the delimiter. -/
def split (d : Char) : List Char → List (List Char)
  | [] => [[]]
  | c :: cs =>
    if c = d then [] :: split d cs
    else
      match split d cs with
      | [] => [[c]]
      | f :: fs => (c :: f) :: fs

/-- The library function `std::isspace` in the C locale, by which `strtol` skips leading
white space: the space (`0x20`), and the horizontal tab, the line feed, the vertical tab, the
form feed and the carriage return (`0x09` to `0x0d`). -/
def isspace (c : Char) : Bool :=
  c.toNat = 32 || (9 ≤ c.toNat && c.toNat ≤ 13)

/-- The library function `std::stoi` (base 10, through `strtol`): leading white space
(`isspace`) is skipped, an optional sign and at least one digit are read, reading stops at
the first other character; no digit or a value outside of `int` is an error
(`std::invalid_argument`, `std::out_of_range`). -/
def stoi (s : List Char) : Option Int :=
  let s1 := s.dropWhile isspace
  let neg := s1.head? = some '-'
  let s2 := if s1.head? = some '-' ∨ s1.head? = some '+' then s1.tail else s1
  let ds := s2.takeWhile Char.isDigit
  if ds = [] then Option.none
  else
    let v : Int := ds.foldl (fun a c => 10 * a + ((c.toNat : Int) - 48)) 0
    let w : Int := if neg then -v else v
    if -2147483648 ≤ w ∧ w ≤ 2147483647 then some w else Option.none

/-- The class `TimeperiodTransition`. -/
structure TimeperiodTransition where
  name_ : String
  from_ : Int
  to_ : Int
deriving DecidableEq, Repr

/-- The constructor of `TimeperiodTransition`; `none` stands for the exceptions it throws
(all of them `std::logic_error`s). -/
def TimeperiodTransition.parse (str : String) : Option TimeperiodTransition :=
  match split ';' str.data with
  | [f0, f1, f2] =>
    match stoi f1, stoi f2 with
    | some a, some b => some { name_ := String.mk f0, from_ := a, to_ := b }
    | _, _ => Option.none
  | _ => Option.none

/-! ## Emission -/

/-- The method `TableStateHistory::process`. -/
def process (query : Query) (user : User) (period : LogPeriod) (key : HostServiceKey)
    (hss : HostServiceState) (sink : Sink) : HostServiceState × Sink :=
  let hss1 : HostServiceState := { hss with _duration := hss._until - hss._from }
  let hss2 := hss1.computePerStateDurations period.duration
  let authorized := user.is_authorized_for_object hss2._host hss2._service false
  let abort := authorized && !(query.processDataset sink.offered_rows hss2)
  ({ hss2 with _from := hss2._until },
   { abort_query_ := abort, emitted := sink.emitted ++ [{ key := key, row := hss2, offered := authorized }] })

/-- The guarded call `if (!only_update) { process(query, user, period, hss); }`. -/
def emit (query : Query) (user : User) (period : LogPeriod) (only_update : Bool)
    (key : HostServiceKey) (hss : HostServiceState) (sink : Sink) : HostServiceState × Sink :=
  if only_update then (hss, sink) else process query user period key hss sink

/-- Value of a period in `notification_periods`, `1` when the name is not known. -/
def period_status (notification_periods : notification_periods_t) (name : String) : Int :=
  match map_find name notification_periods with
  | some v => v
  | Option.none => 1

/-! ## The state machine `updateHostServiceState` -/

/-- Lines 668-708 of `updateHostServiceState`: "Revive host / service if it was unmonitored". -/
def revive (query : Query) (user : User) (period : LogPeriod) (entry : LogEntry)
    (key : HostServiceKey) (hss : HostServiceState) (only_update : Bool)
    (notification_periods : notification_periods_t) (sink : Sink) : HostServiceState × Sink :=
  if entry.kind ≠ LogEntryKind.timeperiod_transition ∧ hss._has_vanished = true then
    let hss1 : HostServiceState :=
      { hss with _time := hss._last_known_time, _until := hss._last_known_time }
    let p := emit query user period only_update key hss1 sink
    let hss2 : HostServiceState :=
      { p.1 with _may_no_longer_exist := false, _has_vanished := false, _state := -1,
                 _debug_info := "UNMONITORED", _in_downtime := 0, _is_flapping := 0,
                 _log_output := "", _long_log_output := "",
                 _in_notification_period := period_status notification_periods p.1._notification_period,
                 _in_service_period := period_status notification_periods p.1._service_period }
    (hss2, p.2)
  else (hss, sink)

/-- Lines 710-719 of `updateHostServiceState`: "Update basic information". -/
def update_basic (entry : LogEntry) (hss : HostServiceState) : HostServiceState :=
  { hss with _time := entry.time, _lineno := entry.lineno, _until := entry.time,
             _may_no_longer_exist :=
               if entry.kind ≠ LogEntryKind.timeperiod_transition then false
               else hss._may_no_longer_exist }

/-- The test `entry->state_type().starts_with("STARTED") ? 1 : 0`. -/
def started (entry : LogEntry) : Int :=
  if "STARTED".data.isPrefixOf entry.state_type.data then 1 else 0

/-- The conversion `static_cast<int>(entry->state() > 0)`. -/
def down (entry : LogEntry) : Int := if entry.state > 0 then 1 else 0

/-- The case `timeperiod_transition` of the switch of `updateHostServiceState`. -/
def update_timeperiod (query : Query) (user : User) (period : LogPeriod) (entry : LogEntry)
    (key : HostServiceKey) (hss : HostServiceState) (only_update : Bool) (sink : Sink) :
    HostServiceState × Sink :=
  match TimeperiodTransition.parse entry.options with
  | Option.none => (hss, sink)
  | some tpt =>
    let p1 : HostServiceState × Sink :=
      if hss._host ≠ Option.none ∧ tpt.name_ = hss._notification_period
          ∧ tpt.to_ ≠ hss._in_notification_period then
        let p := emit query user period only_update key hss sink
        ({ p.1 with _debug_info := "TIMEPERIOD ", _in_notification_period := tpt.to_ }, p.2)
      else (hss, sink)
    if p1.1._host ≠ Option.none ∧ tpt.name_ = p1.1._service_period
        ∧ tpt.to_ ≠ p1.1._in_service_period then
      let p := emit query user period only_update key p1.1 p1.2
      ({ p.1 with _debug_info := "TIMEPERIOD ", _in_service_period := tpt.to_ }, p.2)
    else p1

/-- The switch of `updateHostServiceState` (lines 721-843). -/
def update_kind (query : Query) (user : User) (period : LogPeriod) (entry : LogEntry)
    (key : HostServiceKey) (hss : HostServiceState) (only_update : Bool) (sink : Sink) :
    ModificationStatus × HostServiceState × Sink :=
  match entry.kind with
  | .none | .core_starting | .core_stopping | .log_version | .log_initial_states
  | .acknowledge_alert_host | .acknowledge_alert_service =>
    (ModificationStatus.changed, hss, sink)
  | .state_host | .state_host_initial | .alert_host =>
    if hss._is_host then
      if hss._state ≠ entry.state then
        let p := emit query user period only_update key hss sink
        (ModificationStatus.changed,
         { p.1 with _state := entry.state, _host_down := down entry, _debug_info := "HOST STATE" },
         p.2)
      else (ModificationStatus.unchanged, hss, sink)
    else if hss._host_down ≠ down entry then
      let p := emit query user period only_update key hss sink
      (ModificationStatus.changed,
       { p.1 with _host_down := down entry, _debug_info := "SVC HOST STATE" }, p.2)
    else (ModificationStatus.changed, hss, sink)
  | .state_service | .state_service_initial | .alert_service =>
    if hss._state ≠ entry.state then
      let p := emit query user period only_update key hss sink
      (ModificationStatus.changed,
       { p.1 with _debug_info := "SVC ALERT", _state := entry.state }, p.2)
    else (ModificationStatus.changed, hss, sink)
  | .downtime_alert_host =>
    if hss._in_host_downtime ≠ started entry then
      let p := emit query user period only_update key hss sink
      (ModificationStatus.changed,
       { p.1 with _debug_info := if p.1._is_host then "HOST DOWNTIME" else "SVC HOST DOWNTIME",
                  _in_host_downtime := started entry,
                  _in_downtime := if p.1._is_host then started entry else p.1._in_downtime },
       p.2)
    else (ModificationStatus.unchanged, hss, sink)
  | .downtime_alert_service =>
    if hss._in_downtime ≠ started entry then
      let p := emit query user period only_update key hss sink
      (ModificationStatus.changed,
       { p.1 with _debug_info := "DOWNTIME SERVICE", _in_downtime := started entry }, p.2)
    else (ModificationStatus.changed, hss, sink)
  | .flapping_host | .flapping_service =>
    if hss._is_flapping ≠ started entry then
      let p := emit query user period only_update key hss sink
      (ModificationStatus.changed,
       { p.1 with _debug_info := "FLAPPING ", _is_flapping := started entry }, p.2)
    else (ModificationStatus.unchanged, hss, sink)
  | .timeperiod_transition =>
    let p := update_timeperiod query user period entry key hss only_update sink
    (ModificationStatus.changed, p.1, p.2)

/-- Lines 845-852 of `updateHostServiceState`: the outputs are taken from the entry. -/
def update_log_output (entry : LogEntry) (hss : HostServiceState) : HostServiceState :=
  if entry.kind ≠ LogEntryKind.timeperiod_transition then
    let fix_me : Bool :=
      (entry.kind = LogEntryKind.state_host_initial
        ∨ entry.kind = LogEntryKind.state_service_initial) ∧ entry.plugin_output = "(null)"
    { hss with _log_output := if fix_me then "" else entry.plugin_output,
               _long_log_output := entry.long_plugin_output }
  else hss

/-- The method `TableStateHistory::updateHostServiceState`; the parameter `core` is used for
logging only and is left out. -/
def updateHostServiceState (query : Query) (user : User) (period : LogPeriod)
    (entry : LogEntry) (key : HostServiceKey) (hss : HostServiceState) (only_update : Bool)
    (notification_periods : notification_periods_t) (sink : Sink) :
    ModificationStatus × HostServiceState × Sink :=
  let p := revive query user period entry key hss only_update notification_periods sink
  let q := update_kind query user period entry key (update_basic entry p.1) only_update p.2
  (q.1, update_log_output entry q.2.1, q.2.2)

/-! ## The replay state and the handlers of the entries -/

/-- The local variables of `answerQueryInternal` and the member `abort_query_` (in `sink`).
`null_deref` records that the source dereferenced a null pointer, after which its behaviour
is undefined. -/
structure Replay where
  state_info : state_info_t := []
  object_blacklist : object_blacklist_t := []
  notification_periods : notification_periods_t := []
  only_update : Bool := true
  in_nagios_initial_states : Bool := false
  sink : Sink := {}
  null_deref : Bool := false

/-- A loop `for (const auto &[key, hss] : state_info)` whose body changes `*hss` and calls
`process`. -/
def for_each_state (f : HostServiceKey → HostServiceState → Sink → HostServiceState × Sink) :
    state_info_t → Sink → state_info_t × Sink
  | [], sink => ([], sink)
  | (key, hss) :: m, sink =>
    let p := f key hss sink
    let q := for_each_state f m p.2
    ((key, p.1) :: q.1, q.2)

/-- The cascade of `update`: `updateHostServiceState` on every object of the list `_services`
(`svc` points into the state table). -/
def update_services (query : Query) (user : User) (period : LogPeriod) (entry : LogEntry)
    (only_update : Bool) (notification_periods : notification_periods_t) :
    List HostServiceKey → state_info_t → Sink → state_info_t × Sink
  | [], state_info, sink => (state_info, sink)
  | svc :: svcs, state_info, sink =>
    match map_find svc state_info with
    | Option.none =>
      update_services query user period entry only_update notification_periods svcs state_info sink
    | some s =>
      let r := updateHostServiceState query user period entry svc s only_update
        notification_periods sink
      update_services query user period entry only_update notification_periods svcs
        (map_modify svc (fun _ => r.2.1) state_info) r.2.2

/-- The method `TableStateHistory::update`, on the object `state` stored under `key`. -/
def update (query : Query) (user : User) (period : LogPeriod) (entry : LogEntry)
    (key : HostServiceKey) (state : HostServiceState) (only_update : Bool)
    (notification_periods : notification_periods_t) (state_info : state_info_t) (sink : Sink) :
    state_info_t × Sink :=
  let r := updateHostServiceState query user period entry key state only_update
    notification_periods sink
  let state_info1 := map_modify key (fun _ => r.2.1) state_info
  if (entry.kind = LogEntryKind.alert_host ∨ entry.kind = LogEntryKind.state_host
      ∨ entry.kind = LogEntryKind.downtime_alert_host)
      ∧ r.1 = ModificationStatus.changed then
    update_services query user period entry only_update notification_periods r.2.1._services
      state_info1 r.2.2
  else (state_info1, r.2.2)

/-- The handle `state->_host->handleForStateHistory()`; `none` when `_host` is null, where the
source dereferences a null pointer. -/
def host_handle (state : HostServiceState) : Option HostServiceKey :=
  state._host.map (fun h => h.handleForStateHistory)

/-- Lines 525-531 of `insert_new_state`: the services of a new host, in the order of the state
table; `none` when the null `_host` of the new state is dereferenced. -/
def collect_services (state : HostServiceState) : state_info_t → Option (List HostServiceKey)
  | [] => some []
  | (key, hss) :: m =>
    match hss._host with
    | Option.none => collect_services state m
    | some h =>
      match host_handle state with
      | Option.none => Option.none
      | some k =>
        (collect_services state m).map
          (fun l => if h.handleForStateHistory = k then key :: l else l)

/-- Lines 504-509 of `insert_new_state`: the new object with its identity. -/
def nascent (entry : LogEntry) (entry_host : Option IHost) (entry_service : Option IService) :
    HostServiceState :=
  { _is_host := decide (entry.service_description = ""),
    _host := entry_host,
    _service := entry_service,
    _host_name := entry.host_name,
    _service_description := entry.service_description }

/-- Lines 523-537 of `insert_new_state`, "Host/Service relations": a new host collects the
objects of the table with its host, a new service is appended to the list of its host, if the
table has it; `none` when a null `_host` is dereferenced. -/
def link_services (state : HostServiceState) (key : HostServiceKey) (state_info : state_info_t) :
    Option (HostServiceState × state_info_t) :=
  if state._is_host then
    (collect_services state state_info).map
      (fun l => ({ state with _services := state._services ++ l }, state_info))
  else
    (host_handle state).map
      (fun k => (state, map_modify k
        (fun h => { h with _services := h._services ++ [key] }) state_info))

/-- The name `notificationPeriodName()` of the service, else of the host, else `""`. -/
def notification_period_of (state : HostServiceState) : String :=
  match state._service, state._host with
  | some svc, _ => svc.notificationPeriodName
  | Option.none, some h => h.notificationPeriodName
  | Option.none, Option.none => ""

/-- The name `servicePeriodName()` of the service, else of the host, else `""`. -/
def service_period_of (state : HostServiceState) : String :=
  match state._service, state._host with
  | some svc, _ => svc.servicePeriodName
  | Option.none, some h => h.servicePeriodName
  | Option.none, Option.none => ""

/-- Lines 539-568 of `insert_new_state`: the start of the first interval, the names of the
periods and whether the object is in them. -/
def init_periods (period : LogPeriod) (notification_periods : notification_periods_t)
    (state : HostServiceState) : HostServiceState :=
  { state with _from := period.since,
               _notification_period := notification_period_of state,
               _service_period := service_period_of state,
               _in_notification_period :=
                 period_status notification_periods (notification_period_of state),
               _in_service_period :=
                 period_status notification_periods (service_period_of state) }

/-- Lines 570-578 of `insert_new_state`: a service takes `_in_host_downtime` and `_host_down`
from its host, if the table has it; `none` when a null `_host` is dereferenced. -/
def inherit_host (state : HostServiceState) (state_info : state_info_t) :
    Option HostServiceState :=
  if state._is_host then some state
  else
    (host_handle state).map
      (fun k =>
        match map_find k state_info with
        | some my_host =>
          { state with _in_host_downtime := my_host._in_host_downtime,
                       _host_down := my_host._host_down }
        | Option.none => state)

/-- Lines 580-586 of `insert_new_state`: "Log UNMONITORED state if this host or service just
appeared within the query timeframe. It gets a grace period of ten minutes". -/
def stamp_unmonitored (entry : LogEntry) (only_update : Bool) (period : LogPeriod)
    (state : HostServiceState) : HostServiceState :=
  if only_update = false ∧ entry.time - period.since > 600 then
    { state with _debug_info := "UNMONITORED ", _state := -1 }
  else state

/-- The method `TableStateHistory::insert_new_state`: the new state table and blacklist, or
`none` when a null `_host` is dereferenced. -/
def insert_new_state (query : Query) (user : User) (entry : LogEntry) (only_update : Bool)
    (notification_periods : notification_periods_t) (state_info : state_info_t)
    (object_blacklist : object_blacklist_t) (period : LogPeriod)
    (entry_host : Option IHost) (entry_service : Option IService) (key : HostServiceKey) :
    Option (state_info_t × object_blacklist_t) :=
  let state := nascent entry entry_host entry_service
  if entry.service_description ≠ "" ∧ query.object_filter state user query.timezoneOffset = false
  then some (state_info, key :: object_blacklist)
  else
    match link_services state key state_info with
    | Option.none => Option.none
    | some (state1, state_info1) =>
      match inherit_host (init_periods period notification_periods state1) state_info1 with
      | Option.none => Option.none
      | some state3 =>
        some (map_set key_lt key (stamp_unmonitored entry only_update period state3) state_info1,
              object_blacklist)

/-- The key of `handle_state_entry`: the handle of the host of a host entry, of the service of
a service entry, `nullptr` when the registry does not have the object. -/
def entry_key (core : ICore) (entry : LogEntry) (is_host_entry : Bool) : HostServiceKey :=
  if is_host_entry then
    (match core.find_host entry.host_name with
     | Option.none => 0
     | some h => h.handleForStateHistory)
  else
    (match core.find_service entry.host_name entry.service_description with
     | Option.none => 0
     | some s => s.handleForStateHistory)

/-- Lines 486-490 of `handle_state_entry`: `insert_new_state` for a key the state table does
not contain. -/
def insert_if_new (query : Query) (user : User) (core : ICore) (entry : LogEntry)
    (period : LogPeriod) (key : HostServiceKey) (r : Replay) :
    Option (state_info_t × object_blacklist_t) :=
  if map_contains key r.state_info then some (r.state_info, r.object_blacklist)
  else insert_new_state query user entry r.only_update r.notification_periods r.state_info
    r.object_blacklist period (core.find_host entry.host_name)
    (core.find_service entry.host_name entry.service_description) key

/-- The method `TableStateHistory::handle_state_entry`. -/
def handle_state_entry (query : Query) (user : User) (core : ICore) (entry : LogEntry)
    (is_host_entry : Bool) (period : LogPeriod) (r : Replay) : Replay :=
  let key := entry_key core entry is_host_entry
  if key = 0 then r
  else if r.object_blacklist.contains key then r
  else
    match insert_if_new query user core entry period key r with
    | Option.none => { r with null_deref := true }
    | some (state_info1, object_blacklist1) =>
      -- `*state_info[key]`: a key that is not in the table gets a null pointer, which is
      -- dereferenced
      match map_find key state_info1 with
      | Option.none =>
        { r with state_info := state_info1, object_blacklist := object_blacklist1,
                 null_deref := true }
      | some state =>
        let p := update query user period entry key state r.only_update r.notification_periods
          state_info1 r.sink
        { r with state_info := p.1, object_blacklist := object_blacklist1, sink := p.2 }

/-- The method `TableStateHistory::handle_timeperiod_transition`. -/
def handle_timeperiod_transition (query : Query) (user : User) (period : LogPeriod)
    (entry : LogEntry) (r : Replay) : Replay :=
  match TimeperiodTransition.parse entry.options with
  | Option.none => r
  | some tpt =>
    let notification_periods1 := map_set name_lt tpt.name_ tpt.to_ r.notification_periods
    let p := for_each_state
      (fun key hss sink =>
        (updateHostServiceState query user period entry key hss r.only_update
          notification_periods1 sink).2)
      r.state_info r.sink
    { r with notification_periods := notification_periods1, state_info := p.1, sink := p.2 }

/-- The function `set_unknown_to_unmonitored`. -/
def set_unknown_to_unmonitored (in_nagios_initial_states : Bool) (state_info : state_info_t) :
    state_info_t :=
  if in_nagios_initial_states then
    state_info.map (fun (kh : HostServiceKey × HostServiceState) =>
      if kh.2._may_no_longer_exist then (kh.1, { kh.2 with _has_vanished := true }) else kh)
  else state_info

/-- The function `handle_log_initial_states`. -/
def handle_log_initial_states (entry : LogEntry) (state_info : state_info_t) : state_info_t :=
  state_info.map (fun (kh : HostServiceKey × HostServiceState) =>
    if kh.2._has_vanished = false then
      (kh.1, { kh.2 with _last_known_time := entry.time, _may_no_longer_exist := true })
    else kh)

/-- The body of the loop of `final_reports` for one object. -/
def final_report (query : Query) (user : User) (period : LogPeriod) (key : HostServiceKey)
    (hss : HostServiceState) (sink : Sink) : HostServiceState × Sink :=
  let p : HostServiceState × Sink :=
    if hss._may_no_longer_exist then
      let q := process query user period key
        { hss with _time := hss._last_known_time, _until := hss._last_known_time } sink
      ({ q.1 with _state := -1, _debug_info := "UNMONITORED", _log_output := "",
                  _long_log_output := "" }, q.2)
    else (hss, sink)
  process query user period key
    { p.1 with _time := period.until - 1, _until := period.until - 1 } p.2

/-- The method `TableStateHistory::final_reports`. -/
def final_reports (query : Query) (user : User) (period : LogPeriod) (r : Replay) : Replay :=
  let p := for_each_state (final_report query user period) r.state_info r.sink
  { r with state_info := p.1, sink := p.2 }

/-! ## The cursor `LogEntryForwardIterator` -/

/-- A log file: its start time `since()` and the entries `getEntriesFor` delivers (of the
classes alert, program and state, in the order of the map, which is the order of time and
line number). -/
structure Logfile where
  since : Int
  entries : List LogEntry
deriving DecidableEq, Repr

/-- The class `LogEntryForwardIterator`: the files in the order of their map (by `since`),
the position `it_logs_` in the files, the entries of the current file, and the position
`it_entries_` in the entries; a position equal to the length is `end()`. -/
structure LogEntryForwardIterator where
  log_files_ : List Logfile
  it_logs_ : Nat
  entries_ : List LogEntry := []
  it_entries_ : Nat := 0
deriving DecidableEq, Repr

/-- The constructor of `LogEntryForwardIterator` (declared in a header that is not part of the
sources): `it_logs_` starts at `log_files.end()`, from where `rewind_to_start` steps back to
the last file. -/
def LogEntryForwardIterator.make (log_files : List Logfile) : LogEntryForwardIterator :=
  { log_files_ := log_files, it_logs_ := log_files.length }

/-- The method `LogEntryForwardIterator::getEntries`. -/
def LogEntryForwardIterator.getEntries (it : LogEntryForwardIterator) : List LogEntry :=
  match it.log_files_[it.it_logs_]? with
  | some f => f.entries
  | Option.none => []

/-- The step `++it_logs_; entries_ = getEntries(); it_entries_ = entries_->begin();` of
`getNextLogentry`. -/
def LogEntryForwardIterator.next_log (it : LogEntryForwardIterator) : LogEntryForwardIterator :=
  let it1 : LogEntryForwardIterator := { it with it_logs_ := it.it_logs_ + 1 }
  { it1 with entries_ := it1.getEntries, it_entries_ := 0 }

/-- The loop `while (it_entries_ == entries_->end())` of `getNextLogentry`; every round moves
`it_logs_` forward, so the number of files bounds the number of rounds. -/
def next_file : Nat → LogEntryForwardIterator → Option LogEntry × LogEntryForwardIterator
  | 0, it => (it.entries_[it.it_entries_]?, it)
  | fuel + 1, it =>
    if it.it_entries_ = it.entries_.length then
      if it.it_logs_ + 1 = it.log_files_.length then (Option.none, it)
      else next_file fuel it.next_log
    else (it.entries_[it.it_entries_]?, it)

/-- The method `LogEntryForwardIterator::getNextLogentry`; `none` is `nullptr`. -/
def LogEntryForwardIterator.getNextLogentry (it : LogEntryForwardIterator) :
    Option LogEntry × LogEntryForwardIterator :=
  let it1 : LogEntryForwardIterator :=
    if it.it_entries_ ≠ it.entries_.length then { it with it_entries_ := it.it_entries_ + 1 }
    else it
  next_file it1.log_files_.length it1

/-- The loop of `rewind_to_start` that finds the log where `since` starts: from position `i`
back to the first file, while the file starts at or after `period.since`. -/
def find_start (log_files : List Logfile) (period : LogPeriod) : Nat → Nat
  | 0 => 0
  | i + 1 =>
    match log_files[i + 1]? with
    | some f => if f.since ≥ period.since then find_start log_files period i else i + 1
    | Option.none => i + 1

/-- Lines 326-343 of `rewind_to_start`, "Determine initial log entry": the position
`it_entries_` in the entries of the selected file; `is_newest` is `it_logs_ == newest_log`. -/
def initial_entry (period : LogPeriod) (is_newest : Bool) (entries : List LogEntry) : Nat :=
  if entries = [] then 0
  else if is_newest then 0
  else
    let last := entries.length - 1
    match entries[last]? with
    | some e => if last ≠ 0 ∧ e.time ≥ period.since then 0 else last
    | Option.none => last

/-- The method `LogEntryForwardIterator::rewind_to_start`. -/
def LogEntryForwardIterator.rewind_to_start (it : LogEntryForwardIterator) (period : LogPeriod) :
    Bool × LogEntryForwardIterator :=
  if it.log_files_ = [] then (false, it)
  else
    let newest_log := it.it_logs_ - 1
    let it1 : LogEntryForwardIterator :=
      { it with it_logs_ := find_start it.log_files_ period newest_log }
    match it1.log_files_[it1.it_logs_]? with
    | Option.none => (false, it1)
    | some f =>
      if f.since ≥ period.until then (false, it1)
      else
        (true, { it1 with entries_ := f.entries,
                          it_entries_ :=
                            initial_entry period (decide (it1.it_logs_ = newest_log)) f.entries })

/-! ## The driver `answerQueryInternal` -/

/-- Lines 384-392 of `answerQueryInternal`: "Reached start of query timeframe. From now on
let's produce real output. Update _from time of every state entry". -/
def start_of_timeframe (period : LogPeriod) (entry : LogEntry) (r : Replay) : Replay :=
  if r.only_update = true ∧ entry.time ≥ period.since then
    { r with state_info := r.state_info.map (fun (kh : HostServiceKey × HostServiceState) =>
               (kh.1, { kh.2 with _from := period.since, _until := period.since })),
             only_update := false }
  else r

/-- The switch on the kind of the entry in the loop of `answerQueryInternal` (lines 394-451). -/
def dispatch (query : Query) (user : User) (core : ICore) (period : LogPeriod)
    (entry : LogEntry) (r : Replay) : Replay :=
  let unmonitored : Replay :=
    { r with state_info := set_unknown_to_unmonitored r.in_nagios_initial_states r.state_info }
  match entry.kind with
  | .none | .core_starting | .core_stopping | .log_version
  | .acknowledge_alert_host | .acknowledge_alert_service =>
    { unmonitored with in_nagios_initial_states := false }
  | .state_service_initial => handle_state_entry query user core entry false period r
  | .alert_service | .state_service | .downtime_alert_service | .flapping_service =>
    { handle_state_entry query user core entry false period unmonitored with
      in_nagios_initial_states := false }
  | .state_host_initial => handle_state_entry query user core entry true period r
  | .alert_host | .state_host | .downtime_alert_host | .flapping_host =>
    { handle_state_entry query user core entry true period unmonitored with
      in_nagios_initial_states := false }
  | .timeperiod_transition =>
    { handle_timeperiod_transition query user period entry unmonitored with
      in_nagios_initial_states := false }
  | .log_initial_states =>
    { unmonitored with state_info := handle_log_initial_states entry unmonitored.state_info,
                       in_nagios_initial_states := true }

/-- The body of the loop of `answerQueryInternal` after the test for the end of the loop:
the switch from warm-up to emission and the dispatch on the kind of the entry. -/
def handle_entry (query : Query) (user : User) (core : ICore) (period : LogPeriod)
    (entry : LogEntry) (r : Replay) : Replay :=
  dispatch query user core period entry (start_of_timeframe period entry r)

/-- The loop `while (LogEntry *entry = it.getNextLogentry())` of `answerQueryInternal`; every
round consumes one entry of the files, so their number bounds the number of rounds. The loop
is left when a null pointer has been dereferenced. -/
def replay_loop (query : Query) (user : User) (core : ICore) (period : LogPeriod) :
    Nat → LogEntryForwardIterator → Replay → Replay
  | 0, _, r => r
  | fuel + 1, it, r =>
    match it.getNextLogentry with
    | (Option.none, _) => r
    | (some entry, it1) =>
      if r.sink.abort_query_ = true ∨ entry.time ≥ period.until then r
      else
        let r1 := handle_entry query user core period entry r
        if r1.null_deref then r1 else replay_loop query user core period fuel it1 r1

/-- Number of entries of all files, plus one: a bound on the rounds of the replay loop. -/
def rounds (log_files : List Logfile) : Nat :=
  (log_files.map (fun f => f.entries.length)).sum + 1

/-- The method `TableStateHistory::answerQueryInternal`, with the period `LogPeriod::make(query)`
as a parameter: the state of the replay when the method returns (or when a null pointer is
dereferenced). -/
def answerQueryInternal (query : Query) (user : User) (core : ICore) (period : LogPeriod)
    (it : LogEntryForwardIterator) : Replay :=
  let r0 : Replay := {}
  if period.empty then r0
  else
    match it.rewind_to_start period with
    | (false, _) => r0
    | (true, it1) =>
      let r := replay_loop query user core period (rounds it1.log_files_) it1 r0
      if r.null_deref then r
      else if r.sink.abort_query_ = false then final_reports query user period r
      else r

/-- The method `TableStateHistory::answerQuery` on the log files of the cache. -/
def answerQuery (query : Query) (user : User) (core : ICore) (period : LogPeriod)
    (log_files : List Logfile) : Replay :=
  answerQueryInternal query user core period (LogEntryForwardIterator.make log_files)

/-! ## Notions used in the statements -/

/-- The row `process` hands to `processDataset`: the object with its duration and per-state
durations computed. -/
def snapshot (period : LogPeriod) (hss : HostServiceState) : HostServiceState :=
  ({ hss with _duration := hss._until - hss._from } : HostServiceState).computePerStateDurations
    period.duration

/-- The rows `news` are contiguous, the first starts at `f0`, and `f1` is the end of the last
(`f0` when there is none). -/
def Chain (f0 : Int) : List Emission → Int → Prop
  | [], f1 => f1 = f0
  | e :: es, f1 => e.row._from = f0 ∧ Chain e.row._until es f1

/-- From `a` to `b`, the object `key` was handed to `process` some number of times, with rows
satisfying `U`, and its `_from` changed in no other way. -/
def Emits (key : HostServiceKey) (U : HostServiceState → Prop)
    (a b : HostServiceState × Sink) : Prop :=
  ∃ news, b.2.emitted = a.2.emitted ++ news ∧ Chain a.1._from news b.1._from
    ∧ ∀ e ∈ news, e.key = key ∧ U e.row

/-- The members `process` and the switch of `updateHostServiceState` leave alone. -/
def Stable (h r : HostServiceState) : Prop :=
  r._is_host = h._is_host ∧ r._time = h._time ∧ r._lineno = h._lineno ∧ r._until = h._until
  ∧ r._may_no_longer_exist = h._may_no_longer_exist ∧ r._has_vanished = h._has_vanished
  ∧ r._last_known_time = h._last_known_time ∧ r._notification_period = h._notification_period
  ∧ r._service_period = h._service_period ∧ r._host = h._host ∧ r._service = h._service
  ∧ r._host_name = h._host_name ∧ r._service_description = h._service_description
  ∧ r._services = h._services

/-- The members of `hss` that `Stable` looks at, as `updateHostServiceState` leaves them for
the entry: time, line number and end are the entry's, and the two flags of a vanished object
survive a `TIMEPERIOD TRANSITION` only. -/
def touched (entry : LogEntry) (hss : HostServiceState) : HostServiceState :=
  { hss with _time := entry.time, _lineno := entry.lineno, _until := entry.time,
             _may_no_longer_exist :=
               decide (entry.kind = LogEntryKind.timeperiod_transition) && hss._may_no_longer_exist,
             _has_vanished :=
               decide (entry.kind = LogEntryKind.timeperiod_transition) && hss._has_vanished }

/-- The object as the revival hands it to `process`: it ends at its last known time. -/
def frozen (hss : HostServiceState) : HostServiceState :=
  { hss with _time := hss._last_known_time, _until := hss._last_known_time }

/-- The rows `updateHostServiceState` may emit for `entry` and `hss`: the row of a revival
(the object had vanished, the row ends at the last known time), or a row that ends at the
time of the entry. -/
def RowOf (entry : LogEntry) (hss row : HostServiceState) : Prop :=
  Stable (touched entry hss) row
  ∨ (entry.kind ≠ LogEntryKind.timeperiod_transition ∧ hss._has_vanished = true
      ∧ Stable (frozen hss) row)

/-- Every object of the state table satisfies `I`. -/
def AllStates (I : HostServiceState → Prop) (state_info : state_info_t) : Prop :=
  ∀ kh ∈ state_info, I kh.2

/-- From `s` to `s'` rows were handed to `process`, all of them satisfying `P`. -/
def Grows (P : Emission → Prop) (s s' : Sink) : Prop :=
  ∃ news, s'.emitted = s.emitted ++ news ∧ ∀ e ∈ news, P e

/-- A new object as `insert_new_state` stores it, as far as the replay of times is concerned. -/
def Fresh (period : LogPeriod) (nps : notification_periods_t) (h : HostServiceState) : Prop :=
  h._from = period.since ∧ h._until = 0 ∧ h._time = 0
  ∧ h._may_no_longer_exist = false ∧ h._has_vanished = false ∧ h._last_known_time = 0
  ∧ h._in_notification_period = period_status nps h._notification_period
  ∧ h._in_service_period = period_status nps h._service_period

/-- What is needed of an invariant `I` of the objects (under the invariant `N` of the period
map) and of a property `P` of the emitted rows for one entry to keep `I` and emit rows with
`P` only; `ou` is `only_update`. -/
structure EntrySound (query : Query) (user : User) (period : LogPeriod) (entry : LogEntry)
    (ou : Bool) (N : notification_periods_t → Prop) (I : HostServiceState → Prop)
    (P : Emission → Prop) : Prop where
  update : ∀ key h nps s, N nps → I h →
    I (updateHostServiceState query user period entry key h ou nps s).2.1
    ∧ Grows P s (updateHostServiceState query user period entry key h ou nps s).2.2
  vanish : ∀ h : HostServiceState, I h → h._may_no_longer_exist = true →
    I { h with _has_vanished := true }
  initial_states : entry.kind = LogEntryKind.log_initial_states →
    ∀ h : HostServiceState, I h → h._has_vanished = false →
      I { h with _last_known_time := entry.time, _may_no_longer_exist := true }
  link : ∀ (h : HostServiceState) (l : List HostServiceKey), I h → I { h with _services := l }
  fresh : ∀ nps h, N nps → Fresh period nps h → I h
  periods : ∀ tpt, entry.kind = LogEntryKind.timeperiod_transition →
    TimeperiodTransition.parse entry.options = some tpt →
    ∀ nps, N nps → N (map_set name_lt tpt.name_ tpt.to_ nps)

/-- The entries of the files after the current one. -/
def LogEntryForwardIterator.later (it : LogEntryForwardIterator) : List LogEntry :=
  ((it.log_files_.drop (it.it_logs_ + 1)).map (fun f => f.entries)).flatten

/-- The entries the cursor has not passed: those from the position `it_entries_` on, and the
entries of the later files. -/
def LogEntryForwardIterator.rest (it : LogEntryForwardIterator) : List LogEntry :=
  it.entries_.drop it.it_entries_ ++ it.later

/-- The entries that the following calls of `getNextLogentry` deliver: those after the
position `it_entries_`, and the entries of the later files. -/
def LogEntryForwardIterator.pending (it : LogEntryForwardIterator) : List LogEntry :=
  it.entries_.drop (it.it_entries_ + 1) ++ it.later

/-- The loop of `answerQueryInternal` on the list of the entries that the cursor delivers. -/
def replay_list (query : Query) (user : User) (core : ICore) (period : LogPeriod) :
    List LogEntry → Replay → Replay
  | [], r => r
  | entry :: es, r =>
    if r.sink.abort_query_ = true ∨ entry.time ≥ period.until then r
    else
      let r1 := handle_entry query user core period entry r
      if r1.null_deref then r1 else replay_list query user core period es r1

/-- All entries of the log files, in the order of the files. -/
def all_entries (log_files : List Logfile) : List LogEntry :=
  (log_files.map (fun f => f.entries)).flatten

/-- The entries of the log files are in non-decreasing order of time, within and across the
files. -/
def time_ordered (log_files : List Logfile) : Prop :=
  (all_entries log_files).Pairwise (fun a b => a.time ≤ b.time)

/-- The rows `final_reports` may emit for the object `hss`: for an object that may no longer
exist a row that ends at its last known time, and the final row, one second before the end
of the period. -/
def FinalRow (period : LogPeriod) (hss row : HostServiceState) : Prop :=
  (hss._may_no_longer_exist = true ∧ Stable (frozen hss) row)
  ∨ (row._until = period.until - 1 ∧ row._time = period.until - 1)

/-- The last known time of an object that is flagged lies before the end of the period. -/
def LastKnownInPeriod (period : LogPeriod) (h : HostServiceState) : Prop :=
  (h._may_no_longer_exist = true ∨ h._has_vanished = true) → h._last_known_time < period.until

/-- The file `rewind_to_start` selects: the newest file that starts before the period, or the
first file. -/
def selected_file (it : LogEntryForwardIterator) (period : LogPeriod) : Option Logfile :=
  it.log_files_[find_start it.log_files_ period (it.it_logs_ - 1)]?

/-- A query without filter whose sink never aborts. -/
def query_all : Query := ⟨fun _ _ _ => true, 0, fun _ _ => true⟩

/-- A user who is authorised for every object. -/
def user_all : User := ⟨fun _ _ _ => true⟩

/-- A registry with the host `h` (handle 1) and its service `s` (handle 2). -/
def core_hs : ICore :=
  { find_host := fun n => if n = "h" then some ⟨1, "np", "sp"⟩ else Option.none,
    find_service := fun n d =>
      if n = "h" ∧ d = "s" then some ⟨2, "np", "sp"⟩ else Option.none }

/-- One log file, in the order of time: the core starts, the initial state of the service
`h;s` is logged, and a restart logs `log_initial_states` without an initial state of the
service, all before the period `[100, 200)`. -/
def files_restart_before_period : List Logfile :=
  [⟨0, [{ time := 10, kind := LogEntryKind.core_starting },
        { time := 20, kind := LogEntryKind.state_service_initial, host_name := "h",
          service_description := "s", state := 0 },
        { time := 50, kind := LogEntryKind.log_initial_states }]⟩]

/-- Two log files that are not in the order of time: the older file ends with an alert at
`t = 120`, the newer file (it starts at 130) holds an alert logged for `t = 60`. -/
def files_out_of_order : List Logfile :=
  [⟨0, [{ time := 10, kind := LogEntryKind.core_starting },
        { time := 20, kind := LogEntryKind.state_service_initial, host_name := "h",
          service_description := "s", state := 0 },
        { time := 120, kind := LogEntryKind.alert_service, host_name := "h",
          service_description := "s", state := 1 }]⟩,
   ⟨130, [{ time := 60, kind := LogEntryKind.alert_service, host_name := "h",
            service_description := "s", state := 2 }]⟩]

/-- The row ends at the last known time of an object that is flagged as vanished or as
possibly no longer existing: the row of a revival or of the first report of `final_reports`. -/
def EndsAtLastKnown (row : HostServiceState) : Prop :=
  row._until = row._last_known_time
  ∧ (row._has_vanished = true ∨ row._may_no_longer_exist = true)

/-- The invariant of an object for log entries in the order of time, `b` being the time of the
last entry: before the period is reached the open interval starts at `period.since`, after
that not after `b`, and the last known time of a flagged object is not after `b`. -/
def TimeOK (period : LogPeriod) (b : Int) (ou : Bool) (h : HostServiceState) : Prop :=
  (ou = true → h._from = period.since) ∧ (ou = false → h._from ≤ b)
  ∧ ((h._may_no_longer_exist = true ∨ h._has_vanished = true) → h._last_known_time ≤ b)

/-- A log file in the order of time whose restart lies in the period `[100, 200)`: the
service `h;s` is not logged again after the restart at `t = 150`. -/
def files_restart_in_period : List Logfile :=
  [⟨0, [{ time := 10, kind := LogEntryKind.core_starting },
        { time := 20, kind := LogEntryKind.state_service_initial, host_name := "h",
          service_description := "s", state := 0 },
        { time := 150, kind := LogEntryKind.log_initial_states }]⟩]

/-- The keys of the state table, in its order. -/
def keys (m : state_info_t) : List HostServiceKey := m.map Prod.fst

/-- The rows of the object `k` among the rows `T`, in their order. -/
def emitted_for (k : HostServiceKey) (T : List Emission) : List Emission :=
  T.filter (fun e => decide (e.key = k))

/-- A step on the state table that keeps its keys and hands objects of the table to
`process`, such that the new rows of every object are contiguous from its `_from` before the
step to its `_from` after the step; during the warm-up (`ou`) the sink is left alone. -/
def TStep (ou : Bool) (a b : state_info_t × Sink) : Prop :=
  keys b.1 = keys a.1 ∧ (ou = true → b.2 = a.2)
  ∧ ∃ news, b.2.emitted = a.2.emitted ++ news ∧ (∀ e ∈ news, e.key ∈ keys a.1)
    ∧ ∀ k h h', (k, h) ∈ a.1 → (k, h') ∈ b.1 → Chain h._from (emitted_for k news) h'._from

/-- The invariant that links the rows to the state table: the keys of the table are distinct,
every row belongs to an object of the table, the rows of every object are contiguous from
`period.since` to the `_from` of the object, and nothing is emitted during the warm-up. -/
def Linked (period : LogPeriod) (ou : Bool) (m : state_info_t) (s : Sink) : Prop :=
  (keys m).Nodup ∧ (∀ e ∈ s.emitted, e.key ∈ keys m)
  ∧ (∀ kh ∈ m, Chain period.since (emitted_for kh.1 s.emitted) kh.2._from)
  ∧ (ou = true → s.emitted = [])

/-- The invariant `Linked` of a state of the replay. -/
def Replay.linked (period : LogPeriod) (r : Replay) : Prop :=
  Linked period r.only_update r.state_info r.sink

/-- Scenario 1 of the specification: the initial state of the service before the period
`[100, 200)` and an alert at `t = 150`. -/
def files_scenario_1 : List Logfile :=
  [⟨0, [{ time := 10, kind := LogEntryKind.core_starting },
        { time := 50, kind := LogEntryKind.state_service_initial, host_name := "h",
          service_description := "s", state := 0 },
        { time := 150, kind := LogEntryKind.alert_service, host_name := "h",
          service_description := "s", state := 2 }]⟩]

/-- The state of the replay when the loop of `answerQueryInternal` ends (the initial state
when `rewind_to_start` fails). -/
def loop_state (query : Query) (user : User) (core : ICore) (period : LogPeriod)
    (log_files : List Logfile) : Replay :=
  match (LogEntryForwardIterator.make log_files).rewind_to_start period with
  | (false, _) => {}
  | (true, it1) => replay_loop query user core period (rounds it1.log_files_) it1 {}

/-- The query reaches `final_reports`: the period is not empty, `rewind_to_start` succeeds,
and the loop ends with the abort flag not set (and without a null pointer dereferenced). -/
def reaches_final_reports (query : Query) (user : User) (core : ICore) (period : LogPeriod)
    (log_files : List Logfile) : Prop :=
  period.empty = false
  ∧ ((LogEntryForwardIterator.make log_files).rewind_to_start period).1 = true
  ∧ (loop_state query user core period log_files).null_deref = false
  ∧ (loop_state query user core period log_files).sink.abort_query_ = false

/-- The object as `final_reports` hands it to `process` for the final row. -/
def final_object (query : Query) (user : User) (period : LogPeriod) (key : HostServiceKey)
    (hss : HostServiceState) (sink : Sink) : HostServiceState :=
  if hss._may_no_longer_exist then
    { (process query user period key (frozen hss) sink).1 with
      _state := -1, _debug_info := "UNMONITORED", _log_output := "", _long_log_output := "",
      _time := period.until - 1, _until := period.until - 1 }
  else { hss with _time := period.until - 1, _until := period.until - 1 }

/-- The rows of `final_reports` for one object: for an object that may no longer exist the
row that ends at its last known time, then the final row. -/
def final_rows (query : Query) (user : User) (period : LogPeriod) (key : HostServiceKey)
    (hss : HostServiceState) (sink : Sink) : List Emission :=
  (if hss._may_no_longer_exist then
    [{ key := key, row := snapshot period (frozen hss),
       offered := user.is_authorized_for_object hss._host hss._service false }]
   else [])
  ++ [{ key := key, row := snapshot period (final_object query user period key hss sink),
        offered := user.is_authorized_for_object hss._host hss._service false }]

/-- The log files without the entries whose time is at or after the end of the period. -/
def drop_late (period : LogPeriod) (log_files : List Logfile) : List Logfile :=
  log_files.map (fun f =>
    { f with entries := f.entries.filter (fun e => decide (e.time < period.until)) })

/-- The end of `answerQueryInternal` after the loop: `final_reports` unless the query was
aborted (or a null pointer was dereferenced). -/
def finish (query : Query) (user : User) (period : LogPeriod) (r : Replay) : Replay :=
  if r.null_deref then r
  else if r.sink.abort_query_ = false then final_reports query user period r
  else r

/-- The replay of `answerQueryInternal` on the entries `es` that the cursor delivers: the loop
and `final_reports`. -/
def answer_entries (query : Query) (user : User) (core : ICore) (period : LogPeriod)
    (es : List LogEntry) : Replay :=
  finish query user period (replay_list query user core period es {})

/-- Two log files in the order of time: the older one holds the initial state of the service
`h;s` at `t = 20` and ends with an entry after the period `[100, 200)`, the newer one starts
after the period. -/
def files_late_entry : List Logfile :=
  [⟨0, [{ time := 10, kind := LogEntryKind.core_starting },
        { time := 20, kind := LogEntryKind.state_service_initial, host_name := "h",
          service_description := "s", state := 0 },
        { time := 250, kind := LogEntryKind.core_stopping }]⟩,
   ⟨300, [{ time := 300, kind := LogEntryKind.core_starting }]⟩]

/-- The invariant of C10 for the period `name` with value `v`: an object with a host pointer
whose notification period is `name` has `_in_notification_period == v`. -/
def InPeriod (name : String) (v : Int) (h : HostServiceState) : Prop :=
  h._host ≠ Option.none → h._notification_period = name → h._in_notification_period = v

/-- The entry is not a `TIMEPERIOD TRANSITION` with a well-formed payload for the period
`name`. -/
def no_transition_for (name : String) (e : LogEntry) : Prop :=
  e.kind = LogEntryKind.timeperiod_transition →
    (TimeperiodTransition.parse e.options).map (fun t => t.name_) ≠ some name

/-- The loop body applied to the entries `es` in turn, without the tests for the end of the
loop. -/
def handle_entries (query : Query) (user : User) (core : ICore) (period : LogPeriod)
    (es : List LogEntry) (r : Replay) : Replay :=
  es.foldl (fun r e => handle_entry query user core period e r) r

/-- A registry that has no host, but resolves the empty service description of the host name
`h` to a service (handle 2) with the notification period `np`. -/
def core_no_host : ICore :=
  { find_host := fun _ => Option.none,
    find_service := fun n d =>
      if n = "h" ∧ d = "" then some ⟨2, "np", "sp"⟩ else Option.none }

/-- A log file with a state entry for the host name `h` and the empty service description,
followed by the transition of the period `np` to `0`. -/
def files_transition : List Logfile :=
  [⟨0, [{ time := 10, kind := LogEntryKind.core_starting },
        { time := 20, kind := LogEntryKind.state_service, host_name := "h", state := 0 },
        { time := 30, kind := LogEntryKind.timeperiod_transition, options := "np;1;0" }]⟩]

/-- The key `k` is the handle of a host of the registry. -/
def IsHostKey (core : ICore) (k : HostServiceKey) : Prop :=
  ∃ n h, core.find_host n = some h ∧ h.handleForStateHistory = k

/-- The key `k` is the handle of a service of the registry. -/
def IsServiceKey (core : ICore) (k : HostServiceKey) : Prop :=
  ∃ n d s, core.find_service n d = some s ∧ s.handleForStateHistory = k

/-- The handles are the addresses of the objects of the registry: no host shares its handle
with a service. -/
def handles_disjoint (core : ICore) : Prop :=
  ∀ k, IsHostKey core k → ¬ IsServiceKey core k

/-- The members of a `HostServiceState` that relate a service to its host: `_is_host`, the
handle of `_host`, `_services`, `_host_down` and `_in_host_downtime`. -/
structure HostView where
  is_host : Bool
  host : Option HostServiceKey
  services : List HostServiceKey
  host_down : Int
  in_host_downtime : Int

/-- The view of an object. -/
def host_view (X : HostServiceState) : HostView :=
  ⟨X._is_host, host_handle X, X._services, X._host_down, X._in_host_downtime⟩

/-- What a changing `HOST DOWNTIME ALERT` does to `_in_host_downtime`, and a changing state
or alert of a host to `_host_down`. -/
def set_view (entry : LogEntry) (X : HostView) : HostView :=
  if entry.kind = LogEntryKind.downtime_alert_host then
    { X with in_host_downtime := started entry }
  else { X with host_down := down entry }

/-- The invariant of the state table that relates the services to their hosts: an object
flagged as host sits under the handle of its host, an object not flagged as host sits under
the handle of a service and has a host; the objects of the list `_services` of an object are
tracked services of that host with its `_host_down` and `_in_host_downtime`; a service whose
host is not tracked has the value `0` in both, and a service whose host is tracked is in the
list of its host; no list `_services` has an object twice. -/
structure HostInv (core : ICore) (v : HostServiceKey → Option HostView) : Prop where
  hosts : ∀ k X, v k = some X → X.is_host = true → IsHostKey core k ∧ X.host = some k
  svcs : ∀ k X, v k = some X → X.is_host = false →
    IsServiceKey core k ∧ ∃ kh, X.host = some kh ∧ IsHostKey core kh
  links : ∀ k X, v k = some X → ∀ z ∈ X.services, ∃ Z, v z = some Z ∧ Z.is_host = false
    ∧ Z.host = some k ∧ Z.host_down = X.host_down ∧ Z.in_host_downtime = X.in_host_downtime
  orphan : ∀ z Z, v z = some Z → Z.is_host = false → ∀ kh, Z.host = some kh → v kh = Option.none →
    Z.host_down = 0 ∧ Z.in_host_downtime = 0
  complete : ∀ z Z, v z = some Z → Z.is_host = false → ∀ kh H, Z.host = some kh →
    v kh = some H → z ∈ H.services
  nodup : ∀ k X, v k = some X → X.services.Nodup

/-- The host `h` goes down at the time `150`. -/
def entry_host_down : LogEntry :=
  { time := 150, kind := LogEntryKind.state_host, host_name := "h", state := 1 }

/-- The file at the position `i` is the one `rewind_to_start` selects for the period: the
newest file (the last in the order of the files) that starts before `period.since`, or the
oldest file when no file starts before `period.since`. -/
def IsSelected (log_files : List Logfile) (period : LogPeriod) (i : Nat) (f : Logfile) : Prop :=
  log_files[i]? = some f
  ∧ ((f.since < period.since
        ∧ ∀ j g, i < j → log_files[j]? = some g → period.since ≤ g.since)
      ∨ (i = 0 ∧ ∀ g ∈ log_files, period.since ≤ g.since))

/-- A query whose filter rejects every service and whose sink never aborts. -/
def query_reject : Query := ⟨fun _ _ _ => false, 0, fun _ _ => true⟩

/-- A query without filter whose sink aborts at every row of a host. -/
def query_abort_hosts : Query := ⟨fun _ _ _ => true, 0, fun _ row => !row._is_host⟩

/-- One log file: the states of the host `h` (up) and of its service `h;s` before the period
`[100, 200)`, the host going down at `150`, and an alert of the service at `160`. -/
def files_abort : List Logfile :=
  [⟨0, [{ time := 10, kind := LogEntryKind.core_starting },
        { time := 20, kind := LogEntryKind.state_host, host_name := "h", state := 0 },
        { time := 30, kind := LogEntryKind.state_service, host_name := "h",
          service_description := "s", state := 0 },
        { time := 150, kind := LogEntryKind.state_host, host_name := "h", state := 1 },
        { time := 160, kind := LogEntryKind.alert_service, host_name := "h",
          service_description := "s", state := 2 }]⟩]

/-- The two objects agree in every member other than `_from`, `_duration` and the durations
per state (the members `process` writes). -/
def SameAttributes (a b : HostServiceState) : Prop :=
  a._is_host = b._is_host ∧ a._time = b._time ∧ a._lineno = b._lineno ∧ a._until = b._until
  ∧ a._host_down = b._host_down ∧ a._state = b._state
  ∧ a._in_notification_period = b._in_notification_period
  ∧ a._in_service_period = b._in_service_period ∧ a._in_downtime = b._in_downtime
  ∧ a._in_host_downtime = b._in_host_downtime ∧ a._is_flapping = b._is_flapping
  ∧ a._may_no_longer_exist = b._may_no_longer_exist ∧ a._has_vanished = b._has_vanished
  ∧ a._last_known_time = b._last_known_time ∧ a._debug_info = b._debug_info
  ∧ a._log_output = b._log_output ∧ a._long_log_output = b._long_log_output
  ∧ a._notification_period = b._notification_period ∧ a._service_period = b._service_period
  ∧ a._host = b._host ∧ a._service = b._service ∧ a._host_name = b._host_name
  ∧ a._service_description = b._service_description ∧ a._services = b._services

/-- Every object of the table `m` is in the table `m1` under its key, with its `_from`. -/
def FromKept (m m1 : state_info_t) : Prop :=
  ∀ k h, map_find k m = some h → ∃ h1, map_find k m1 = some h1 ∧ h1._from = h._from

/-- The state of the replay of the period `[100, 200)` in the warm-up, after the state of the
service `h;s` at `20`. -/
def replay_warm_up : Replay :=
  handle_entry query_all user_all core_hs ⟨100, 200⟩
    { time := 20, kind := LogEntryKind.state_service, host_name := "h",
      service_description := "s", state := 0 } {}

/-- The state of the replay of the period `[100, 2000)` in the emission phase, after the start
of the core at `150`. -/
def replay_in_period : Replay :=
  handle_entry query_all user_all core_hs ⟨100, 2000⟩
    { time := 150, kind := LogEntryKind.core_starting } {}

/-- An alert of the service `h;s` at the time `t`. -/
def alert_at (t : Int) : LogEntry :=
  { time := t, kind := LogEntryKind.alert_service, host_name := "h",
    service_description := "s", state := 2 }

/-- The initial state `0` of the service `sd` of the host `hn`, logged at `50`. -/
def initial_state_at_50 (hn sd : String) : LogEntry :=
  { time := 50, kind := LogEntryKind.state_service_initial, host_name := hn,
    service_description := sd, state := 0 }

/-- The alert of the service `sd` of the host `hn` with the state `2`, logged at `150`. -/
def alert_at_150 (hn sd : String) : LogEntry :=
  { time := 150, kind := LogEntryKind.alert_service, host_name := hn,
    service_description := sd, state := 2 }

/-- The log stream of scenario 1 for the service `sd` of the host `hn`: one log file with the
entries `pre`, the initial state of the service at `50` and its alert at `150`. -/
def stream_scenario_1 (hn sd : String) (pre : List LogEntry) : List Logfile :=
  [⟨0, pre ++ [initial_state_at_50 hn sd, alert_at_150 hn sd]⟩]

/-- The object `X` after a `log_initial_states` entry at `t1` and a later entry that is no
initial state: flagged, vanished, last known at `t1`. -/
def vanished_at (t1 : Int) (X : HostServiceState) : HostServiceState :=
  { X with _last_known_time := t1, _may_no_longer_exist := true, _has_vanished := true }

/-- The row carries the state of the object: the state and the other observable attributes
are those of `X`. -/
def CarriesState (X row : HostServiceState) : Prop :=
  row._state = X._state ∧ row._host_down = X._host_down ∧ row._in_downtime = X._in_downtime
  ∧ row._in_host_downtime = X._in_host_downtime ∧ row._is_flapping = X._is_flapping
  ∧ row._in_notification_period = X._in_notification_period
  ∧ row._in_service_period = X._in_service_period ∧ row._debug_info = X._debug_info
  ∧ row._log_output = X._log_output ∧ row._long_log_output = X._long_log_output

/-- The state of the replay of the period `[100, 1000)` in the emission phase, with the
service `h;s` tracked since its state `0` at `50`. -/
def replay_tracked : Replay :=
  handle_entries query_all user_all core_hs ⟨100, 1000⟩
    [{ time := 50, kind := LogEntryKind.state_service, host_name := "h",
       service_description := "s", state := 0 },
     { time := 150, kind := LogEntryKind.core_starting }] {}

/-- A `log_initial_states` entry at `500`, the start of the core at `600`, and the alert of
the service `h;s` at `700`. -/
def entries_vanish_revive : List LogEntry :=
  [{ time := 500, kind := LogEntryKind.log_initial_states },
   { time := 600, kind := LogEntryKind.core_starting },
   alert_at 700]

/-- A `log_initial_states` entry at `500`, the transition of the notification period `np` of
the service `h;s` from `1` to `0` at `600`, and the alert of the service at `700`. -/
def entries_vanish_transition : List LogEntry :=
  [{ time := 500, kind := LogEntryKind.log_initial_states },
   { time := 600, kind := LogEntryKind.timeperiod_transition, options := "np;1;0" },
   alert_at 700]

/-- A `log_initial_states` entry at `500`, the alert of the host `h` with the state `1` at
`600`, and the alert of its service `h;s` at `700`. -/
def entries_vanish_host_alert : List LogEntry :=
  [{ time := 500, kind := LogEntryKind.log_initial_states },
   { time := 600, kind := LogEntryKind.alert_host, host_name := "h", state := 1 },
   alert_at 700]

/-- The member of the object that the switch of `updateHostServiceState` compares with the
entry: `_state` for a state or an alert of a host on a host object and for a state or an
alert of a service, `_host_down` for a state or an alert of a host on another object,
`_in_host_downtime` for a downtime of a host, `_in_downtime` for a downtime of a service,
`_is_flapping` for a flapping entry. -/
def compared_attribute (kind : LogEntryKind) (hss : HostServiceState) : Int :=
  match kind with
  | .state_host | .state_host_initial | .alert_host =>
    if hss._is_host then hss._state else hss._host_down
  | .state_service | .state_service_initial | .alert_service => hss._state
  | .downtime_alert_host => hss._in_host_downtime
  | .downtime_alert_service => hss._in_downtime
  | .flapping_host | .flapping_service => hss._is_flapping
  | _ => 0

/-- The value of the entry that the switch of `updateHostServiceState` compares the member
with, and writes to it: `entry->state()`, `static_cast<int>(entry->state() > 0)` or whether
the state type starts with `STARTED`. -/
def compared_value (entry : LogEntry) (hss : HostServiceState) : Int :=
  match entry.kind with
  | .state_host | .state_host_initial | .alert_host =>
    if hss._is_host then entry.state else down entry
  | .state_service | .state_service_initial | .alert_service => entry.state
  | .downtime_alert_host | .downtime_alert_service | .flapping_host | .flapping_service =>
    started entry
  | _ => 0

/-- A `DOWNTIME ALERT` of the service `h;s` at the time `t` with the state type `st`. -/
def downtime_at (t : Int) (st : String) : LogEntry :=
  { time := t, kind := LogEntryKind.downtime_alert_service, host_name := "h",
    service_description := "s", state_type := st }

/-- Scenario 6 of the specification: the start and the stop of a downtime of the service
`h;s`, at `400` and at `500`. -/
def entries_downtime : List LogEntry :=
  [downtime_at 400 "STARTED", downtime_at 500 "STOPPED"]

/-- The first entry of the first file with entries among `files`, `none` when all are empty:
where the loop `while (it_entries_ == entries_->end())` of `getNextLogentry` stops. -/
def first_entry : List Logfile → Option LogEntry
  | [] => Option.none
  | f :: fs =>
    match f.entries with
    | [] => first_entry fs
    | e :: _ => some e

/-- Two log files that start in the period `[100, 200)`: the older has a single entry (the
start of the core), the newer is empty; and a third that has the alert of the service `h;s`
at `150`. -/
def files_single_entry : List Logfile :=
  [⟨110, [{ time := 110, kind := LogEntryKind.core_starting }]⟩,
   ⟨120, []⟩,
   ⟨130, [alert_at 150]⟩]

/-- A registry with the host `h` (handle 1) and its services `s1` (handle 2) and `s2`
(handle 3). -/
def core_h2 : ICore :=
  { find_host := fun n => if n = "h" then some ⟨1, "np", "sp"⟩ else Option.none,
    find_service := fun n d =>
      if n = "h" ∧ d = "s1" then some ⟨2, "np", "sp"⟩
      else if n = "h" ∧ d = "s2" then some ⟨3, "np", "sp"⟩
      else Option.none }

/-- The host `h` (up) and its services `s1` and `s2` (state `0`) are logged at the start of
the period `[0, 1000)`. -/
def entries_host_and_services : List LogEntry :=
  [{ time := 10, kind := LogEntryKind.state_host, host_name := "h", state := 0 },
   { time := 20, kind := LogEntryKind.state_service, host_name := "h",
     service_description := "s1", state := 0 },
   { time := 30, kind := LogEntryKind.state_service, host_name := "h",
     service_description := "s2", state := 0 }]

/-- Scenario 2 of the specification: the host `h` goes down at `100`. -/
def host_down_at_100 : LogEntry :=
  { time := 100, kind := LogEntryKind.alert_host, host_name := "h", state := 1 }

/-- The five members of an object that the specification restricts to `0` and `1`. -/
def Binary (h : HostServiceState) : Prop :=
  (h._in_notification_period = 0 ∨ h._in_notification_period = 1)
  ∧ (h._in_service_period = 0 ∨ h._in_service_period = 1)
  ∧ (h._in_downtime = 0 ∨ h._in_downtime = 1)
  ∧ (h._in_host_downtime = 0 ∨ h._in_host_downtime = 1)
  ∧ (h._is_flapping = 0 ∨ h._is_flapping = 1)

/-- Every period of the period map has the value `0` or `1`. -/
def binary_periods (nps : notification_periods_t) : Prop :=
  ∀ nv ∈ nps, nv.2 = 0 ∨ nv.2 = 1

/-- A `TIMEPERIOD TRANSITION` whose payload is parsed leads to `0` or to `1`. -/
def binary_transition (e : LogEntry) : Prop :=
  e.kind = LogEntryKind.timeperiod_transition →
    ∀ tpt, TimeperiodTransition.parse e.options = some tpt → tpt.to_ = 0 ∨ tpt.to_ = 1

/-- The state of the service `h;s`, followed by a transition of its notification period `np`
to the value `5`. -/
def entries_transition_to_5 : List LogEntry :=
  [{ time := 20, kind := LogEntryKind.state_service, host_name := "h",
     service_description := "s", state := 0 },
   { time := 30, kind := LogEntryKind.timeperiod_transition, options := "np;1;5" }]

/-- The back-link lists of the state table: for every key the list `_services` of its
object. -/
def services_table (m : state_info_t) : List (HostServiceKey × List HostServiceKey) :=
  m.map (fun kh => (kh.1, kh.2._services))

/-- The keys of the state table are distinct, no list `_services` of an object of the state
table has an object twice, and the lists hold objects of the state table only. -/
def BackLinksUnique (m : state_info_t) : Prop :=
  (keys m).Nodup
  ∧ ∀ k H, map_find k m = some H → H._services.Nodup ∧ ∀ z ∈ H._services, z ∈ keys m

/-- From the state table `m` to `m'` the lists `_services` change by insertion only: the list
of an object of `m` stays as it is or gets one object that is new in the table appended, and
the list of an object that is new in `m'` has objects of `m`, each once, in the order of the
table. -/
def LinksGrow (m m' : state_info_t) : Prop :=
  (∀ k H, map_find k m = some H → ∃ H', map_find k m' = some H'
    ∧ (H'._services = H._services
      ∨ ∃ z, z ∉ keys m ∧ z ∈ keys m' ∧ H'._services = H._services ++ [z]))
  ∧ (∀ k X, map_find k m = Option.none → map_find k m' = some X →
      X._services.Sublist (keys m))

/-- A log file in the order of time with a restart before the period `[100, 200)` after which
the service `h;s` is logged again, and an alert of the service in the period. -/
def files_relogged : List Logfile :=
  [⟨0, [{ time := 10, kind := LogEntryKind.core_starting },
        { time := 20, kind := LogEntryKind.state_service_initial, host_name := "h",
          service_description := "s", state := 0 },
        { time := 50, kind := LogEntryKind.log_initial_states },
        { time := 60, kind := LogEntryKind.state_service_initial, host_name := "h",
          service_description := "s", state := 0 },
        { time := 150, kind := LogEntryKind.alert_service, host_name := "h",
          service_description := "s", state := 2 }]⟩]

/-- The registry has the host of every service it has: `find_host` resolves the host name of
every pair that `find_service` resolves. -/
def hosts_resolved (core : ICore) : Prop :=
  ∀ n d s, core.find_service n d = some s → core.find_host n ≠ Option.none

/-- The object has a host pointer. -/
def HasHost (h : HostServiceState) : Prop := h._host ≠ Option.none

-- end of the definitions

theorem process_eq (query : Query) (user : User) (period : LogPeriod) (key : HostServiceKey)
    (hss : HostServiceState) (sink : Sink) :
    process query user period key hss sink =
      ({ (snapshot period hss) with _from := hss._until },
       { abort_query_ := user.is_authorized_for_object hss._host hss._service false
           && !(query.processDataset sink.offered_rows (snapshot period hss)),
         emitted := sink.emitted ++
           [{ key := key, row := snapshot period hss,
              offered := user.is_authorized_for_object hss._host hss._service false }] }) := by
  rfl

theorem Stable.stable_rfl (h : HostServiceState) : Stable h h := by simp [Stable]

theorem Stable.stable_trans {a b c : HostServiceState} (h1 : Stable a b) (h2 : Stable b c) :
    Stable a c := by
  simp only [Stable] at *
  obtain ⟨a1, a2, a3, a4, a5, a6, a7, a8, a9, a10, a11, a12, a13, a14⟩ := h1
  obtain ⟨b1, b2, b3, b4, b5, b6, b7, b8, b9, b10, b11, b12, b13, b14⟩ := h2
  exact ⟨b1.trans a1, b2.trans a2, b3.trans a3, b4.trans a4, b5.trans a5, b6.trans a6,
    b7.trans a7, b8.trans a8, b9.trans a9, b10.trans a10, b11.trans a11, b12.trans a12,
    b13.trans a13, b14.trans a14⟩

theorem stable_snapshot (period : LogPeriod) (h : HostServiceState) :
    Stable h (snapshot period h) := by simp [Stable, snapshot, HostServiceState.computePerStateDurations]

theorem chain_append {f0 f1 f2 : Int} {xs ys : List Emission} (h1 : Chain f0 xs f1)
    (h2 : Chain f1 ys f2) : Chain f0 (xs ++ ys) f2 := by
  induction xs generalizing f0 with
  | nil => simp only [Chain] at h1; subst h1; simpa using h2
  | cons e es ih => exact ⟨h1.1, ih h1.2⟩

theorem Emits.refl' {key : HostServiceKey} {U : HostServiceState → Prop}
    {a b : HostServiceState × Sink} (h1 : b.1._from = a.1._from) (h2 : b.2 = a.2) :
    Emits key U a b :=
  ⟨[], by simp [h2], h1, by simp⟩

theorem Emits.emits_trans {key : HostServiceKey} {U : HostServiceState → Prop}
    {a b c : HostServiceState × Sink} (h1 : Emits key U a b) (h2 : Emits key U b c) :
    Emits key U a c := by
  obtain ⟨n1, e1, c1, u1⟩ := h1
  obtain ⟨n2, e2, c2, u2⟩ := h2
  refine ⟨n1 ++ n2, by rw [e2, e1, List.append_assoc], chain_append c1 c2, ?_⟩
  intro e he
  rcases List.mem_append.mp he with h | h
  · exact u1 e h
  · exact u2 e h

theorem Emits.emits_mono {key : HostServiceKey} {U V : HostServiceState → Prop}
    {a b : HostServiceState × Sink} (h : Emits key U a b) (hUV : ∀ r, U r → V r) :
    Emits key V a b := by
  obtain ⟨n, e, c, u⟩ := h
  exact ⟨n, e, c, fun x hx => ⟨(u x hx).1, hUV _ (u x hx).2⟩⟩

theorem emits_process (query : Query) (user : User) (period : LogPeriod) (key : HostServiceKey)
    (hss : HostServiceState) (sink : Sink) :
    Emits key (fun r => r = snapshot period hss) (hss, sink)
      (process query user period key hss sink) := by
  refine ⟨[{ key := key, row := snapshot period hss,
             offered := user.is_authorized_for_object hss._host hss._service false }],
    rfl, ?_, ?_⟩
  · simp [Chain, process_eq, snapshot, HostServiceState.computePerStateDurations]
  · simp

theorem emits_emit (query : Query) (user : User) (period : LogPeriod) (only_update : Bool)
    (key : HostServiceKey) (hss : HostServiceState) (sink : Sink) :
    Emits key (fun r => r = snapshot period hss) (hss, sink)
      (emit query user period only_update key hss sink) := by
  unfold emit
  split
  · exact Emits.refl' rfl rfl
  · exact emits_process query user period key hss sink

@[simp] theorem emit_fst_is_host (query : Query) (user : User) (period : LogPeriod) (ou : Bool)
    (key : HostServiceKey) (hss : HostServiceState) (sink : Sink) :
    (emit query user period ou key hss sink).1._is_host = hss._is_host := by
  unfold emit; split <;> rfl

@[simp] theorem emit_fst_time (query : Query) (user : User) (period : LogPeriod) (ou : Bool)
    (key : HostServiceKey) (hss : HostServiceState) (sink : Sink) :
    (emit query user period ou key hss sink).1._time = hss._time := by
  unfold emit; split <;> rfl

@[simp] theorem emit_fst_lineno (query : Query) (user : User) (period : LogPeriod) (ou : Bool)
    (key : HostServiceKey) (hss : HostServiceState) (sink : Sink) :
    (emit query user period ou key hss sink).1._lineno = hss._lineno := by
  unfold emit; split <;> rfl

@[simp] theorem emit_fst_until (query : Query) (user : User) (period : LogPeriod) (ou : Bool)
    (key : HostServiceKey) (hss : HostServiceState) (sink : Sink) :
    (emit query user period ou key hss sink).1._until = hss._until := by
  unfold emit; split <;> rfl

@[simp] theorem emit_fst_host_down (query : Query) (user : User) (period : LogPeriod) (ou : Bool)
    (key : HostServiceKey) (hss : HostServiceState) (sink : Sink) :
    (emit query user period ou key hss sink).1._host_down = hss._host_down := by
  unfold emit; split <;> rfl

@[simp] theorem emit_fst_state (query : Query) (user : User) (period : LogPeriod) (ou : Bool)
    (key : HostServiceKey) (hss : HostServiceState) (sink : Sink) :
    (emit query user period ou key hss sink).1._state = hss._state := by
  unfold emit; split <;> rfl

@[simp] theorem emit_fst_in_notification_period (query : Query) (user : User) (period : LogPeriod) (ou : Bool)
    (key : HostServiceKey) (hss : HostServiceState) (sink : Sink) :
    (emit query user period ou key hss sink).1._in_notification_period = hss._in_notification_period := by
  unfold emit; split <;> rfl

@[simp] theorem emit_fst_in_service_period (query : Query) (user : User) (period : LogPeriod) (ou : Bool)
    (key : HostServiceKey) (hss : HostServiceState) (sink : Sink) :
    (emit query user period ou key hss sink).1._in_service_period = hss._in_service_period := by
  unfold emit; split <;> rfl

@[simp] theorem emit_fst_in_downtime (query : Query) (user : User) (period : LogPeriod) (ou : Bool)
    (key : HostServiceKey) (hss : HostServiceState) (sink : Sink) :
    (emit query user period ou key hss sink).1._in_downtime = hss._in_downtime := by
  unfold emit; split <;> rfl

@[simp] theorem emit_fst_in_host_downtime (query : Query) (user : User) (period : LogPeriod) (ou : Bool)
    (key : HostServiceKey) (hss : HostServiceState) (sink : Sink) :
    (emit query user period ou key hss sink).1._in_host_downtime = hss._in_host_downtime := by
  unfold emit; split <;> rfl

@[simp] theorem emit_fst_is_flapping (query : Query) (user : User) (period : LogPeriod) (ou : Bool)
    (key : HostServiceKey) (hss : HostServiceState) (sink : Sink) :
    (emit query user period ou key hss sink).1._is_flapping = hss._is_flapping := by
  unfold emit; split <;> rfl

@[simp] theorem emit_fst_may_no_longer_exist (query : Query) (user : User) (period : LogPeriod) (ou : Bool)
    (key : HostServiceKey) (hss : HostServiceState) (sink : Sink) :
    (emit query user period ou key hss sink).1._may_no_longer_exist = hss._may_no_longer_exist := by
  unfold emit; split <;> rfl

@[simp] theorem emit_fst_has_vanished (query : Query) (user : User) (period : LogPeriod) (ou : Bool)
    (key : HostServiceKey) (hss : HostServiceState) (sink : Sink) :
    (emit query user period ou key hss sink).1._has_vanished = hss._has_vanished := by
  unfold emit; split <;> rfl

@[simp] theorem emit_fst_last_known_time (query : Query) (user : User) (period : LogPeriod) (ou : Bool)
    (key : HostServiceKey) (hss : HostServiceState) (sink : Sink) :
    (emit query user period ou key hss sink).1._last_known_time = hss._last_known_time := by
  unfold emit; split <;> rfl

@[simp] theorem emit_fst_debug_info (query : Query) (user : User) (period : LogPeriod) (ou : Bool)
    (key : HostServiceKey) (hss : HostServiceState) (sink : Sink) :
    (emit query user period ou key hss sink).1._debug_info = hss._debug_info := by
  unfold emit; split <;> rfl

@[simp] theorem emit_fst_log_output (query : Query) (user : User) (period : LogPeriod) (ou : Bool)
    (key : HostServiceKey) (hss : HostServiceState) (sink : Sink) :
    (emit query user period ou key hss sink).1._log_output = hss._log_output := by
  unfold emit; split <;> rfl

@[simp] theorem emit_fst_long_log_output (query : Query) (user : User) (period : LogPeriod) (ou : Bool)
    (key : HostServiceKey) (hss : HostServiceState) (sink : Sink) :
    (emit query user period ou key hss sink).1._long_log_output = hss._long_log_output := by
  unfold emit; split <;> rfl

@[simp] theorem emit_fst_notification_period (query : Query) (user : User) (period : LogPeriod) (ou : Bool)
    (key : HostServiceKey) (hss : HostServiceState) (sink : Sink) :
    (emit query user period ou key hss sink).1._notification_period = hss._notification_period := by
  unfold emit; split <;> rfl

@[simp] theorem emit_fst_service_period (query : Query) (user : User) (period : LogPeriod) (ou : Bool)
    (key : HostServiceKey) (hss : HostServiceState) (sink : Sink) :
    (emit query user period ou key hss sink).1._service_period = hss._service_period := by
  unfold emit; split <;> rfl

@[simp] theorem emit_fst_host (query : Query) (user : User) (period : LogPeriod) (ou : Bool)
    (key : HostServiceKey) (hss : HostServiceState) (sink : Sink) :
    (emit query user period ou key hss sink).1._host = hss._host := by
  unfold emit; split <;> rfl

@[simp] theorem emit_fst_service (query : Query) (user : User) (period : LogPeriod) (ou : Bool)
    (key : HostServiceKey) (hss : HostServiceState) (sink : Sink) :
    (emit query user period ou key hss sink).1._service = hss._service := by
  unfold emit; split <;> rfl

@[simp] theorem emit_fst_host_name (query : Query) (user : User) (period : LogPeriod) (ou : Bool)
    (key : HostServiceKey) (hss : HostServiceState) (sink : Sink) :
    (emit query user period ou key hss sink).1._host_name = hss._host_name := by
  unfold emit; split <;> rfl

@[simp] theorem emit_fst_service_description (query : Query) (user : User) (period : LogPeriod) (ou : Bool)
    (key : HostServiceKey) (hss : HostServiceState) (sink : Sink) :
    (emit query user period ou key hss sink).1._service_description = hss._service_description := by
  unfold emit; split <;> rfl

@[simp] theorem emit_fst_services (query : Query) (user : User) (period : LogPeriod) (ou : Bool)
    (key : HostServiceKey) (hss : HostServiceState) (sink : Sink) :
    (emit query user period ou key hss sink).1._services = hss._services := by
  unfold emit; split <;> rfl

theorem emit_only_update (query : Query) (user : User) (period : LogPeriod)
    (key : HostServiceKey) (hss : HostServiceState) (sink : Sink) :
    emit query user period true key hss sink = (hss, sink) := rfl

theorem stable_emit (query : Query) (user : User) (period : LogPeriod) (ou : Bool)
    (key : HostServiceKey) (hss : HostServiceState) (sink : Sink) :
    Stable hss (emit query user period ou key hss sink).1 := by simp [Stable]

theorem Emits.post {key : HostServiceKey} {U : HostServiceState → Prop}
    {a b c : HostServiceState × Sink} (h : Emits key U a b) (h1 : c.1._from = b.1._from)
    (h2 : c.2 = b.2) : Emits key U a c :=
  h.emits_trans (Emits.refl' h1 h2)

theorem emits_emit_stable (query : Query) (user : User) (period : LogPeriod) (ou : Bool)
    (key : HostServiceKey) {h0 hss : HostServiceState} (hs : Stable h0 hss) (sink : Sink) :
    Emits key (Stable h0) (hss, sink) (emit query user period ou key hss sink) :=
  (emits_emit query user period ou key hss sink).emits_mono
    (fun r hr => by subst hr; exact hs.stable_trans (stable_snapshot period hss))

theorem update_timeperiod_emits (query : Query) (user : User) (period : LogPeriod)
    (entry : LogEntry) (key : HostServiceKey) (hss : HostServiceState) (ou : Bool) (sink : Sink) :
    Emits key (Stable hss) (hss, sink) (update_timeperiod query user period entry key hss ou sink)
    ∧ Stable hss (update_timeperiod query user period entry key hss ou sink).1 := by
  unfold update_timeperiod
  split
  · exact ⟨Emits.refl' rfl rfl, Stable.stable_rfl _⟩
  · rename_i tpt _
    have h1 : ∀ (c : Prop) [Decidable c],
        Emits key (Stable hss) (hss, sink)
          (if c then
            ({ (emit query user period ou key hss sink).1 with
                _debug_info := "TIMEPERIOD ", _in_notification_period := tpt.to_ },
              (emit query user period ou key hss sink).2)
          else (hss, sink))
        ∧ Stable hss (if c then
            ({ (emit query user period ou key hss sink).1 with
                _debug_info := "TIMEPERIOD ", _in_notification_period := tpt.to_ },
              (emit query user period ou key hss sink).2)
          else (hss, sink)).1 := by
      intro c _
      split
      · exact ⟨(emits_emit_stable query user period ou key (Stable.stable_rfl hss) sink).post rfl rfl,
          by simp [Stable]⟩
      · exact ⟨Emits.refl' rfl rfl, Stable.stable_rfl _⟩
    generalize hp1 : (if hss._host ≠ Option.none ∧ tpt.name_ = hss._notification_period
          ∧ tpt.to_ ≠ hss._in_notification_period then
        ({ (emit query user period ou key hss sink).1 with
            _debug_info := "TIMEPERIOD ", _in_notification_period := tpt.to_ },
          (emit query user period ou key hss sink).2)
      else (hss, sink)) = p1
    have h1' := h1 (hss._host ≠ Option.none ∧ tpt.name_ = hss._notification_period
          ∧ tpt.to_ ≠ hss._in_notification_period)
    rw [hp1] at h1'
    simp only []
    split
    · refine ⟨h1'.1.emits_trans ((emits_emit_stable query user period ou key h1'.2 p1.2).post rfl rfl), ?_⟩
      have := h1'.2
      simp only [Stable] at this ⊢
      simpa using this
    · exact h1'

theorem update_kind_emits (query : Query) (user : User) (period : LogPeriod)
    (entry : LogEntry) (key : HostServiceKey) (hss : HostServiceState) (ou : Bool) (sink : Sink) :
    Emits key (Stable hss) (hss, sink) (update_kind query user period entry key hss ou sink).2
    ∧ Stable hss (update_kind query user period entry key hss ou sink).2.1 := by
  have hE := fun (c : HostServiceState × Sink) (h1 : c.1._from = (emit query user period ou key hss sink).1._from)
      (h2 : c.2 = (emit query user period ou key hss sink).2) =>
    (emits_emit_stable query user period ou key (Stable.stable_rfl hss) sink).post h1 h2
  unfold update_kind
  split <;>
    first
    | exact ⟨Emits.refl' rfl rfl, Stable.stable_rfl _⟩
    | exact update_timeperiod_emits query user period entry key hss ou sink
    | (split_ifs <;>
        first
        | exact ⟨Emits.refl' rfl rfl, Stable.stable_rfl _⟩
        | exact ⟨hE _ rfl rfl, by simp [Stable]⟩)

theorem Stable.symm {a b : HostServiceState} (h : Stable a b) : Stable b a := by
  simp only [Stable] at *
  obtain ⟨a1, a2, a3, a4, a5, a6, a7, a8, a9, a10, a11, a12, a13, a14⟩ := h
  exact ⟨a1.symm, a2.symm, a3.symm, a4.symm, a5.symm, a6.symm, a7.symm, a8.symm, a9.symm,
    a10.symm, a11.symm, a12.symm, a13.symm, a14.symm⟩

theorem revive_emits (query : Query) (user : User) (period : LogPeriod) (entry : LogEntry)
    (key : HostServiceKey) (hss : HostServiceState) (ou : Bool)
    (nps : notification_periods_t) (sink : Sink) :
    Emits key (RowOf entry hss) (hss, sink) (revive query user period entry key hss ou nps sink)
    ∧ Stable (touched entry hss)
        (update_basic entry (revive query user period entry key hss ou nps sink).1) := by
  unfold revive
  split
  · rename_i h
    refine ⟨?_, ?_⟩
    · have h0 : Emits key (RowOf entry hss) (hss, sink) (frozen hss, sink) :=
        Emits.refl' rfl rfl
      have h1 : Emits key (RowOf entry hss) (frozen hss, sink)
          (emit query user period ou key (frozen hss) sink) :=
        (emits_emit_stable query user period ou key (Stable.stable_rfl (frozen hss)) sink).emits_mono
          (fun r hr => Or.inr ⟨h.1, h.2, hr⟩)
      exact (h0.emits_trans h1).post rfl rfl
    · simp [Stable, touched, update_basic, h.1]
  · rename_i h
    refine ⟨Emits.refl' rfl rfl, ?_⟩
    by_cases hk : entry.kind = LogEntryKind.timeperiod_transition
    · simp [Stable, touched, update_basic, hk]
    · have hv : hss._has_vanished = false := by
        cases hv : hss._has_vanished
        · rfl
        · exact absurd ⟨hk, hv⟩ h
      simp [Stable, touched, update_basic, hk, hv]

theorem update_basic_from (entry : LogEntry) (hss : HostServiceState) :
    (update_basic entry hss)._from = hss._from := rfl

theorem update_log_output_from (entry : LogEntry) (hss : HostServiceState) :
    (update_log_output entry hss)._from = hss._from := by
  unfold update_log_output; split <;> rfl

theorem stable_update_log_output (entry : LogEntry) (hss : HostServiceState) :
    Stable hss (update_log_output entry hss) := by
  unfold update_log_output; split <;> simp [Stable]

/-- What `updateHostServiceState` hands to `process`: rows of the object, contiguous from its
`_from`, each the row of a revival or a row that ends at the time of the entry. -/
theorem updateHostServiceState_emits (query : Query) (user : User) (period : LogPeriod)
    (entry : LogEntry) (key : HostServiceKey) (hss : HostServiceState) (ou : Bool)
    (nps : notification_periods_t) (sink : Sink) :
    Emits key (RowOf entry hss) (hss, sink)
      (updateHostServiceState query user period entry key hss ou nps sink).2
    ∧ Stable (touched entry hss)
        (updateHostServiceState query user period entry key hss ou nps sink).2.1 := by
  obtain ⟨h1, h2⟩ := revive_emits query user period entry key hss ou nps sink
  obtain ⟨h3, h4⟩ := update_kind_emits query user period entry key
    (update_basic entry (revive query user period entry key hss ou nps sink).1) ou
    (revive query user period entry key hss ou nps sink).2
  unfold updateHostServiceState
  refine ⟨?_, ?_⟩
  · have h1' : Emits key (RowOf entry hss) (hss, sink)
        (update_basic entry (revive query user period entry key hss ou nps sink).1,
          (revive query user period entry key hss ou nps sink).2) := h1.post rfl rfl
    refine (h1'.emits_trans (h3.emits_mono (fun r hr => Or.inl (h2.stable_trans hr)))).post ?_ rfl
    exact update_log_output_from _ _
  · exact (h2.stable_trans h4).stable_trans (stable_update_log_output _ _)

theorem revive_only_update (query : Query) (user : User) (period : LogPeriod) (entry : LogEntry)
    (key : HostServiceKey) (hss : HostServiceState) (nps : notification_periods_t) (sink : Sink) :
    (revive query user period entry key hss true nps sink).2 = sink := by
  unfold revive; split <;> rfl

theorem update_timeperiod_only_update (query : Query) (user : User) (period : LogPeriod)
    (entry : LogEntry) (key : HostServiceKey) (hss : HostServiceState) (sink : Sink) :
    (update_timeperiod query user period entry key hss true sink).2 = sink := by
  unfold update_timeperiod
  split
  · rfl
  · simp only [emit_only_update]
    split_ifs <;> rfl

theorem update_kind_only_update (query : Query) (user : User) (period : LogPeriod)
    (entry : LogEntry) (key : HostServiceKey) (hss : HostServiceState) (sink : Sink) :
    (update_kind query user period entry key hss true sink).2.2 = sink := by
  unfold update_kind
  split <;>
    first
    | rfl
    | exact update_timeperiod_only_update query user period entry key hss sink
    | (simp only [emit_only_update]; split_ifs <;> rfl)

theorem updateHostServiceState_only_update (query : Query) (user : User) (period : LogPeriod)
    (entry : LogEntry) (key : HostServiceKey) (hss : HostServiceState)
    (nps : notification_periods_t) (sink : Sink) :
    (updateHostServiceState query user period entry key hss true nps sink).2.2 = sink := by
  unfold updateHostServiceState
  simp only [update_kind_only_update, revive_only_update]

theorem Grows.grows_rfl {P : Emission → Prop} (s : Sink) : Grows P s s := ⟨[], by simp, by simp⟩

theorem Grows.of_eq {P : Emission → Prop} {s s' : Sink} (h : s' = s) : Grows P s s' := by
  subst h; exact Grows.grows_rfl _

theorem Grows.grows_trans {P : Emission → Prop} {a b c : Sink} (h1 : Grows P a b) (h2 : Grows P b c) :
    Grows P a c := by
  obtain ⟨n1, e1, p1⟩ := h1
  obtain ⟨n2, e2, p2⟩ := h2
  refine ⟨n1 ++ n2, by rw [e2, e1, List.append_assoc], ?_⟩
  intro e he
  rcases List.mem_append.mp he with h | h
  · exact p1 e h
  · exact p2 e h

theorem Grows.grows_mono {P Q : Emission → Prop} {a b : Sink} (h : Grows P a b)
    (hPQ : ∀ e, P e → Q e) : Grows Q a b := by
  obtain ⟨n, e, p⟩ := h
  exact ⟨n, e, fun x hx => hPQ _ (p x hx)⟩

theorem Grows.forall {P : Emission → Prop} {a b : Sink} (h : Grows P a b)
    (ha : ∀ e ∈ a.emitted, P e) : ∀ e ∈ b.emitted, P e := by
  obtain ⟨n, e, p⟩ := h
  intro x hx
  rw [e] at hx
  rcases List.mem_append.mp hx with h | h
  · exact ha x h
  · exact p x h

theorem Emits.grows {key : HostServiceKey} {U : HostServiceState → Prop}
    {a b : HostServiceState × Sink} (h : Emits key U a b) :
    Grows (fun e => e.key = key ∧ U e.row) a.2 b.2 := by
  obtain ⟨n, e, _, u⟩ := h
  exact ⟨n, e, u⟩

theorem map_find_mem {α β : Type} [DecidableEq α] {k : α} {v : β} {m : List (α × β)}
    (h : map_find k m = some v) : (k, v) ∈ m := by
  induction m with
  | nil => simp [map_find] at h
  | cons kv m ih =>
    obtain ⟨k', v'⟩ := kv
    unfold map_find at h
    split_ifs at h with hk
    · simp only [Option.some.injEq] at h
      subst h; subst hk
      exact List.mem_cons_self _ _
    · exact List.mem_cons_of_mem _ (ih h)

theorem mem_map_modify {α β : Type} [DecidableEq α] {k : α} {f : β → β} {m : List (α × β)}
    {kh : α × β} (h : kh ∈ map_modify k f m) :
    kh ∈ m ∨ ∃ v, (kh.1, v) ∈ m ∧ kh.2 = f v := by
  induction m with
  | nil => simp [map_modify] at h
  | cons kv m ih =>
    obtain ⟨k', v'⟩ := kv
    unfold map_modify at h
    split_ifs at h with hk
    · rcases List.mem_cons.mp h with h | h
      · right
        exact ⟨v', by subst h; exact List.mem_cons_self _ _, by subst h; rfl⟩
      · left; exact List.mem_cons_of_mem _ h
    · rcases List.mem_cons.mp h with h | h
      · left; subst h; exact List.mem_cons_self _ _
      · rcases ih h with h' | ⟨v, h1, h2⟩
        · left; exact List.mem_cons_of_mem _ h'
        · right; exact ⟨v, List.mem_cons_of_mem _ h1, h2⟩

theorem mem_map_set {α β : Type} [DecidableEq α] {lt : α → α → Bool} {k : α} {v : β}
    {m : List (α × β)} {kh : α × β} (h : kh ∈ map_set lt k v m) : kh = (k, v) ∨ kh ∈ m := by
  induction m with
  | nil => simp [map_set] at h; exact Or.inl h
  | cons kv m ih =>
    obtain ⟨k', v'⟩ := kv
    unfold map_set at h
    split_ifs at h with hk hlt
    · rcases List.mem_cons.mp h with h | h
      · exact Or.inl h
      · exact Or.inr (List.mem_cons_of_mem _ h)
    · rcases List.mem_cons.mp h with h | h
      · exact Or.inl h
      · exact Or.inr h
    · rcases List.mem_cons.mp h with h | h
      · right; subst h; exact List.mem_cons_self _ _
      · rcases ih h with h' | h'
        · exact Or.inl h'
        · exact Or.inr (List.mem_cons_of_mem _ h')

theorem allStates_map_modify {I : HostServiceState → Prop} {m : state_info_t}
    {k : HostServiceKey} {f : HostServiceState → HostServiceState} (h : AllStates I m)
    (hf : ∀ v, I v → I (f v)) : AllStates I (map_modify k f m) := by
  intro kh hkh
  rcases mem_map_modify hkh with h' | ⟨v, h1, h2⟩
  · exact h kh h'
  · rw [h2]; exact hf v (h _ h1)

theorem allStates_map_set {I : HostServiceState → Prop} {m : state_info_t}
    {k : HostServiceKey} {v : HostServiceState} (h : AllStates I m) (hv : I v) :
    AllStates I (map_set key_lt k v m) := by
  intro kh hkh
  rcases mem_map_set hkh with h' | h'
  · rw [h']; exact hv
  · exact h kh h'

theorem for_each_state_sound {I : HostServiceState → Prop} {P : Emission → Prop}
    {f : HostServiceKey → HostServiceState → Sink → HostServiceState × Sink}
    (hf : ∀ k h s, I h → I (f k h s).1 ∧ Grows P s (f k h s).2) :
    ∀ (m : state_info_t) (s : Sink), AllStates I m →
      AllStates I (for_each_state f m s).1 ∧ Grows P s (for_each_state f m s).2 := by
  intro m
  induction m with
  | nil => intro s _; exact ⟨by simp [for_each_state, AllStates], Grows.grows_rfl _⟩
  | cons kh m ih =>
    intro s hI
    obtain ⟨k, h⟩ := kh
    have h1 := hf k h s (hI (k, h) (List.mem_cons_self _ _))
    have h2 := ih (f k h s).2 (fun x hx => hI x (List.mem_cons_of_mem _ hx))
    refine ⟨?_, h1.2.grows_trans h2.2⟩
    intro x hx
    simp only [for_each_state] at hx
    rcases List.mem_cons.mp hx with hx | hx
    · rw [hx]; exact h1.1
    · exact h2.1 x hx

theorem update_services_sound {query : Query} {user : User} {period : LogPeriod}
    {entry : LogEntry} {ou : Bool} {N : notification_periods_t → Prop}
    {I : HostServiceState → Prop} {P : Emission → Prop}
    (hs : EntrySound query user period entry ou N I P) {nps : notification_periods_t}
    (hN : N nps) :
    ∀ (svcs : List HostServiceKey) (m : state_info_t) (s : Sink), AllStates I m →
      AllStates I (update_services query user period entry ou nps svcs m s).1
      ∧ Grows P s (update_services query user period entry ou nps svcs m s).2 := by
  intro svcs
  induction svcs with
  | nil => intro m s hI; exact ⟨hI, Grows.grows_rfl _⟩
  | cons svc svcs ih =>
    intro m s hI
    unfold update_services
    split
    · exact ih m s hI
    · rename_i v hv
      have h1 := hs.update svc v nps s hN (hI _ (map_find_mem hv))
      have h2 := ih (map_modify svc (fun _ =>
        (updateHostServiceState query user period entry svc v ou nps s).2.1) m)
        (updateHostServiceState query user period entry svc v ou nps s).2.2
        (allStates_map_modify hI (fun _ _ => h1.1))
      exact ⟨h2.1, h1.2.grows_trans h2.2⟩

theorem update_sound {query : Query} {user : User} {period : LogPeriod}
    {entry : LogEntry} {ou : Bool} {N : notification_periods_t → Prop}
    {I : HostServiceState → Prop} {P : Emission → Prop}
    (hs : EntrySound query user period entry ou N I P) {nps : notification_periods_t}
    (hN : N nps) (key : HostServiceKey) (state : HostServiceState) (m : state_info_t)
    (s : Sink) (hI : AllStates I m) (hstate : I state) :
    AllStates I (update query user period entry key state ou nps m s).1
    ∧ Grows P s (update query user period entry key state ou nps m s).2 := by
  have h1 := hs.update key state nps s hN hstate
  have h2 : AllStates I (map_modify key (fun _ =>
      (updateHostServiceState query user period entry key state ou nps s).2.1) m) :=
    allStates_map_modify hI (fun _ _ => h1.1)
  unfold update
  simp only []
  split
  · have h3 := update_services_sound hs hN
      (updateHostServiceState query user period entry key state ou nps s).2.1._services _
      (updateHostServiceState query user period entry key state ou nps s).2.2 h2
    exact ⟨h3.1, h1.2.grows_trans h3.2⟩
  · exact ⟨h2, h1.2⟩

theorem link_services_sound {I : HostServiceState → Prop}
    (hlink : ∀ (h : HostServiceState) (l : List HostServiceKey), I h → I { h with _services := l })
    {state state1 : HostServiceState} {key : HostServiceKey} {m m1 : state_info_t}
    (hI : AllStates I m) (h : link_services state key m = some (state1, m1)) :
    AllStates I m1 ∧ ∃ l, state1 = { state with _services := l } := by
  unfold link_services at h
  split_ifs at h
  · cases hc : collect_services state m with
    | none => simp [hc] at h
    | some l =>
      simp only [hc, Option.map_some', Option.some.injEq, Prod.mk.injEq] at h
      exact ⟨h.2 ▸ hI, _, h.1.symm⟩
  · cases hc : host_handle state with
    | none => simp [hc] at h
    | some k =>
      simp only [hc, Option.map_some', Option.some.injEq, Prod.mk.injEq] at h
      refine ⟨h.2 ▸ allStates_map_modify hI (fun v hv => hlink v _ hv), state._services, ?_⟩
      rw [← h.1]

theorem inherit_host_fresh {period : LogPeriod} {nps : notification_periods_t}
    {state state3 : HostServiceState} {m : state_info_t}
    (hf : Fresh period nps state) (h : inherit_host state m = some state3) :
    Fresh period nps state3 := by
  unfold inherit_host at h
  split_ifs at h
  · simp only [Option.some.injEq] at h
    exact h ▸ hf
  · cases hc : host_handle state with
    | none => simp [hc] at h
    | some k =>
      simp only [hc, Option.map_some', Option.some.injEq] at h
      rw [← h]
      split <;> exact hf

theorem stamp_unmonitored_fresh {period : LogPeriod} {nps : notification_periods_t}
    {state : HostServiceState} (entry : LogEntry) (ou : Bool)
    (hf : Fresh period nps state) : Fresh period nps (stamp_unmonitored entry ou period state) := by
  unfold stamp_unmonitored
  split
  · exact hf
  · exact hf

theorem init_periods_fresh (period : LogPeriod) (nps : notification_periods_t)
    (state : HostServiceState) (h1 : state._until = 0) (h2 : state._time = 0)
    (h3 : state._may_no_longer_exist = false) (h4 : state._has_vanished = false)
    (h5 : state._last_known_time = 0) : Fresh period nps (init_periods period nps state) :=
  ⟨rfl, h1, h2, h3, h4, h5, rfl, rfl⟩

theorem insert_new_state_sound {query : Query} {user : User} {period : LogPeriod}
    {entry : LogEntry} {ou : Bool} {N : notification_periods_t → Prop}
    {I : HostServiceState → Prop} {P : Emission → Prop}
    (hs : EntrySound query user period entry ou N I P) {nps : notification_periods_t}
    (hN : N nps) {m m' : state_info_t} {bl bl' : object_blacklist_t}
    {eh : Option IHost} {es : Option IService} {key : HostServiceKey}
    (hI : AllStates I m)
    (h : insert_new_state query user entry ou nps m bl period eh es key = some (m', bl')) :
    AllStates I m' := by
  unfold insert_new_state at h
  simp only [] at h
  split_ifs at h with hf
  · simp only [Option.some.injEq, Prod.mk.injEq] at h
    rw [← h.1]; exact hI
  · split at h
    · exact absurd h (by simp)
    · rename_i state1 m1 hl
      split at h
      · exact absurd h (by simp)
      · rename_i state3 hinh
        simp only [Option.some.injEq, Prod.mk.injEq] at h
        rw [← h.1]
        obtain ⟨hm1, l, hl1⟩ := link_services_sound hs.link hI hl
        refine allStates_map_set hm1 (hs.fresh nps _ hN ?_)
        refine stamp_unmonitored_fresh entry ou (inherit_host_fresh ?_ hinh)
        subst hl1
        exact init_periods_fresh period nps _ rfl rfl rfl rfl rfl

theorem handle_state_entry_sound {query : Query} {user : User} (core : ICore)
    {period : LogPeriod} {entry : LogEntry} {N : notification_periods_t → Prop}
    {I : HostServiceState → Prop} {P : Emission → Prop} (r : Replay) (is_host_entry : Bool)
    (hs : EntrySound query user period entry r.only_update N I P)
    (hN : N r.notification_periods) (hI : AllStates I r.state_info) :
    AllStates I (handle_state_entry query user core entry is_host_entry period r).state_info
    ∧ Grows P r.sink (handle_state_entry query user core entry is_host_entry period r).sink
    ∧ N (handle_state_entry query user core entry is_host_entry period r).notification_periods
    ∧ (handle_state_entry query user core entry is_host_entry period r).only_update
        = r.only_update := by
  unfold handle_state_entry
  simp only []
  generalize entry_key core entry is_host_entry = key
  split
  · exact ⟨hI, Grows.grows_rfl _, hN, rfl⟩
  · split
    · exact ⟨hI, Grows.grows_rfl _, hN, rfl⟩
    · split
      · exact ⟨hI, Grows.grows_rfl _, hN, rfl⟩
      · rename_i m1 bl1 hins
        have hm1 : AllStates I m1 := by
          unfold insert_if_new at hins
          split at hins
          · simp only [Option.some.injEq, Prod.mk.injEq] at hins
            exact hins.1 ▸ hI
          · exact insert_new_state_sound hs hN hI hins
        split
        · exact ⟨hm1, Grows.grows_rfl _, hN, rfl⟩
        · rename_i state hfind
          have := update_sound hs hN key state m1 r.sink hm1 (hm1 _ (map_find_mem hfind))
          exact ⟨this.1, this.2, hN, rfl⟩

theorem handle_timeperiod_transition_sound {query : Query} {user : User}
    {period : LogPeriod} {entry : LogEntry} {N : notification_periods_t → Prop}
    {I : HostServiceState → Prop} {P : Emission → Prop} (r : Replay)
    (hs : EntrySound query user period entry r.only_update N I P)
    (hk : entry.kind = LogEntryKind.timeperiod_transition)
    (hN : N r.notification_periods) (hI : AllStates I r.state_info) :
    AllStates I (handle_timeperiod_transition query user period entry r).state_info
    ∧ Grows P r.sink (handle_timeperiod_transition query user period entry r).sink
    ∧ N (handle_timeperiod_transition query user period entry r).notification_periods
    ∧ (handle_timeperiod_transition query user period entry r).only_update = r.only_update := by
  unfold handle_timeperiod_transition
  split
  · exact ⟨hI, Grows.grows_rfl _, hN, rfl⟩
  · rename_i tpt hp
    have hN' := hs.periods tpt hk hp _ hN
    have := for_each_state_sound (I := I) (P := P)
      (f := fun key hss sink => (updateHostServiceState query user period entry key hss
        r.only_update (map_set name_lt tpt.name_ tpt.to_ r.notification_periods) sink).2)
      (fun k h s hh => hs.update k h _ s hN' hh) r.state_info r.sink hI
    exact ⟨this.1, this.2, hN', rfl⟩

theorem set_unknown_to_unmonitored_sound {I : HostServiceState → Prop}
    (hv : ∀ h : HostServiceState, I h → h._may_no_longer_exist = true →
      I { h with _has_vanished := true })
    (b : Bool) {m : state_info_t} (hI : AllStates I m) :
    AllStates I (set_unknown_to_unmonitored b m) := by
  unfold set_unknown_to_unmonitored
  split
  · intro kh hkh
    obtain ⟨x, hx, rfl⟩ := List.mem_map.mp hkh
    split
    · rename_i hm
      exact hv _ (hI x hx) hm
    · exact hI x hx
  · exact hI

theorem handle_log_initial_states_sound {I : HostServiceState → Prop} {entry : LogEntry}
    (hv : ∀ h : HostServiceState, I h → h._has_vanished = false →
      I { h with _last_known_time := entry.time, _may_no_longer_exist := true })
    {m : state_info_t} (hI : AllStates I m) :
    AllStates I (handle_log_initial_states entry m) := by
  unfold handle_log_initial_states
  intro kh hkh
  obtain ⟨x, hx, rfl⟩ := List.mem_map.mp hkh
  split
  · rename_i hm
    exact hv _ (hI x hx) hm
  · exact hI x hx

/-- One entry keeps an invariant of the objects and emits rows with `P` only, when the
invariant and `P` are sound for the entry. -/
theorem dispatch_sound {query : Query} {user : User} (core : ICore)
    {period : LogPeriod} {entry : LogEntry} {N : notification_periods_t → Prop}
    {I : HostServiceState → Prop} {P : Emission → Prop} (r : Replay)
    (hs : EntrySound query user period entry r.only_update N I P)
    (hN : N r.notification_periods) (hI : AllStates I r.state_info) :
    AllStates I (dispatch query user core period entry r).state_info
    ∧ Grows P r.sink (dispatch query user core period entry r).sink
    ∧ N (dispatch query user core period entry r).notification_periods
    ∧ (dispatch query user core period entry r).only_update = r.only_update := by
  have hu := set_unknown_to_unmonitored_sound hs.vanish r.in_nagios_initial_states hI
  unfold dispatch
  simp only []
  split
  all_goals first
    | exact ⟨hu, Grows.grows_rfl _, hN, rfl⟩
    | (have h := handle_state_entry_sound core r false hs hN hI
       exact ⟨h.1, h.2.1, h.2.2.1, h.2.2.2⟩)
    | (have h := handle_state_entry_sound core r true hs hN hI
       exact ⟨h.1, h.2.1, h.2.2.1, h.2.2.2⟩)
    | (have h := handle_state_entry_sound core
         { r with state_info := set_unknown_to_unmonitored r.in_nagios_initial_states r.state_info }
         false hs hN hu
       exact ⟨h.1, h.2.1, h.2.2.1, h.2.2.2⟩)
    | (have h := handle_state_entry_sound core
         { r with state_info := set_unknown_to_unmonitored r.in_nagios_initial_states r.state_info }
         true hs hN hu
       exact ⟨h.1, h.2.1, h.2.2.1, h.2.2.2⟩)
    | (rename_i hk
       have h := handle_timeperiod_transition_sound
         { r with state_info := set_unknown_to_unmonitored r.in_nagios_initial_states r.state_info }
         hs hk hN hu
       exact ⟨h.1, h.2.1, h.2.2.1, h.2.2.2⟩)
    | (rename_i hk
       exact ⟨handle_log_initial_states_sound (hs.initial_states hk) hu, Grows.grows_rfl _, hN, rfl⟩)

theorem later_eq_nil (it : LogEntryForwardIterator) (h : it.log_files_.length ≤ it.it_logs_ + 1) :
    it.later = [] := by
  unfold LogEntryForwardIterator.later
  rw [List.drop_of_length_le h]; rfl

theorem next_log_rest (it : LogEntryForwardIterator) : it.next_log.rest = it.later := by
  by_cases h : it.it_logs_ + 1 < it.log_files_.length
  · have hd : List.drop (it.it_logs_ + 1) it.log_files_
        = it.log_files_[it.it_logs_ + 1] :: List.drop (it.it_logs_ + 1 + 1) it.log_files_ :=
      List.drop_eq_getElem_cons h
    simp only [LogEntryForwardIterator.rest, LogEntryForwardIterator.next_log,
      LogEntryForwardIterator.later, LogEntryForwardIterator.getEntries, List.drop_zero, hd,
      List.map_cons, List.flatten_cons, List.getElem?_eq_getElem h]
  · rw [later_eq_nil it (by omega)]
    simp only [LogEntryForwardIterator.rest, LogEntryForwardIterator.next_log,
      LogEntryForwardIterator.later, LogEntryForwardIterator.getEntries, List.drop_zero]
    rw [List.getElem?_eq_none (by omega), List.drop_of_length_le (by omega)]
    rfl

theorem next_file_spec : ∀ (fuel : Nat) (it : LogEntryForwardIterator),
    it.log_files_.length ≤ fuel + it.it_logs_ + 1 → it.it_entries_ ≤ it.entries_.length →
    (next_file fuel it).1 = it.rest.head?
    ∧ (next_file fuel it).2.pending = it.rest.tail
    ∧ (next_file fuel it).2.it_entries_ ≤ (next_file fuel it).2.entries_.length := by
  intro fuel
  induction fuel with
  | zero =>
    intro it hf hv
    have hl := later_eq_nil it (by omega)
    refine ⟨?_, ?_, hv⟩
    · simp only [next_file, LogEntryForwardIterator.rest, hl, List.append_nil]
      rw [List.head?_drop]
    · simp only [next_file, LogEntryForwardIterator.rest, LogEntryForwardIterator.pending, hl,
        List.append_nil]
      rw [List.tail_drop]
  | succ fuel ih =>
    intro it hf hv
    unfold next_file
    split_ifs with he hl
    · have hl' := later_eq_nil it (by omega)
      simp [LogEntryForwardIterator.rest, LogEntryForwardIterator.pending, hl', he]
    · have := ih it.next_log (by simp only [LogEntryForwardIterator.next_log]; omega)
        (by simp [LogEntryForwardIterator.next_log])
      have hr : it.rest = it.next_log.rest := by
        rw [next_log_rest]
        simp [LogEntryForwardIterator.rest, he]
      rw [hr]
      exact this
    · have hlt : it.it_entries_ < it.entries_.length := lt_of_le_of_ne hv he
      have hne : List.drop it.it_entries_ it.entries_ ≠ [] := by
        simp [List.drop_eq_nil_iff]; omega
      refine ⟨?_, ?_, hv⟩
      · simp only [LogEntryForwardIterator.rest]
        rw [List.head?_append_of_ne_nil _ hne, List.head?_drop]
      · simp only [LogEntryForwardIterator.rest, LogEntryForwardIterator.pending]
        rw [List.tail_append_of_ne_nil hne, List.tail_drop]

theorem getNextLogentry_spec (it : LogEntryForwardIterator)
    (hv : it.it_entries_ ≤ it.entries_.length) :
    it.getNextLogentry.1 = it.pending.head?
    ∧ it.getNextLogentry.2.pending = it.pending.tail
    ∧ it.getNextLogentry.2.it_entries_ ≤ it.getNextLogentry.2.entries_.length := by
  unfold LogEntryForwardIterator.getNextLogentry
  simp only []
  split_ifs with he
  · have := next_file_spec it.log_files_.length { it with it_entries_ := it.it_entries_ + 1 }
      (by simp only []; omega) (by simp only []; omega)
    exact this
  · have := next_file_spec it.log_files_.length it (by omega) hv
    have hr : it.rest = it.pending := by
      have he' : it.it_entries_ = it.entries_.length := not_not.mp he
      simp [LogEntryForwardIterator.rest, LogEntryForwardIterator.pending, he']
    rw [hr] at this
    exact this

theorem replay_loop_eq_list (query : Query) (user : User) (core : ICore) (period : LogPeriod) :
    ∀ (fuel : Nat) (it : LogEntryForwardIterator) (r : Replay),
      it.it_entries_ ≤ it.entries_.length → it.pending.length < fuel →
      replay_loop query user core period fuel it r
        = replay_list query user core period it.pending r := by
  intro fuel
  induction fuel with
  | zero => intro it r _ h; omega
  | succ fuel ih =>
    intro it r hv hlen
    obtain ⟨h1, h2, h3⟩ := getNextLogentry_spec it hv
    unfold replay_loop
    cases hp : it.pending with
    | nil =>
      rw [hp] at h1
      have : it.getNextLogentry = (Option.none, it.getNextLogentry.2) :=
        Prod.ext (by simpa using h1) rfl
      rw [this]
      simp [replay_list]
    | cons e es =>
      rw [hp] at h1 h2
      have : it.getNextLogentry = (some e, it.getNextLogentry.2) :=
        Prod.ext (by simpa using h1) rfl
      rw [this]
      simp only [replay_list]
      have hlen' : it.getNextLogentry.2.pending.length < fuel := by
        rw [h2]; rw [hp] at hlen; simp at hlen ⊢; omega
      rw [ih it.getNextLogentry.2 _ h3 hlen', h2]
      rfl

theorem pending_sublist_aux (files : List Logfile) (i m : Nat) (f : Logfile)
    (h : files[i]? = some f) :
    (List.drop m f.entries
      ++ ((files.drop (i + 1)).map (fun f => f.entries)).flatten).Sublist (all_entries files) := by
  obtain ⟨hi, hf⟩ := List.getElem?_eq_some_iff.mp h
  have hsplit : files = files.take i ++ f :: files.drop (i + 1) := by
    rw [← hf, ← List.drop_eq_getElem_cons hi, List.take_append_drop]
  have : all_entries files
      = ((files.take i).map (fun f => f.entries)).flatten
        ++ (f.entries ++ ((files.drop (i + 1)).map (fun f => f.entries)).flatten) := by
    unfold all_entries
    conv_lhs => rw [hsplit]
    simp
  rw [this]
  exact ((List.drop_sublist m f.entries).append_right _).trans (List.sublist_append_right _ _)

theorem rounds_eq (files : List Logfile) : rounds files = (all_entries files).length + 1 := by
  unfold rounds all_entries
  rw [List.length_flatten, List.map_map]
  rfl

theorem initial_entry_le (period : LogPeriod) (b : Bool) (entries : List LogEntry) :
    initial_entry period b entries ≤ entries.length := by
  unfold initial_entry
  split_ifs
  · exact Nat.zero_le _
  · exact Nat.zero_le _
  · simp only []
    split
    · split_ifs
      · exact Nat.zero_le _
      · exact Nat.sub_le _ _
    · exact Nat.sub_le _ _

theorem rewind_to_start_spec (log_files : List Logfile) (period : LogPeriod)
    (it1 : LogEntryForwardIterator)
    (h : (LogEntryForwardIterator.make log_files).rewind_to_start period = (true, it1)) :
    it1.it_entries_ ≤ it1.entries_.length ∧ it1.pending.Sublist (all_entries log_files)
    ∧ it1.log_files_ = log_files := by
  unfold LogEntryForwardIterator.rewind_to_start at h
  simp only [LogEntryForwardIterator.make] at h
  split at h
  · simp at h
  · split at h
    · simp at h
    · rename_i f hf
      split at h
      · simp at h
      · simp only [Prod.mk.injEq, true_and] at h
        subst h
        exact ⟨initial_entry_le _ _ _, pending_sublist_aux log_files _ _ f hf, rfl⟩

/-- The method `answerQueryInternal` runs the loop over the entries that the cursor delivers
after `rewind_to_start`, then `final_reports` unless the query was aborted: the bound on the
rounds of the loops of the embedding is never reached. -/
theorem answerQuery_eq (query : Query) (user : User) (core : ICore) (period : LogPeriod)
    (log_files : List Logfile) :
    answerQuery query user core period log_files =
      if period.empty then {}
      else
        match (LogEntryForwardIterator.make log_files).rewind_to_start period with
        | (false, _) => {}
        | (true, it1) =>
          let r := replay_list query user core period it1.pending {}
          if r.null_deref then r
          else if r.sink.abort_query_ = false then final_reports query user period r
          else r := by
  unfold answerQuery answerQueryInternal
  simp only []
  split
  · rfl
  · split
    · rename_i h; simp only [h]
    · rename_i it1 h
      obtain ⟨h1, h2, h3⟩ := rewind_to_start_spec log_files period it1 h
      rw [replay_loop_eq_list query user core period _ it1 _ h1
        (by rw [rounds_eq, h3]; exact Nat.lt_succ_of_le h2.length_le)]

theorem Stable.is_host_eq {h r : HostServiceState} (s : Stable h r) : r._is_host = h._is_host := s.1
theorem Stable.time_eq {h r : HostServiceState} (s : Stable h r) : r._time = h._time := s.2.1
theorem Stable.lineno_eq {h r : HostServiceState} (s : Stable h r) : r._lineno = h._lineno :=
  s.2.2.1
theorem Stable.until_eq {h r : HostServiceState} (s : Stable h r) : r._until = h._until :=
  s.2.2.2.1
theorem Stable.may_eq {h r : HostServiceState} (s : Stable h r) :
    r._may_no_longer_exist = h._may_no_longer_exist := s.2.2.2.2.1
theorem Stable.vanished_eq {h r : HostServiceState} (s : Stable h r) :
    r._has_vanished = h._has_vanished := s.2.2.2.2.2.1
theorem Stable.last_known_eq {h r : HostServiceState} (s : Stable h r) :
    r._last_known_time = h._last_known_time := s.2.2.2.2.2.2.1
theorem Stable.notification_period_eq {h r : HostServiceState} (s : Stable h r) :
    r._notification_period = h._notification_period := s.2.2.2.2.2.2.2.1
theorem Stable.service_period_eq {h r : HostServiceState} (s : Stable h r) :
    r._service_period = h._service_period := s.2.2.2.2.2.2.2.2.1
theorem Stable.host_eq {h r : HostServiceState} (s : Stable h r) : r._host = h._host :=
  s.2.2.2.2.2.2.2.2.2.1
theorem Stable.service_eq {h r : HostServiceState} (s : Stable h r) : r._service = h._service :=
  s.2.2.2.2.2.2.2.2.2.2.1
theorem Stable.services_eq {h r : HostServiceState} (s : Stable h r) :
    r._services = h._services := s.2.2.2.2.2.2.2.2.2.2.2.2.2

/-- The rows of `updateHostServiceState` satisfy what every row of the entry and the object
satisfies. -/
theorem updateHostServiceState_grows (query : Query) (user : User) (period : LogPeriod)
    (entry : LogEntry) (key : HostServiceKey) (hss : HostServiceState) (ou : Bool)
    (nps : notification_periods_t) (sink : Sink) {P : Emission → Prop}
    (hP : ∀ e : Emission, e.key = key → RowOf entry hss e.row → P e) :
    Grows P sink (updateHostServiceState query user period entry key hss ou nps sink).2.2 :=
  (updateHostServiceState_emits query user period entry key hss ou nps sink).1.grows.grows_mono
    (fun e he => hP e he.1 he.2)

theorem start_of_timeframe_sink (period : LogPeriod) (entry : LogEntry) (r : Replay) :
    (start_of_timeframe period entry r).sink = r.sink := by
  unfold start_of_timeframe; split <;> rfl

theorem start_of_timeframe_periods (period : LogPeriod) (entry : LogEntry) (r : Replay) :
    (start_of_timeframe period entry r).notification_periods = r.notification_periods := by
  unfold start_of_timeframe; split <;> rfl

theorem start_of_timeframe_only_update (period : LogPeriod) (entry : LogEntry) (r : Replay) :
    (start_of_timeframe period entry r).only_update
      = (r.only_update && !decide (entry.time ≥ period.since)) := by
  unfold start_of_timeframe
  split
  · rename_i h; simp [h.1, h.2]
  · rename_i h
    cases hu : r.only_update
    · rfl
    · simp only [hu, true_and] at h
      simp [h]

theorem start_of_timeframe_sound {I0 I : HostServiceState → Prop} (period : LogPeriod)
    (entry : LogEntry) (r : Replay)
    (hflip : r.only_update = true → entry.time ≥ period.since →
      ∀ h : HostServiceState, I0 h → I { h with _from := period.since, _until := period.since })
    (hkeep : ¬(r.only_update = true ∧ entry.time ≥ period.since) → ∀ h, I0 h → I h)
    (hI : AllStates I0 r.state_info) :
    AllStates I (start_of_timeframe period entry r).state_info := by
  unfold start_of_timeframe
  split
  · rename_i h
    intro kh hkh
    obtain ⟨x, hx, rfl⟩ := List.mem_map.mp hkh
    exact hflip h.1 h.2 _ (hI x hx)
  · rename_i h
    intro kh hkh
    exact hkeep h _ (hI kh hkh)

/-- One round of the loop: an invariant `I0` of the objects becomes `I`, and the rows emitted
have `P`, when the switch to the emission turns `I0` into `I` and `I`, `P` are sound for the
entry. -/
theorem handle_entry_sound {query : Query} {user : User} (core : ICore)
    {period : LogPeriod} {entry : LogEntry} {N : notification_periods_t → Prop}
    (I0 : HostServiceState → Prop) {I : HostServiceState → Prop} {P : Emission → Prop}
    (r : Replay)
    (hflip : r.only_update = true → entry.time ≥ period.since →
      ∀ h : HostServiceState, I0 h → I { h with _from := period.since, _until := period.since })
    (hkeep : ¬(r.only_update = true ∧ entry.time ≥ period.since) → ∀ h, I0 h → I h)
    (hs : EntrySound query user period entry
      (r.only_update && !decide (entry.time ≥ period.since)) N I P)
    (hN : N r.notification_periods) (hI : AllStates I0 r.state_info) :
    AllStates I (handle_entry query user core period entry r).state_info
    ∧ Grows P r.sink (handle_entry query user core period entry r).sink
    ∧ N (handle_entry query user core period entry r).notification_periods
    ∧ (handle_entry query user core period entry r).only_update
        = (r.only_update && !decide (entry.time ≥ period.since)) := by
  unfold handle_entry
  have h1 := start_of_timeframe_sound period entry r hflip hkeep hI
  have h2 := dispatch_sound core (start_of_timeframe period entry r)
    (by rw [start_of_timeframe_only_update]; exact hs)
    (by rw [start_of_timeframe_periods]; exact hN) h1
  rw [start_of_timeframe_sink, start_of_timeframe_only_update] at h2
  exact h2

theorem for_each_state_grows {P : Emission → Prop}
    {f : HostServiceKey → HostServiceState → Sink → HostServiceState × Sink} :
    ∀ (m : state_info_t), (∀ k h s, (k, h) ∈ m → Grows P s (f k h s).2) →
      ∀ s, Grows P s (for_each_state f m s).2 := by
  intro m
  induction m with
  | nil => intro _ s; exact Grows.grows_rfl _
  | cons kh m ih =>
    intro hf s
    obtain ⟨k, h⟩ := kh
    exact (hf k h s (List.mem_cons_self _ _)).grows_trans
      (ih (fun k' h' s' hm => hf k' h' s' (List.mem_cons_of_mem _ hm)) _)

theorem final_report_emits (query : Query) (user : User) (period : LogPeriod)
    (key : HostServiceKey) (hss : HostServiceState) (sink : Sink) :
    Emits key (FinalRow period hss) (hss, sink) (final_report query user period key hss sink) := by
  unfold final_report
  have h2 : ∀ p : HostServiceState × Sink,
      Emits key (FinalRow period hss)
        (({ p.1 with _time := period.until - 1, _until := period.until - 1 } : HostServiceState),
          p.2)
        (process query user period key
          { p.1 with _time := period.until - 1, _until := period.until - 1 } p.2) :=
    fun p => (emits_process query user period key _ p.2).emits_mono
      (fun r hr => by subst hr; exact Or.inr ⟨rfl, rfl⟩)
  split
  · rename_i hm
    have h0 : Emits key (FinalRow period hss) (hss, sink) (frozen hss, sink) :=
      Emits.refl' rfl rfl
    have h1 : Emits key (FinalRow period hss) (frozen hss, sink)
        (process query user period key (frozen hss) sink) :=
      (emits_process query user period key (frozen hss) sink).emits_mono
        (fun r hr => by subst hr; exact Or.inl ⟨hm, stable_snapshot period _⟩)
    exact ((h0.emits_trans h1).post (c := (_, _)) rfl rfl).emits_trans
      ((Emits.refl' rfl rfl).emits_trans (h2 _))
  · exact (Emits.refl' (b := (_, _)) rfl rfl).emits_trans (h2 (hss, sink))

theorem final_reports_sound {query : Query} {user : User} {period : LogPeriod}
    {I : HostServiceState → Prop} {P : Emission → Prop} (r : Replay)
    (hf : ∀ (e : Emission) (h : HostServiceState), I h → FinalRow period h e.row → P e)
    (hI : AllStates I r.state_info) :
    Grows P r.sink (final_reports query user period r).sink := by
  unfold final_reports
  exact for_each_state_grows r.state_info
    (fun k h s hm => (final_report_emits query user period k h s).grows.grows_mono
      (fun e he => hf e h (hI _ hm) he.2)) r.sink

theorem touched_flags {entry : LogEntry} {h r : HostServiceState}
    (s : Stable (touched entry h) r)
    (hr : r._may_no_longer_exist = true ∨ r._has_vanished = true) :
    h._may_no_longer_exist = true ∨ h._has_vanished = true := by
  rcases hr with hr | hr
  · rw [s.may_eq] at hr
    simp only [touched, Bool.and_eq_true] at hr
    exact Or.inl hr.2
  · rw [s.vanished_eq] at hr
    simp only [touched, Bool.and_eq_true] at hr
    exact Or.inr hr.2

theorem entrySound_until (query : Query) (user : User) (period : LogPeriod) (entry : LogEntry)
    (ou : Bool) (ht : entry.time < period.until) :
    EntrySound query user period entry ou (fun _ => True) (LastKnownInPeriod period)
      (fun e => e.row._until < period.until) where
  update := by
    intro key h nps s _ hI
    obtain ⟨_, hst⟩ := updateHostServiceState_emits query user period entry key h ou nps s
    refine ⟨?_, updateHostServiceState_grows query user period entry key h ou nps s ?_⟩
    · intro hr
      rw [hst.last_known_eq]
      exact hI (touched_flags hst hr)
    · intro e _ hrow
      rcases hrow with hrow | ⟨_, hv, hrow⟩
      · rw [hrow.until_eq]; exact ht
      · rw [hrow.until_eq]; exact hI (Or.inr hv)
  vanish := by
    intro h hI hm _
    exact hI (Or.inl hm)
  initial_states := by
    intro _ h _ _ _
    exact ht
  link := by
    intro h l hI
    exact hI
  fresh := by
    intro nps h _ hf hr
    rcases hr with hr | hr
    · rw [hf.2.2.2.1] at hr; exact absurd hr (by simp)
    · rw [hf.2.2.2.2.1] at hr; exact absurd hr (by simp)
  periods := by
    intros; trivial

theorem replay_list_until (query : Query) (user : User) (core : ICore) (period : LogPeriod) :
    ∀ (es : List LogEntry) (r : Replay), AllStates (LastKnownInPeriod period) r.state_info →
      (∀ e ∈ r.sink.emitted, e.row._until < period.until) →
      AllStates (LastKnownInPeriod period) (replay_list query user core period es r).state_info
      ∧ ∀ e ∈ (replay_list query user core period es r).sink.emitted,
          e.row._until < period.until := by
  intro es
  induction es with
  | nil => intro r hI hP; exact ⟨hI, hP⟩
  | cons entry es ih =>
    intro r hI hP
    unfold replay_list
    split_ifs with h1
    · exact ⟨hI, hP⟩
    · have ht : entry.time < period.until := lt_of_not_ge (not_or.mp h1).2
      have := handle_entry_sound core (LastKnownInPeriod period) r
        (fun _ _ h hh => hh) (fun _ h hh => hh)
        (entrySound_until query user period entry _ ht) trivial hI
      simp only []
      split_ifs
      · exact ⟨this.1, this.2.1.forall hP⟩
      · exact ih _ this.1 (this.2.1.forall hP)

/-- C3: every interval handed to `process` during a query, whatever the log files, the
period, the registry, the filter, the authorisation and the sink, ends at or before the end
of the period, `until <= period.until` (it even ends before it). -/
theorem emitted_until_le_period_until (query : Query) (user : User) (core : ICore)
    (period : LogPeriod) (log_files : List Logfile) :
    ∀ e ∈ (answerQuery query user core period log_files).sink.emitted,
      e.row._until ≤ period.until := by
  have key : ∀ e ∈ (answerQuery query user core period log_files).sink.emitted,
      e.row._until < period.until := by
    rw [answerQuery_eq]
    split_ifs
    · intro e he; simp at he
    · split
      · intro e he; simp at he
      · rename_i it1 _
        have h := replay_list_until query user core period it1.pending {}
          (by intro kh hkh; simp at hkh) (by intro e he; simp at he)
        simp only []
        split_ifs
        · exact h.2
        · refine (final_reports_sound (I := LastKnownInPeriod period) _ ?_ h.1).forall h.2
          intro e hh hI hrow
          rcases hrow with ⟨hm, hrow⟩ | ⟨hu, _⟩
          · rw [hrow.until_eq]; exact hI (Or.inl hm)
          · rw [hu]; omega
        · exact h.2
  intro e he
  exact le_of_lt (key e he)

/-- C3 at scenario 1: the first row of the run ends at or before 200. -/
theorem emitted_until_le_period_until_witness :
    ∃ e, (answerQuery query_all user_all core_hs ⟨100, 200⟩
        files_scenario_1).sink.emitted.head? = some e ∧ e.row._until ≤ 200 := by
  cases h : (answerQuery query_all user_all core_hs ⟨100, 200⟩
      files_scenario_1).sink.emitted.head? with
  | none =>
    have hs : (answerQuery query_all user_all core_hs ⟨100, 200⟩
        files_scenario_1).sink.emitted.head?.isSome = true := by decide
    rw [h] at hs
    simp at hs
  | some e =>
    exact ⟨e, rfl, emitted_until_le_period_until query_all user_all core_hs ⟨100, 200⟩
      files_scenario_1 e (List.mem_of_mem_head? h)⟩

theorem rewind_to_start_false (it : LogEntryForwardIterator) (period : LogPeriod)
    (h : it.log_files_ = [] ∨ ∃ f, selected_file it period = some f ∧ f.since ≥ period.until) :
    (it.rewind_to_start period).1 = false := by
  unfold LogEntryForwardIterator.rewind_to_start
  rcases h with h | ⟨f, hf, hs⟩
  · simp [h]
  · split
    · rfl
    · simp only []
      unfold selected_file at hf
      rw [hf]
      simp only [hs, if_true]

/-- C7: `answerQueryInternal` hands no interval to `process` (and so none to the sink) when
the period is empty (`since >= until`), when there are no log files, or when the file selected
by `rewind_to_start` starts at or after `period.until`; it then returns with the initial,
empty state. -/
theorem no_emission_on_empty_result (query : Query) (user : User) (core : ICore)
    (period : LogPeriod) (it : LogEntryForwardIterator)
    (h : period.since ≥ period.until ∨ it.log_files_ = []
      ∨ ∃ f, selected_file it period = some f ∧ f.since ≥ period.until) :
    (answerQueryInternal query user core period it).sink.emitted = []
    ∧ (answerQueryInternal query user core period it).state_info = []
    ∧ (answerQueryInternal query user core period it).sink.abort_query_ = false := by
  unfold answerQueryInternal
  simp only []
  rcases h with h | h
  · have : period.empty = true := by simp [LogPeriod.empty, h]
    simp [this]
  · split
    · exact ⟨rfl, rfl, rfl⟩
    · have hr := rewind_to_start_false it period h
      split
      · exact ⟨rfl, rfl, rfl⟩
      · rename_i it1 heq
        rw [heq] at hr
        simp at hr

/-- C7 at concrete inputs: an empty period over a file with an entry, no log files, and a
single file that starts after the period. -/
theorem no_emission_on_empty_result_witness :
    (answerQueryInternal ⟨fun _ _ _ => true, 0, fun _ _ => true⟩ ⟨fun _ _ _ => true⟩
        ⟨fun _ => Option.none, fun _ _ => Option.none⟩ ⟨100, 100⟩
        (LogEntryForwardIterator.make
          [⟨0, [{ time := 100, kind := LogEntryKind.core_starting }]⟩])).sink.emitted = []
    ∧ (answerQueryInternal ⟨fun _ _ _ => true, 0, fun _ _ => true⟩ ⟨fun _ _ _ => true⟩
        ⟨fun _ => Option.none, fun _ _ => Option.none⟩ ⟨100, 200⟩
        (LogEntryForwardIterator.make [])).sink.emitted = []
    ∧ (answerQueryInternal ⟨fun _ _ _ => true, 0, fun _ _ => true⟩ ⟨fun _ _ _ => true⟩
        ⟨fun _ => Option.none, fun _ _ => Option.none⟩ ⟨100, 200⟩
        (LogEntryForwardIterator.make
          [⟨300, [{ time := 300, kind := LogEntryKind.core_starting }]⟩])).sink.emitted = [] :=
  ⟨(no_emission_on_empty_result _ _ _ ⟨100, 100⟩ _ (Or.inl (le_refl _))).1,
   (no_emission_on_empty_result _ _ _ ⟨100, 200⟩ (LogEntryForwardIterator.make [])
      (Or.inr (Or.inl rfl))).1,
   (no_emission_on_empty_result _ _ _ ⟨100, 200⟩
      (LogEntryForwardIterator.make
        [⟨300, [{ time := 300, kind := LogEntryKind.core_starting }]⟩])
      (Or.inr (Or.inr ⟨⟨300, [{ time := 300, kind := LogEntryKind.core_starting }]⟩,
        by decide, by decide⟩))).1⟩

theorem chain_le {t : Int} : ∀ (news : List Emission) (f0 f1 : Int), Chain f0 news f1 →
    f0 ≤ t → (∀ e ∈ news, e.row._until ≤ t) → (∀ e ∈ news, e.row._from ≤ t) ∧ f1 ≤ t := by
  intro news
  induction news with
  | nil =>
    intro f0 f1 hc hf _
    simp only [Chain] at hc
    exact ⟨by simp, hc ▸ hf⟩
  | cons x xs ih =>
    intro f0 f1 hc hf hu
    obtain ⟨h1, h2⟩ := hc
    have := ih _ _ h2 (hu x (List.mem_cons_self _ _))
      (fun e he => hu e (List.mem_cons_of_mem _ he))
    refine ⟨?_, this.2⟩
    intro e he
    rcases List.mem_cons.mp he with he | he
    · rw [he, h1]; exact hf
    · exact this.1 e he

theorem chain_ge {t : Int} : ∀ (news : List Emission) (f0 f1 : Int), Chain f0 news f1 →
    t ≤ f0 → (∀ e ∈ news, t ≤ e.row._until) → (∀ e ∈ news, t ≤ e.row._from) ∧ t ≤ f1 := by
  intro news
  induction news with
  | nil =>
    intro f0 f1 hc hf _
    simp only [Chain] at hc
    exact ⟨by simp, hc ▸ hf⟩
  | cons x xs ih =>
    intro f0 f1 hc hf hu
    obtain ⟨h1, h2⟩ := hc
    have := ih _ _ h2 (hu x (List.mem_cons_self _ _))
      (fun e he => hu e (List.mem_cons_of_mem _ he))
    refine ⟨?_, this.2⟩
    intro e he
    rcases List.mem_cons.mp he with he | he
    · rw [he, h1]; exact hf
    · exact this.1 e he

/-- Rows that end at or before `t`, of an object whose open interval starts at or before `t`,
start at or before `t`, and so does the open interval afterwards. -/
theorem Emits.le {key : HostServiceKey} {U : HostServiceState → Prop}
    {a b : HostServiceState × Sink} {t : Int} (h : Emits key U a b) (hf : a.1._from ≤ t)
    (hu : ∀ r, U r → r._until ≤ t) :
    Grows (fun e => U e.row ∧ e.row._from ≤ t) a.2 b.2 ∧ b.1._from ≤ t := by
  obtain ⟨news, e1, c, u⟩ := h
  have := chain_le news _ _ c hf (fun e he => hu _ (u e he).2)
  exact ⟨⟨news, e1, fun e he => ⟨(u e he).2, this.1 e he⟩⟩, this.2⟩

theorem Emits.ge {key : HostServiceKey} {U : HostServiceState → Prop}
    {a b : HostServiceState × Sink} {t : Int} (h : Emits key U a b) (hf : t ≤ a.1._from)
    (hu : ∀ r, U r → t ≤ r._until) :
    Grows (fun e => U e.row ∧ t ≤ e.row._from) a.2 b.2 ∧ t ≤ b.1._from := by
  obtain ⟨news, e1, c, u⟩ := h
  have := chain_ge news _ _ c hf (fun e he => hu _ (u e he).2)
  exact ⟨⟨news, e1, fun e he => ⟨(u e he).2, this.1 e he⟩⟩, this.2⟩

/-- Without rows, the start of the open interval stays. -/
theorem Emits.from_eq {key : HostServiceKey} {U : HostServiceState → Prop}
    {a b : HostServiceState × Sink} (h : Emits key U a b) (hs : b.2 = a.2) :
    b.1._from = a.1._from := by
  obtain ⟨news, e1, c, _⟩ := h
  rw [hs] at e1
  have : news = [] := by simpa using e1
  subst this
  exact c

theorem updateHostServiceState_from_only_update (query : Query) (user : User)
    (period : LogPeriod) (entry : LogEntry) (key : HostServiceKey) (hss : HostServiceState)
    (nps : notification_periods_t) (sink : Sink) :
    (updateHostServiceState query user period entry key hss true nps sink).2.1._from
      = hss._from :=
  (updateHostServiceState_emits query user period entry key hss true nps sink).1.from_eq
    (updateHostServiceState_only_update query user period entry key hss nps sink)

theorem entrySound_order (query : Query) (user : User) (period : LogPeriod) (entry : LogEntry)
    (ou : Bool) (hou : ou = false → period.since ≤ entry.time) :
    EntrySound query user period entry ou (fun _ => True) (TimeOK period entry.time ou)
      (fun e => e.row._from ≤ e.row._until ∨ EndsAtLastKnown e.row) where
  update := by
    intro key h nps s _ hI
    obtain ⟨hem, hst⟩ := updateHostServiceState_emits query user period entry key h ou nps s
    have hflags : (updateHostServiceState query user period entry key h ou nps s).2.1._may_no_longer_exist = true
        ∨ (updateHostServiceState query user period entry key h ou nps s).2.1._has_vanished = true
        → (updateHostServiceState query user period entry key h ou nps s).2.1._last_known_time
          ≤ entry.time := by
      intro hr
      rw [hst.last_known_eq]
      exact hI.2.2 (touched_flags hst hr)
    cases ou with
    | true =>
      refine ⟨⟨fun _ => ?_, fun hc => absurd hc (by simp), hflags⟩, ?_⟩
      · rw [updateHostServiceState_from_only_update]; exact hI.1 rfl
      · exact Grows.of_eq (updateHostServiceState_only_update query user period entry key h nps s)
    | false =>
      have hu : ∀ r, RowOf entry h r → r._until ≤ entry.time := by
        intro r hr
        rcases hr with hr | ⟨_, hv, hr⟩
        · rw [hr.until_eq]; exact le_refl _
        · rw [hr.until_eq]; exact hI.2.2 (Or.inr hv)
      obtain ⟨hg, hf⟩ := hem.le (hI.2.1 rfl) hu
      refine ⟨⟨fun hc => absurd hc (by simp), fun _ => hf, hflags⟩, hg.grows_mono ?_⟩
      intro e ⟨hrow, hfr⟩
      rcases hrow with hr | ⟨_, hv, hr⟩
      · left
        rw [hr.until_eq]; exact hfr
      · right
        exact ⟨by rw [hr.until_eq, hr.last_known_eq]; rfl,
          Or.inl (by rw [hr.vanished_eq]; exact hv)⟩
  vanish := by
    intro h hI hm
    exact ⟨hI.1, hI.2.1, fun _ => hI.2.2 (Or.inl hm)⟩
  initial_states := by
    intro _ h hI _
    exact ⟨hI.1, hI.2.1, fun _ => le_refl _⟩
  link := by
    intro h l hI
    exact hI
  fresh := by
    intro nps h _ hf
    refine ⟨fun _ => hf.1, fun hc => by rw [hf.1]; exact hou hc, ?_⟩
    intro hr
    rcases hr with hr | hr
    · rw [hf.2.2.2.1] at hr; exact absurd hr (by simp)
    · rw [hf.2.2.2.2.1] at hr; exact absurd hr (by simp)
  periods := by
    intros; trivial

theorem TimeOK.time_mono {period : LogPeriod} {b t : Int} {ou : Bool} {h : HostServiceState}
    (hI : TimeOK period b ou h) (hbt : b ≤ t) : TimeOK period t ou h :=
  ⟨hI.1, fun hc => le_trans (hI.2.1 hc) hbt, fun hr => le_trans (hI.2.2 hr) hbt⟩

theorem replay_list_order (query : Query) (user : User) (core : ICore) (period : LogPeriod) :
    ∀ (es : List LogEntry) (r : Replay) (b : Int),
      es.Pairwise (fun x y => x.time ≤ y.time) → (∀ e ∈ es, b ≤ e.time) →
      b < period.until → (r.only_update = false → period.since ≤ b) →
      AllStates (TimeOK period b r.only_update) r.state_info →
      (∀ e ∈ r.sink.emitted, e.row._from ≤ e.row._until ∨ EndsAtLastKnown e.row) →
      ∃ b', b' < period.until
        ∧ ((replay_list query user core period es r).only_update = false → period.since ≤ b')
        ∧ AllStates (TimeOK period b' (replay_list query user core period es r).only_update)
            (replay_list query user core period es r).state_info
        ∧ ∀ e ∈ (replay_list query user core period es r).sink.emitted,
            e.row._from ≤ e.row._until ∨ EndsAtLastKnown e.row := by
  intro es
  induction es with
  | nil => intro r b _ _ hb hou hI hP; exact ⟨b, hb, hou, hI, hP⟩
  | cons entry es ih =>
    intro r b hsort hlow hb hou hI hP
    unfold replay_list
    split_ifs with h1
    · exact ⟨b, hb, hou, hI, hP⟩
    · have ht : entry.time < period.until := lt_of_not_ge (not_or.mp h1).2
      have hbt : b ≤ entry.time := hlow entry (List.mem_cons_self _ _)
      have hou' : (r.only_update && !decide (entry.time ≥ period.since)) = false →
          period.since ≤ entry.time := by
        intro hc
        by_cases hge : entry.time ≥ period.since
        · exact hge
        · simp only [hge, decide_False, Bool.not_false, Bool.and_true] at hc
          exact le_trans (hou hc) hbt
      have := handle_entry_sound core (TimeOK period b r.only_update)
        (I := TimeOK period entry.time (r.only_update && !decide (entry.time ≥ period.since)))
        r
        (fun hu hge h hh => by
          simp only [hu, hge, decide_True, Bool.not_true, Bool.and_false]
          exact ⟨fun hc => absurd hc (by simp), fun _ => hge,
            fun hr => le_trans (hh.2.2 hr) hbt⟩)
        (fun hn h hh => by
          have heq : (r.only_update && !decide (entry.time ≥ period.since)) = r.only_update := by
            cases hu : r.only_update
            · rfl
            · simp only [hu, true_and] at hn
              simp [hn]
          rw [heq]
          exact hh.time_mono hbt)
        (entrySound_order query user period entry _ hou') trivial hI
      obtain ⟨hI', hG, _, hou2⟩ := this
      simp only []
      split_ifs
      · exact ⟨entry.time, ht, by rw [hou2]; exact hou', by rw [hou2]; exact hI', hG.forall hP⟩
      · exact ih _ entry.time (List.Pairwise.of_cons hsort)
          (fun e he => List.rel_of_pairwise_cons hsort he) ht
          (by rw [hou2]; exact hou') (by rw [hou2]; exact hI') (hG.forall hP)

theorem final_reports_order (query : Query) (user : User) (period : LogPeriod) (r : Replay)
    (b : Int) (hp : period.since < period.until) (hb : b < period.until)
    (hI : AllStates (TimeOK period b r.only_update) r.state_info) :
    Grows (fun e => e.row._from ≤ e.row._until ∨ EndsAtLastKnown e.row) r.sink
      (final_reports query user period r).sink := by
  unfold final_reports
  refine for_each_state_grows r.state_info ?_ r.sink
  intro k h s hm
  have hh : TimeOK period b r.only_update h := hI _ hm
  have hf : h._from ≤ period.until - 1 := by
    cases hu : r.only_update
    · have := hh.2.1 hu; omega
    · have := hh.1 hu; omega
  have := ((final_report_emits query user period k h s).le hf (by
    intro row hrow
    rcases hrow with ⟨hmay, hst⟩ | ⟨hu, _⟩
    · rw [hst.until_eq]
      have := hh.2.2 (Or.inl hmay)
      simp only [frozen]; omega
    · rw [hu])).1
  refine this.grows_mono ?_
  intro e ⟨hrow, hfr⟩
  rcases hrow with ⟨hmay, hst⟩ | ⟨hu, _⟩
  · right
    exact ⟨by rw [hst.until_eq, hst.last_known_eq]; rfl,
      Or.inr (by rw [hst.may_eq]; exact hmay)⟩
  · left; rw [hu]; exact hfr

/-- C1, as amended: when the entries of the log files are in the order of time, every interval
handed to `process` during a query satisfies `from <= until`, except possibly the interval that
ends at the last known time of an object flagged as vanished or as possibly no longer
existing (the row of a revival, and the first row of `final_reports` for such an object). -/
theorem emitted_from_le_until_of_time_ordered (query : Query) (user : User) (core : ICore)
    (period : LogPeriod) (log_files : List Logfile) (hord : time_ordered log_files) :
    ∀ e ∈ (answerQuery query user core period log_files).sink.emitted,
      e.row._from ≤ e.row._until ∨ EndsAtLastKnown e.row := by
  rw [answerQuery_eq]
  split_ifs with hemp
  · intro e he; simp at he
  · have hp : period.since < period.until := by
      simpa [LogPeriod.empty] using hemp
    split
    · intro e he; simp at he
    · rename_i it1 hrw
      obtain ⟨_, hsub, _⟩ := rewind_to_start_spec log_files period it1 hrw
      have hsort : it1.pending.Pairwise (fun x y => x.time ≤ y.time) :=
        List.Pairwise.sublist hsub hord
      cases hpe : it1.pending with
      | nil =>
        simp only [replay_list]
        intro e he
        simp [final_reports, for_each_state] at he
      | cons e0 es =>
        by_cases h0 : e0.time ≥ period.until
        · have : replay_list query user core period (e0 :: es) {} = {} := by
            simp [replay_list, h0]
          rw [this]
          intro e he
          simp [final_reports, for_each_state] at he
        · rw [hpe] at hsort
          obtain ⟨b', hb', hou', hI', hP'⟩ := replay_list_order query user core period
            (e0 :: es) {} e0.time hsort
            (by
              intro e he
              rcases List.mem_cons.mp he with he | he
              · rw [he]
              · exact List.rel_of_pairwise_cons hsort he)
            (lt_of_not_ge h0) (by intro hc; simp at hc)
            (by intro kh hkh; simp at hkh) (by intro e he; simp at he)
          simp only []
          split_ifs
          · exact hP'
          · exact (final_reports_order query user period _ b' hp hb' hI').forall hP'
          · exact hP'

/-- C1 fails as stated. With one log file in the order of time in which a restart before the
period `[100, 200)` does not log the service again, the service is reported with the interval
`[100, 50)` of duration `-50`; with log files that are not in the order of time, the alert
logged for `t = 60` after the alert at `t = 120` closes the interval `[120, 60)`. -/
theorem from_le_until_counterexample :
    ((answerQuery query_all user_all core_hs ⟨100, 200⟩
        files_restart_before_period).sink.emitted.map
        (fun e => (e.key, e.offered, e.row._from, e.row._until, e.row._duration, e.row._state))
      = [(2, true, 100, 50, -50, 0), (2, true, 50, 199, 149, -1)]
    ∧ ¬ ∀ e ∈ (answerQuery query_all user_all core_hs ⟨100, 200⟩
        files_restart_before_period).sink.emitted, e.row._from ≤ e.row._until)
    ∧ ((answerQuery query_all user_all core_hs ⟨100, 200⟩
        files_out_of_order).sink.emitted.map
        (fun e => (e.key, e.offered, e.row._from, e.row._until, e.row._duration, e.row._state))
      = [(2, true, 100, 120, 20, 0), (2, true, 120, 60, -60, 1), (2, true, 60, 199, 139, 2)]
    ∧ ¬ ∀ e ∈ (answerQuery query_all user_all core_hs ⟨100, 200⟩
        files_out_of_order).sink.emitted, e.row._from ≤ e.row._until) := by
  exact ⟨⟨by decide, by decide⟩, by decide, by decide⟩

/-- The amended C1 at the log file with the restart before the period, which is in the order
of time: the first row of the run is the row that ends at the last known time. -/
theorem emitted_from_le_until_of_time_ordered_witness :
    time_ordered files_restart_before_period
    ∧ ∃ e, (answerQuery query_all user_all core_hs ⟨100, 200⟩
        files_restart_before_period).sink.emitted.head? = some e
      ∧ (e.row._from ≤ e.row._until ∨ EndsAtLastKnown e.row) := by
  have hord : time_ordered files_restart_before_period := by unfold time_ordered; decide
  refine ⟨hord, ?_⟩
  cases h : (answerQuery query_all user_all core_hs ⟨100, 200⟩
      files_restart_before_period).sink.emitted.head? with
  | none =>
    have hs : (answerQuery query_all user_all core_hs ⟨100, 200⟩
        files_restart_before_period).sink.emitted.head?.isSome = true := by decide
    rw [h] at hs
    simp at hs
  | some e =>
    exact ⟨e, rfl, emitted_from_le_until_of_time_ordered query_all user_all core_hs ⟨100, 200⟩
      files_restart_before_period hord e (List.mem_of_mem_head? h)⟩

/-- C2 fails as stated. With the restart before the period `[100, 200)` the service is
reported with an interval that starts at `t = 50`, its last known time; with log files that
are not in the order of time, the interval after the alert logged for `t = 60` starts at
`t = 60`. -/
theorem since_le_from_counterexample :
    ((answerQuery query_all user_all core_hs ⟨100, 200⟩
        files_restart_before_period).sink.emitted.map
        (fun e => (e.key, e.offered, e.row._from, e.row._until, e.row._state))
      = [(2, true, 100, 50, 0), (2, true, 50, 199, -1)]
    ∧ ¬ ∀ e ∈ (answerQuery query_all user_all core_hs ⟨100, 200⟩
        files_restart_before_period).sink.emitted, (100 : Int) ≤ e.row._from)
    ∧ ((answerQuery query_all user_all core_hs ⟨100, 200⟩
        files_out_of_order).sink.emitted.map
        (fun e => (e.key, e.offered, e.row._from, e.row._until, e.row._state))
      = [(2, true, 100, 120, 0), (2, true, 120, 60, 1), (2, true, 60, 199, 2)]
    ∧ ¬ ∀ e ∈ (answerQuery query_all user_all core_hs ⟨100, 200⟩
        files_out_of_order).sink.emitted, (100 : Int) ≤ e.row._from) :=
  ⟨⟨by decide, by decide⟩, by decide, by decide⟩

theorem mem_keys_of_mem {m : state_info_t} {k : HostServiceKey} {h : HostServiceState}
    (hm : (k, h) ∈ m) : k ∈ keys m :=
  List.mem_map.mpr ⟨(k, h), hm, rfl⟩

theorem exists_mem_of_mem_keys {m : state_info_t} {k : HostServiceKey} (hk : k ∈ keys m) :
    ∃ h, (k, h) ∈ m := by
  obtain ⟨⟨k', h⟩, hm, hk'⟩ := List.mem_map.mp hk
  simp only at hk'
  subst hk'
  exact ⟨h, hm⟩

theorem unique_of_nodup {m : state_info_t} (hn : (keys m).Nodup) {k : HostServiceKey}
    {h1 h2 : HostServiceState} (hm1 : (k, h1) ∈ m) (hm2 : (k, h2) ∈ m) : h1 = h2 := by
  induction m with
  | nil => simp at hm1
  | cons x m ih =>
    simp only [keys, List.map_cons, List.nodup_cons] at hn
    rcases List.mem_cons.mp hm1 with e1 | e1 <;> rcases List.mem_cons.mp hm2 with e2 | e2
    · have := e1.trans e2.symm
      simpa using this
    · exact absurd (mem_keys_of_mem e2) (by rw [← e1] at hn; exact hn.1)
    · exact absurd (mem_keys_of_mem e1) (by rw [← e2] at hn; exact hn.1)
    · exact ih hn.2 e1 e2

theorem keys_map_modify (k : HostServiceKey) (f : HostServiceState → HostServiceState)
    (m : state_info_t) : keys (map_modify k f m) = keys m := by
  induction m with
  | nil => rfl
  | cons x m ih =>
    obtain ⟨k', v⟩ := x
    unfold map_modify
    split_ifs
    · rfl
    · simp only [keys, List.map_cons] at ih ⊢
      rw [ih]

theorem mem_map_modify_ne {k k1 : HostServiceKey} {f : HostServiceState → HostServiceState}
    {m : state_info_t} {h1 : HostServiceState} (hne : k1 ≠ k)
    (hm : (k1, h1) ∈ map_modify k f m) : (k1, h1) ∈ m := by
  induction m with
  | nil => simp [map_modify] at hm
  | cons x m ih =>
    obtain ⟨k', v⟩ := x
    unfold map_modify at hm
    split_ifs at hm with hk
    · rcases List.mem_cons.mp hm with e | e
      · simp only [Prod.mk.injEq] at e
        exact absurd (e.1.trans hk) hne
      · exact List.mem_cons_of_mem _ e
    · rcases List.mem_cons.mp hm with e | e
      · rw [e]; exact List.mem_cons_self _ _
      · exact List.mem_cons_of_mem _ (ih e)

theorem mem_map_modify_eq {k : HostServiceKey} {f : HostServiceState → HostServiceState}
    {m : state_info_t} {h h1 : HostServiceState} (hn : (keys m).Nodup) (hf : (k, h) ∈ m)
    (hm : (k, h1) ∈ map_modify k f m) : h1 = f h := by
  rcases mem_map_modify hm with hm' | ⟨v, hv, he⟩
  · induction m with
    | nil => simp at hf
    | cons x m ih =>
      obtain ⟨k', v⟩ := x
      simp only [keys, List.map_cons, List.nodup_cons] at hn
      unfold map_modify at hm
      split_ifs at hm with hk
      · subst hk
        rcases List.mem_cons.mp hm with e | e
        · simp only [Prod.mk.injEq, true_and] at e
          rcases List.mem_cons.mp hf with e2 | e2
          · simp only [Prod.mk.injEq, true_and] at e2
            rw [e, e2]
          · exact absurd (mem_keys_of_mem e2) hn.1
        · exact absurd (mem_keys_of_mem e) hn.1
      · rcases List.mem_cons.mp hm with e | e
        · simp only [Prod.mk.injEq] at e
          exact absurd e.1.symm hk
        · rcases List.mem_cons.mp hf with e2 | e2
          · simp only [Prod.mk.injEq] at e2
            exact absurd e2.1.symm hk
          · rcases List.mem_cons.mp hm' with e3 | e3
            · simp only [Prod.mk.injEq] at e3
              exact absurd e3.1.symm hk
            · exact ih hn.2 e2 e e3
  · simp only at he
    rw [he, unique_of_nodup hn hv hf]

theorem emitted_for_append (k : HostServiceKey) (a b : List Emission) :
    emitted_for k (a ++ b) = emitted_for k a ++ emitted_for k b := by
  simp [emitted_for]

theorem emitted_for_same {k : HostServiceKey} {T : List Emission} (h : ∀ e ∈ T, e.key = k) :
    emitted_for k T = T := by
  unfold emitted_for
  rw [List.filter_eq_self]
  intro e he
  simp [h e he]

theorem emitted_for_other {k : HostServiceKey} {T : List Emission} (h : ∀ e ∈ T, e.key ≠ k) :
    emitted_for k T = [] := by
  unfold emitted_for
  rw [List.filter_eq_nil_iff]
  intro e he
  simp [h e he]

theorem TStep.tstep_rfl (ou : Bool) (a : state_info_t × Sink) (hn : (keys a.1).Nodup) :
    TStep ou a a := by
  refine ⟨rfl, fun _ => rfl, [], by simp, by simp, ?_⟩
  intro k h h' h1 h2
  rw [unique_of_nodup hn h1 h2]
  rfl

theorem TStep.tstep_trans {ou : Bool} {a b c : state_info_t × Sink} (h1 : TStep ou a b)
    (h2 : TStep ou b c) : TStep ou a c := by
  obtain ⟨k1, o1, n1, e1, m1, c1⟩ := h1
  obtain ⟨k2, o2, n2, e2, m2, c2⟩ := h2
  refine ⟨k2.trans k1, fun hou => (o2 hou).trans (o1 hou), n1 ++ n2,
    by rw [e2, e1, List.append_assoc], ?_, ?_⟩
  · intro e he
    rcases List.mem_append.mp he with he | he
    · exact m1 e he
    · exact k1 ▸ m2 e he
  · intro k h h'' ha hc
    obtain ⟨h', hb⟩ := exists_mem_of_mem_keys (k1 ▸ mem_keys_of_mem ha : k ∈ keys b.1)
    rw [emitted_for_append]
    exact chain_append (c1 k h h' ha hb) (c2 k h' h'' hb hc)

/-- An object of the table handed to `process` and written back. -/
theorem TStep.modify {ou : Bool} {key : HostServiceKey} {U : HostServiceState → Prop}
    {m : state_info_t} {s : Sink} {h : HostServiceState} {p : HostServiceState × Sink}
    (hn : (keys m).Nodup) (hf : (key, h) ∈ m) (hem : Emits key U (h, s) p)
    (hou : ou = true → p.2 = s) :
    TStep ou (m, s) (map_modify key (fun _ => p.1) m, p.2) := by
  obtain ⟨news, e1, c, u⟩ := hem
  refine ⟨keys_map_modify _ _ _, hou, news, e1, ?_, ?_⟩
  · intro e he
    rw [(u e he).1]
    exact mem_keys_of_mem hf
  · intro k h1 h1' ha hb
    by_cases hk : k = key
    · subst hk
      have : h1' = p.1 := mem_map_modify_eq hn ha hb
      rw [this, unique_of_nodup hn ha hf, emitted_for_same (fun e he => (u e he).1)]
      exact c
    · have := mem_map_modify_ne hk hb
      rw [unique_of_nodup hn this ha,
        emitted_for_other (fun e he => by rw [(u e he).1]; exact fun hc => hk hc.symm)]
      rfl

theorem keys_for_each_state
    (f : HostServiceKey → HostServiceState → Sink → HostServiceState × Sink) :
    ∀ (m : state_info_t) (s : Sink), keys (for_each_state f m s).1 = keys m := by
  intro m
  induction m with
  | nil => intro s; rfl
  | cons x m ih =>
    intro s
    obtain ⟨k, h⟩ := x
    simp only [for_each_state, keys, List.map_cons]
    have := ih (f k h s).2
    simp only [keys] at this
    rw [this]

theorem TStep.for_each (ou : Bool)
    {f : HostServiceKey → HostServiceState → Sink → HostServiceState × Sink}
    (hf : ∀ k h s, Emits k (fun _ => True) (h, s) (f k h s))
    (hou : ou = true → ∀ k h s, (f k h s).2 = s) :
    ∀ (m : state_info_t) (s : Sink), (keys m).Nodup → TStep ou (m, s) (for_each_state f m s) := by
  intro m
  induction m with
  | nil => intro s hn; exact TStep.tstep_rfl ou _ hn
  | cons x m ih =>
    intro s hn
    obtain ⟨k, h⟩ := x
    have hn' : k ∉ keys m ∧ (keys m).Nodup := by
      simpa [keys] using hn
    obtain ⟨n1, e1, c1, u1⟩ := hf k h s
    obtain ⟨k2, o2, n2, e2, m2, c2⟩ := ih (f k h s).2 hn'.2
    refine ⟨?_, ?_, n1 ++ n2, ?_, ?_, ?_⟩
    · simp only [for_each_state, keys, List.map_cons]
      simp only [keys] at k2
      rw [k2]
    · intro ho
      simp only [for_each_state]
      rw [o2 ho, hou ho]
    · simp only [for_each_state]
      rw [e2, e1, List.append_assoc]
    · intro e he
      rcases List.mem_append.mp he with he | he
      · rw [(u1 e he).1]; simp [keys]
      · simp only [keys, List.map_cons]
        exact List.mem_cons_of_mem _ (m2 e he)
    · intro k1 h1 h1' ha hb
      simp only [for_each_state] at hb
      rw [emitted_for_append]
      rcases List.mem_cons.mp ha with ea | ea
      · simp only [Prod.mk.injEq] at ea
        obtain ⟨ek, eh⟩ := ea
        subst ek; subst eh
        rcases List.mem_cons.mp hb with eb | eb
        · simp only [Prod.mk.injEq, true_and] at eb
          rw [eb, emitted_for_same (fun e he => (u1 e he).1),
            emitted_for_other (fun e he hc => hn'.1 (by rw [← hc]; exact m2 e he)), List.append_nil]
          exact c1
        · exact absurd (k2 ▸ mem_keys_of_mem eb) hn'.1
      · have hne : k1 ≠ k := fun hc => hn'.1 (hc ▸ mem_keys_of_mem ea)
        rcases List.mem_cons.mp hb with eb | eb
        · simp only [Prod.mk.injEq] at eb
          exact absurd eb.1 hne
        · rw [emitted_for_other (fun e he => by rw [(u1 e he).1]; exact fun hc => hne hc.symm),
            List.nil_append]
          exact c2 k1 h1 h1' ea eb

theorem updateHostServiceState_tstep (query : Query) (user : User) (period : LogPeriod)
    (entry : LogEntry) (ou : Bool) (nps : notification_periods_t) {key : HostServiceKey}
    {h : HostServiceState} {m : state_info_t} (s : Sink) (hn : (keys m).Nodup)
    (hf : (key, h) ∈ m) :
    TStep ou (m, s)
      (map_modify key (fun _ =>
          (updateHostServiceState query user period entry key h ou nps s).2.1) m,
        (updateHostServiceState query user period entry key h ou nps s).2.2) := by
  refine TStep.modify (U := RowOf entry h) (p := (updateHostServiceState query user period entry key h ou nps s).2)
    hn hf (updateHostServiceState_emits query user period entry key h ou nps s).1 ?_
  intro ho
  subst ho
  exact updateHostServiceState_only_update query user period entry key h nps s

theorem update_services_tstep (query : Query) (user : User) (period : LogPeriod)
    (entry : LogEntry) (ou : Bool) (nps : notification_periods_t) :
    ∀ (svcs : List HostServiceKey) (m : state_info_t) (s : Sink), (keys m).Nodup →
      TStep ou (m, s) (update_services query user period entry ou nps svcs m s) := by
  intro svcs
  induction svcs with
  | nil => intro m s hn; exact TStep.tstep_rfl ou _ hn
  | cons svc svcs ih =>
    intro m s hn
    unfold update_services
    split
    · exact ih m s hn
    · rename_i v hv
      have h1 := updateHostServiceState_tstep query user period entry ou nps s hn
        (map_find_mem hv)
      exact h1.tstep_trans (ih _ _ (by rw [keys_map_modify]; exact hn))

theorem update_tstep (query : Query) (user : User) (period : LogPeriod)
    (entry : LogEntry) (ou : Bool) (nps : notification_periods_t) {key : HostServiceKey}
    {state : HostServiceState} {m : state_info_t} (s : Sink) (hn : (keys m).Nodup)
    (hf : (key, state) ∈ m) :
    TStep ou (m, s) (update query user period entry key state ou nps m s) := by
  have h1 := updateHostServiceState_tstep query user period entry ou nps s hn hf
  unfold update
  simp only []
  split
  · exact h1.tstep_trans (update_services_tstep query user period entry ou nps _ _ _
      (by rw [keys_map_modify]; exact hn))
  · exact h1

theorem Linked.step {period : LogPeriod} {ou : Bool} {a b : state_info_t × Sink}
    (hl : Linked period ou a.1 a.2) (hs : TStep ou a b) : Linked period ou b.1 b.2 := by
  obtain ⟨hn, hk, hc, ho⟩ := hl
  obtain ⟨k1, o1, news, e1, m1, c1⟩ := hs
  refine ⟨k1 ▸ hn, ?_, ?_, ?_⟩
  · intro e he
    rw [e1] at he
    rw [k1]
    rcases List.mem_append.mp he with he | he
    · exact hk e he
    · exact m1 e he
  · intro kh hkh
    obtain ⟨k, h'⟩ := kh
    obtain ⟨h, hm⟩ := exists_mem_of_mem_keys (k1 ▸ mem_keys_of_mem hkh : k ∈ keys a.1)
    rw [e1, emitted_for_append]
    exact chain_append (hc (k, h) hm) (c1 k h h' hm hkh)
  · intro hou
    rw [o1 hou]
    exact ho hou

theorem Linked.congr {period : LogPeriod} {ou : Bool} {m m' : state_info_t} {s : Sink}
    (hl : Linked period ou m s) (hk : keys m' = keys m)
    (hf : ∀ kh' ∈ m', ∃ h, (kh'.1, h) ∈ m ∧ kh'.2._from = h._from) :
    Linked period ou m' s := by
  obtain ⟨hn, hkeys, hc, ho⟩ := hl
  refine ⟨hk ▸ hn, fun e he => hk ▸ hkeys e he, ?_, ho⟩
  intro kh' hkh'
  obtain ⟨h, hm, hfe⟩ := hf kh' hkh'
  rw [hfe]
  exact hc (kh'.1, h) hm

theorem Linked.map {period : LogPeriod} {ou : Bool} {m : state_info_t} {s : Sink}
    (hl : Linked period ou m s) (g : HostServiceKey × HostServiceState → HostServiceKey × HostServiceState)
    (hg : ∀ kh, (g kh).1 = kh.1 ∧ (g kh).2._from = kh.2._from) :
    Linked period ou (m.map g) s := by
  refine hl.congr ?_ ?_
  · simp only [keys, List.map_map]
    exact List.map_congr_left (fun kh _ => (hg kh).1)
  · intro kh' hkh'
    obtain ⟨kh, hm, rfl⟩ := List.mem_map.mp hkh'
    exact ⟨kh.2, by rw [(hg kh).1]; exact hm, (hg kh).2⟩

theorem Linked.map_modify {period : LogPeriod} {ou : Bool} {m : state_info_t} {s : Sink}
    (hl : Linked period ou m s) (k : HostServiceKey) (f : HostServiceState → HostServiceState)
    (hf : ∀ h, (f h)._from = h._from) : Linked period ou (map_modify k f m) s := by
  refine hl.congr (keys_map_modify _ _ _) ?_
  intro kh' hkh'
  rcases mem_map_modify hkh' with hm | ⟨v, hv, he⟩
  · exact ⟨kh'.2, hm, rfl⟩
  · exact ⟨v, hv, by rw [he, hf]⟩

theorem keys_map_set_perm {k : HostServiceKey} {v : HostServiceState} :
    ∀ {m : state_info_t}, k ∉ keys m → (keys (map_set key_lt k v m)).Perm (k :: keys m) := by
  intro m
  induction m with
  | nil => intro _; exact List.Perm.refl _
  | cons x m ih =>
    intro hk
    obtain ⟨k', v'⟩ := x
    have hk' : k' ≠ k ∧ k ∉ keys m := by
      simp only [keys, List.map_cons, List.mem_cons, not_or] at hk
      exact ⟨fun hc => hk.1 hc.symm, hk.2⟩
    unfold map_set
    rw [if_neg hk'.1]
    split_ifs
    · exact List.Perm.refl _
    · simp only [keys, List.map_cons]
      exact ((ih hk'.2).cons k').trans (List.Perm.swap _ _ _)

theorem contains_of_mem_keys {k : HostServiceKey} :
    ∀ {m : state_info_t}, k ∈ keys m → map_contains k m = true := by
  intro m
  induction m with
  | nil => intro hk; simp [keys] at hk
  | cons x m ih =>
    intro hk
    obtain ⟨k', v'⟩ := x
    simp only [map_contains, map_find]
    split_ifs with hkk
    · rfl
    · simp only [keys, List.map_cons, List.mem_cons] at hk
      rcases hk with hk | hk
      · exact absurd hk.symm hkk
      · exact ih hk

theorem not_mem_keys_of_not_contains {k : HostServiceKey} {m : state_info_t}
    (h : ¬ map_contains k m = true) : k ∉ keys m :=
  fun hk => h (contains_of_mem_keys hk)

theorem Linked.insert {period : LogPeriod} {ou : Bool} {m : state_info_t} {s : Sink}
    (hl : Linked period ou m s) {k : HostServiceKey} {v : HostServiceState} (hk : k ∉ keys m)
    (hv : v._from = period.since) : Linked period ou (map_set key_lt k v m) s := by
  obtain ⟨hn, hkeys, hc, ho⟩ := hl
  have hp := keys_map_set_perm (v := v) hk
  refine ⟨hp.nodup_iff.mpr (List.nodup_cons.mpr ⟨hk, hn⟩), ?_, ?_, ho⟩
  · intro e he
    exact hp.mem_iff.mpr (List.mem_cons_of_mem _ (hkeys e he))
  · intro kh hkh
    rcases mem_map_set hkh with e | e
    · rw [e]
      simp only
      rw [emitted_for_other (fun x hx hc => hk (by rw [← hc]; exact hkeys x hx)), hv]
      rfl
    · exact hc kh e

theorem Linked.flip {period : LogPeriod} {m : state_info_t} {s : Sink}
    (hl : Linked period true m s) :
    Linked period false
      (m.map (fun (kh : HostServiceKey × HostServiceState) =>
        (kh.1, { kh.2 with _from := period.since, _until := period.since }))) s := by
  obtain ⟨hn, hkeys, hc, ho⟩ := hl
  have hk : keys (m.map (fun (kh : HostServiceKey × HostServiceState) =>
        (kh.1, ({ kh.2 with _from := period.since, _until := period.since } : HostServiceState))))
      = keys m := by
    simp only [keys, List.map_map]
    exact List.map_congr_left (fun kh _ => rfl)
  refine ⟨hk ▸ hn, fun e he => hk ▸ hkeys e he, ?_, fun hc => absurd hc (by simp)⟩
  intro kh' hkh'
  obtain ⟨kh, _, rfl⟩ := List.mem_map.mp hkh'
  rw [ho rfl]
  rfl

theorem link_services_linked {period : LogPeriod} {ou : Bool} {s : Sink}
    {state state1 : HostServiceState} {key : HostServiceKey} {m m1 : state_info_t}
    (hl : Linked period ou m s) (h : link_services state key m = some (state1, m1)) :
    Linked period ou m1 s ∧ keys m1 = keys m := by
  unfold link_services at h
  split_ifs at h
  · cases hc : collect_services state m with
    | none => simp [hc] at h
    | some l =>
      simp only [hc, Option.map_some', Option.some.injEq, Prod.mk.injEq] at h
      exact ⟨h.2 ▸ hl, by rw [← h.2]⟩
  · cases hc : host_handle state with
    | none => simp [hc] at h
    | some k =>
      simp only [hc, Option.map_some', Option.some.injEq, Prod.mk.injEq] at h
      rw [← h.2]
      exact ⟨hl.map_modify _ _ (fun _ => rfl), keys_map_modify _ _ _⟩

theorem insert_new_state_linked {query : Query} {user : User} {period : LogPeriod}
    {entry : LogEntry} {ou : Bool} {nps : notification_periods_t} {s : Sink}
    {m m' : state_info_t} {bl bl' : object_blacklist_t}
    {eh : Option IHost} {es : Option IService} {key : HostServiceKey}
    (hl : Linked period ou m s) (hk : key ∉ keys m)
    (h : insert_new_state query user entry ou nps m bl period eh es key = some (m', bl')) :
    Linked period ou m' s := by
  unfold insert_new_state at h
  simp only [] at h
  split_ifs at h with hf
  · simp only [Option.some.injEq, Prod.mk.injEq] at h
    rw [← h.1]; exact hl
  · split at h
    · exact absurd h (by simp)
    · rename_i state1 m1 hl1
      split at h
      · exact absurd h (by simp)
      · rename_i state3 hinh
        simp only [Option.some.injEq, Prod.mk.injEq] at h
        rw [← h.1]
        obtain ⟨hm1, hk1⟩ := link_services_linked hl hl1
        obtain ⟨_, l, hl2⟩ := link_services_sound (I := fun _ => True) (fun _ _ _ => trivial)
          (fun _ _ => trivial) hl1
        refine hm1.insert (hk1 ▸ hk) ?_
        have hfresh : Fresh period nps (stamp_unmonitored entry ou period state3) := by
          refine stamp_unmonitored_fresh entry ou (inherit_host_fresh ?_ hinh)
          subst hl2
          exact init_periods_fresh period nps _ rfl rfl rfl rfl rfl
        exact hfresh.1

theorem handle_state_entry_linked (query : Query) (user : User) (core : ICore)
    (period : LogPeriod) (entry : LogEntry) (is_host_entry : Bool) (r : Replay)
    (hl : r.linked period) :
    (handle_state_entry query user core entry is_host_entry period r).linked period := by
  unfold handle_state_entry
  simp only []
  generalize entry_key core entry is_host_entry = key
  split
  · exact hl
  · split
    · exact hl
    · split
      · exact hl
      · rename_i m1 bl1 hins
        have hm1 : Linked period r.only_update m1 r.sink := by
          unfold insert_if_new at hins
          split at hins
          · simp only [Option.some.injEq, Prod.mk.injEq] at hins
            exact hins.1 ▸ hl
          · rename_i hc
            exact insert_new_state_linked hl (not_mem_keys_of_not_contains hc) hins
        split
        · exact hm1
        · rename_i state hfind
          exact Linked.step (a := (m1, r.sink)) hm1
            (update_tstep query user period entry r.only_update r.notification_periods r.sink
              hm1.1 (map_find_mem hfind))

theorem handle_timeperiod_transition_linked (query : Query) (user : User)
    (period : LogPeriod) (entry : LogEntry) (r : Replay) (hl : r.linked period) :
    (handle_timeperiod_transition query user period entry r).linked period := by
  unfold handle_timeperiod_transition
  split
  · exact hl
  · rename_i tpt _
    exact Linked.step (a := (r.state_info, r.sink)) hl
      (TStep.for_each r.only_update
        (f := fun key hss sink => (updateHostServiceState query user period entry key hss
          r.only_update (map_set name_lt tpt.name_ tpt.to_ r.notification_periods) sink).2)
        (fun k h s => (updateHostServiceState_emits query user period entry k h _ _ s).1.emits_mono
          (fun _ _ => trivial))
        (fun ho k h s => by
          simp only [ho]
          exact updateHostServiceState_only_update query user period entry k h _ s)
        r.state_info r.sink hl.1)

theorem set_unknown_to_unmonitored_linked {period : LogPeriod} {ou : Bool} {m : state_info_t}
    {s : Sink} (b : Bool) (hl : Linked period ou m s) :
    Linked period ou (set_unknown_to_unmonitored b m) s := by
  unfold set_unknown_to_unmonitored
  split
  · refine hl.map _ (fun kh => ?_)
    split <;> exact ⟨rfl, rfl⟩
  · exact hl

theorem handle_log_initial_states_linked {period : LogPeriod} {ou : Bool} {m : state_info_t}
    {s : Sink} (entry : LogEntry) (hl : Linked period ou m s) :
    Linked period ou (handle_log_initial_states entry m) s := by
  unfold handle_log_initial_states
  refine hl.map _ (fun kh => ?_)
  split <;> exact ⟨rfl, rfl⟩

theorem dispatch_linked (query : Query) (user : User) (core : ICore)
    (period : LogPeriod) (entry : LogEntry) (r : Replay) (hl : r.linked period) :
    (dispatch query user core period entry r).linked period := by
  have hu : (⟨set_unknown_to_unmonitored r.in_nagios_initial_states r.state_info,
      r.object_blacklist, r.notification_periods, r.only_update, r.in_nagios_initial_states,
      r.sink, r.null_deref⟩ : Replay).linked period :=
    set_unknown_to_unmonitored_linked r.in_nagios_initial_states hl
  unfold dispatch
  simp only []
  split
  all_goals first
    | exact hu
    | exact handle_state_entry_linked query user core period entry false r hl
    | exact handle_state_entry_linked query user core period entry true r hl
    | exact handle_state_entry_linked query user core period entry false _ hu
    | exact handle_state_entry_linked query user core period entry true _ hu
    | exact handle_timeperiod_transition_linked query user period entry _ hu
    | exact handle_log_initial_states_linked entry hu

theorem start_of_timeframe_linked (period : LogPeriod) (entry : LogEntry) (r : Replay)
    (hl : r.linked period) : (start_of_timeframe period entry r).linked period := by
  unfold start_of_timeframe
  split
  · rename_i h
    unfold Replay.linked at hl
    rw [h.1] at hl
    exact hl.flip
  · exact hl

theorem handle_entry_linked (query : Query) (user : User) (core : ICore)
    (period : LogPeriod) (entry : LogEntry) (r : Replay) (hl : r.linked period) :
    (handle_entry query user core period entry r).linked period :=
  dispatch_linked query user core period entry _ (start_of_timeframe_linked period entry r hl)

theorem replay_list_linked (query : Query) (user : User) (core : ICore) (period : LogPeriod) :
    ∀ (es : List LogEntry) (r : Replay), r.linked period →
      (replay_list query user core period es r).linked period := by
  intro es
  induction es with
  | nil => intro r hl; exact hl
  | cons entry es ih =>
    intro r hl
    unfold replay_list
    split_ifs
    · exact hl
    · have := handle_entry_linked query user core period entry r hl
      simp only []
      split_ifs
      · exact this
      · exact ih _ this

theorem final_reports_tstep (query : Query) (user : User) (period : LogPeriod) (r : Replay)
    (hn : (keys r.state_info).Nodup) :
    TStep false (r.state_info, r.sink)
      ((final_reports query user period r).state_info,
        (final_reports query user period r).sink) :=
  TStep.for_each false (f := final_report query user period)
    (fun k h s => (final_report_emits query user period k h s).emits_mono (fun _ _ => trivial))
    (fun ho => absurd ho (by simp)) r.state_info r.sink hn

theorem Linked.weaken {period : LogPeriod} {ou : Bool} {m : state_info_t} {s : Sink}
    (hl : Linked period ou m s) : Linked period false m s :=
  ⟨hl.1, hl.2.1, hl.2.2.1, fun hc => absurd hc (by simp)⟩

theorem linked_init (period : LogPeriod) : ({} : Replay).linked period :=
  ⟨List.nodup_nil, by intro e he; simp at he, by intro kh hkh; simp at hkh, fun _ => rfl⟩

theorem answerQuery_linked (query : Query) (user : User) (core : ICore) (period : LogPeriod)
    (log_files : List Logfile) :
    Linked period false (answerQuery query user core period log_files).state_info
      (answerQuery query user core period log_files).sink := by
  rw [answerQuery_eq]
  split_ifs
  · exact (linked_init period).weaken
  · split
    · exact (linked_init period).weaken
    · rename_i it1 _
      have h := replay_list_linked query user core period it1.pending {} (linked_init period)
      simp only []
      split_ifs
      · exact h.weaken
      · exact Linked.step (a := (_, _)) h.weaken (final_reports_tstep query user period _ h.1)
      · exact h.weaken

theorem answerQuery_chain (query : Query) (user : User) (core : ICore) (period : LogPeriod)
    (log_files : List Logfile) (k : HostServiceKey) :
    ∃ f1, Chain period.since
      (emitted_for k (answerQuery query user core period log_files).sink.emitted) f1 := by
  obtain ⟨_, hkeys, hc, _⟩ := answerQuery_linked query user core period log_files
  by_cases hk : k ∈ keys (answerQuery query user core period log_files).state_info
  · obtain ⟨h, hm⟩ := exists_mem_of_mem_keys hk
    exact ⟨h._from, hc (k, h) hm⟩
  · rw [emitted_for_other (fun e he hc' => hk (by rw [← hc']; exact hkeys e he))]
    exact ⟨period.since, rfl⟩

theorem chain_chain' : ∀ (l : List Emission) (f0 f1 : Int), Chain f0 l f1 →
    List.Chain' (fun a b => b.row._from = a.row._until) l := by
  intro l
  induction l with
  | nil => intro _ _ _; exact List.chain'_nil
  | cons x xs ih =>
    intro f0 f1 hc
    cases xs with
    | nil => exact List.chain'_singleton _
    | cons y ys =>
      obtain ⟨_, h2⟩ := hc
      exact List.Chain'.cons h2.1 (ih _ _ h2)

/-- C4: the intervals of one object handed to `process` during a query are contiguous: in the
sequence of the rows of the object, every row starts where the row before it ends. -/
theorem emitted_contiguous (query : Query) (user : User) (core : ICore) (period : LogPeriod)
    (log_files : List Logfile) (k : HostServiceKey) :
    List.Chain' (fun a b => b.row._from = a.row._until)
      (emitted_for k (answerQuery query user core period log_files).sink.emitted) := by
  obtain ⟨f1, hc⟩ := answerQuery_chain query user core period log_files k
  exact chain_chain' _ _ _ hc

/-- C5: the first interval of an object handed to `process` during a query starts at
`period.since`, whether the object was inserted during the warm-up or during the emission. -/
theorem first_emitted_from_since (query : Query) (user : User) (core : ICore)
    (period : LogPeriod) (log_files : List Logfile) (k : HostServiceKey) (e : Emission)
    (he : (emitted_for k (answerQuery query user core period log_files).sink.emitted).head?
      = some e) :
    e.row._from = period.since := by
  obtain ⟨f1, hc⟩ := answerQuery_chain query user core period log_files k
  cases hl : emitted_for k (answerQuery query user core period log_files).sink.emitted with
  | nil => rw [hl] at he; simp at he
  | cons x xs =>
    rw [hl] at he hc
    simp only [List.head?_cons, Option.some.injEq] at he
    rw [← he]
    exact hc.1

/-- C5 at scenario 1: the service has a first row, and it starts at 100. -/
theorem first_emitted_from_since_witness :
    (emitted_for 2 (answerQuery query_all user_all core_hs ⟨100, 200⟩
        files_scenario_1).sink.emitted).head?.isSome = true
    ∧ (emitted_for 2 (answerQuery query_all user_all core_hs ⟨100, 200⟩
        files_scenario_1).sink.emitted).head?.map (fun e => e.row._from) = some 100 := by
  refine ⟨by decide, ?_⟩
  cases h : (emitted_for 2 (answerQuery query_all user_all core_hs ⟨100, 200⟩
        files_scenario_1).sink.emitted).head? with
  | none =>
    have hs : (emitted_for 2 (answerQuery query_all user_all core_hs ⟨100, 200⟩
        files_scenario_1).sink.emitted).head?.isSome = true := by decide
    rw [h] at hs
    simp at hs
  | some e =>
    simp only [Option.map_some', Option.some.injEq]
    exact first_emitted_from_since query_all user_all core_hs ⟨100, 200⟩ files_scenario_1 2 e h

theorem final_report_emitted (query : Query) (user : User) (period : LogPeriod)
    (key : HostServiceKey) (hss : HostServiceState) (sink : Sink) :
    (final_report query user period key hss sink).2.emitted
      = sink.emitted ++ final_rows query user period key hss sink := by
  unfold final_report final_rows final_object
  by_cases hm : hss._may_no_longer_exist = true
  · simp only [if_pos hm, process_eq, List.append_assoc]
    rfl
  · simp only [if_neg hm, process_eq, List.nil_append]

theorem final_rows_key (query : Query) (user : User) (period : LogPeriod)
    (key : HostServiceKey) (hss : HostServiceState) (sink : Sink) :
    ∀ e ∈ final_rows query user period key hss sink, e.key = key := by
  intro e he
  unfold final_rows at he
  rcases List.mem_append.mp he with he | he
  · split_ifs at he
    · simp at he; rw [he]
    · simp at he
  · simp at he; rw [he]

/-- The rows of one object after `final_reports`: the rows before, and the rows of its final
report. -/
theorem final_reports_emitted_for (query : Query) (user : User) (period : LogPeriod) :
    ∀ (m : state_info_t) (s : Sink), (keys m).Nodup → ∀ k h, (k, h) ∈ m →
      ∃ s', emitted_for k (for_each_state (final_report query user period) m s).2.emitted
        = emitted_for k s.emitted ++ final_rows query user period k h s' := by
  intro m
  induction m with
  | nil => intro s _ k h hm; simp at hm
  | cons x m ih =>
    intro s hn k h hm
    obtain ⟨k0, h0⟩ := x
    have hn' : k0 ∉ keys m ∧ (keys m).Nodup := by simpa [keys] using hn
    simp only [for_each_state]
    obtain ⟨hk, _, news, e1, m1, _⟩ := TStep.for_each false
      (f := final_report query user period)
      (fun k h s => (final_report_emits query user period k h s).emits_mono (fun _ _ => trivial))
      (fun ho => absurd ho (by simp)) m (final_report query user period k0 h0 s).2 hn'.2
    rcases List.mem_cons.mp hm with e | e
    · simp only [Prod.mk.injEq] at e
      obtain ⟨ek, eh⟩ := e
      subst ek; subst eh
      refine ⟨s, ?_⟩
      have hnews : emitted_for k news = [] :=
        emitted_for_other (fun x hx hc => hn'.1 (by rw [← hc]; exact m1 x hx))
      have hrows : emitted_for k (final_rows query user period k h s)
          = final_rows query user period k h s :=
        emitted_for_same (final_rows_key query user period k h s)
      rw [e1]
      show emitted_for k ((final_report query user period k h s).2.emitted ++ news) = _
      rw [emitted_for_append, final_report_emitted, emitted_for_append, hnews, hrows,
        List.append_nil]
    · have hne : k ≠ k0 := fun hc => hn'.1 (hc ▸ mem_keys_of_mem e)
      obtain ⟨s', hs'⟩ := ih (final_report query user period k0 h0 s).2 hn'.2 k h e
      refine ⟨s', ?_⟩
      have hrows : emitted_for k (final_rows query user period k0 h0 s) = [] :=
        emitted_for_other (fun x hx => by
          rw [final_rows_key query user period k0 h0 s x hx]; exact fun hc => hne hc.symm)
      rw [hs', final_report_emitted, emitted_for_append, hrows, List.append_nil]

theorem loop_state_eq (query : Query) (user : User) (core : ICore) (period : LogPeriod)
    (log_files : List Logfile) :
    loop_state query user core period log_files =
      match (LogEntryForwardIterator.make log_files).rewind_to_start period with
      | (false, _) => {}
      | (true, it1) => replay_list query user core period it1.pending {} := by
  unfold loop_state
  split
  · rfl
  · rename_i it1 h
    obtain ⟨h1, h2, h3⟩ := rewind_to_start_spec log_files period it1 h
    rw [replay_loop_eq_list query user core period _ it1 _ h1
      (by rw [rounds_eq, h3]; exact Nat.lt_succ_of_le h2.length_le)]

theorem loop_state_linked (query : Query) (user : User) (core : ICore) (period : LogPeriod)
    (log_files : List Logfile) : (loop_state query user core period log_files).linked period := by
  rw [loop_state_eq]
  split
  · exact linked_init period
  · exact replay_list_linked query user core period _ _ (linked_init period)

theorem answerQuery_of_reaches (query : Query) (user : User) (core : ICore)
    (period : LogPeriod) (log_files : List Logfile)
    (h : reaches_final_reports query user core period log_files) :
    answerQuery query user core period log_files
      = final_reports query user period (loop_state query user core period log_files) := by
  obtain ⟨h1, h2, h3, h4⟩ := h
  unfold answerQuery answerQueryInternal
  unfold loop_state at h3 h4 ⊢
  rcases hrw : (LogEntryForwardIterator.make log_files).rewind_to_start period with ⟨b, it1⟩
  rw [hrw] at h2 h3 h4
  simp only at h2
  subst h2
  simp only at h3 h4
  simp only [h1, h3, h4, Bool.false_eq_true, if_false, if_true]

theorem final_object_time (query : Query) (user : User) (period : LogPeriod)
    (key : HostServiceKey) (hss : HostServiceState) (sink : Sink) :
    (final_object query user period key hss sink)._time = period.until - 1
    ∧ (final_object query user period key hss sink)._until = period.until - 1
    ∧ (hss._may_no_longer_exist = true →
        (final_object query user period key hss sink)._state = -1
        ∧ (final_object query user period key hss sink)._debug_info = "UNMONITORED"
        ∧ (final_object query user period key hss sink)._from = hss._last_known_time) := by
  unfold final_object
  split
  · exact ⟨rfl, rfl, fun _ => ⟨rfl, rfl, rfl⟩⟩
  · rename_i h
    exact ⟨rfl, rfl, fun hc => absurd hc h⟩

/-- C6: when the loop of `answerQueryInternal` ends without the abort flag set (so that
`final_reports` runs), the last interval handed to `process` for every tracked object has
`time == until == period.until - 1`; for an object flagged `may_no_longer_exist` it has state
`-1`, and the interval before it carries the last state and ends at the last known time of the
object, where the last interval starts. -/
theorem last_emitted_at_period_end (query : Query) (user : User) (core : ICore)
    (period : LogPeriod) (log_files : List Logfile)
    (hrun : reaches_final_reports query user core period log_files)
    (k : HostServiceKey) (h : HostServiceState)
    (hk : (k, h) ∈ (loop_state query user core period log_files).state_info) :
    ∃ e, (emitted_for k (answerQuery query user core period log_files).sink.emitted).getLast?
        = some e
      ∧ e.row._time = period.until - 1 ∧ e.row._until = period.until - 1
      ∧ (h._may_no_longer_exist = true →
          e.row._state = -1 ∧ e.row._debug_info = "UNMONITORED"
          ∧ e.row._from = h._last_known_time
          ∧ ∃ e0, (emitted_for k
                (answerQuery query user core period log_files).sink.emitted).dropLast.getLast?
              = some e0
            ∧ e0.row._time = h._last_known_time ∧ e0.row._until = h._last_known_time
            ∧ e0.row._state = h._state) := by
  rw [answerQuery_of_reaches query user core period log_files hrun]
  obtain ⟨s', hs'⟩ := final_reports_emitted_for query user period
    (loop_state query user core period log_files).state_info
    (loop_state query user core period log_files).sink
    (loop_state_linked query user core period log_files).1 k h hk
  have hfin : (final_reports query user period
      (loop_state query user core period log_files)).sink.emitted
      = (for_each_state (final_report query user period)
          (loop_state query user core period log_files).state_info
          (loop_state query user core period log_files).sink).2.emitted := rfl
  rw [hfin, hs']
  obtain ⟨h1, h2, h3⟩ := final_object_time query user period k h s'
  unfold final_rows
  refine ⟨_, by rw [← List.append_assoc, List.getLast?_concat], ?_, ?_, ?_⟩
  · exact h1
  · exact h2
  · intro hm
    obtain ⟨h4, h5, h6⟩ := h3 hm
    refine ⟨h4, h5, h6, ?_⟩
    rw [if_pos hm, ← List.append_assoc, List.dropLast_concat]
    exact ⟨_, List.getLast?_concat _, rfl, rfl, rfl⟩

/-- C6 at the log file with a restart in the period `[100, 200)`: the loop ends normally with
the service flagged `may_no_longer_exist` since `t = 150`, and the last row of the service is
at `199` with state `-1`. -/
theorem last_emitted_at_period_end_witness :
    reaches_final_reports query_all user_all core_hs ⟨100, 200⟩ files_restart_in_period
    ∧ (map_find 2 (loop_state query_all user_all core_hs ⟨100, 200⟩
          files_restart_in_period).state_info).map
        (fun h => (h._may_no_longer_exist, h._last_known_time)) = some (true, 150)
    ∧ (emitted_for 2 (answerQuery query_all user_all core_hs ⟨100, 200⟩
          files_restart_in_period).sink.emitted).getLast?.map
        (fun e => (e.row._time, e.row._until, e.row._state)) = some (199, 199, -1) := by
  have hrun : reaches_final_reports query_all user_all core_hs ⟨100, 200⟩
      files_restart_in_period := by
    unfold reaches_final_reports; decide
  have hmap : (map_find 2 (loop_state query_all user_all core_hs ⟨100, 200⟩
          files_restart_in_period).state_info).map
        (fun h => (h._may_no_longer_exist, h._last_known_time)) = some (true, 150) := by
    decide
  refine ⟨hrun, hmap, ?_⟩
  cases hf : map_find 2 (loop_state query_all user_all core_hs ⟨100, 200⟩
      files_restart_in_period).state_info with
  | none => rw [hf] at hmap; simp at hmap
  | some h =>
    rw [hf] at hmap
    simp only [Option.map_some', Option.some.injEq, Prod.mk.injEq] at hmap
    obtain ⟨e, he, h1, h2, h3⟩ := last_emitted_at_period_end query_all user_all core_hs
      ⟨100, 200⟩ files_restart_in_period hrun 2 h (map_find_mem hf)
    rw [he]
    simp only [Option.map_some', Option.some.injEq, Prod.mk.injEq]
    exact ⟨h1, h2, (h3 hmap.1).1⟩

theorem replay_list_stop (query : Query) (user : User) (core : ICore) (period : LogPeriod)
    (r : Replay) : ∀ (es : List LogEntry), (∀ e ∈ es, e.time ≥ period.until) →
      replay_list query user core period es r = r := by
  intro es h
  cases es with
  | nil => rfl
  | cons e es =>
    unfold replay_list
    rw [if_pos (Or.inr (h e (List.mem_cons_self _ _)))]

theorem replay_list_drop_late (query : Query) (user : User) (core : ICore)
    (period : LogPeriod) :
    ∀ (es : List LogEntry) (r : Replay), es.Pairwise (fun x y => x.time ≤ y.time) →
      replay_list query user core period
          (es.filter (fun e => decide (e.time < period.until))) r
        = replay_list query user core period es r := by
  intro es
  induction es with
  | nil => intro r _; rfl
  | cons entry es ih =>
    intro r hsort
    by_cases ht : entry.time < period.until
    · rw [List.filter_cons_of_pos (by simpa using ht)]
      unfold replay_list
      split_ifs
      · rfl
      · simp only []
        rw [ih _ (List.Pairwise.of_cons hsort)]
    · rw [List.filter_cons_of_neg (by simpa using ht)]
      have hall : ∀ e ∈ es, e.time ≥ period.until := fun e he =>
        le_trans (not_lt.mp ht) (List.rel_of_pairwise_cons hsort he)
      have hnil : es.filter (fun e => decide (e.time < period.until)) = [] := by
        rw [List.filter_eq_nil_iff]
        intro e he
        simpa using hall e he
      rw [hnil]
      unfold replay_list
      rw [if_pos (Or.inr (not_lt.mp ht))]

theorem answerQuery_eq_answer_entries (query : Query) (user : User) (core : ICore)
    (period : LogPeriod) (log_files : List Logfile) :
    answerQuery query user core period log_files =
      if period.empty then {}
      else
        match (LogEntryForwardIterator.make log_files).rewind_to_start period with
        | (false, _) => {}
        | (true, it1) => answer_entries query user core period it1.pending := by
  rw [answerQuery_eq]
  rfl

/-- C8, as amended: when the entries that the cursor delivers to the loop of
`answerQueryInternal` are in the order of time, deleting from them the entries whose time is at
or after `period.until` changes nothing: the replay ends in the same state, with the same
sequence of emitted intervals (the loop stops at the first such entry). -/
theorem answer_entries_drop_late (query : Query) (user : User) (core : ICore)
    (period : LogPeriod) (es : List LogEntry)
    (hord : es.Pairwise (fun x y => x.time ≤ y.time)) :
    answer_entries query user core period
        (es.filter (fun e => decide (e.time < period.until)))
      = answer_entries query user core period es := by
  unfold answer_entries
  rw [replay_list_drop_late query user core period es {} hord]

/-- C8 fails as stated. The two log files are in the order of time; the query on them reports
the service with `[100, 199)`. Without the entries at or after `t = 200` the last entry of the
older file lies before the period, `rewind_to_start` positions the cursor on it, no entry is
delivered, and nothing is reported. -/
theorem drop_late_counterexample :
    time_ordered files_late_entry
    ∧ (answerQuery query_all user_all core_hs ⟨100, 200⟩ files_late_entry).sink.emitted.map
        (fun e => (e.key, e.offered, e.row._from, e.row._until, e.row._state))
      = [(2, true, 100, 199, 0)]
    ∧ (answerQuery query_all user_all core_hs ⟨100, 200⟩
        (drop_late ⟨100, 200⟩ files_late_entry)).sink.emitted.map
        (fun e => (e.key, e.offered, e.row._from, e.row._until, e.row._state))
      = [] :=
  ⟨by unfold time_ordered; decide, by decide, by decide⟩

/-- The amended C8 at the entries of the older of the two log files. -/
theorem answer_entries_drop_late_witness :
    ((answer_entries query_all user_all core_hs ⟨100, 200⟩
        [{ time := 20, kind := LogEntryKind.state_service_initial, host_name := "h",
           service_description := "s", state := 0 },
         { time := 250, kind := LogEntryKind.core_stopping }]).sink.emitted.map
        (fun e => (e.key, e.row._from, e.row._until)) = [(2, 100, 199)])
    ∧ answer_entries query_all user_all core_hs ⟨100, 200⟩
        ([{ time := 20, kind := LogEntryKind.state_service_initial, host_name := "h",
            service_description := "s", state := 0 },
          { time := 250, kind := LogEntryKind.core_stopping }].filter
            (fun e => decide (e.time < (⟨100, 200⟩ : LogPeriod).until)))
      = answer_entries query_all user_all core_hs ⟨100, 200⟩
        [{ time := 20, kind := LogEntryKind.state_service_initial, host_name := "h",
           service_description := "s", state := 0 },
         { time := 250, kind := LogEntryKind.core_stopping }] :=
  ⟨by decide, answer_entries_drop_late query_all user_all core_hs ⟨100, 200⟩ _ (by decide)⟩

theorem revive_in_notification_period (query : Query) (user : User) (period : LogPeriod)
    (entry : LogEntry) (key : HostServiceKey) (h : HostServiceState) (ou : Bool)
    (nps : notification_periods_t) (s : Sink) :
    (revive query user period entry key h ou nps s).1._in_notification_period
      = if entry.kind ≠ LogEntryKind.timeperiod_transition ∧ h._has_vanished = true
        then period_status nps h._notification_period else h._in_notification_period := by
  unfold revive
  split
  · simp
  · rfl

theorem update_timeperiod_in_notification_period (query : Query) (user : User)
    (period : LogPeriod) (entry : LogEntry) (key : HostServiceKey) (h : HostServiceState)
    (ou : Bool) (s : Sink) :
    (update_timeperiod query user period entry key h ou s).1._in_notification_period
      = match TimeperiodTransition.parse entry.options with
        | Option.none => h._in_notification_period
        | some t =>
          if h._host ≠ Option.none ∧ t.name_ = h._notification_period then t.to_
          else h._in_notification_period := by
  unfold update_timeperiod
  split
  · rfl
  · rename_i t _
    simp only []
    split_ifs <;> simp_all

theorem update_kind_in_notification_period (query : Query) (user : User)
    (period : LogPeriod) (entry : LogEntry) (key : HostServiceKey) (h : HostServiceState)
    (ou : Bool) (s : Sink) (hk : entry.kind ≠ LogEntryKind.timeperiod_transition) :
    (update_kind query user period entry key h ou s).2.1._in_notification_period
      = h._in_notification_period := by
  unfold update_kind
  split <;>
    first
    | rfl
    | (rename_i hk'; exact absurd hk' hk)
    | (split_ifs <;> first | rfl | simp)

theorem update_kind_timeperiod (query : Query) (user : User)
    (period : LogPeriod) (entry : LogEntry) (key : HostServiceKey) (h : HostServiceState)
    (ou : Bool) (s : Sink) (hk : entry.kind = LogEntryKind.timeperiod_transition) :
    (update_kind query user period entry key h ou s).2.1
      = (update_timeperiod query user period entry key h ou s).1 := by
  unfold update_kind
  split <;> first | rfl | (rename_i hk'; rw [hk] at hk'; exact absurd hk' (by decide))

theorem update_log_output_in_notification_period (entry : LogEntry) (h : HostServiceState) :
    (update_log_output entry h)._in_notification_period = h._in_notification_period := by
  unfold update_log_output; split <;> rfl

/-- The member `_in_notification_period` after `updateHostServiceState`. -/
theorem updateHostServiceState_in_notification_period (query : Query) (user : User)
    (period : LogPeriod) (entry : LogEntry) (key : HostServiceKey) (h : HostServiceState)
    (ou : Bool) (nps : notification_periods_t) (s : Sink) :
    (updateHostServiceState query user period entry key h ou nps s).2.1._in_notification_period
      = if entry.kind = LogEntryKind.timeperiod_transition then
          match TimeperiodTransition.parse entry.options with
          | Option.none => h._in_notification_period
          | some t =>
            if h._host ≠ Option.none ∧ t.name_ = h._notification_period then t.to_
            else h._in_notification_period
        else if h._has_vanished = true then period_status nps h._notification_period
        else h._in_notification_period := by
  unfold updateHostServiceState
  simp only [update_log_output_in_notification_period]
  by_cases hk : entry.kind = LogEntryKind.timeperiod_transition
  · rw [if_pos hk, update_kind_timeperiod _ _ _ _ _ _ _ _ hk,
      update_timeperiod_in_notification_period]
    have hr : revive query user period entry key h ou nps s = (h, s) := by
      unfold revive
      rw [if_neg (fun hx => hx.1 hk)]
    rw [hr]
    rfl
  · rw [if_neg hk, update_kind_in_notification_period _ _ _ _ _ _ _ _ hk]
    show (revive query user period entry key h ou nps s).1._in_notification_period = _
    rw [revive_in_notification_period]
    by_cases hv : h._has_vanished = true
    · rw [if_pos ⟨hk, hv⟩, if_pos hv]
    · rw [if_neg (fun hx => hv hx.2), if_neg hv]

theorem map_find_map_set_eq {α β : Type} [DecidableEq α] (lt : α → α → Bool) (k : α) (v : β) :
    ∀ m : List (α × β), map_find k (map_set lt k v m) = some v := by
  intro m
  induction m with
  | nil => simp [map_set, map_find]
  | cons x m ih =>
    obtain ⟨k', v'⟩ := x
    unfold map_set
    split_ifs with h1 h2
    · simp [map_find]
    · simp [map_find]
    · simp [map_find, h1, ih]

theorem map_find_map_set_ne {α β : Type} [DecidableEq α] (lt : α → α → Bool) {k k1 : α}
    (v : β) (hne : k ≠ k1) :
    ∀ m : List (α × β), map_find k1 (map_set lt k v m) = map_find k1 m := by
  intro m
  induction m with
  | nil => simp [map_set, map_find, hne]
  | cons x m ih =>
    obtain ⟨k', v'⟩ := x
    unfold map_set
    split_ifs with h1 h2
    · subst h1
      simp [map_find, hne]
    · simp [map_find, hne]
    · simp only [map_find, ih]

theorem entrySound_inPeriod (query : Query) (user : User) (period : LogPeriod)
    (entry : LogEntry) (ou : Bool) (name : String) (v : Int)
    (hno : no_transition_for name entry) :
    EntrySound query user period entry ou (fun nps => period_status nps name = v)
      (InPeriod name v) (fun _ => True) where
  update := by
    intro key h nps s hN hI
    obtain ⟨_, hst⟩ := updateHostServiceState_emits query user period entry key h ou nps s
    refine ⟨?_, updateHostServiceState_grows query user period entry key h ou nps s
      (fun _ _ _ => trivial)⟩
    intro hhost hnp
    rw [hst.host_eq] at hhost
    rw [hst.notification_period_eq] at hnp
    have hhost' : h._host ≠ Option.none := hhost
    have hnp' : h._notification_period = name := hnp
    rw [updateHostServiceState_in_notification_period]
    split_ifs with hk hv
    · split
      · exact hI hhost' hnp'
      · rename_i t hp
        have hne : t.name_ ≠ name := by
          have := hno hk
          rw [hp] at this
          simpa using this
        rw [if_neg (fun hx => hne (hx.2.trans hnp'))]
        exact hI hhost' hnp'
    · rw [hnp']; exact hN
    · exact hI hhost' hnp'
  vanish := by
    intro h hI _
    exact hI
  initial_states := by
    intro _ h hI _
    exact hI
  link := by
    intro h l hI
    exact hI
  fresh := by
    intro nps h hN hf _ hnp
    rw [hf.2.2.2.2.2.2.1, hnp]
    exact hN
  periods := by
    intro t hk hp nps hN
    have hne : t.name_ ≠ name := by
      have := hno hk
      rw [hp] at this
      simpa using this
    simp only [period_status] at hN ⊢
    rw [map_find_map_set_ne name_lt _ hne]
    exact hN

theorem handle_entries_inPeriod (query : Query) (user : User) (core : ICore)
    (period : LogPeriod) (name : String) (v : Int) :
    ∀ (es : List LogEntry) (r : Replay), (∀ e ∈ es, no_transition_for name e) →
      period_status r.notification_periods name = v →
      AllStates (InPeriod name v) r.state_info →
      AllStates (InPeriod name v) (handle_entries query user core period es r).state_info := by
  intro es
  induction es with
  | nil => intro r _ _ hI; exact hI
  | cons e es ih =>
    intro r hno hN hI
    have := handle_entry_sound core (InPeriod name v) r
      (fun _ _ h hh => hh) (fun _ h hh => hh)
      (entrySound_inPeriod query user period e _ name v (hno e (List.mem_cons_self _ _))) hN hI
    exact ih _ (fun e' he' => hno e' (List.mem_cons_of_mem _ he')) this.2.2.1 this.1

theorem for_each_state_establish {J : HostServiceState → Prop}
    {f : HostServiceKey → HostServiceState → Sink → HostServiceState × Sink}
    (hf : ∀ k h s, J (f k h s).1) :
    ∀ (m : state_info_t) (s : Sink), AllStates J (for_each_state f m s).1 := by
  intro m
  induction m with
  | nil => intro s kh hkh; simp [for_each_state] at hkh
  | cons x m ih =>
    intro s kh hkh
    obtain ⟨k, h⟩ := x
    simp only [for_each_state] at hkh
    rcases List.mem_cons.mp hkh with e | e
    · rw [e]; exact hf k h s
    · exact ih _ kh e

theorem handle_entry_transition (query : Query) (user : User) (core : ICore)
    (period : LogPeriod) (entry : LogEntry) (tpt : TimeperiodTransition) (r : Replay)
    (hk : entry.kind = LogEntryKind.timeperiod_transition)
    (hp : TimeperiodTransition.parse entry.options = some tpt) :
    period_status (handle_entry query user core period entry r).notification_periods tpt.name_
      = tpt.to_
    ∧ AllStates (InPeriod tpt.name_ tpt.to_)
        (handle_entry query user core period entry r).state_info := by
  unfold handle_entry dispatch
  simp only []
  split <;> first | (rename_i hk'; rw [hk] at hk'; exact absurd hk' (by decide)) | skip
  unfold handle_timeperiod_transition
  simp only [hp]
  refine ⟨?_, ?_⟩
  · simp only [period_status, map_find_map_set_eq]
  · refine for_each_state_establish ?_ _ _
    intro k h s hhost hnp
    obtain ⟨_, hst⟩ := updateHostServiceState_emits query user period entry k h
      (start_of_timeframe period entry r).only_update
      (map_set name_lt tpt.name_ tpt.to_ (start_of_timeframe period entry r).notification_periods) s
    rw [hst.host_eq] at hhost
    rw [hst.notification_period_eq] at hnp
    have hhost' : h._host ≠ Option.none := hhost
    have hnp' : h._notification_period = tpt.name_ := hnp
    rw [updateHostServiceState_in_notification_period, if_pos hk, hp]
    simp only []
    rw [if_pos ⟨hhost', hnp'.symm⟩]

/-- After a `TIMEPERIOD TRANSITION` entry with a well-formed payload naming the period `P`
with the target value `v` has been handled, from any state of the replay, every tracked object
that has a host pointer and whose notification period is `P` has
`in_notification_period == v`, and this stays so, also for objects inserted or revived later,
while the entries handled are no well-formed transitions for `P`. -/
theorem in_notification_period_of_host (query : Query) (user : User) (core : ICore)
    (period : LogPeriod) (r : Replay) (entry : LogEntry) (tpt : TimeperiodTransition)
    (es : List LogEntry)
    (hk : entry.kind = LogEntryKind.timeperiod_transition)
    (hp : TimeperiodTransition.parse entry.options = some tpt)
    (hes : ∀ e ∈ es, no_transition_for tpt.name_ e) :
    ∀ kh ∈ (handle_entries query user core period es
        (handle_entry query user core period entry r)).state_info,
      kh.2._host ≠ Option.none → kh.2._notification_period = tpt.name_ →
        kh.2._in_notification_period = tpt.to_ := by
  obtain ⟨hN, hI⟩ := handle_entry_transition query user core period entry tpt r hk hp
  exact handle_entries_inPeriod query user core period tpt.name_ tpt.to_ es _ hes hN hI

/-- The guard `hss._host != nullptr` of the case `timeperiod_transition`: a registry that
resolves the service of the state entry but not its host lets the object be tracked without a
host pointer; its notification period is `np`. The transition `np;1;0` is handled (the period
map holds `np = 0`), but the object keeps `in_notification_period == 1`, and is reported so. -/
theorem object_without_host_keeps_period :
    TimeperiodTransition.parse "np;1;0" = some ⟨"np", 1, 0⟩
    ∧ (answerQuery query_all user_all core_no_host ⟨100, 200⟩ files_transition).null_deref
      = false
    ∧ (answerQuery query_all user_all core_no_host ⟨100, 200⟩
        files_transition).notification_periods = [("np", 0)]
    ∧ (answerQuery query_all user_all core_no_host ⟨100, 200⟩ files_transition).state_info.map
        (fun kh => (kh.1, kh.2._host.isSome, kh.2._notification_period,
          kh.2._in_notification_period)) = [(2, false, "np", 1)]
    ∧ (answerQuery query_all user_all core_no_host ⟨100, 200⟩
        files_transition).sink.emitted.map
        (fun e => (e.key, e.row._from, e.row._until, e.row._notification_period,
          e.row._in_notification_period)) = [(2, 100, 199, "np", 1)] :=
  ⟨by decide, by decide, by decide, by decide, by decide⟩

theorem revive_host_view (query : Query) (user : User) (period : LogPeriod) (entry : LogEntry)
    (key : HostServiceKey) (hss : HostServiceState) (ou : Bool)
    (nps : notification_periods_t) (sink : Sink) :
    host_view (revive query user period entry key hss ou nps sink).1 = host_view hss := by
  unfold revive
  split
  · simp [host_view, host_handle]
  · rfl

theorem map_find_map_modify {α β : Type} [DecidableEq α] (k : α) (f : β → β) (z : α) :
    ∀ m : List (α × β), map_find z (map_modify k f m)
      = if z = k then (map_find k m).map f else map_find z m := by
  intro m
  induction m with
  | nil => simp [map_modify, map_find]
  | cons x m ih =>
    obtain ⟨k', v⟩ := x
    unfold map_modify
    by_cases hk : k' = k
    · rw [if_pos hk]
      subst hk
      by_cases hz : z = k'
      · subst hz; simp [map_find]
      · simp [map_find, hz, Ne.symm hz]
    · rw [if_neg hk]
      by_cases hz : z = k
      · subst hz
        simp only [map_find, if_neg hk, ih, if_true]
      · by_cases hz' : k' = z
        · simp [map_find, hz', hz]
        · simp only [map_find, if_neg hz', ih, if_neg hz]

@[simp] theorem set_view_host (entry : LogEntry) (X : HostView) :
    (set_view entry X).host = X.host := by
  unfold set_view; split_ifs <;> rfl

@[simp] theorem set_view_services (entry : LogEntry) (X : HostView) :
    (set_view entry X).services = X.services := by
  unfold set_view; split_ifs <;> rfl

theorem HostInv.not_host_of_service_key {core : ICore} {v : HostServiceKey → Option HostView}
    (h : HostInv core v) (hd : handles_disjoint core) {k : HostServiceKey} {X : HostView}
    (hX : v k = some X) (hk : IsServiceKey core k) : X.is_host = false := by
  cases hi : X.is_host with
  | false => rfl
  | true => exact absurd hk (hd k (h.hosts k X hX hi).1)

theorem map_find_of_mem {m : state_info_t} (hn : (keys m).Nodup) {k : HostServiceKey}
    {v : HostServiceState} (hm : (k, v) ∈ m) : map_find k m = some v := by
  have hc := contains_of_mem_keys (mem_keys_of_mem hm)
  unfold map_contains at hc
  cases hf : map_find k m with
  | none => rw [hf] at hc; exact absurd hc (by simp)
  | some v' => rw [unique_of_nodup hn (map_find_mem hf) hm]

theorem collect_services_spec (state : HostServiceState) (k : HostServiceKey)
    (hk : host_handle state = some k) :
    ∀ m : state_info_t, ∃ l, collect_services state m = some l ∧ l.Sublist (keys m)
      ∧ ∀ z, z ∈ l ↔ ∃ Z, (z, Z) ∈ m ∧ host_handle Z = some k := by
  intro m
  induction m with
  | nil => exact ⟨[], rfl, List.Sublist.refl _, fun z => by simp⟩
  | cons x m ih =>
    obtain ⟨key, hss⟩ := x
    obtain ⟨l, hl, hsub, hmem⟩ := ih
    unfold collect_services
    cases hh : hss._host with
    | none =>
      refine ⟨l, hl, List.Sublist.cons _ hsub, fun z => ?_⟩
      rw [hmem z]
      constructor
      · rintro ⟨Z, hZ, hZh⟩
        exact ⟨Z, List.mem_cons_of_mem _ hZ, hZh⟩
      · rintro ⟨Z, hZ, hZh⟩
        rcases List.mem_cons.mp hZ with e | e
        · simp only [Prod.mk.injEq] at e
          rw [e.2] at hZh
          simp [host_handle, hh] at hZh
        · exact ⟨Z, e, hZh⟩
    | some h =>
      simp only [hk, hl, Option.map_some']
      have hhs : host_handle hss = some h.handleForStateHistory := by simp [host_handle, hh]
      refine ⟨_, rfl, ?_, fun z => ?_⟩
      · split_ifs
        · exact List.Sublist.cons₂ _ hsub
        · exact List.Sublist.cons _ hsub
      constructor
      · intro hz
        split_ifs at hz with hc
        · rcases List.mem_cons.mp hz with e | e
          · subst e
            exact ⟨hss, List.mem_cons_self _ _, by rw [hhs, hc]⟩
          · obtain ⟨Z, hZ, hZh⟩ := (hmem z).mp e
            exact ⟨Z, List.mem_cons_of_mem _ hZ, hZh⟩
        · obtain ⟨Z, hZ, hZh⟩ := (hmem z).mp hz
          exact ⟨Z, List.mem_cons_of_mem _ hZ, hZh⟩
      · rintro ⟨Z, hZ, hZh⟩
        rcases List.mem_cons.mp hZ with e | e
        · simp only [Prod.mk.injEq] at e
          obtain ⟨e1, e2⟩ := e
          subst e1; subst e2
          rw [hhs] at hZh
          simp only [Option.some.injEq] at hZh
          rw [if_pos hZh]
          exact List.mem_cons_self _ _
        · have := (hmem z).mpr ⟨Z, e, hZh⟩
          split_ifs
          · exact List.mem_cons_of_mem _ this
          · exact this

theorem emit_rows (query : Query) (user : User) (period : LogPeriod) (ou : Bool)
    (key : HostServiceKey) (hss : HostServiceState) (sink : Sink) :
    Grows (fun em => em.key = key ∧ host_view em.row = host_view hss) sink
      (emit query user period ou key hss sink).2 :=
  (emits_emit query user period ou key hss sink).grows.grows_mono
    (fun e he => ⟨he.1, by rw [he.2]; rfl⟩)

theorem emit_host_view (query : Query) (user : User) (period : LogPeriod) (ou : Bool)
    (key : HostServiceKey) (hss : HostServiceState) (sink : Sink) :
    host_view (emit query user period ou key hss sink).1 = host_view hss := by
  simp [host_view, host_handle]

theorem revive_rows (query : Query) (user : User) (period : LogPeriod) (entry : LogEntry)
    (key : HostServiceKey) (hss : HostServiceState) (ou : Bool)
    (nps : notification_periods_t) (sink : Sink) :
    Grows (fun em => em.key = key ∧ host_view em.row = host_view hss) sink
      (revive query user period entry key hss ou nps sink).2 := by
  unfold revive
  split
  · exact emit_rows query user period ou key
      { hss with _time := hss._last_known_time, _until := hss._last_known_time } sink
  · exact Grows.grows_rfl _

theorem update_timeperiod_rows (query : Query) (user : User) (period : LogPeriod)
    (entry : LogEntry) (key : HostServiceKey) (hss : HostServiceState) (ou : Bool) (sink : Sink) :
    Grows (fun em => em.key = key ∧ host_view em.row = host_view hss) sink
      (update_timeperiod query user period entry key hss ou sink).2 := by
  unfold update_timeperiod
  split
  · exact Grows.grows_rfl _
  · rename_i tpt _
    have h1 : ∀ (c : Prop) [Decidable c],
        Grows (fun em => em.key = key ∧ host_view em.row = host_view hss) sink
          (if c then
            ({ (emit query user period ou key hss sink).1 with
                _debug_info := "TIMEPERIOD ", _in_notification_period := tpt.to_ },
              (emit query user period ou key hss sink).2)
          else (hss, sink)).2
        ∧ host_view (if c then
            ({ (emit query user period ou key hss sink).1 with
                _debug_info := "TIMEPERIOD ", _in_notification_period := tpt.to_ },
              (emit query user period ou key hss sink).2)
          else (hss, sink)).1 = host_view hss := by
      intro c _
      split
      · exact ⟨emit_rows query user period ou key hss sink, by simp [host_view, host_handle]⟩
      · exact ⟨Grows.grows_rfl _, rfl⟩
    generalize hp1 : (if hss._host ≠ Option.none ∧ tpt.name_ = hss._notification_period
          ∧ tpt.to_ ≠ hss._in_notification_period then
        ({ (emit query user period ou key hss sink).1 with
            _debug_info := "TIMEPERIOD ", _in_notification_period := tpt.to_ },
          (emit query user period ou key hss sink).2)
      else (hss, sink)) = p1
    have h1' := h1 (hss._host ≠ Option.none ∧ tpt.name_ = hss._notification_period
          ∧ tpt.to_ ≠ hss._in_notification_period)
    rw [hp1] at h1'
    simp only []
    split
    · exact h1'.1.grows_trans ((emit_rows query user period ou key p1.1 p1.2).grows_mono
        (fun e he => ⟨he.1, he.2.trans h1'.2⟩))
    · exact h1'.1

theorem update_kind_rows (query : Query) (user : User) (period : LogPeriod)
    (entry : LogEntry) (key : HostServiceKey) (hss : HostServiceState) (ou : Bool) (sink : Sink) :
    Grows (fun em => em.key = key ∧ host_view em.row = host_view hss) sink
      (update_kind query user period entry key hss ou sink).2.2 := by
  unfold update_kind
  split <;>
    first
    | exact Grows.grows_rfl _
    | exact update_timeperiod_rows query user period entry key hss ou sink
    | (split_ifs <;>
        first
        | exact Grows.grows_rfl _
        | exact emit_rows query user period ou key hss sink)

/-- Every row `updateHostServiceState` emits has the view the object had before the call. -/
theorem updateHostServiceState_rows (query : Query) (user : User) (period : LogPeriod)
    (entry : LogEntry) (key : HostServiceKey) (hss : HostServiceState) (ou : Bool)
    (nps : notification_periods_t) (sink : Sink) :
    Grows (fun em => em.key = key ∧ host_view em.row = host_view hss) sink
      (updateHostServiceState query user period entry key hss ou nps sink).2.2 := by
  unfold updateHostServiceState
  simp only []
  exact (revive_rows query user period entry key hss ou nps sink).grows_trans
    ((update_kind_rows query user period entry key
      (update_basic entry (revive query user period entry key hss ou nps sink).1) ou
      (revive query user period entry key hss ou nps sink).2).grows_mono
      (fun e he => ⟨he.1, he.2.trans (revive_host_view query user period entry key hss ou nps sink)⟩))

theorem Grows.drop {P : Emission → Prop} {s s' : Sink} (h : Grows P s s') :
    ∀ em ∈ s'.emitted.drop s.emitted.length, P em := by
  obtain ⟨news, e, p⟩ := h
  rw [e, List.drop_left]
  exact p

/-- C14: `process` hands the row to `processDataset` exactly when
`user.is_authorized_for_object(host, service, false)` holds: the call is recorded with
`offered` equal to the authorisation, and the rows offered so far grow by the row exactly
then; for an unauthorised object the abort flag is `false` after the call; in both cases the
object continues with `_from == _until`. -/
theorem process_offers_iff_authorized (query : Query) (user : User) (period : LogPeriod)
    (key : HostServiceKey) (hss : HostServiceState) (sink : Sink) :
    (process query user period key hss sink).2.emitted
      = sink.emitted ++ [{ key := key, row := snapshot period hss,
                           offered := user.is_authorized_for_object hss._host hss._service
                             false }]
    ∧ (process query user period key hss sink).2.offered_rows
      = sink.offered_rows
        ++ (if user.is_authorized_for_object hss._host hss._service false = true
            then [snapshot period hss] else [])
    ∧ (process query user period key hss sink).2.abort_query_
      = (user.is_authorized_for_object hss._host hss._service false
          && !(query.processDataset sink.offered_rows (snapshot period hss)))
    ∧ (user.is_authorized_for_object hss._host hss._service false = false →
        (process query user period key hss sink).2.abort_query_ = false)
    ∧ (process query user period key hss sink).1._from = hss._until := by
  rw [process_eq]
  refine ⟨rfl, ?_, rfl, ?_, rfl⟩
  · simp only [Sink.offered_rows, List.filter_append, List.map_append]
    cases h : user.is_authorized_for_object hss._host hss._service false <;> simp [h]
  · intro h
    simp [h]

/-- C15: when the registry does not resolve the object of the entry (`find_host` for an entry
of a host, `find_service` for an entry of a service), `handle_state_entry` returns at once:
state table, objects, blacklist and sink are left as they are. -/
theorem unresolved_entry_is_ignored (query : Query) (user : User) (core : ICore)
    (entry : LogEntry) (is_host_entry : Bool) (period : LogPeriod) (r : Replay)
    (h : (is_host_entry = true ∧ core.find_host entry.host_name = Option.none)
      ∨ (is_host_entry = false
          ∧ core.find_service entry.host_name entry.service_description = Option.none)) :
    handle_state_entry query user core entry is_host_entry period r = r := by
  have hk : entry_key core entry is_host_entry = 0 := by
    unfold entry_key
    rcases h with ⟨h1, h2⟩ | ⟨h1, h2⟩
    · rw [h1, h2]; rfl
    · rw [h1, h2]; rfl
  unfold handle_state_entry
  simp only [hk, if_true]

/-- C15 at an entry of the unknown host `x`, and at an entry of the unknown service `h;x`. -/
theorem unresolved_entry_is_ignored_witness :
    handle_state_entry query_all user_all core_hs
        { time := 150, kind := LogEntryKind.alert_host, host_name := "x", state := 1 }
        true ⟨100, 200⟩ {} = {}
    ∧ handle_state_entry query_all user_all core_hs
        { time := 150, kind := LogEntryKind.alert_service, host_name := "h",
          service_description := "x", state := 1 }
        false ⟨100, 200⟩ {} = {} :=
  ⟨unresolved_entry_is_ignored query_all user_all core_hs _ true ⟨100, 200⟩ {}
      (Or.inl ⟨rfl, by decide⟩),
   unresolved_entry_is_ignored query_all user_all core_hs _ false ⟨100, 200⟩ {}
      (Or.inr ⟨rfl, by decide⟩)⟩

/-- C16: when the payload of a `TIMEPERIOD TRANSITION` does not split into exactly three
fields at the semicolons, or `std::stoi` fails on the second or on the third field, then
`handle_timeperiod_transition` leaves the period map, every object of the state table and the
sink (no row, no abort) as they are. -/
theorem malformed_transition_is_ignored (query : Query) (user : User) (period : LogPeriod)
    (entry : LogEntry) (r : Replay)
    (h : (split ';' entry.options.data).length ≠ 3
      ∨ ∃ f0 f1 f2, split ';' entry.options.data = [f0, f1, f2]
          ∧ (stoi f1 = Option.none ∨ stoi f2 = Option.none)) :
    handle_timeperiod_transition query user period entry r = r := by
  have hp : TimeperiodTransition.parse entry.options = Option.none := by
    unfold TimeperiodTransition.parse
    rcases h with h | ⟨f0, f1, f2, hs, h⟩
    · split
      · rename_i hs
        rw [hs] at h
        exact absurd rfl h
      · rfl
    · rw [hs]
      simp only []
      rcases h with h | h
      · rw [h]
      · rw [h]
        cases stoi f1 <;> rfl
  unfold handle_timeperiod_transition
  rw [hp]

/-- C16 at a payload of two fields and at a payload whose third field is no number. -/
theorem malformed_transition_is_ignored_witness :
    handle_timeperiod_transition query_all user_all ⟨100, 200⟩
        { time := 150, kind := LogEntryKind.timeperiod_transition, options := "np;1" } {} = {}
    ∧ handle_timeperiod_transition query_all user_all ⟨100, 200⟩
        { time := 150, kind := LogEntryKind.timeperiod_transition, options := "np;1;x" } {}
        = {} :=
  ⟨malformed_transition_is_ignored query_all user_all ⟨100, 200⟩ _ {} (Or.inl (by decide)),
   malformed_transition_is_ignored query_all user_all ⟨100, 200⟩ _ {}
     (Or.inr ⟨"np".data, "1".data, "x".data, by decide, Or.inr (by decide)⟩)⟩

theorem find_start_spec (log_files : List Logfile) (period : LogPeriod) :
    ∀ n, n < log_files.length →
      find_start log_files period n ≤ n
      ∧ (∀ j g, find_start log_files period n < j → j ≤ n → log_files[j]? = some g →
          period.since ≤ g.since)
      ∧ (find_start log_files period n = 0
          ∨ ∃ f, log_files[find_start log_files period n]? = some f ∧ f.since < period.since) := by
  intro n
  induction n with
  | zero => intro _; exact ⟨le_refl _, fun j g h1 h2 => by simp [find_start] at h1; omega,
      Or.inl rfl⟩
  | succ i ih =>
    intro hn
    have hlt : i + 1 < log_files.length := hn
    obtain ⟨h1, h2, h3⟩ := ih (by omega)
    unfold find_start
    rw [List.getElem?_eq_getElem hlt]
    simp only []
    split_ifs with hs
    · refine ⟨by omega, ?_, h3⟩
      intro j g hj hjn hg
      by_cases hji : j ≤ i
      · exact h2 j g hj hji hg
      · have : j = i + 1 := by omega
        subst this
        rw [List.getElem?_eq_getElem hlt] at hg
        simp only [Option.some.injEq] at hg
        rw [← hg]
        exact hs
    · refine ⟨le_refl _, fun j g hj hjn => by omega, Or.inr ⟨log_files[i + 1], ?_, by omega⟩⟩
      exact List.getElem?_eq_getElem hlt

/-- The file `rewind_to_start` selects is the newest file that starts before `period.since`,
or the oldest file when there is none. -/
theorem selected_file_spec (log_files : List Logfile) (period : LogPeriod)
    (hne : log_files ≠ []) :
    ∃ f, selected_file (LogEntryForwardIterator.make log_files) period = some f
      ∧ IsSelected log_files period (find_start log_files period (log_files.length - 1)) f := by
  have hpos : 0 < log_files.length := List.length_pos.mpr hne
  obtain ⟨h1, h2, h3⟩ := find_start_spec log_files period (log_files.length - 1) (by omega)
  have hlt : find_start log_files period (log_files.length - 1) < log_files.length := by omega
  refine ⟨log_files[find_start log_files period (log_files.length - 1)], ?_, ?_, ?_⟩
  · simp only [selected_file, LogEntryForwardIterator.make]
    exact List.getElem?_eq_getElem hlt
  · exact List.getElem?_eq_getElem hlt
  · have hnew : ∀ j g, find_start log_files period (log_files.length - 1) < j →
        log_files[j]? = some g → period.since ≤ g.since := by
      intro j g hj hg
      have hjl : j < log_files.length := by
        by_contra hc
        rw [List.getElem?_eq_none (by omega)] at hg
        exact absurd hg (by simp)
      exact h2 j g hj (by omega) hg
    by_cases hs : (log_files[find_start log_files period (log_files.length - 1)]).since
        < period.since
    · exact Or.inl ⟨hs, hnew⟩
    · rcases h3 with h0 | ⟨f, hf, hfs⟩
      · refine Or.inr ⟨h0, fun g hg => ?_⟩
        obtain ⟨j, hj, hjg⟩ := List.getElem_of_mem hg
        by_cases hj0 : j = 0
        · subst hj0
          rw [← hjg]
          have : log_files[0] = log_files[find_start log_files period (log_files.length - 1)] := by
            congr 1
            exact h0.symm
          rw [this]
          omega
        · exact hnew j g (by omega) (by rw [List.getElem?_eq_getElem hj, hjg])
      · rw [List.getElem?_eq_getElem hlt] at hf
        simp only [Option.some.injEq] at hf
        rw [hf] at hs
        exact absurd hfs hs

theorem IsSelected.unique {log_files : List Logfile} {period : LogPeriod} {i i' : Nat}
    {f f' : Logfile} (h : IsSelected log_files period i f)
    (h' : IsSelected log_files period i' f') : i = i' ∧ f = f' := by
  obtain ⟨hf, hc⟩ := h
  obtain ⟨hf', hc'⟩ := h'
  have hm : f ∈ log_files := List.getElem?_mem hf
  have hm' : f' ∈ log_files := List.getElem?_mem hf'
  have hi : i = i' := by
    rcases hc with ⟨h1, h2⟩ | ⟨h1, h2⟩ <;> rcases hc' with ⟨h1', h2'⟩ | ⟨h1', h2'⟩
    · by_contra hne
      rcases Nat.lt_or_gt_of_ne hne with hlt | hlt
      · have := h2 i' f' hlt hf'
        omega
      · have := h2' i f hlt hf
        omega
    · have := h2' f hm
      omega
    · have := h2 f' hm'
      omega
    · rw [h1, h1']
  subst hi
  rw [hf] at hf'
  simp only [Option.some.injEq] at hf'
  exact ⟨rfl, hf'⟩

/-- C20: `rewind_to_start` returns `false` exactly when there is no log file or the selected
file starts at or after `period.until`; when it returns `true`, the cursor is on the selected
file with its entries, which is the newest file that starts before `period.since`, or the
oldest file when no file starts before `period.since`. -/
theorem rewind_to_start_selects (log_files : List Logfile) (period : LogPeriod) :
    (((LogEntryForwardIterator.make log_files).rewind_to_start period).1 = false
      ↔ (log_files = []
          ∨ ∃ i f, IsSelected log_files period i f ∧ period.until ≤ f.since))
    ∧ (((LogEntryForwardIterator.make log_files).rewind_to_start period).1 = true →
        ∃ f, IsSelected log_files period
            ((LogEntryForwardIterator.make log_files).rewind_to_start period).2.it_logs_ f
          ∧ ((LogEntryForwardIterator.make log_files).rewind_to_start period).2.entries_
              = f.entries
          ∧ f.since < period.until) := by
  unfold LogEntryForwardIterator.rewind_to_start
  simp only [LogEntryForwardIterator.make]
  by_cases hne : log_files = []
  · simp [hne]
  · obtain ⟨f, hsel, his⟩ := selected_file_spec log_files period hne
    simp only [selected_file, LogEntryForwardIterator.make] at hsel
    rw [if_neg hne]
    simp only [hsel]
    by_cases hs : f.since ≥ period.until
    · rw [if_pos hs]
      exact ⟨⟨fun _ => Or.inr ⟨_, f, his, hs⟩, fun _ => rfl⟩, fun h => absurd h (by simp)⟩
    · rw [if_neg hs]
      refine ⟨⟨fun h => absurd h (by simp), ?_⟩, fun _ => ⟨f, his, rfl, by omega⟩⟩
      rintro (h | ⟨i, g, hg, hgs⟩)
      · exact absurd h hne
      · obtain ⟨_, hfg⟩ := hg.unique his
        rw [hfg] at hgs
        exact absurd hgs hs

/-- C12: when the filter rejects the new service of the entry, `insert_new_state` puts the key
on the blacklist and returns, the state table and the sink are left alone, and then
`handle_state_entry` dereferences `*state_info[key]`, a null pointer; an entry whose key is on
the blacklist is dropped: `handle_state_entry` returns with the state of the replay as it
was. -/
theorem filter_rejection_dereferences_null (query : Query) (user : User) (core : ICore)
    (entry : LogEntry) (period : LogPeriod) (r : Replay)
    (hkey : entry_key core entry false ≠ 0)
    (hbl : r.object_blacklist.contains (entry_key core entry false) = false)
    (hnew : map_find (entry_key core entry false) r.state_info = Option.none)
    (hdesc : entry.service_description ≠ "")
    (hrej : query.object_filter
        (nascent entry (core.find_host entry.host_name)
          (core.find_service entry.host_name entry.service_description))
        user query.timezoneOffset = false) :
    handle_state_entry query user core entry false period r
      = { r with object_blacklist := entry_key core entry false :: r.object_blacklist,
                 null_deref := true }
    ∧ ∀ (e : LogEntry) (r1 : Replay), entry_key core e false = entry_key core entry false →
        r1.object_blacklist.contains (entry_key core entry false) = true →
        handle_state_entry query user core e false period r1 = r1 := by
  constructor
  · unfold handle_state_entry
    simp only [if_neg hkey, hbl, Bool.false_eq_true, if_false]
    have hins : insert_if_new query user core entry period (entry_key core entry false) r
        = some (r.state_info, entry_key core entry false :: r.object_blacklist) := by
      unfold insert_if_new map_contains
      rw [hnew]
      simp only [Option.isSome_none, Bool.false_eq_true, if_false]
      unfold insert_new_state
      simp only []
      rw [if_pos ⟨hdesc, hrej⟩]
    rw [hins]
    simp only [hnew]
  · intro e r1 he hb
    unfold handle_state_entry
    simp only [he, if_neg hkey, hb, if_true]

/-- C12 at an alert of the service `h;s` whose filter rejects every service, on the empty
state of the replay: the key `2` is on the blacklist and a null pointer is dereferenced. -/
theorem filter_rejection_dereferences_null_witness :
    (handle_state_entry query_reject user_all core_hs
        { time := 150, kind := LogEntryKind.alert_service, host_name := "h",
          service_description := "s", state := 2 } false ⟨100, 200⟩ {})
      = { object_blacklist := [2], null_deref := true } :=
  (filter_rejection_dereferences_null query_reject user_all core_hs
    { time := 150, kind := LogEntryKind.alert_service, host_name := "h",
      service_description := "s", state := 2 } ⟨100, 200⟩ {}
    (by decide) (by decide) rfl (by decide) (by decide)).1

/-- C13, the abort is lost: the sink aborts at the row of the host `h` that ends at `150`
(`processDataset` returns `false` for it, the user is authorised), the row of the service
`h;s` that the cascade of the same entry emits after it clears the flag again, so the loop
does not stop but handles the alert at `160`, and `final_reports` runs and emits the final
rows; the flag is `false` at the end. -/
theorem abort_lost_in_cascade :
    (answerQuery query_abort_hosts user_all core_hs ⟨100, 200⟩ files_abort).sink.emitted.map
        (fun e => (e.key, e.row._from, e.row._until, e.offered,
          query_abort_hosts.processDataset [] e.row))
      = [(1, 100, 150, true, false), (2, 100, 150, true, true), (2, 150, 160, true, true),
         (1, 150, 199, true, false), (2, 160, 199, true, true)]
    ∧ (answerQuery query_abort_hosts user_all core_hs ⟨100, 200⟩ files_abort).sink.abort_query_
      = false :=
  ⟨by decide, by decide⟩

theorem replay_loop_aborted (query : Query) (user : User) (core : ICore) (period : LogPeriod)
    (fuel : Nat) (it : LogEntryForwardIterator) (r : Replay)
    (h : r.sink.abort_query_ = true) : replay_loop query user core period fuel it r = r := by
  cases fuel with
  | zero => rfl
  | succ n =>
    unfold replay_loop
    split
    · rfl
    · simp only [h, true_or, if_true]

/-- How the flag `abort_query_` is written and read: every call of `process` assigns it the
outcome of that call (the user is authorised and `processDataset` asked to abort); when it is
set at the time the loop has read the next entry, the loop ends without handling that entry or
any later one; and when it is set after the loop, `final_reports` is not run. -/
theorem abort_flag_is_latest_outcome (query : Query) (user : User) (core : ICore)
    (period : LogPeriod) :
    (∀ key hss sink, (process query user period key hss sink).2.abort_query_
        = (user.is_authorized_for_object hss._host hss._service false
            && !(query.processDataset sink.offered_rows (snapshot period hss))))
    ∧ (∀ fuel it r, r.sink.abort_query_ = true →
        replay_loop query user core period fuel it r = r)
    ∧ (∀ log_files, period.empty = false →
        (loop_state query user core period log_files).sink.abort_query_ = true →
        answerQuery query user core period log_files
          = loop_state query user core period log_files) := by
  refine ⟨fun key hss sink => by rw [process_eq], ?_, ?_⟩
  · exact fun fuel it r h => replay_loop_aborted query user core period fuel it r h
  · intro log_files hp h
    unfold loop_state at h ⊢
    unfold answerQuery answerQueryInternal
    simp only [hp, Bool.false_eq_true, if_false]
    split
    · rfl
    · rename_i it1 hrw
      rw [hrw] at h
      simp only [] at h
      simp only [h]
      split_ifs <;> first | rfl | (rename_i hc; exact absurd hc (by simp))

theorem SameAttributes.same_rfl (a : HostServiceState) : SameAttributes a a := by
  simp [SameAttributes]

theorem revive_same_attributes (query : Query) (user : User) (period : LogPeriod)
    (entry : LogEntry) (key : HostServiceKey) (hss : HostServiceState)
    (nps : notification_periods_t) (s s' : Sink) :
    SameAttributes (revive query user period entry key hss true nps s).1
      (revive query user period entry key hss false nps s').1 := by
  unfold revive
  split
  · simp [SameAttributes]
  · exact SameAttributes.same_rfl _

theorem update_basic_same_attributes (entry : LogEntry) {a b : HostServiceState}
    (h : SameAttributes a b) :
    SameAttributes (update_basic entry a) (update_basic entry b) := by
  simp only [SameAttributes, update_basic] at h ⊢
  simp_all

theorem update_log_output_same_attributes (entry : LogEntry) {a b : HostServiceState}
    (h : SameAttributes a b) :
    SameAttributes (update_log_output entry a) (update_log_output entry b) := by
  unfold update_log_output
  split
  · simp only [SameAttributes] at h ⊢
    simp_all
  · exact h

theorem update_timeperiod_same_attributes (query : Query) (user : User) (period : LogPeriod)
    (entry : LogEntry) (key : HostServiceKey) {a b : HostServiceState}
    (h : SameAttributes a b) (s s' : Sink) :
    SameAttributes (update_timeperiod query user period entry key a true s).1
      (update_timeperiod query user period entry key b false s').1 := by
  unfold update_timeperiod
  split
  · exact h
  · simp only [SameAttributes] at h ⊢
    obtain ⟨h1, h2, h3, h4, h5, h6, h7, h8, h9, h10, h11, h12, h13, h14, h15, h16, h17, h18,
      h19, h20, h21, h22, h23, h24⟩ := h
    simp only [h7, h8, h18, h19, h20]
    split_ifs <;> simp_all

theorem update_kind_same_attributes (query : Query) (user : User) (period : LogPeriod)
    (entry : LogEntry) (key : HostServiceKey) {a b : HostServiceState}
    (h : SameAttributes a b) (s s' : Sink) :
    (update_kind query user period entry key a true s).1
      = (update_kind query user period entry key b false s').1
    ∧ SameAttributes (update_kind query user period entry key a true s).2.1
        (update_kind query user period entry key b false s').2.1 := by
  have ht := update_timeperiod_same_attributes query user period entry key h s s'
  unfold update_kind
  simp only [SameAttributes] at h ⊢
  obtain ⟨h1, h2, h3, h4, h5, h6, h7, h8, h9, h10, h11, h12, h13, h14, h15, h16, h17, h18,
    h19, h20, h21, h22, h23, h24⟩ := h
  cases hk : entry.kind <;> simp only [h1, h5, h6, h9, h10, h11] <;>
    first
    | (simp only [SameAttributes] at ht; exact ⟨trivial, ht⟩)
    | (split_ifs <;> simp_all)
    | simp_all

/-- In the warm-up `updateHostServiceState` gives the same result and the same object as in
the emission phase, up to the members `process` writes. -/
theorem updateHostServiceState_same_attributes (query : Query) (user : User)
    (period : LogPeriod) (entry : LogEntry) (key : HostServiceKey) (hss : HostServiceState)
    (nps : notification_periods_t) (s s' : Sink) :
    (updateHostServiceState query user period entry key hss true nps s).1
      = (updateHostServiceState query user period entry key hss false nps s').1
    ∧ SameAttributes (updateHostServiceState query user period entry key hss true nps s).2.1
        (updateHostServiceState query user period entry key hss false nps s').2.1 := by
  unfold updateHostServiceState
  simp only []
  obtain ⟨k1, k2⟩ := update_kind_same_attributes query user period entry key
    (update_basic_same_attributes entry
      (revive_same_attributes query user period entry key hss nps s s'))
    (revive query user period entry key hss true nps s).2
    (revive query user period entry key hss false nps s').2
  exact ⟨k1, update_log_output_same_attributes entry k2⟩

theorem FromKept.kept_rfl (m : state_info_t) : FromKept m m :=
  fun _ h hh => ⟨h, hh, rfl⟩

theorem FromKept.kept_trans {a b c : state_info_t} (h1 : FromKept a b) (h2 : FromKept b c) :
    FromKept a c := by
  intro k h hh
  obtain ⟨x, hx, ex⟩ := h1 k h hh
  obtain ⟨y, hy, ey⟩ := h2 k x hx
  exact ⟨y, hy, ey.trans ex⟩

theorem FromKept.kept_modify (m : state_info_t) (k : HostServiceKey)
    (f : HostServiceState → HostServiceState) (hf : ∀ h, map_find k m = some h →
      (f h)._from = h._from) : FromKept m (map_modify k f m) := by
  intro k' h hh
  rw [map_find_map_modify]
  split_ifs with hk
  · subst hk
    rw [hh]
    exact ⟨f h, rfl, hf h hh⟩
  · exact ⟨h, hh, rfl⟩

theorem update_services_warm_up (query : Query) (user : User) (period : LogPeriod)
    (entry : LogEntry) (nps : notification_periods_t) :
    ∀ (L : List HostServiceKey) (m : state_info_t) (s : Sink),
      (update_services query user period entry true nps L m s).2 = s
      ∧ FromKept m (update_services query user period entry true nps L m s).1 := by
  intro L
  induction L with
  | nil => intro m s; exact ⟨rfl, FromKept.kept_rfl m⟩
  | cons svc svcs ih =>
    intro m s
    unfold update_services
    cases hf : map_find svc m with
    | none => exact ih m s
    | some Z =>
      simp only []
      rw [updateHostServiceState_only_update]
      obtain ⟨i1, i2⟩ := ih (map_modify svc (fun _ =>
        (updateHostServiceState query user period entry svc Z true nps s).2.1) m) s
      refine ⟨i1, FromKept.kept_trans (FromKept.kept_modify m svc _ (fun h hh => ?_)) i2⟩
      rw [hf] at hh
      simp only [Option.some.injEq] at hh
      rw [← hh]
      exact updateHostServiceState_from_only_update query user period entry svc Z nps s

theorem update_warm_up (query : Query) (user : User) (period : LogPeriod)
    (entry : LogEntry) (key : HostServiceKey) (state : HostServiceState)
    (nps : notification_periods_t) (m : state_info_t) (s : Sink)
    (hf : map_find key m = some state) :
    (update query user period entry key state true nps m s).2 = s
    ∧ FromKept m (update query user period entry key state true nps m s).1 := by
  have h1 : FromKept m (map_modify key (fun _ =>
      (updateHostServiceState query user period entry key state true nps s).2.1) m) :=
    FromKept.kept_modify m key _ (fun h hh => by
      rw [hf] at hh
      simp only [Option.some.injEq] at hh
      rw [← hh]
      exact updateHostServiceState_from_only_update query user period entry key state nps s)
  unfold update
  simp only []
  rw [updateHostServiceState_only_update]
  split_ifs
  · obtain ⟨i1, i2⟩ := update_services_warm_up query user period entry nps
      (updateHostServiceState query user period entry key state true nps s).2.1._services
      (map_modify key (fun _ =>
        (updateHostServiceState query user period entry key state true nps s).2.1) m) s
    exact ⟨i1, h1.kept_trans i2⟩
  · exact ⟨rfl, h1⟩

theorem for_each_state_warm_up
    (f : HostServiceKey → HostServiceState → Sink → HostServiceState × Sink)
    (hf : ∀ k h s, (f k h s).2 = s ∧ (f k h s).1._from = h._from) :
    ∀ (m : state_info_t) (s : Sink),
      (for_each_state f m s).2 = s ∧ FromKept m (for_each_state f m s).1 := by
  intro m
  induction m with
  | nil => intro s; exact ⟨rfl, FromKept.kept_rfl _⟩
  | cons x m ih =>
    intro s
    obtain ⟨k, h⟩ := x
    unfold for_each_state
    simp only []
    rw [(hf k h s).1]
    obtain ⟨i1, i2⟩ := ih s
    refine ⟨i1, ?_⟩
    intro k' h' hh
    simp only [map_find] at hh ⊢
    split_ifs at hh ⊢ with hk
    · simp only [Option.some.injEq] at hh
      rw [← hh]
      exact ⟨_, rfl, (hf k h s).2⟩
    · exact i2 k' h' hh

theorem link_services_from_kept {state state1 : HostServiceState} {key : HostServiceKey}
    {m m1 : state_info_t} (h : link_services state key m = some (state1, m1)) :
    FromKept m m1 := by
  unfold link_services at h
  split_ifs at h
  · cases hc : collect_services state m with
    | none => simp [hc] at h
    | some l =>
      simp only [hc, Option.map_some', Option.some.injEq, Prod.mk.injEq] at h
      rw [← h.2]
      exact FromKept.kept_rfl m
  · cases hc : host_handle state with
    | none => simp [hc] at h
    | some kk =>
      simp only [hc, Option.map_some', Option.some.injEq, Prod.mk.injEq] at h
      rw [← h.2]
      exact FromKept.kept_modify m kk _ (fun _ _ => rfl)

theorem insert_new_state_from_kept {query : Query} {user : User} {period : LogPeriod}
    {entry : LogEntry} {ou : Bool} {nps : notification_periods_t}
    {m m' : state_info_t} {bl bl' : object_blacklist_t}
    {eh : Option IHost} {es : Option IService} {key : HostServiceKey}
    (hkm : map_find key m = Option.none)
    (h : insert_new_state query user entry ou nps m bl period eh es key = some (m', bl')) :
    FromKept m m' := by
  intro k X hX
  unfold insert_new_state at h
  simp only [] at h
  split_ifs at h with hf
  · simp only [Option.some.injEq, Prod.mk.injEq] at h
    rw [← h.1]
    exact ⟨X, hX, rfl⟩
  · split at h
    · exact absurd h (by simp)
    · rename_i state1 m1 hl1
      split at h
      · exact absurd h (by simp)
      · rename_i state3 hinh
        simp only [Option.some.injEq, Prod.mk.injEq] at h
        rw [← h.1]
        have hne : key ≠ k := fun hc => by rw [hc, hX] at hkm; exact absurd hkm (by simp)
        rw [map_find_map_set_ne key_lt _ hne]
        exact link_services_from_kept hl1 k X hX

theorem handle_state_entry_warm_up (query : Query) (user : User) (core : ICore)
    (entry : LogEntry) (is_host_entry : Bool) (period : LogPeriod) (r : Replay)
    (hou : r.only_update = true) :
    (handle_state_entry query user core entry is_host_entry period r).sink = r.sink
    ∧ FromKept r.state_info
        (handle_state_entry query user core entry is_host_entry period r).state_info := by
  unfold handle_state_entry
  simp only []
  generalize entry_key core entry is_host_entry = key
  split
  · exact ⟨rfl, FromKept.kept_rfl _⟩
  · split
    · exact ⟨rfl, FromKept.kept_rfl _⟩
    · split
      · exact ⟨rfl, FromKept.kept_rfl _⟩
      · rename_i m1 bl1 hins
        have hm1 : FromKept r.state_info m1 := by
          unfold insert_if_new at hins
          split at hins
          · simp only [Option.some.injEq, Prod.mk.injEq] at hins
            rw [← hins.1]
            exact FromKept.kept_rfl _
          · rename_i hc
            have hkm : map_find key r.state_info = Option.none := by
              unfold map_contains at hc
              cases hf : map_find key r.state_info with
              | none => rfl
              | some x => rw [hf] at hc; exact absurd rfl hc
            exact insert_new_state_from_kept hkm hins
        split
        · exact ⟨rfl, hm1⟩
        · rename_i state hfind
          simp only [hou]
          obtain ⟨u1, u2⟩ := update_warm_up query user period entry key state
            r.notification_periods m1 r.sink hfind
          exact ⟨u1, hm1.kept_trans u2⟩

theorem handle_timeperiod_transition_warm_up (query : Query) (user : User)
    (period : LogPeriod) (entry : LogEntry) (r : Replay) (hou : r.only_update = true) :
    (handle_timeperiod_transition query user period entry r).sink = r.sink
    ∧ FromKept r.state_info
        (handle_timeperiod_transition query user period entry r).state_info := by
  unfold handle_timeperiod_transition
  split
  · exact ⟨rfl, FromKept.kept_rfl _⟩
  · rename_i tpt _
    simp only [hou]
    exact for_each_state_warm_up _ (fun k h s =>
      ⟨updateHostServiceState_only_update query user period entry k h _ s,
       updateHostServiceState_from_only_update query user period entry k h _ s⟩) _ _

/-- C11: while `only_update` is set, `handle_state_entry` and `handle_timeperiod_transition`
leave the sink as it is (no call of `process`: no row, no change of the abort flag) and every
object of the state table keeps its `_from`; and `updateHostServiceState` still gives the
result and writes the members, other than those `process` writes, as it does in the emission
phase. -/
theorem warm_up_emits_nothing (query : Query) (user : User) (core : ICore)
    (period : LogPeriod) (entry : LogEntry) (r : Replay) (hou : r.only_update = true) :
    (∀ is_host_entry,
      (handle_state_entry query user core entry is_host_entry period r).sink = r.sink
      ∧ FromKept r.state_info
          (handle_state_entry query user core entry is_host_entry period r).state_info)
    ∧ ((handle_timeperiod_transition query user period entry r).sink = r.sink
      ∧ FromKept r.state_info
          (handle_timeperiod_transition query user period entry r).state_info)
    ∧ ∀ key hss nps s s',
      (updateHostServiceState query user period entry key hss true nps s).2.2 = s
      ∧ (updateHostServiceState query user period entry key hss true nps s).1
          = (updateHostServiceState query user period entry key hss false nps s').1
      ∧ SameAttributes (updateHostServiceState query user period entry key hss true nps s).2.1
          (updateHostServiceState query user period entry key hss false nps s').2.1 :=
  ⟨fun b => handle_state_entry_warm_up query user core entry b period r hou,
   handle_timeperiod_transition_warm_up query user period entry r hou,
   fun key hss nps s s' =>
     ⟨updateHostServiceState_only_update query user period entry key hss nps s,
      updateHostServiceState_same_attributes query user period entry key hss nps s s'⟩⟩

/-- The object `insert_new_state` stores for an accepted new key: it starts at `period.since`
and is stamped unmonitored exactly in the emission phase more than ten minutes after
`period.since`. -/
theorem insert_new_state_stored {query : Query} {user : User} {period : LogPeriod}
    {entry : LogEntry} {ou : Bool} {nps : notification_periods_t}
    {m m' : state_info_t} {bl bl' : object_blacklist_t}
    {eh : Option IHost} {es : Option IService} {key : HostServiceKey}
    (hacc : ¬ (entry.service_description ≠ ""
      ∧ query.object_filter (nascent entry eh es) user query.timezoneOffset = false))
    (h : insert_new_state query user entry ou nps m bl period eh es key = some (m', bl')) :
    ∃ X0, map_find key m' = some X0 ∧ X0._from = period.since ∧ X0._has_vanished = false
      ∧ X0._is_host = decide (entry.service_description = "")
      ∧ X0._host = eh ∧ X0._service = es
      ∧ (∀ z ∈ X0._services, z ∈ keys m)
      ∧ X0._state = (if ou = false ∧ entry.time - period.since > 600 then -1
          else (nascent entry eh es)._state)
      ∧ X0._debug_info = (if ou = false ∧ entry.time - period.since > 600 then "UNMONITORED "
          else (nascent entry eh es)._debug_info) := by
  unfold insert_new_state at h
  simp only [] at h
  rw [if_neg hacc] at h
  split at h
  · exact absurd h (by simp)
  · rename_i state1 m1 hl1
    split at h
    · exact absurd h (by simp)
    · rename_i state3 hinh
      simp only [Option.some.injEq, Prod.mk.injEq] at h
      rw [← h.1]
      -- the object after the relations of host and service
      have h1 : state1._is_host = decide (entry.service_description = "")
          ∧ state1._host = eh ∧ state1._service = es ∧ state1._state = (nascent entry eh es)._state
          ∧ state1._debug_info = (nascent entry eh es)._debug_info
          ∧ state1._has_vanished = false ∧ ∀ z ∈ state1._services, z ∈ keys m := by
        unfold link_services at hl1
        split_ifs at hl1 with hih
        · cases hc : collect_services (nascent entry eh es) m with
          | none => simp [hc] at hl1
          | some l =>
            simp only [hc, Option.map_some', Option.some.injEq, Prod.mk.injEq] at hl1
            rw [← hl1.1]
            refine ⟨rfl, rfl, rfl, rfl, rfl, rfl, ?_⟩
            intro z hz
            simp only [nascent, List.nil_append] at hz
            cases hh : host_handle (nascent entry eh es) with
            | none =>
              -- without a host handle the list is empty
              have : ∀ (mm : state_info_t) (ll : List HostServiceKey),
                  collect_services (nascent entry eh es) mm = some ll → ll = [] := by
                intro mm
                induction mm with
                | nil => intro ll hll; simpa [collect_services] using hll.symm
                | cons x mm ih =>
                  intro ll hll
                  obtain ⟨k', v⟩ := x
                  unfold collect_services at hll
                  split at hll
                  · exact ih ll hll
                  · rw [hh] at hll
                    simp at hll
              rw [this m l hc] at hz
              simp at hz
            | some k =>
              obtain ⟨l', hl', hsub, _⟩ := collect_services_spec (nascent entry eh es) k hh m
              rw [hc] at hl'
              simp only [Option.some.injEq] at hl'
              subst hl'
              exact hsub.subset hz
        · cases hc : host_handle (nascent entry eh es) with
          | none => simp [hc] at hl1
          | some kk =>
            simp only [hc, Option.map_some', Option.some.injEq, Prod.mk.injEq] at hl1
            rw [← hl1.1]
            exact ⟨rfl, rfl, rfl, rfl, rfl, rfl, fun z hz => by simp [nascent] at hz⟩
      have h3 : state3._from = period.since ∧ state3._is_host = state1._is_host
          ∧ state3._host = state1._host ∧ state3._service = state1._service
          ∧ state3._state = state1._state ∧ state3._debug_info = state1._debug_info
          ∧ state3._has_vanished = state1._has_vanished
          ∧ state3._services = state1._services := by
        unfold inherit_host at hinh
        split_ifs at hinh
        · simp only [Option.some.injEq] at hinh
          rw [← hinh]
          exact ⟨rfl, rfl, rfl, rfl, rfl, rfl, rfl, rfl⟩
        · cases hc : host_handle (init_periods period nps state1) with
          | none => simp [hc] at hinh
          | some k =>
            simp only [hc, Option.map_some', Option.some.injEq] at hinh
            rw [← hinh]
            split <;> exact ⟨rfl, rfl, rfl, rfl, rfl, rfl, rfl, rfl⟩
      refine ⟨_, map_find_map_set_eq key_lt key _ m1, ?_⟩
      obtain ⟨a1, a2, a3, a4, a5, a6, a7⟩ := h1
      obtain ⟨b1, b2, b3, b4, b5, b6, b7, b8⟩ := h3
      unfold stamp_unmonitored
      split_ifs with hc
      · exact ⟨b1, b7.trans a6, b2.trans a1, b3.trans a2, b4.trans a3,
          fun z hz => a7 z (b8 ▸ hz), rfl, rfl⟩
      · exact ⟨b1, b7.trans a6, b2.trans a1, b3.trans a2, b4.trans a3,
          fun z hz => a7 z (b8 ▸ hz), b5.trans a4, b6.trans a5⟩

/-- The rows of `updateHostServiceState` for a state or an alert, on an object that has not
vanished (a host for the kinds of hosts): one row that ends at the entry when the state
changes in the emission phase, else none. -/
theorem updateHostServiceState_state_rows (query : Query) (user : User) (period : LogPeriod)
    (entry : LogEntry) (key : HostServiceKey) (X : HostServiceState) (ou : Bool)
    (nps : notification_periods_t) (s : Sink) (hv : X._has_vanished = false)
    (hk : (entry.kind = LogEntryKind.state_service
        ∨ entry.kind = LogEntryKind.state_service_initial
        ∨ entry.kind = LogEntryKind.alert_service)
      ∨ (X._is_host = true ∧ (entry.kind = LogEntryKind.state_host
        ∨ entry.kind = LogEntryKind.state_host_initial
        ∨ entry.kind = LogEntryKind.alert_host))) :
    (updateHostServiceState query user period entry key X ou nps s).2.2.emitted
      = s.emitted ++ (if ou = false ∧ X._state ≠ entry.state then
          [{ key := key, row := snapshot period (update_basic entry X),
             offered := user.is_authorized_for_object X._host X._service false }]
        else [])
    ∧ (updateHostServiceState query user period entry key X ou nps s).2.1._state = entry.state
    ∧ (updateHostServiceState query user period entry key X ou nps s).2.1._from
      = (if ou = false ∧ X._state ≠ entry.state then entry.time else X._from) := by
  have hr : revive query user period entry key X ou nps s = (X, s) := by
    unfold revive
    rw [if_neg (fun hc => by rw [hv] at hc; exact absurd hc.2 (by simp))]
  unfold updateHostServiceState
  simp only [hr]
  have hlo : ∀ Y : HostServiceState, (update_log_output entry Y)._state = Y._state
      ∧ (update_log_output entry Y)._from = Y._from := by
    intro Y; unfold update_log_output; split <;> exact ⟨rfl, rfl⟩
  rw [(hlo _).1, (hlo _).2]
  unfold update_kind emit
  rcases hk with (hk | hk | hk) | ⟨hih, (hk | hk | hk)⟩ <;> rw [hk] <;> simp only [] <;>
    cases ou <;> simp only [process_eq] <;>
    by_cases hs : X._state = entry.state <;>
    first
    | simp [update_basic, hs, hih, snapshot, HostServiceState.computePerStateDurations]
    | simp [update_basic, hs, snapshot, HostServiceState.computePerStateDurations]

theorem update_services_grows_keys (query : Query) (user : User) (period : LogPeriod)
    (entry : LogEntry) (ou : Bool) (nps : notification_periods_t) :
    ∀ (L : List HostServiceKey) (m : state_info_t) (s : Sink),
      Grows (fun em => em.key ∈ L) s
        (update_services query user period entry ou nps L m s).2 := by
  intro L
  induction L with
  | nil => intro m s; exact Grows.grows_rfl _
  | cons svc svcs ih =>
    intro m s
    unfold update_services
    cases hf : map_find svc m with
    | none => exact (ih m s).grows_mono (fun e he => List.mem_cons_of_mem _ he)
    | some Z =>
      simp only []
      exact ((updateHostServiceState_rows query user period entry svc Z ou nps s).grows_mono
        (fun e he => he.1 ▸ List.mem_cons_self _ _)).grows_trans
        ((ih _ _).grows_mono (fun e he => List.mem_cons_of_mem _ he))

theorem not_mem_keys_of_map_find_none {m : state_info_t} {k : HostServiceKey}
    (h : map_find k m = Option.none) : k ∉ keys m := by
  intro hk
  have := contains_of_mem_keys hk
  unfold map_contains at this
  rw [h] at this
  exact absurd this (by simp)

/-- C17: for a key that is new, not on the blacklist and accepted, `insert_new_state` stores
an object that starts at `period.since`; in the emission phase more than ten minutes
(`600` seconds) after `period.since` the object is stamped with the state `-1` and
`"UNMONITORED "`, otherwise (exactly ten minutes included, and in the warm-up) state and
debug information keep their initial values. The state or alert that brought the object then
emits, in the emission phase and when its state differs from the state of the object, the row
of the object from `period.since` to the time of the entry with the state of the object; the
other rows of the entry belong to other objects (the services of a host). -/
theorem new_object_unmonitored_stamp (query : Query) (user : User) (core : ICore)
    (entry : LogEntry) (is_host_entry : Bool) (period : LogPeriod) (r : Replay)
    (hkey : entry_key core entry is_host_entry ≠ 0)
    (hbl : r.object_blacklist.contains (entry_key core entry is_host_entry) = false)
    (hnew : map_find (entry_key core entry is_host_entry) r.state_info = Option.none)
    (hnd : (handle_state_entry query user core entry is_host_entry period r).null_deref
      = false)
    (hk : (is_host_entry = false ∧ (entry.kind = LogEntryKind.state_service
          ∨ entry.kind = LogEntryKind.state_service_initial
          ∨ entry.kind = LogEntryKind.alert_service))
      ∨ (is_host_entry = true ∧ entry.service_description = ""
        ∧ (entry.kind = LogEntryKind.state_host
          ∨ entry.kind = LogEntryKind.state_host_initial
          ∨ entry.kind = LogEntryKind.alert_host))) :
    ∃ m1 bl1 X0 rest,
      insert_new_state query user entry r.only_update r.notification_periods r.state_info
          r.object_blacklist period (core.find_host entry.host_name)
          (core.find_service entry.host_name entry.service_description)
          (entry_key core entry is_host_entry) = some (m1, bl1)
      ∧ map_find (entry_key core entry is_host_entry) m1 = some X0
      ∧ X0._from = period.since
      ∧ X0._state = (if r.only_update = false ∧ entry.time - period.since > 600 then -1
          else (nascent entry (core.find_host entry.host_name)
            (core.find_service entry.host_name entry.service_description))._state)
      ∧ X0._debug_info
          = (if r.only_update = false ∧ entry.time - period.since > 600 then "UNMONITORED "
            else (nascent entry (core.find_host entry.host_name)
              (core.find_service entry.host_name entry.service_description))._debug_info)
      ∧ (handle_state_entry query user core entry is_host_entry period r).sink.emitted
          = r.sink.emitted
            ++ (if r.only_update = false ∧ X0._state ≠ entry.state then
                [{ key := entry_key core entry is_host_entry,
                   row := snapshot period (update_basic entry X0),
                   offered := user.is_authorized_for_object X0._host X0._service false }]
              else [])
            ++ rest
      ∧ (snapshot period (update_basic entry X0))._from = period.since
      ∧ (snapshot period (update_basic entry X0))._until = entry.time
      ∧ (snapshot period (update_basic entry X0))._duration = entry.time - period.since
      ∧ (snapshot period (update_basic entry X0))._state = X0._state
      ∧ (snapshot period (update_basic entry X0))._debug_info = X0._debug_info
      ∧ (∀ e ∈ rest, e.key ≠ entry_key core entry is_host_entry)
      ∧ (is_host_entry = false → rest = []) := by
  generalize hkeq : entry_key core entry is_host_entry = key at *
  unfold handle_state_entry at hnd ⊢
  simp only [hkeq, if_neg hkey, hbl, Bool.false_eq_true, if_false] at hnd ⊢
  have hins : insert_if_new query user core entry period key r
      = insert_new_state query user entry r.only_update r.notification_periods r.state_info
          r.object_blacklist period (core.find_host entry.host_name)
          (core.find_service entry.host_name entry.service_description) key := by
    unfold insert_if_new map_contains
    rw [hnew]
    simp
  rw [hins] at hnd ⊢
  cases hi : insert_new_state query user entry r.only_update r.notification_periods
      r.state_info r.object_blacklist period (core.find_host entry.host_name)
      (core.find_service entry.host_name entry.service_description) key with
  | none => rw [hi] at hnd; simp at hnd
  | some p =>
    obtain ⟨m1, bl1⟩ := p
    rw [hi] at hnd
    simp only [] at hnd ⊢
    have hacc : ¬ (entry.service_description ≠ ""
        ∧ query.object_filter (nascent entry (core.find_host entry.host_name)
            (core.find_service entry.host_name entry.service_description)) user
          query.timezoneOffset = false) := by
      intro hc
      have hi2 := hi
      unfold insert_new_state at hi2
      simp only [] at hi2
      rw [if_pos hc] at hi2
      simp only [Option.some.injEq, Prod.mk.injEq] at hi2
      rw [← hi2.1, hnew] at hnd
      simp at hnd
    obtain ⟨X0, hX0, hfrom, hvan, hish, hhost, hsvc, hsvcs, hst, hdbg⟩ :=
      insert_new_state_stored hacc hi
    rw [hX0]
    simp only []
    have hkk : (entry.kind = LogEntryKind.state_service
          ∨ entry.kind = LogEntryKind.state_service_initial
          ∨ entry.kind = LogEntryKind.alert_service)
        ∨ (X0._is_host = true ∧ (entry.kind = LogEntryKind.state_host
          ∨ entry.kind = LogEntryKind.state_host_initial
          ∨ entry.kind = LogEntryKind.alert_host)) := by
      rcases hk with ⟨_, h⟩ | ⟨_, hd, h⟩
      · exact Or.inl h
      · exact Or.inr ⟨by rw [hish, hd]; rfl, h⟩
    obtain ⟨hrows, _, _⟩ := updateHostServiceState_state_rows query user period entry key X0
      r.only_update r.notification_periods r.sink hvan hkk
    have hsv : (updateHostServiceState query user period entry key X0 r.only_update
        r.notification_periods r.sink).2.1._services = X0._services :=
      (updateHostServiceState_emits query user period entry key X0 r.only_update
        r.notification_periods r.sink).2.services_eq
    have hfin : ∃ rest,
        (update query user period entry key X0 r.only_update r.notification_periods m1
          r.sink).2.emitted
        = r.sink.emitted
            ++ (if r.only_update = false ∧ X0._state ≠ entry.state then
                [{ key := key, row := snapshot period (update_basic entry X0),
                   offered := user.is_authorized_for_object X0._host X0._service false }]
              else [])
            ++ rest
        ∧ (∀ e ∈ rest, e.key ≠ key) ∧ (is_host_entry = false → rest = []) := by
      unfold update
      simp only []
      by_cases hc : (entry.kind = LogEntryKind.alert_host ∨ entry.kind = LogEntryKind.state_host
          ∨ entry.kind = LogEntryKind.downtime_alert_host)
          ∧ (updateHostServiceState query user period entry key X0 r.only_update
              r.notification_periods r.sink).1 = ModificationStatus.changed
      · rw [if_pos hc]
        obtain ⟨news, hn1, hn2⟩ := update_services_grows_keys query user period entry
          r.only_update r.notification_periods
          (updateHostServiceState query user period entry key X0 r.only_update
            r.notification_periods r.sink).2.1._services
          (map_modify key (fun _ => (updateHostServiceState query user period entry key X0
            r.only_update r.notification_periods r.sink).2.1) m1)
          (updateHostServiceState query user period entry key X0 r.only_update
            r.notification_periods r.sink).2.2
        refine ⟨news, by rw [hn1, hrows], ?_, ?_⟩
        · intro e he hek
          have h1 := hn2 e he
          rw [hsv] at h1
          exact not_mem_keys_of_map_find_none hnew (hek ▸ hsvcs _ h1)
        · intro hb
          rcases hk with ⟨_, h⟩ | ⟨h, _⟩
          · rcases hc.1 with h1 | h1 | h1 <;> rcases h with h2 | h2 | h2 <;>
              (rw [h1] at h2; exact absurd h2 (by decide))
          · rw [hb] at h; exact absurd h (by simp)
      · rw [if_neg hc]
        exact ⟨[], by rw [hrows, List.append_nil], fun e he => by simp at he, fun _ => rfl⟩
    obtain ⟨rest, hr1, hr2, hr3⟩ := hfin
    exact ⟨m1, bl1, X0, rest, rfl, hX0, hfrom, hst, hdbg, hr1,
      by simp [snapshot, HostServiceState.computePerStateDurations, update_basic, hfrom],
      rfl, by simp [snapshot, HostServiceState.computePerStateDurations, update_basic, hfrom],
      rfl, rfl, hr2, hr3⟩

/-- C11 at an alert of the tracked service `h;s` in the warm-up: the sink stays as it is, the
object keeps its `_from` and gets the state of the alert. -/
theorem warm_up_emits_nothing_witness :
    replay_warm_up.only_update = true
    ∧ (handle_state_entry query_all user_all core_hs (alert_at 50) false ⟨100, 200⟩
        replay_warm_up).sink = replay_warm_up.sink
    ∧ replay_warm_up.state_info.map (fun kh => (kh.1, kh.2._from, kh.2._state)) = [(2, 100, 0)]
    ∧ (handle_state_entry query_all user_all core_hs (alert_at 50) false ⟨100, 200⟩
        replay_warm_up).state_info.map (fun kh => (kh.1, kh.2._from, kh.2._state))
      = [(2, 100, 2)] :=
  ⟨by decide,
   ((warm_up_emits_nothing query_all user_all core_hs ⟨100, 200⟩ (alert_at 50) replay_warm_up
      (by decide)).1 false).1,
   by decide, by decide⟩

/-- C17 at the first alert of the service `h;s`, `700` seconds after the start of the period
`[100, 2000)`: the object is stamped and the alert emits the row `[100, 800)` with the state
`-1`; at `700`, exactly ten minutes after the start, the object is not stamped and the row
has the initial state. -/
theorem new_object_unmonitored_stamp_witness :
    (∃ m1 bl1 X0 rest,
      insert_new_state query_all user_all (alert_at 800) replay_in_period.only_update
          replay_in_period.notification_periods replay_in_period.state_info
          replay_in_period.object_blacklist ⟨100, 2000⟩ (core_hs.find_host "h")
          (core_hs.find_service "h" "s") 2 = some (m1, bl1)
      ∧ map_find 2 m1 = some X0 ∧ X0._state = -1 ∧ X0._debug_info = "UNMONITORED "
      ∧ (handle_state_entry query_all user_all core_hs (alert_at 800) false ⟨100, 2000⟩
          replay_in_period).sink.emitted
        = replay_in_period.sink.emitted
          ++ [{ key := 2, row := snapshot ⟨100, 2000⟩ (update_basic (alert_at 800) X0),
                offered := true }] ++ rest
      ∧ rest = [])
    ∧ (handle_state_entry query_all user_all core_hs (alert_at 800) false ⟨100, 2000⟩
        replay_in_period).sink.emitted.map
        (fun e => (e.key, e.row._from, e.row._until, e.row._state, e.row._debug_info))
      = [(2, 100, 800, -1, "UNMONITORED ")]
    ∧ (handle_state_entry query_all user_all core_hs (alert_at 700) false ⟨100, 2000⟩
        replay_in_period).sink.emitted.map
        (fun e => (e.key, e.row._from, e.row._until, e.row._state, e.row._debug_info))
      = [(2, 100, 700, 0, "")] := by
  refine ⟨?_, by decide, by decide⟩
  obtain ⟨m1, bl1, X0, rest, h1, h2, _, h4, h5, h6, _, _, _, _, _, _, h8⟩ :=
    new_object_unmonitored_stamp query_all user_all core_hs (alert_at 800) false ⟨100, 2000⟩
      replay_in_period (by decide) (by decide) rfl (by decide)
      (Or.inl ⟨rfl, Or.inr (Or.inr rfl)⟩)
  have e4 : X0._state = -1 := by rw [h4]; decide
  have e5 : X0._debug_info = "UNMONITORED " := by rw [h5]; decide
  refine ⟨m1, bl1, X0, rest, h1, h2, e4, e5, ?_, h8 rfl⟩
  rw [h6, e4]
  rfl

/-- The rows of `updateHostServiceState` in the emission phase for a state or an alert, on an
object that has vanished (a host for the kinds of hosts): the row of the object up to its
last known time, then the row from there to the entry with the state `-1` and
`"UNMONITORED"`; the object goes on from the time of the entry with the state of the entry,
neither vanished nor flagged. -/
theorem updateHostServiceState_revive_rows (query : Query) (user : User) (period : LogPeriod)
    (entry : LogEntry) (key : HostServiceKey) (X : HostServiceState)
    (nps : notification_periods_t) (s : Sink) (hv : X._has_vanished = true)
    (hs : entry.state ≠ -1)
    (hk : (entry.kind = LogEntryKind.state_service
        ∨ entry.kind = LogEntryKind.state_service_initial
        ∨ entry.kind = LogEntryKind.alert_service)
      ∨ (X._is_host = true ∧ (entry.kind = LogEntryKind.state_host
        ∨ entry.kind = LogEntryKind.state_host_initial
        ∨ entry.kind = LogEntryKind.alert_host))) :
    ∃ row2 : HostServiceState,
      (updateHostServiceState query user period entry key X false nps s).2.2.emitted
        = s.emitted
          ++ [{ key := key, row := snapshot period (frozen X),
                offered := user.is_authorized_for_object X._host X._service false },
              { key := key, row := row2,
                offered := user.is_authorized_for_object X._host X._service false }]
      ∧ row2._from = X._last_known_time ∧ row2._until = entry.time ∧ row2._state = -1
      ∧ row2._debug_info = "UNMONITORED"
      ∧ (updateHostServiceState query user period entry key X false nps s).1
          = ModificationStatus.changed
      ∧ (updateHostServiceState query user period entry key X false nps s).2.1._from
          = entry.time
      ∧ (updateHostServiceState query user period entry key X false nps s).2.1._state
          = entry.state
      ∧ (updateHostServiceState query user period entry key X false nps s).2.1._has_vanished
          = false
      ∧ (updateHostServiceState query user period
          entry key X false nps s).2.1._may_no_longer_exist = false := by
  have hne : (-1 : Int) ≠ entry.state := fun h => hs h.symm
  have hlo : ∀ Y : HostServiceState, (update_log_output entry Y)._state = Y._state
      ∧ (update_log_output entry Y)._from = Y._from
      ∧ (update_log_output entry Y)._has_vanished = Y._has_vanished
      ∧ (update_log_output entry Y)._may_no_longer_exist = Y._may_no_longer_exist := by
    intro Y; unfold update_log_output; split <;> exact ⟨rfl, rfl, rfl, rfl⟩
  unfold updateHostServiceState
  simp only []
  rw [(hlo _).1, (hlo _).2.1, (hlo _).2.2.1, (hlo _).2.2.2]
  rcases hk with (hk | hk | hk) | ⟨hih, (hk | hk | hk)⟩ <;>
    simp [revive, hv, hk, update_kind, update_basic, emit, process_eq, hne, frozen, snapshot,
      HostServiceState.computePerStateDurations] <;>
    simp [hih]

theorem map_find_map_values (F : HostServiceKey × HostServiceState →
      HostServiceKey × HostServiceState) (hF : ∀ kh, (F kh).1 = kh.1) (k : HostServiceKey) :
    ∀ m : state_info_t,
      map_find k (m.map F) = (map_find k m).map (fun h => (F (k, h)).2) := by
  intro m
  induction m with
  | nil => rfl
  | cons x m ih =>
    obtain ⟨k', v⟩ := x
    have h1 := hF (k', v)
    rw [List.map_cons]
    generalize hy : F (k', v) = y at h1
    obtain ⟨k2, v2⟩ := y
    simp only at h1
    subst h1
    simp only [map_find]
    split_ifs with hk
    · subst hk
      simp only [Option.map_some', hy]
    · exact ih

theorem set_unknown_to_unmonitored_find (b : Bool) (m : state_info_t) (k : HostServiceKey) :
    map_find k (set_unknown_to_unmonitored b m)
      = (map_find k m).map (fun h =>
          if b = true ∧ h._may_no_longer_exist = true then { h with _has_vanished := true }
          else h) := by
  unfold set_unknown_to_unmonitored
  split
  · rename_i hb
    rw [map_find_map_values _ (fun kh => by split <;> rfl)]
    congr 1
    funext h
    simp only [hb, true_and]
    split <;> rfl
  · rename_i hb
    cases hf : map_find k m <;> simp [hb]

theorem handle_log_initial_states_find (entry : LogEntry) (m : state_info_t)
    (k : HostServiceKey) :
    map_find k (handle_log_initial_states entry m)
      = (map_find k m).map (fun h =>
          if h._has_vanished = false then
            { h with _last_known_time := entry.time, _may_no_longer_exist := true }
          else h) := by
  unfold handle_log_initial_states
  rw [map_find_map_values _ (fun kh => by split <;> rfl)]
  congr 1
  funext h
  split <;> rfl

theorem start_of_timeframe_emission (period : LogPeriod) (entry : LogEntry) (r : Replay)
    (hou : r.only_update = false) : start_of_timeframe period entry r = r := by
  unfold start_of_timeframe
  rw [if_neg (fun hc => by rw [hou] at hc; exact absurd hc.1 (by simp))]

/-- The method `handle_state_entry` for an object of the state table: `update` on it. -/
theorem handle_state_entry_tracked (query : Query) (user : User) (core : ICore)
    (entry : LogEntry) (is_host_entry : Bool) (period : LogPeriod) (r : Replay)
    (X : HostServiceState)
    (hk0 : entry_key core entry is_host_entry ≠ 0)
    (hbl : r.object_blacklist.contains (entry_key core entry is_host_entry) = false)
    (hX : map_find (entry_key core entry is_host_entry) r.state_info = some X) :
    handle_state_entry query user core entry is_host_entry period r
      = { r with
          state_info := (update query user period entry (entry_key core entry is_host_entry)
            X r.only_update r.notification_periods r.state_info r.sink).1,
          sink := (update query user period entry (entry_key core entry is_host_entry)
            X r.only_update r.notification_periods r.state_info r.sink).2 } := by
  unfold handle_state_entry
  simp only [if_neg hk0, hbl, Bool.false_eq_true, if_false]
  have hins : insert_if_new query user core entry period (entry_key core entry is_host_entry) r
      = some (r.state_info, r.object_blacklist) := by
    unfold insert_if_new map_contains
    rw [hX]
    simp
  rw [hins]
  simp only [hX]

theorem update_services_keeps (query : Query) (user : User) (period : LogPeriod)
    (entry : LogEntry) (ou : Bool) (nps : notification_periods_t) (k : HostServiceKey) :
    ∀ (L : List HostServiceKey) (m : state_info_t) (s : Sink), k ∉ L →
      map_find k (update_services query user period entry ou nps L m s).1 = map_find k m := by
  intro L
  induction L with
  | nil => intro m s _; rfl
  | cons svc svcs ih =>
    intro m s hk
    have hne : k ≠ svc := fun hc => hk (hc ▸ List.mem_cons_self _ _)
    have hk' : k ∉ svcs := fun hc => hk (List.mem_cons_of_mem _ hc)
    unfold update_services
    cases hf : map_find svc m with
    | none => exact ih m s hk'
    | some Z =>
      simp only []
      rw [ih _ _ hk', map_find_map_modify, if_neg hne]

theorem vanish_steps (query : Query) (user : User) (core : ICore) (period : LogPeriod)
    (r : Replay) (k : HostServiceKey) (X : HostServiceState) (e1 e2 : LogEntry)
    (hou : r.only_update = false) (hX : map_find k r.state_info = some X)
    (hmay : X._may_no_longer_exist = false) (hvan : X._has_vanished = false)
    (hk1 : e1.kind = LogEntryKind.log_initial_states)
    (hk2 : e2.kind = LogEntryKind.none ∨ e2.kind = LogEntryKind.core_starting
      ∨ e2.kind = LogEntryKind.core_stopping ∨ e2.kind = LogEntryKind.log_version
      ∨ e2.kind = LogEntryKind.acknowledge_alert_host
      ∨ e2.kind = LogEntryKind.acknowledge_alert_service) :
    map_find k (handle_entry query user core period e2
        (handle_entry query user core period e1 r)).state_info
      = some (vanished_at e1.time X)
    ∧ (handle_entry query user core period e2
        (handle_entry query user core period e1 r)).sink = r.sink
    ∧ (handle_entry query user core period e2
        (handle_entry query user core period e1 r)).only_update = false
    ∧ (handle_entry query user core period e2
        (handle_entry query user core period e1 r)).in_nagios_initial_states = false
    ∧ (handle_entry query user core period e2
        (handle_entry query user core period e1 r)).object_blacklist = r.object_blacklist
    ∧ (handle_entry query user core period e2
        (handle_entry query user core period e1 r)).notification_periods
      = r.notification_periods := by
  have h1 : handle_entry query user core period e1 r
      = { r with
          state_info := handle_log_initial_states e1
            (set_unknown_to_unmonitored r.in_nagios_initial_states r.state_info),
          in_nagios_initial_states := true } := by
    unfold handle_entry
    rw [start_of_timeframe_emission period e1 r hou]
    simp only [dispatch, hk1]
  rw [h1]
  have h2 : handle_entry query user core period e2
      { r with
          state_info := handle_log_initial_states e1
            (set_unknown_to_unmonitored r.in_nagios_initial_states r.state_info),
          in_nagios_initial_states := true }
      = { r with
          state_info := set_unknown_to_unmonitored true (handle_log_initial_states e1
            (set_unknown_to_unmonitored r.in_nagios_initial_states r.state_info)),
          in_nagios_initial_states := false } := by
    unfold handle_entry
    rw [start_of_timeframe_emission period e2
      { r with
          state_info := handle_log_initial_states e1
            (set_unknown_to_unmonitored r.in_nagios_initial_states r.state_info),
          in_nagios_initial_states := true } hou]
    rcases hk2 with h | h | h | h | h | h <;> simp only [dispatch, h]
  rw [h2]
  refine ⟨?_, rfl, hou, rfl, rfl, rfl⟩
  simp only []
  rw [set_unknown_to_unmonitored_find, handle_log_initial_states_find,
    set_unknown_to_unmonitored_find, hX]
  simp [hmay, hvan, vanished_at]

theorem set_unknown_to_unmonitored_false (m : state_info_t) :
    set_unknown_to_unmonitored false m = m := by
  unfold set_unknown_to_unmonitored
  simp

/-- In the emission phase and outside of the initial states, the switch of the loop hands a
state or an alert to `handle_state_entry` on the state of the replay as it is. -/
theorem dispatch_state_entry (query : Query) (user : User) (core : ICore)
    (period : LogPeriod) (entry : LogEntry) (is_host_entry : Bool) (r : Replay)
    (hin : r.in_nagios_initial_states = false)
    (hk : (is_host_entry = false ∧ (entry.kind = LogEntryKind.state_service
          ∨ entry.kind = LogEntryKind.state_service_initial
          ∨ entry.kind = LogEntryKind.alert_service))
      ∨ (is_host_entry = true ∧ (entry.kind = LogEntryKind.state_host
          ∨ entry.kind = LogEntryKind.state_host_initial
          ∨ entry.kind = LogEntryKind.alert_host))) :
    (dispatch query user core period entry r).sink
      = (handle_state_entry query user core entry is_host_entry period r).sink
    ∧ (dispatch query user core period entry r).state_info
      = (handle_state_entry query user core entry is_host_entry period r).state_info := by
  have hr : ({ r with state_info :=
      set_unknown_to_unmonitored r.in_nagios_initial_states r.state_info } : Replay) = r := by
    have hm : set_unknown_to_unmonitored r.in_nagios_initial_states r.state_info
        = r.state_info := by rw [hin, set_unknown_to_unmonitored_false]
    rw [hm]
  unfold dispatch
  simp only [hr]
  rcases hk with ⟨hb, h | h | h⟩ | ⟨hb, h | h | h⟩ <;> rw [hb] <;> simp only [h] <;>
    first
    | exact ⟨rfl, rfl⟩
    | simp

theorem revive_step (query : Query) (user : User) (core : ICore) (period : LogPeriod)
    (r : Replay) (X : HostServiceState) (entry : LogEntry) (is_host_entry : Bool)
    (hou : r.only_update = false) (hin : r.in_nagios_initial_states = false)
    (hk0 : entry_key core entry is_host_entry ≠ 0)
    (hbl : r.object_blacklist.contains (entry_key core entry is_host_entry) = false)
    (hX : map_find (entry_key core entry is_host_entry) r.state_info = some X)
    (hv : X._has_vanished = true) (hs : entry.state ≠ -1)
    (hk : (is_host_entry = false ∧ (entry.kind = LogEntryKind.state_service
          ∨ entry.kind = LogEntryKind.state_service_initial
          ∨ entry.kind = LogEntryKind.alert_service))
      ∨ (is_host_entry = true ∧ X._is_host = true
        ∧ entry_key core entry is_host_entry ∉ X._services
        ∧ (entry.kind = LogEntryKind.state_host
          ∨ entry.kind = LogEntryKind.state_host_initial
          ∨ entry.kind = LogEntryKind.alert_host))) :
    ∃ (row2 : HostServiceState) (rest : List Emission) (X3 : HostServiceState),
      (handle_entry query user core period entry r).sink.emitted
        = r.sink.emitted
          ++ [{ key := entry_key core entry is_host_entry, row := snapshot period (frozen X),
                offered := user.is_authorized_for_object X._host X._service false },
              { key := entry_key core entry is_host_entry, row := row2,
                offered := user.is_authorized_for_object X._host X._service false }]
          ++ rest
      ∧ row2._from = X._last_known_time ∧ row2._until = entry.time ∧ row2._state = -1
      ∧ row2._debug_info = "UNMONITORED"
      ∧ (∀ e ∈ rest, e.key ≠ entry_key core entry is_host_entry)
      ∧ (is_host_entry = false → rest = [])
      ∧ map_find (entry_key core entry is_host_entry)
          (handle_entry query user core period entry r).state_info = some X3
      ∧ X3._from = entry.time ∧ X3._state = entry.state ∧ X3._has_vanished = false
      ∧ X3._may_no_longer_exist = false := by
  generalize hkeq : entry_key core entry is_host_entry = key at *
  have hkd : (is_host_entry = false ∧ (entry.kind = LogEntryKind.state_service
          ∨ entry.kind = LogEntryKind.state_service_initial
          ∨ entry.kind = LogEntryKind.alert_service))
      ∨ (is_host_entry = true ∧ (entry.kind = LogEntryKind.state_host
          ∨ entry.kind = LogEntryKind.state_host_initial
          ∨ entry.kind = LogEntryKind.alert_host)) := by
    rcases hk with h | ⟨h1, _, _, h2⟩
    · exact Or.inl h
    · exact Or.inr ⟨h1, h2⟩
  have hku : (entry.kind = LogEntryKind.state_service
        ∨ entry.kind = LogEntryKind.state_service_initial
        ∨ entry.kind = LogEntryKind.alert_service)
      ∨ (X._is_host = true ∧ (entry.kind = LogEntryKind.state_host
        ∨ entry.kind = LogEntryKind.state_host_initial
        ∨ entry.kind = LogEntryKind.alert_host)) := by
    rcases hk with ⟨_, h⟩ | ⟨_, h1, _, h2⟩
    · exact Or.inl h
    · exact Or.inr ⟨h1, h2⟩
  obtain ⟨d1, d2⟩ := dispatch_state_entry query user core period entry is_host_entry r hin hkd
  unfold handle_entry
  rw [start_of_timeframe_emission period entry r hou, d1, d2,
    handle_state_entry_tracked query user core entry is_host_entry period r X
      (by rw [hkeq]; exact hk0) (by rw [hkeq]; exact hbl) (by rw [hkeq]; exact hX)]
  simp only [hkeq, hou]
  obtain ⟨row2, u1, u2, u3, u4, u5, u6, u7, u8, u9, u10⟩ :=
    updateHostServiceState_revive_rows query user period entry key X r.notification_periods
      r.sink hv hs hku
  have hsv : (updateHostServiceState query user period entry key X false
      r.notification_periods r.sink).2.1._services = X._services :=
    (updateHostServiceState_emits query user period entry key X false
      r.notification_periods r.sink).2.services_eq
  unfold update
  simp only []
  by_cases hc : (entry.kind = LogEntryKind.alert_host ∨ entry.kind = LogEntryKind.state_host
      ∨ entry.kind = LogEntryKind.downtime_alert_host)
      ∧ (updateHostServiceState query user period entry key X false
          r.notification_periods r.sink).1 = ModificationStatus.changed
  · rw [if_pos hc]
    have hnot : key ∉ X._services ∧ is_host_entry = true := by
      rcases hk with ⟨_, h⟩ | ⟨hb, _, h1, _⟩
      · rcases hc.1 with h1 | h1 | h1 <;> rcases h with h2 | h2 | h2 <;>
          (rw [h1] at h2; exact absurd h2 (by decide))
      · exact ⟨h1, hb⟩
    obtain ⟨news, hn1, hn2⟩ := update_services_grows_keys query user period entry false
      r.notification_periods
      (updateHostServiceState query user period entry key X false
        r.notification_periods r.sink).2.1._services
      (map_modify key (fun _ => (updateHostServiceState query user period entry key X false
        r.notification_periods r.sink).2.1) r.state_info)
      (updateHostServiceState query user period entry key X false
        r.notification_periods r.sink).2.2
    refine ⟨row2, news, _, by rw [hn1, u1], u2, u3, u4, u5, ?_, ?_, ?_, u7, u8, u9, u10⟩
    · intro e he hek
      have h1 := hn2 e he
      rw [hsv, hek] at h1
      exact hnot.1 h1
    · intro hb
      rw [hb] at hnot
      exact absurd hnot.2 (by simp)
    · rw [update_services_keeps query user period entry false r.notification_periods key _ _ _
        (by rw [hsv]; exact hnot.1), map_find_map_modify, if_pos rfl, hX]
      rfl
  · rw [if_neg hc]
    refine ⟨row2, [], _, by rw [u1, List.append_nil], u2, u3, u4, u5,
      fun e he => by simp at he, fun _ => rfl, ?_, u7, u8, u9, u10⟩
    rw [map_find_map_modify, if_pos rfl, hX]
    rfl

/-- C19 (amended): in the emission phase, for an object `X` of the state table that is
neither flagged nor vanished, after a `log_initial_states` entry `e1`, an entry `e2` of a kind
that updates no object (`none`, `core_starting`, `core_stopping`, `log_version`,
`acknowledge_alert_host`, `acknowledge_alert_service`), and a state or an alert `e3` of `X`
with a state `>= 0`: the replay emits for `X` first the row from its `_from` to
the time of `e1` that carries the state of `X`, then the row from the time of `e1` to the
time of `e3` with the state `-1` and `"UNMONITORED"` (for a host the rows of its services
follow), and `X` goes on from the time of `e3` with the state of `e3`, neither vanished nor
flagged. -/
theorem vanish_and_revive (query : Query) (user : User) (core : ICore) (period : LogPeriod)
    (r : Replay) (X : HostServiceState) (e1 e2 e3 : LogEntry) (is_host_entry : Bool)
    (hou : r.only_update = false)
    (hk0 : entry_key core e3 is_host_entry ≠ 0)
    (hbl : r.object_blacklist.contains (entry_key core e3 is_host_entry) = false)
    (hX : map_find (entry_key core e3 is_host_entry) r.state_info = some X)
    (hmay : X._may_no_longer_exist = false) (hvan : X._has_vanished = false)
    (hk1 : e1.kind = LogEntryKind.log_initial_states)
    (hk2 : e2.kind = LogEntryKind.none ∨ e2.kind = LogEntryKind.core_starting
      ∨ e2.kind = LogEntryKind.core_stopping ∨ e2.kind = LogEntryKind.log_version
      ∨ e2.kind = LogEntryKind.acknowledge_alert_host
      ∨ e2.kind = LogEntryKind.acknowledge_alert_service)
    (hk3 : (is_host_entry = false ∧ (e3.kind = LogEntryKind.state_service
          ∨ e3.kind = LogEntryKind.state_service_initial
          ∨ e3.kind = LogEntryKind.alert_service))
      ∨ (is_host_entry = true ∧ X._is_host = true
        ∧ entry_key core e3 is_host_entry ∉ X._services
        ∧ (e3.kind = LogEntryKind.state_host
          ∨ e3.kind = LogEntryKind.state_host_initial
          ∨ e3.kind = LogEntryKind.alert_host)))
    (hs : 0 ≤ e3.state) :
    ∃ (row1 row2 : HostServiceState) (rest : List Emission) (X3 : HostServiceState),
      (handle_entries query user core period [e1, e2, e3] r).sink.emitted
        = r.sink.emitted
          ++ [{ key := entry_key core e3 is_host_entry, row := row1,
                offered := user.is_authorized_for_object X._host X._service false },
              { key := entry_key core e3 is_host_entry, row := row2,
                offered := user.is_authorized_for_object X._host X._service false }]
          ++ rest
      ∧ row1._from = X._from ∧ row1._until = e1.time ∧ CarriesState X row1
      ∧ row2._from = e1.time ∧ row2._until = e3.time ∧ row2._state = -1
      ∧ row2._debug_info = "UNMONITORED"
      ∧ (∀ e ∈ rest, e.key ≠ entry_key core e3 is_host_entry)
      ∧ (is_host_entry = false → rest = [])
      ∧ map_find (entry_key core e3 is_host_entry)
          (handle_entries query user core period [e1, e2, e3] r).state_info = some X3
      ∧ X3._from = e3.time ∧ X3._state = e3.state ∧ X3._has_vanished = false
      ∧ X3._may_no_longer_exist = false := by
  obtain ⟨v1, v2, v3, v4, v5, v6⟩ := vanish_steps query user core period r
    (entry_key core e3 is_host_entry) X e1 e2 hou hX hmay hvan hk1 hk2
  obtain ⟨row2, rest, X3, w1, w2, w3, w4, w5, w6, w7, w8, w9, w10, w11, w12⟩ :=
    revive_step query user core period
      (handle_entry query user core period e2 (handle_entry query user core period e1 r))
      (vanished_at e1.time X) e3 is_host_entry v3 v4 hk0 (by rw [v5]; exact hbl) v1 rfl
      (by omega) hk3
  rw [v2] at w1
  exact ⟨snapshot period (frozen (vanished_at e1.time X)), row2, rest, X3, w1, rfl, rfl,
    ⟨rfl, rfl, rfl, rfl, rfl, rfl, rfl, rfl, rfl, rfl⟩, w2, w3, w4, w5, w6, w7, w8, w9, w10,
    w11, w12⟩

/-- C19 at the service `h;s`, tracked from `100` with the state `0`: after the
`log_initial_states` entry at `500` and the start of the core at `600`, the alert at `700`
emits `[100, 500)` with the state `0` and `[500, 700)` with the state `-1`, and the service
goes on from `700` with the state `2`. -/
theorem vanish_and_revive_witness :
    (∃ (row1 row2 : HostServiceState) (X3 : HostServiceState),
      (handle_entries query_all user_all core_hs ⟨100, 1000⟩ entries_vanish_revive
          replay_tracked).sink.emitted
        = replay_tracked.sink.emitted
          ++ [{ key := 2, row := row1, offered := true },
              { key := 2, row := row2, offered := true }]
      ∧ row1._until = 500 ∧ row2._from = 500 ∧ row2._until = 700 ∧ row2._state = -1
      ∧ row2._debug_info = "UNMONITORED"
      ∧ map_find 2 (handle_entries query_all user_all core_hs ⟨100, 1000⟩
          entries_vanish_revive replay_tracked).state_info = some X3
      ∧ X3._from = 700 ∧ X3._state = 2 ∧ X3._has_vanished = false
      ∧ X3._may_no_longer_exist = false)
    ∧ (handle_entries query_all user_all core_hs ⟨100, 1000⟩ entries_vanish_revive
        replay_tracked).sink.emitted.map
        (fun e => (e.key, e.row._from, e.row._until, e.row._state, e.row._debug_info))
      = [(2, 100, 500, 0, ""), (2, 500, 700, -1, "UNMONITORED")] := by
  refine ⟨?_, by decide⟩
  have hf : ((map_find 2 replay_tracked.state_info).map
      (fun X => (X._may_no_longer_exist, X._has_vanished))) = some (false, false) := by decide
  cases hX : map_find 2 replay_tracked.state_info with
  | none => rw [hX] at hf; simp at hf
  | some X =>
    rw [hX] at hf
    simp only [Option.map_some', Option.some.injEq, Prod.mk.injEq] at hf
    obtain ⟨row1, row2, rest, X3, h1, _, h3, _, h5, h6, h7, h8, _, h10, h11, h12, h13, h14,
        h15⟩ :=
      vanish_and_revive query_all user_all core_hs ⟨100, 1000⟩ replay_tracked X
        { time := 500, kind := LogEntryKind.log_initial_states }
        { time := 600, kind := LogEntryKind.core_starting } (alert_at 700) false
        (by decide) (by decide) (by decide) hX hf.1 hf.2 rfl (Or.inr (Or.inl rfl))
        (Or.inl ⟨rfl, Or.inr (Or.inr rfl)⟩) (by decide)
    have hr := h10 rfl
    subst hr
    exact ⟨row1, row2, X3, by rw [List.append_nil] at h1; exact h1, h3, h5, h6, h7, h8, h11,
      h12, h13, h14, h15⟩

/-- C18: scenario 1. For the period `[100, 200)` and one log file with the initial state `0`
at `50` and the alert with the state `2` at `150` of a service that the registry resolves
(with its host), the filter accepts and the user is authorised for, and a sink that does not
abort at the first row: the replay hands exactly two rows to `process`, both of the service
and both offered to the sink, `[100, 150)` with the state `0` and the duration `50`, then
`[150, 199)` with the state `2` and the duration `49`. This holds when the two entries are
the whole file (the cursor then does not deliver the first entry) and when the start of the
core at `10` precedes them. -/
theorem scenario_1_two_intervals (query : Query) (user : User) (core : ICore)
    (hn sd : String) (h : IHost) (s : IService)
    (hh : core.find_host hn = some h) (hs : core.find_service hn sd = some s)
    (hk : s.handleForStateHistory ≠ 0) (hsd : sd ≠ "")
    (hacc : query.object_filter (nascent (alert_at_150 hn sd) (some h) (some s)) user
      query.timezoneOffset = true)
    (hauth : user.is_authorized_for_object (some h) (some s) false = true)
    (hpd : ∀ row, query.processDataset [] row = true) :
    (answerQuery query user core ⟨100, 200⟩ (stream_scenario_1 hn sd [])).sink.emitted.map
        (fun e => (e.key, e.row._from, e.row._until, e.row._state, e.row._duration, e.offered))
      = [(s.handleForStateHistory, 100, 150, 0, 50, true),
         (s.handleForStateHistory, 150, 199, 2, 49, true)]
    ∧ (answerQuery query user core ⟨100, 200⟩
        (stream_scenario_1 hn sd
          [{ time := 10, kind := LogEntryKind.core_starting }])).sink.emitted.map
        (fun e => (e.key, e.row._from, e.row._until, e.row._state, e.row._duration, e.offered))
      = [(s.handleForStateHistory, 100, 150, 0, 50, true),
         (s.handleForStateHistory, 150, 199, 2, 49, true)] := by
  simp [nascent, alert_at_150, hsd] at hacc
  have hrw1 : (LogEntryForwardIterator.make (stream_scenario_1 hn sd [])).rewind_to_start
        ⟨100, 200⟩
      = (true, ⟨stream_scenario_1 hn sd [], 0,
          [initial_state_at_50 hn sd, alert_at_150 hn sd], 0⟩) := by
    rfl
  have hrw2 : (LogEntryForwardIterator.make (stream_scenario_1 hn sd
        [{ time := 10, kind := LogEntryKind.core_starting }])).rewind_to_start ⟨100, 200⟩
      = (true, ⟨stream_scenario_1 hn sd [{ time := 10, kind := LogEntryKind.core_starting }], 0,
          [{ time := 10, kind := LogEntryKind.core_starting }, initial_state_at_50 hn sd,
           alert_at_150 hn sd], 0⟩) := by
    rfl
  constructor
  · rw [answerQuery_eq_answer_entries, hrw1]
    simp [LogPeriod.empty, LogEntryForwardIterator.pending, LogEntryForwardIterator.later,
      stream_scenario_1, answer_entries, finish, replay_list, initial_state_at_50, alert_at_150,
      handle_entry, start_of_timeframe, dispatch, handle_state_entry, entry_key, hs, hk,
      insert_if_new, map_contains, map_find, insert_new_state, nascent, hacc, hsd, link_services,
      host_handle, hh, map_modify, init_periods, inherit_host, stamp_unmonitored, map_set, update,
      updateHostServiceState, revive, update_basic, update_kind, update_log_output, emit,
      notification_period_of, service_period_of, period_status, set_unknown_to_unmonitored,
      process_eq, hauth, hpd, Sink.offered_rows, final_reports, for_each_state, final_report,
      snapshot, HostServiceState.computePerStateDurations]
  · rw [answerQuery_eq_answer_entries, hrw2]
    simp [LogPeriod.empty, LogEntryForwardIterator.pending, LogEntryForwardIterator.later,
      stream_scenario_1, answer_entries, finish, replay_list, initial_state_at_50, alert_at_150,
      handle_entry, start_of_timeframe, dispatch, handle_state_entry, entry_key, hs, hk,
      insert_if_new, map_contains, map_find, insert_new_state, nascent, hacc, hsd, link_services,
      host_handle, hh, map_modify, init_periods, inherit_host, stamp_unmonitored, map_set, update,
      updateHostServiceState, revive, update_basic, update_kind, update_log_output, emit,
      notification_period_of, service_period_of, period_status, set_unknown_to_unmonitored,
      process_eq, hauth, hpd, Sink.offered_rows, final_reports, for_each_state, final_report,
      snapshot, HostServiceState.computePerStateDurations]

/-- C18 at the service `h;s` (handle `2`) of the registry `core_hs`, without filter, for a
user who is authorised for every object and a sink that never aborts. -/
theorem scenario_1_two_intervals_witness :
    (answerQuery query_all user_all core_hs ⟨100, 200⟩
        (stream_scenario_1 "h" "s" [])).sink.emitted.map
        (fun e => (e.key, e.row._from, e.row._until, e.row._state, e.row._duration, e.offered))
      = [(2, 100, 150, 0, 50, true), (2, 150, 199, 2, 49, true)]
    ∧ (answerQuery query_all user_all core_hs ⟨100, 200⟩
        (stream_scenario_1 "h" "s"
          [{ time := 10, kind := LogEntryKind.core_starting }])).sink.emitted.map
        (fun e => (e.key, e.row._from, e.row._until, e.row._state, e.row._duration, e.offered))
      = [(2, 100, 150, 0, 50, true), (2, 150, 199, 2, 49, true)] :=
  scenario_1_two_intervals query_all user_all core_hs "h" "s" ⟨1, "np", "sp"⟩ ⟨2, "np", "sp"⟩
    (by decide) (by decide) (by decide) (by decide) rfl rfl (fun _ => rfl)

/-- C19 fails as stated when the entry at `t2` itself updates `X`. For the service `h;s`
(key `2`), tracked from `100` with the state `0`, and a `log_initial_states` entry at `500`:
a transition of its notification period at `600` closes `[100, 600)` with the state `0`, and
the alert at `700` then emits `[600, 500)` and `[500, 700)`; an alert of its host at `600`
revives the service at `600`, which emits `[100, 500)` and `[500, 600)`, and the alert at
`700` emits `[600, 700)`. -/
theorem vanish_and_revive_counterexample :
    (handle_entries query_all user_all core_hs ⟨100, 1000⟩ entries_vanish_transition
        replay_tracked).sink.emitted.map
        (fun e => (e.key, e.row._from, e.row._until, e.row._state, e.row._debug_info))
      = [(2, 100, 600, 0, ""), (2, 600, 500, 0, "TIMEPERIOD "),
         (2, 500, 700, -1, "UNMONITORED")]
    ∧ (handle_entries query_all user_all core_hs ⟨100, 1000⟩ (entries_vanish_host_alert.take 2)
        replay_tracked).sink.emitted.map
        (fun e => (e.key, e.row._from, e.row._until, e.row._state, e.row._debug_info))
      = [(1, 100, 600, 0, ""), (2, 100, 500, 0, ""), (2, 500, 600, -1, "UNMONITORED")]
    ∧ (handle_entries query_all user_all core_hs ⟨100, 1000⟩ entries_vanish_host_alert
        replay_tracked).sink.emitted.map
        (fun e => (e.key, e.row._from, e.row._until, e.row._state, e.row._debug_info))
      = [(1, 100, 600, 0, ""), (2, 100, 500, 0, ""), (2, 500, 600, -1, "UNMONITORED"),
         (2, 600, 700, -1, "SVC HOST STATE")] :=
  ⟨by decide, by decide, by decide⟩

/-- C21: in the emission phase, for an object that has not vanished and a state, an alert, a
downtime or a flapping entry: when the member the entry is compared with differs from the
value of the entry, `updateHostServiceState` hands exactly one row to `process`, the row ends
at the time of the entry, starts where the object started and has the old value of the
member, and afterwards the member has the value of the entry and the object starts at the
time of the entry; when the member has the value of the entry already, nothing is emitted
and the object starts where it started. -/
theorem emit_before_overwrite (query : Query) (user : User) (period : LogPeriod)
    (entry : LogEntry) (key : HostServiceKey) (hss : HostServiceState)
    (nps : notification_periods_t) (sink : Sink)
    (hv : hss._has_vanished = false)
    (hk : entry.kind = LogEntryKind.state_host ∨ entry.kind = LogEntryKind.state_host_initial
      ∨ entry.kind = LogEntryKind.alert_host ∨ entry.kind = LogEntryKind.state_service
      ∨ entry.kind = LogEntryKind.state_service_initial
      ∨ entry.kind = LogEntryKind.alert_service
      ∨ entry.kind = LogEntryKind.downtime_alert_host
      ∨ entry.kind = LogEntryKind.downtime_alert_service
      ∨ entry.kind = LogEntryKind.flapping_host ∨ entry.kind = LogEntryKind.flapping_service) :
    (compared_attribute entry.kind hss ≠ compared_value entry hss →
      ∃ row : HostServiceState,
        (updateHostServiceState query user period entry key hss false nps sink).2.2.emitted
          = sink.emitted
            ++ [{ key := key, row := row,
                  offered := user.is_authorized_for_object hss._host hss._service false }]
        ∧ row._from = hss._from ∧ row._until = entry.time
        ∧ compared_attribute entry.kind row = compared_attribute entry.kind hss
        ∧ compared_attribute entry.kind
            (updateHostServiceState query user period entry key hss false nps sink).2.1
          = compared_value entry hss
        ∧ (updateHostServiceState query user period entry key hss false nps sink).2.1._from
          = entry.time)
    ∧ (compared_attribute entry.kind hss = compared_value entry hss →
        (updateHostServiceState query user period entry key hss false nps sink).2.2 = sink
        ∧ (updateHostServiceState query user period entry key hss false nps sink).2.1._from
          = hss._from) := by
  have hr : revive query user period entry key hss false nps sink = (hss, sink) := by
    simp [revive, hv]
  unfold updateHostServiceState
  rw [hr]
  rcases hk with hk | hk | hk | hk | hk | hk | hk | hk | hk | hk <;>
  · constructor
    · intro hne
      simp only [compared_attribute, compared_value, hk] at hne ⊢
      refine ⟨snapshot period (update_basic entry hss), ?_⟩
      cases hh : hss._is_host <;>
        simp [update_kind, hk, update_basic, update_log_output, emit, process_eq, snapshot,
          HostServiceState.computePerStateDurations, hh] at hne ⊢ <;>
        simp [hne]
    · intro heq
      simp only [compared_attribute, compared_value, hk] at heq ⊢
      cases hh : hss._is_host <;>
        simp [update_kind, hk, update_basic, update_log_output, emit, process_eq, snapshot,
          HostServiceState.computePerStateDurations, hh] at heq ⊢ <;>
        simp [heq]

/-- C21 at the start of a downtime at `400` for an object that starts at `100` and is in no
downtime, and scenario 6 on the service `h;s`, tracked from `100`: the start of the downtime
at `400` and its stop at `500` emit `[100, 400)` with `_in_downtime == 0` and `[400, 500)`
with `_in_downtime == 1`, and the service goes on from `500` with `_in_downtime == 0`. -/
theorem emit_before_overwrite_witness :
    (∃ row : HostServiceState,
      (updateHostServiceState query_all user_all ⟨100, 1000⟩ (downtime_at 400 "STARTED") 2
          { _from := 100 } false [] {}).2.2.emitted
        = ({} : Sink).emitted ++ [{ key := 2, row := row, offered := true }]
      ∧ row._from = 100 ∧ row._until = 400 ∧ row._in_downtime = 0
      ∧ (updateHostServiceState query_all user_all ⟨100, 1000⟩ (downtime_at 400 "STARTED") 2
          { _from := 100 } false [] {}).2.1._in_downtime = 1
      ∧ (updateHostServiceState query_all user_all ⟨100, 1000⟩ (downtime_at 400 "STARTED") 2
          { _from := 100 } false [] {}).2.1._from = 400)
    ∧ (handle_entries query_all user_all core_hs ⟨100, 1000⟩ entries_downtime
        replay_tracked).sink.emitted.map
        (fun e => (e.key, e.row._from, e.row._until, e.row._in_downtime))
      = [(2, 100, 400, 0), (2, 400, 500, 1)]
    ∧ (map_find 2 (handle_entries query_all user_all core_hs ⟨100, 1000⟩ entries_downtime
        replay_tracked).state_info).map (fun X => (X._from, X._in_downtime))
      = some (500, 0) :=
  ⟨(emit_before_overwrite query_all user_all ⟨100, 1000⟩ (downtime_at 400 "STARTED") 2
      { _from := 100 } [] {} rfl (by decide)).1 (by decide),
   by decide, by decide⟩

/-- C26 fails as stated: an alert of a service with the state the object has already, a
`DOWNTIME ALERT` of a service that is in a downtime already, a state of a host with the
`_host_down` a service object has already, and a `TIMEPERIOD TRANSITION` to the value the
object has already, all return `changed` (and emit nothing). -/
theorem status_counterexample :
    (updateHostServiceState query_all user_all ⟨100, 1000⟩ (alert_at 700) 2
        { _state := 2 } false [] {}).1 = ModificationStatus.changed
    ∧ (updateHostServiceState query_all user_all ⟨100, 1000⟩ (alert_at 700) 2
        { _state := 2 } false [] {}).2.2.emitted.length = 0
    ∧ (updateHostServiceState query_all user_all ⟨100, 1000⟩ (downtime_at 400 "STARTED") 2
        { _in_downtime := 1 } false [] {}).1 = ModificationStatus.changed
    ∧ (updateHostServiceState query_all user_all ⟨100, 1000⟩
        { time := 150, kind := LogEntryKind.state_host, host_name := "h", state := 1 } 2
        { _host_down := 1 } false [] {}).1 = ModificationStatus.changed
    ∧ (updateHostServiceState query_all user_all ⟨100, 1000⟩
        { time := 150, kind := LogEntryKind.timeperiod_transition, options := "np;1;0" } 2
        { _host := some ⟨1, "np", "sp"⟩, _notification_period := "np" } false [] {}).1
      = ModificationStatus.changed :=
  ⟨by decide, by decide, by decide, by decide, by decide⟩

/-- C26 (amended): `updateHostServiceState` returns `unchanged` exactly in three cases, in
which the member that is compared has the value of the entry already (after the revival
step): a state or an alert of a host on a host object whose `_state` is the state of the
entry, a `DOWNTIME ALERT` of a host on an object whose `_in_host_downtime` is the value of
the entry, and a flapping entry on an object whose `_is_flapping` is the value of the entry.
In every other case it returns `changed`: in particular for a state or an alert of a service,
a `DOWNTIME ALERT` of a service, a state or an alert of a host on an object that is no host,
and a `TIMEPERIOD TRANSITION`, whether the member has the value of the entry or not. -/
theorem status_unchanged_iff (query : Query) (user : User) (period : LogPeriod)
    (entry : LogEntry) (key : HostServiceKey) (hss : HostServiceState) (ou : Bool)
    (nps : notification_periods_t) (sink : Sink) :
    ((updateHostServiceState query user period entry key hss ou nps sink).1
        = ModificationStatus.unchanged
      ↔ (((entry.kind = LogEntryKind.state_host ∨ entry.kind = LogEntryKind.state_host_initial
            ∨ entry.kind = LogEntryKind.alert_host) ∧ hss._is_host = true
          ∧ (revive query user period entry key hss ou nps sink).1._state = entry.state)
        ∨ (entry.kind = LogEntryKind.downtime_alert_host
          ∧ hss._in_host_downtime = started entry)
        ∨ ((entry.kind = LogEntryKind.flapping_host ∨ entry.kind = LogEntryKind.flapping_service)
          ∧ (revive query user period entry key hss ou nps sink).1._is_flapping
            = started entry)))
    ∧ ((entry.kind = LogEntryKind.state_service
          ∨ entry.kind = LogEntryKind.state_service_initial
          ∨ entry.kind = LogEntryKind.alert_service
          ∨ entry.kind = LogEntryKind.downtime_alert_service
          ∨ entry.kind = LogEntryKind.timeperiod_transition
          ∨ ((entry.kind = LogEntryKind.state_host
              ∨ entry.kind = LogEntryKind.state_host_initial
              ∨ entry.kind = LogEntryKind.alert_host) ∧ hss._is_host = false)) →
      (updateHostServiceState query user period entry key hss ou nps sink).1
        = ModificationStatus.changed) := by
  have hih : (revive query user period entry key hss ou nps sink).1._is_host = hss._is_host := by
    unfold revive
    split_ifs <;> cases ou <;> simp [emit, process_eq, snapshot,
      HostServiceState.computePerStateDurations]
  have hid : (revive query user period entry key hss ou nps sink).1._in_host_downtime
      = hss._in_host_downtime := by
    unfold revive
    split_ifs <;> cases ou <;> simp [emit, process_eq, snapshot,
      HostServiceState.computePerStateDurations]
  have hiff : (updateHostServiceState query user period entry key hss ou nps sink).1
        = ModificationStatus.unchanged
      ↔ (((entry.kind = LogEntryKind.state_host ∨ entry.kind = LogEntryKind.state_host_initial
            ∨ entry.kind = LogEntryKind.alert_host) ∧ hss._is_host = true
          ∧ (revive query user period entry key hss ou nps sink).1._state = entry.state)
        ∨ (entry.kind = LogEntryKind.downtime_alert_host
          ∧ hss._in_host_downtime = started entry)
        ∨ ((entry.kind = LogEntryKind.flapping_host ∨ entry.kind = LogEntryKind.flapping_service)
          ∧ (revive query user period entry key hss ou nps sink).1._is_flapping
            = started entry)) := by
    unfold updateHostServiceState
    simp only []
    rw [← hih, ← hid]
    generalize (revive query user period entry key hss ou nps sink) = p
    cases hk : entry.kind <;> simp [update_kind, hk, update_basic] <;>
      (try split_ifs) <;> simp_all
  refine ⟨hiff, fun h => ?_⟩
  cases hc : (updateHostServiceState query user period entry key hss ou nps sink).1 with
  | changed => rfl
  | unchanged =>
    rcases hiff.mp hc with ⟨h0, h1, _⟩ | ⟨h1, _⟩ | ⟨h1 | h1, _⟩
    · rcases h0 with h0 | h0 | h0 <;> simp [h0, h1] at h
    · simp [h1] at h
    · simp [h1] at h
    · simp [h1] at h

/-- C23: for an entry with an empty service description, `insert_new_state` does not ask the
filter (the result is the same for every query and user), leaves the blacklist as it is, and
stores a new object under the key: flagged as host, with the host of the entry, starting at
`period.since`. The function returns for every entry whose host the registry resolves (with a
null host, linking the services dereferences it). -/
theorem host_entry_is_not_filtered (query : Query) (user : User) (entry : LogEntry)
    (only_update : Bool) (notification_periods : notification_periods_t)
    (state_info : state_info_t) (object_blacklist : object_blacklist_t) (period : LogPeriod)
    (entry_host : Option IHost) (entry_service : Option IService) (key : HostServiceKey)
    (hd : entry.service_description = "") :
    (∀ (query' : Query) (user' : User),
      insert_new_state query' user' entry only_update notification_periods state_info
          object_blacklist period entry_host entry_service key
        = insert_new_state query user entry only_update notification_periods state_info
          object_blacklist period entry_host entry_service key)
    ∧ (∀ m' bl', insert_new_state query user entry only_update notification_periods state_info
          object_blacklist period entry_host entry_service key = some (m', bl') →
        bl' = object_blacklist
        ∧ ∃ X, map_find key m' = some X ∧ X._is_host = true ∧ X._host = entry_host
          ∧ X._service = entry_service ∧ X._from = period.since)
    ∧ (entry_host ≠ Option.none →
        ∃ m', insert_new_state query user entry only_update notification_periods state_info
          object_blacklist period entry_host entry_service key
            = some (m', object_blacklist)) := by
  have hun : ∀ (q : Query) (u : User),
      insert_new_state q u entry only_update notification_periods state_info
          object_blacklist period entry_host entry_service key
        = (match link_services (nascent entry entry_host entry_service) key state_info with
          | Option.none => Option.none
          | some (state1, state_info1) =>
            match inherit_host (init_periods period notification_periods state1)
                state_info1 with
            | Option.none => Option.none
            | some state3 =>
              some (map_set key_lt key (stamp_unmonitored entry only_update period state3)
                state_info1, object_blacklist)) := by
    intro q u
    unfold insert_new_state
    simp only []
    rw [if_neg (fun h => h.1 hd)]
  have hih : (nascent entry entry_host entry_service)._is_host = true := by
    simp [nascent, hd]
  refine ⟨fun q u => by rw [hun q u, hun query user], ?_, ?_⟩
  · intro m' bl' h
    rw [hun query user] at h
    unfold link_services at h
    rw [if_pos hih] at h
    cases hc : collect_services (nascent entry entry_host entry_service) state_info with
    | none => rw [hc] at h; simp at h
    | some l =>
      rw [hc] at h
      simp only [Option.map_some', inherit_host, nascent, init_periods, hd, decide_True,
        if_true, Option.some.injEq, Prod.mk.injEq] at h
      obtain ⟨h1, h2⟩ := h
      subst h1
      refine ⟨h2.symm, _, map_find_map_set_eq _ _ _ _, ?_⟩
      unfold stamp_unmonitored
      split_ifs <;> simp
  · intro hh
    rw [hun query user]
    obtain ⟨h0, hh0⟩ : ∃ h0, entry_host = some h0 := by
      cases entry_host with
      | none => exact absurd rfl hh
      | some h0 => exact ⟨h0, rfl⟩
    obtain ⟨l, hl, _⟩ := collect_services_spec (nascent entry entry_host entry_service)
      h0.handleForStateHistory (by simp [host_handle, nascent, hh0]) state_info
    unfold link_services
    rw [if_pos hih, hl]
    simp [inherit_host, nascent, init_periods, hd]

/-- C23 at the first state of the host `h` with a filter that rejects every object: the host
is stored under its key `1` and the blacklist stays empty. -/
theorem host_entry_is_not_filtered_witness :
    ∃ m', insert_new_state query_reject user_all entry_host_down false [] [] [] ⟨100, 200⟩
        (some ⟨1, "np", "sp"⟩) Option.none 1 = some (m', []) :=
  (host_entry_is_not_filtered query_reject user_all entry_host_down false [] [] []
    ⟨100, 200⟩ (some ⟨1, "np", "sp"⟩) Option.none 1 rfl).2.2 (by simp)

theorem head_flatten_entries : ∀ files : List Logfile,
    ((files.map (fun f => f.entries)).flatten).head? = first_entry files := by
  intro files
  induction files with
  | nil => rfl
  | cons f fs ih =>
    unfold first_entry
    cases hf : f.entries with
    | nil => simp [hf, ih]
    | cons e es => simp [hf]

/-- C28: when `rewind_to_start` returns `true`, the first call of `getNextLogentry` returns
the first of the entries after the position of the cursor, in the selected file and the files
after it: the entry at the position is not delivered. On the first of at least two entries of
the file the call returns the second entry of the file; on the only entry of the file it
returns the first entry of the next file that has entries, or null when there is none. -/
theorem positioned_entry_is_skipped (log_files : List Logfile) (period : LogPeriod)
    (it1 : LogEntryForwardIterator)
    (h : (LogEntryForwardIterator.make log_files).rewind_to_start period = (true, it1)) :
    it1.getNextLogentry.1
        = (it1.entries_.drop (it1.it_entries_ + 1)
            ++ ((log_files.drop (it1.it_logs_ + 1)).map (fun f => f.entries)).flatten).head?
    ∧ (∀ e0 e1 es, it1.entries_ = e0 :: e1 :: es → it1.it_entries_ = 0 →
        it1.getNextLogentry.1 = some e1)
    ∧ (∀ e0, it1.entries_ = [e0] →
        it1.getNextLogentry.1 = first_entry (log_files.drop (it1.it_logs_ + 1)))
    ∧ (∀ (query : Query) (user : User) (core : ICore) (r : Replay),
        replay_loop query user core period (rounds it1.log_files_) it1 r
          = replay_list query user core period
              (it1.entries_.drop (it1.it_entries_ + 1)
                ++ ((log_files.drop (it1.it_logs_ + 1)).map (fun f => f.entries)).flatten)
              r) := by
  obtain ⟨hv, hsub, hfiles⟩ := rewind_to_start_spec log_files period it1 h
  have hg := (getNextLogentry_spec it1 hv).1
  have hp : it1.pending = it1.entries_.drop (it1.it_entries_ + 1)
      ++ ((log_files.drop (it1.it_logs_ + 1)).map (fun f => f.entries)).flatten := by
    unfold LogEntryForwardIterator.pending LogEntryForwardIterator.later
    rw [hfiles]
  rw [hp] at hg
  refine ⟨hg, ?_, ?_, ?_⟩
  · intro e0 e1 es he hi
    rw [hg, he, hi]
    rfl
  · intro e0 he
    have hi : it1.it_entries_ + 1 ≥ it1.entries_.length := by
      rw [he]
      simp
    rw [hg, List.drop_eq_nil_of_le hi, List.nil_append, head_flatten_entries]
  · intro query user core r
    rw [replay_loop_eq_list query user core period _ it1 r hv
      (by rw [rounds_eq, hfiles]; exact Nat.lt_succ_of_le hsub.length_le), hp]

/-- C28 on three files that start in the period `[100, 200)`, the first with a single entry,
the second empty: the cursor is on the only entry of the first file, and the first entry
delivered is the alert of the third file. -/
theorem positioned_entry_is_skipped_witness :
    ((LogEntryForwardIterator.make files_single_entry).rewind_to_start ⟨100, 200⟩).2.entries_
      = [{ time := 110, kind := LogEntryKind.core_starting }]
    ∧ ((LogEntryForwardIterator.make files_single_entry).rewind_to_start
        ⟨100, 200⟩).2.getNextLogentry.1 = some (alert_at 150) :=
  ⟨by decide,
   ((positioned_entry_is_skipped files_single_entry ⟨100, 200⟩
      ((LogEntryForwardIterator.make files_single_entry).rewind_to_start ⟨100, 200⟩).2
      (by decide)).2.2.1 { time := 110, kind := LogEntryKind.core_starting } (by decide)).trans
    (by decide)⟩

/-- With a host, `insert_new_state` dereferences no null pointer. -/
theorem insert_new_state_returns (query : Query) (user : User) (entry : LogEntry)
    (ou : Bool) (nps : notification_periods_t) (m : state_info_t) (bl : object_blacklist_t)
    (period : LogPeriod) (h0 : IHost) (es : Option IService) (key : HostServiceKey) :
    ∃ res, insert_new_state query user entry ou nps m bl period (some h0) es key = some res := by
  unfold insert_new_state
  simp only []
  split_ifs
  · exact ⟨_, rfl⟩
  · have hh : host_handle (nascent entry (some h0) es) = some h0.handleForStateHistory := rfl
    obtain ⟨l, hl, _⟩ := collect_services_spec (nascent entry (some h0) es)
      h0.handleForStateHistory hh m
    unfold link_services
    split_ifs with hih
    · rw [hl]
      simp only [Option.map_some', inherit_host, init_periods, hih, if_true]
      exact ⟨_, rfl⟩
    · rw [hh]
      simp only [Option.map_some', inherit_host, init_periods, hih, Bool.false_eq_true,
        if_false]
      exact ⟨_, rfl⟩

/-- C29: with the key of the entry not null and not on the blacklist, and the host of the
entry in the registry, `handle_state_entry` reaches `update(..., *state_info[key], ...)` with
no object under the key, and dereferences the null pointer that `state_info[key]` creates,
exactly when the key is new, the service description is not empty and the filter rejects the
new object; in every other case the state table has an object under the key when the call is
reached. -/
theorem lookup_is_null_iff_rejected (query : Query) (user : User) (core : ICore)
    (entry : LogEntry) (is_host_entry : Bool) (period : LogPeriod) (r : Replay)
    (h0 : r.null_deref = false)
    (hk : entry_key core entry is_host_entry ≠ 0)
    (hbl : r.object_blacklist.contains (entry_key core entry is_host_entry) = false)
    (hh : core.find_host entry.host_name ≠ Option.none) :
    ((handle_state_entry query user core entry is_host_entry period r).null_deref = true
      ↔ (map_find (entry_key core entry is_host_entry) r.state_info = Option.none
        ∧ entry.service_description ≠ ""
        ∧ query.object_filter
            (nascent entry (core.find_host entry.host_name)
              (core.find_service entry.host_name entry.service_description))
            user query.timezoneOffset = false))
    ∧ ∃ m1 bl1, insert_if_new query user core entry period
          (entry_key core entry is_host_entry) r = some (m1, bl1)
        ∧ ((handle_state_entry query user core entry is_host_entry period r).null_deref
            = true ↔ map_find (entry_key core entry is_host_entry) m1 = Option.none) := by
  obtain ⟨hst, hhst⟩ : ∃ hst, core.find_host entry.host_name = some hst := by
    cases hc : core.find_host entry.host_name with
    | none => exact absurd hc hh
    | some hst => exact ⟨hst, rfl⟩
  unfold handle_state_entry
  simp only [if_neg hk, hbl, Bool.false_eq_true, if_false]
  unfold insert_if_new map_contains
  cases hX : map_find (entry_key core entry is_host_entry) r.state_info with
  | some X =>
    simp only [Option.isSome_some, if_true, hX, h0]
    exact ⟨by simp [hX], _, _, rfl, by simp [hX]⟩
  | none =>
    simp only [Option.isSome_none, Bool.false_eq_true, if_false]
    by_cases hrej : entry.service_description ≠ ""
        ∧ query.object_filter
            (nascent entry (core.find_host entry.host_name)
              (core.find_service entry.host_name entry.service_description))
            user query.timezoneOffset = false
    · have hins : insert_new_state query user entry r.only_update r.notification_periods
          r.state_info r.object_blacklist period (core.find_host entry.host_name)
          (core.find_service entry.host_name entry.service_description)
          (entry_key core entry is_host_entry)
          = some (r.state_info, entry_key core entry is_host_entry :: r.object_blacklist) := by
        unfold insert_new_state
        simp only []
        rw [if_pos hrej]
      rw [hins]
      simp only [hX]
      exact ⟨by simp [hrej], _, _, rfl, by simp [hX]⟩
    · obtain ⟨res, hres⟩ := insert_new_state_returns query user entry r.only_update
        r.notification_periods r.state_info r.object_blacklist period hst
        (core.find_service entry.host_name entry.service_description)
        (entry_key core entry is_host_entry)
      rw [← hhst] at hres
      obtain ⟨m1, bl1⟩ := res
      obtain ⟨X0, hX0, _⟩ := insert_new_state_stored hrej hres
      rw [hres]
      simp only [hX0, h0]
      refine ⟨?_, m1, bl1, rfl, by simp [hX0]⟩
      constructor
      · intro hf
        exact absurd hf (by simp)
      · intro hc
        exact absurd ⟨hc.2.1, hc.2.2⟩ hrej

/-- C29 at the alert of the service `h;s` on the empty state of the replay: with a filter
that rejects the service a null pointer is dereferenced, without filter it is not. -/
theorem lookup_is_null_iff_rejected_witness :
    (handle_state_entry query_reject user_all core_hs (alert_at 150) false ⟨100, 200⟩
        {}).null_deref = true
    ∧ (handle_state_entry query_all user_all core_hs (alert_at 150) false ⟨100, 200⟩
        {}).null_deref = false :=
  ⟨(lookup_is_null_iff_rejected query_reject user_all core_hs (alert_at 150) false ⟨100, 200⟩
      {} rfl (by decide) (by decide) (by decide)).1.mpr ⟨rfl, by decide, by decide⟩,
   by decide⟩

theorem updateHostServiceState_services (query : Query) (user : User) (period : LogPeriod)
    (entry : LogEntry) (key : HostServiceKey) (hss : HostServiceState) (ou : Bool)
    (nps : notification_periods_t) (sink : Sink) :
    (updateHostServiceState query user period entry key hss ou nps sink).2.1._services
      = hss._services :=
  (updateHostServiceState_emits query user period entry key hss ou nps sink).2.services_eq

/-- A state or an alert of a host that is not up, applied to an object that is no host and
whose host is up: a row that ends at the time of the entry with `_host_down == 0` is emitted,
and the object goes on from the time of the entry with `_host_down == 1`. -/
theorem service_goes_host_down (query : Query) (user : User) (period : LogPeriod)
    (entry : LogEntry) (z : HostServiceKey) (S : HostServiceState)
    (nps : notification_periods_t) (s : Sink)
    (hk : entry.kind = LogEntryKind.state_host ∨ entry.kind = LogEntryKind.alert_host)
    (hst : entry.state > 0) (hS : S._is_host = false) (hd : S._host_down = 0) :
    (∃ news, (updateHostServiceState query user period entry z S false nps s).2.2.emitted
        = s.emitted ++ news
      ∧ ∃ em ∈ news, em.key = z ∧ em.row._until = entry.time ∧ em.row._host_down = 0)
    ∧ (updateHostServiceState query user period entry z S false nps s).2.1._is_host = false
    ∧ (updateHostServiceState query user period entry z S false nps s).2.1._has_vanished
        = false
    ∧ (updateHostServiceState query user period entry z S false nps s).2.1._host_down = 1
    ∧ (updateHostServiceState query user period entry z S false nps s).2.1._from
        = entry.time := by
  have hdn : down entry = 1 := by simp [down, hst]
  cases hv : S._has_vanished with
  | false =>
    refine ⟨⟨[⟨z, snapshot period (update_basic entry S),
                user.is_authorized_for_object S._host S._service false⟩], ?_,
             _, List.mem_singleton.mpr rfl, rfl, ?_, ?_⟩, ?_⟩
    · rcases hk with hk | hk <;>
        simp [updateHostServiceState, revive, hv, update_kind, hk, update_basic,
          update_log_output, emit, process_eq, snapshot,
          HostServiceState.computePerStateDurations, hS, hd, hdn]
    · simp [snapshot, update_basic, HostServiceState.computePerStateDurations]
    · simp [snapshot, update_basic, HostServiceState.computePerStateDurations, hd]
    · rcases hk with hk | hk <;>
        simp [updateHostServiceState, revive, hv, update_kind, hk, update_basic,
          update_log_output, emit, process_eq, snapshot,
          HostServiceState.computePerStateDurations, hS, hd, hdn]
  | true =>
    refine ⟨⟨[⟨z, snapshot period (frozen S),
                user.is_authorized_for_object S._host S._service false⟩,
              ⟨z, snapshot period (update_basic entry
                  (revive query user period entry z S false nps s).1),
                user.is_authorized_for_object S._host S._service false⟩], ?_,
             _, List.mem_cons_of_mem _ (List.mem_singleton.mpr rfl), rfl, ?_, ?_⟩, ?_⟩
    · rcases hk with hk | hk <;>
        simp [updateHostServiceState, revive, hv, update_kind, hk, update_basic,
          update_log_output, emit, process_eq, snapshot, frozen,
          HostServiceState.computePerStateDurations, hS, hd, hdn]
    · simp [snapshot, update_basic, HostServiceState.computePerStateDurations]
    · rcases hk with hk | hk <;>
        simp [revive, hv, hk, update_basic, emit, process_eq, snapshot, frozen,
          HostServiceState.computePerStateDurations, hd]
    · rcases hk with hk | hk <;>
        simp [updateHostServiceState, revive, hv, update_kind, hk, update_basic,
          update_log_output, emit, process_eq, snapshot, frozen,
          HostServiceState.computePerStateDurations, hS, hd, hdn]

/-- A state or an alert of a host that is not up, applied again to an object that has taken
it already: the object stays as it is in `_host_down` and `_from`. -/
theorem service_stays_host_down (query : Query) (user : User) (period : LogPeriod)
    (entry : LogEntry) (z : HostServiceKey) (S : HostServiceState)
    (nps : notification_periods_t) (s : Sink)
    (hk : entry.kind = LogEntryKind.state_host ∨ entry.kind = LogEntryKind.alert_host)
    (hst : entry.state > 0) (hS : S._is_host = false) (hv : S._has_vanished = false)
    (hd : S._host_down = 1) :
    (updateHostServiceState query user period entry z S false nps s).2.1._is_host = false
    ∧ (updateHostServiceState query user period entry z S false nps s).2.1._has_vanished
        = false
    ∧ (updateHostServiceState query user period entry z S false nps s).2.1._host_down = 1
    ∧ (updateHostServiceState query user period entry z S false nps s).2.1._from = S._from := by
  have hdn : down entry = 1 := by simp [down, hst]
  rcases hk with hk | hk <;>
    simp [updateHostServiceState, revive, hv, update_kind, hk, update_basic,
      update_log_output, hS, hd, hdn]

/-- The cascade of a state or an alert of a host that is not up leaves a service that has
taken it already as it is in `_host_down` and `_from`. -/
theorem update_services_stays_down (query : Query) (user : User) (period : LogPeriod)
    (entry : LogEntry) (nps : notification_periods_t) (z : HostServiceKey)
    (hk : entry.kind = LogEntryKind.state_host ∨ entry.kind = LogEntryKind.alert_host)
    (hst : entry.state > 0) :
    ∀ (L : List HostServiceKey) (m : state_info_t) (s : Sink) (S : HostServiceState),
      map_find z m = some S → S._is_host = false → S._has_vanished = false →
      S._host_down = 1 →
      ∃ S', map_find z (update_services query user period entry false nps L m s).1 = some S'
        ∧ S'._is_host = false ∧ S'._has_vanished = false ∧ S'._host_down = 1
        ∧ S'._from = S._from := by
  intro L
  induction L with
  | nil => intro m s S hf h1 h2 h3; exact ⟨S, hf, h1, h2, h3, rfl⟩
  | cons svc svcs ih =>
    intro m s S hf h1 h2 h3
    unfold update_services
    cases hsv : map_find svc m with
    | none => exact ih m s S hf h1 h2 h3
    | some Z =>
      simp only []
      by_cases hz : svc = z
      · subst hz
        rw [hsv] at hf
        simp only [Option.some.injEq] at hf
        subst hf
        obtain ⟨a1, a2, a3, a4⟩ := service_stays_host_down query user period entry svc Z nps s
          hk hst h1 h2 h3
        obtain ⟨S', b0, b1, b2, b3, b4⟩ := ih
          (map_modify svc (fun _ =>
            (updateHostServiceState query user period entry svc Z false nps s).2.1) m)
          (updateHostServiceState query user period entry svc Z false nps s).2.2
          (updateHostServiceState query user period entry svc Z false nps s).2.1
          (by rw [map_find_map_modify, if_pos rfl, hsv]; rfl) a1 a2 a3
        exact ⟨S', b0, b1, b2, b3, b4.trans a4⟩
      · exact ih _ _ S (by rw [map_find_map_modify, if_neg (Ne.symm hz)]; exact hf) h1 h2 h3

/-- The cascade of a state or an alert of a host that is not up, for a service of the list
whose host is up: a row of the service that ends at the time of the entry with
`_host_down == 0` is emitted, and the service goes on from the time of the entry with
`_host_down == 1`. -/
theorem update_services_goes_down (query : Query) (user : User) (period : LogPeriod)
    (entry : LogEntry) (nps : notification_periods_t) (z : HostServiceKey)
    (hk : entry.kind = LogEntryKind.state_host ∨ entry.kind = LogEntryKind.alert_host)
    (hst : entry.state > 0) :
    ∀ (L : List HostServiceKey) (m : state_info_t) (s : Sink) (S : HostServiceState),
      z ∈ L → map_find z m = some S → S._is_host = false → S._host_down = 0 →
      (∃ news, (update_services query user period entry false nps L m s).2.emitted
          = s.emitted ++ news
        ∧ ∃ em ∈ news, em.key = z ∧ em.row._until = entry.time ∧ em.row._host_down = 0)
      ∧ ∃ S', map_find z (update_services query user period entry false nps L m s).1 = some S'
        ∧ S'._host_down = 1 ∧ S'._from = entry.time := by
  intro L
  induction L with
  | nil => intro m s S hz; exact absurd hz (by simp)
  | cons svc svcs ih =>
    intro m s S hz hf h1 h2
    unfold update_services
    cases hsv : map_find svc m with
    | none =>
      have hne : svc ≠ z := fun hc => by rw [hc, hf] at hsv; simp at hsv
      have hz' : z ∈ svcs := by
        rcases List.mem_cons.mp hz with h | h
        · exact absurd h.symm hne
        · exact h
      exact ih m s S hz' hf h1 h2
    | some Z =>
      simp only []
      obtain ⟨n2, hn2, _⟩ := update_services_grows_keys query user period entry false nps svcs
        (map_modify svc (fun _ =>
          (updateHostServiceState query user period entry svc Z false nps s).2.1) m)
        (updateHostServiceState query user period entry svc Z false nps s).2.2
      by_cases hsz : svc = z
      · subst hsz
        rw [hsv] at hf
        simp only [Option.some.injEq] at hf
        subst hf
        obtain ⟨⟨n1, hn1, em, hem, e1, e2, e3⟩, a1, a2, a3, a4⟩ :=
          service_goes_host_down query user period entry svc Z nps s hk hst h1 h2
        obtain ⟨S', b0, _, _, b3, b4⟩ := update_services_stays_down query user period entry nps
          svc hk hst svcs
          (map_modify svc (fun _ =>
            (updateHostServiceState query user period entry svc Z false nps s).2.1) m)
          (updateHostServiceState query user period entry svc Z false nps s).2.2
          (updateHostServiceState query user period entry svc Z false nps s).2.1
          (by rw [map_find_map_modify, if_pos rfl, hsv]; rfl) a1 a2 a3
        refine ⟨⟨n1 ++ n2, ?_, em, List.mem_append_left _ hem, e1, e2, e3⟩,
          S', b0, b3, b4.trans a4⟩
        rw [hn2, hn1, List.append_assoc]
      · have hz' : z ∈ svcs := by
          rcases List.mem_cons.mp hz with h | h
          · exact absurd h.symm hsz
          · exact h
        obtain ⟨n1, hn1, _⟩ :=
          updateHostServiceState_grows query user period entry svc Z false nps s
            (fun _ _ _ => trivial)
        obtain ⟨⟨n3, hn3, em, hem, e1, e2, e3⟩, hS'⟩ := ih
          (map_modify svc (fun _ =>
            (updateHostServiceState query user period entry svc Z false nps s).2.1) m)
          (updateHostServiceState query user period entry svc Z false nps s).2.2 S hz'
          (by rw [map_find_map_modify, if_neg (Ne.symm hsz)]; exact hf) h1 h2
        refine ⟨⟨n1 ++ n3, ?_, em, List.mem_append_right _ hem, e1, e2, e3⟩, hS'⟩
        rw [hn3, hn1, List.append_assoc]

/-- C22: in the emission phase, for an `alert_host`, `state_host` or `downtime_alert_host`
entry and the host object `H` of the state table: when `updateHostServiceState` reports
`changed` for `H`, `update` goes on with the cascade, which applies `updateHostServiceState`
with the same entry to every object of the list `_services` of `H` in turn; when it reports
`unchanged`, only `H` is written and no other object of the table is touched. For a state or
an alert with a state `> 0` that changes `H`, every object of the list that is no host and
has `_host_down == 0` gets a row that ends at the time of the entry with `_host_down == 0`,
and goes on from the time of the entry with `_host_down == 1`. -/
theorem host_cascade (query : Query) (user : User) (period : LogPeriod) (entry : LogEntry)
    (key : HostServiceKey) (H : HostServiceState) (nps : notification_periods_t)
    (m : state_info_t) (sink : Sink)
    (hk : entry.kind = LogEntryKind.alert_host ∨ entry.kind = LogEntryKind.state_host
      ∨ entry.kind = LogEntryKind.downtime_alert_host)
    (hf : map_find key m = some H) (hH : H._is_host = true) :
    ((updateHostServiceState query user period entry key H false nps sink).1
        = ModificationStatus.changed →
      update query user period entry key H false nps m sink
        = update_services query user period entry false nps H._services
            (map_modify key
              (fun _ => (updateHostServiceState query user period entry key H false nps
                sink).2.1) m)
            (updateHostServiceState query user period entry key H false nps sink).2.2)
    ∧ ((updateHostServiceState query user period entry key H false nps sink).1
        = ModificationStatus.unchanged →
      update query user period entry key H false nps m sink
        = (map_modify key
            (fun _ => (updateHostServiceState query user period entry key H false nps
              sink).2.1) m,
           (updateHostServiceState query user period entry key H false nps sink).2.2)
      ∧ ∀ z, z ≠ key →
          map_find z (update query user period entry key H false nps m sink).1
            = map_find z m)
    ∧ (entry.kind ≠ LogEntryKind.downtime_alert_host → entry.state > 0 →
      (updateHostServiceState query user period entry key H false nps sink).1
        = ModificationStatus.changed →
      ∀ z S, z ∈ H._services → map_find z m = some S → S._is_host = false →
        S._host_down = 0 →
        (∃ news, (update query user period entry key H false nps m sink).2.emitted
            = sink.emitted ++ news
          ∧ ∃ em ∈ news, em.key = z ∧ em.row._until = entry.time ∧ em.row._host_down = 0)
        ∧ ∃ S', map_find z (update query user period entry key H false nps m sink).1 = some S'
          ∧ S'._host_down = 1 ∧ S'._from = entry.time) := by
  have hk' : entry.kind = LogEntryKind.alert_host ∨ entry.kind = LogEntryKind.state_host
      ∨ entry.kind = LogEntryKind.downtime_alert_host := hk
  have hsv := updateHostServiceState_services query user period entry key H false nps sink
  have hch : (updateHostServiceState query user period entry key H false nps sink).1
        = ModificationStatus.changed →
      update query user period entry key H false nps m sink
        = update_services query user period entry false nps H._services
            (map_modify key
              (fun _ => (updateHostServiceState query user period entry key H false nps
                sink).2.1) m)
            (updateHostServiceState query user period entry key H false nps sink).2.2 := by
    intro hc
    unfold update
    simp only []
    rw [if_pos ⟨hk', hc⟩, hsv]
  have hun : (updateHostServiceState query user period entry key H false nps sink).1
        = ModificationStatus.unchanged →
      update query user period entry key H false nps m sink
        = (map_modify key
            (fun _ => (updateHostServiceState query user period entry key H false nps
              sink).2.1) m,
           (updateHostServiceState query user period entry key H false nps sink).2.2) := by
    intro hc
    unfold update
    simp only []
    rw [if_neg (fun h => by rw [hc] at h; exact absurd h.2 (by decide))]
  refine ⟨hch, fun hc => ⟨hun hc, fun z hz => ?_⟩, ?_⟩
  · rw [hun hc]
    simp only []
    rw [map_find_map_modify, if_neg hz]
  · intro hnd hst hc z S hz hS h1 h2
    have hk2 : entry.kind = LogEntryKind.state_host ∨ entry.kind = LogEntryKind.alert_host := by
      rcases hk with h | h | h
      · exact Or.inr h
      · exact Or.inl h
      · exact absurd h hnd
    have hne : z ≠ key := fun he => by
      rw [he, hf] at hS
      simp only [Option.some.injEq] at hS
      rw [← hS, hH] at h1
      exact absurd h1 (by decide)
    obtain ⟨n1, hn1, _⟩ := updateHostServiceState_grows query user period entry key H false
      nps sink (fun _ _ _ => trivial)
    obtain ⟨⟨n2, hn2, em, hem, e1, e2, e3⟩, hS'⟩ := update_services_goes_down query user
      period entry nps z hk2 hst H._services
      (map_modify key
        (fun _ => (updateHostServiceState query user period entry key H false nps sink).2.1) m)
      (updateHostServiceState query user period entry key H false nps sink).2.2 S hz
      (by rw [map_find_map_modify, if_neg hne]; exact hS) h1 h2
    rw [hch hc]
    refine ⟨⟨n1 ++ n2, ?_, em, List.mem_append_right _ hem, e1, e2, e3⟩, hS'⟩
    rw [hn2, hn1, List.append_assoc]

/-- C22 on scenario 2: the host `h` and its services `s1` and `s2` are tracked from `0`; when
the host goes down at `100`, the rows `[0, 100)` of the host and of both services are emitted
with `_host_down == 0`, and the services go on from `100` with `_host_down == 1`. -/
theorem host_cascade_witness :
    (∃ H, map_find 1 (handle_entries query_all user_all core_h2 ⟨0, 1000⟩
          entries_host_and_services {}).state_info = some H
      ∧ ∃ S', map_find 2 (update query_all user_all ⟨0, 1000⟩ host_down_at_100 1 H false []
          (handle_entries query_all user_all core_h2 ⟨0, 1000⟩
            entries_host_and_services {}).state_info
          (handle_entries query_all user_all core_h2 ⟨0, 1000⟩
            entries_host_and_services {}).sink).1 = some S'
        ∧ S'._host_down = 1 ∧ S'._from = 100)
    ∧ (handle_entries query_all user_all core_h2 ⟨0, 1000⟩
        (entries_host_and_services ++ [host_down_at_100]) {}).sink.emitted.map
        (fun e => (e.key, e.row._from, e.row._until, e.row._state, e.row._host_down))
      = [(1, 0, 100, 0, 0), (2, 0, 100, 0, 0), (3, 0, 100, 0, 0)]
    ∧ (handle_entries query_all user_all core_h2 ⟨0, 1000⟩
        (entries_host_and_services ++ [host_down_at_100]) {}).state_info.map
        (fun kh => (kh.1, kh.2._from, kh.2._host_down))
      = [(1, 100, 1), (2, 100, 1), (3, 100, 1)] := by
  refine ⟨?_, by decide, by decide⟩
  have hH : ((map_find 1 (handle_entries query_all user_all core_h2 ⟨0, 1000⟩
      entries_host_and_services {}).state_info).map
      (fun X => (X._is_host, X._state, X._has_vanished, X._services)))
      = some (true, 0, false, [2, 3]) := by decide
  have hS : ((map_find 2 (handle_entries query_all user_all core_h2 ⟨0, 1000⟩
      entries_host_and_services {}).state_info).map
      (fun X => (X._is_host, X._host_down))) = some (false, 0) := by decide
  cases hX : map_find 1 (handle_entries query_all user_all core_h2 ⟨0, 1000⟩
      entries_host_and_services {}).state_info with
  | none => rw [hX] at hH; simp at hH
  | some H =>
    cases hY : map_find 2 (handle_entries query_all user_all core_h2 ⟨0, 1000⟩
        entries_host_and_services {}).state_info with
    | none => rw [hY] at hS; simp at hS
    | some S =>
      rw [hX] at hH
      rw [hY] at hS
      simp only [Option.map_some', Option.some.injEq, Prod.mk.injEq] at hH hS
      have hc : (updateHostServiceState query_all user_all ⟨0, 1000⟩ host_down_at_100 1 H false
          [] (handle_entries query_all user_all core_h2 ⟨0, 1000⟩
            entries_host_and_services {}).sink).1 = ModificationStatus.changed := by
        simp [updateHostServiceState, revive, hH.2.2.1, update_kind, host_down_at_100,
          update_basic, hH.1, hH.2.1]
      exact ⟨H, rfl, ((host_cascade query_all user_all ⟨0, 1000⟩ host_down_at_100 1 H []
        _ _ (Or.inl rfl) hX hH.1).2.2 (by decide) (by decide) hc 2 S
        (by rw [hH.2.2.2]; decide) hY hS.1 hS.2).2⟩

theorem period_status_binary {nps : notification_periods_t} (hN : binary_periods nps)
    (name : String) : period_status nps name = 0 ∨ period_status nps name = 1 := by
  unfold period_status
  cases h : map_find name nps with
  | none => exact Or.inr rfl
  | some v => exact hN (name, v) (map_find_mem h)

theorem started_binary (entry : LogEntry) : started entry = 0 ∨ started entry = 1 := by
  unfold started
  split_ifs
  · exact Or.inr rfl
  · exact Or.inl rfl

theorem revive_binary (query : Query) (user : User) (period : LogPeriod) (entry : LogEntry)
    (key : HostServiceKey) (h : HostServiceState) (ou : Bool) (nps : notification_periods_t)
    (s : Sink) (hN : binary_periods nps) (hI : Binary h) :
    Binary (revive query user period entry key h ou nps s).1 := by
  unfold revive
  split
  · refine ⟨period_status_binary hN _, period_status_binary hN _, Or.inl rfl, ?_, Or.inl rfl⟩
    simp only [emit_fst_in_host_downtime]
    exact hI.2.2.2.1
  · exact hI

theorem emit_binary (query : Query) (user : User) (period : LogPeriod) (ou : Bool)
    (key : HostServiceKey) (h : HostServiceState) (s : Sink) (hI : Binary h) :
    Binary (emit query user period ou key h s).1 := by
  unfold Binary
  simp only [emit_fst_in_notification_period, emit_fst_in_service_period, emit_fst_in_downtime,
    emit_fst_in_host_downtime, emit_fst_is_flapping]
  exact hI

theorem update_timeperiod_binary (query : Query) (user : User) (period : LogPeriod)
    (entry : LogEntry) (key : HostServiceKey) (h : HostServiceState) (ou : Bool) (s : Sink)
    (ht : ∀ tpt, TimeperiodTransition.parse entry.options = some tpt →
      tpt.to_ = 0 ∨ tpt.to_ = 1) (hI : Binary h) :
    Binary (update_timeperiod query user period entry key h ou s).1 := by
  unfold update_timeperiod
  split
  · exact hI
  · rename_i tpt hp
    have hto := ht tpt hp
    simp only []
    generalize hp1 : (if h._host ≠ Option.none ∧ tpt.name_ = h._notification_period
          ∧ tpt.to_ ≠ h._in_notification_period then
        (({ (emit query user period ou key h s).1 with
            _debug_info := "TIMEPERIOD ", _in_notification_period := tpt.to_ },
          (emit query user period ou key h s).2) : HostServiceState × Sink)
      else (h, s)) = p1
    have h1 : Binary p1.1 := by
      rw [← hp1]
      split_ifs
      · have := emit_binary query user period ou key h s hI
        exact ⟨hto, this.2.1, this.2.2.1, this.2.2.2.1, this.2.2.2.2⟩
      · exact hI
    split_ifs
    · have := emit_binary query user period ou key p1.1 p1.2 h1
      exact ⟨this.1, hto, this.2.2.1, this.2.2.2.1, this.2.2.2.2⟩
    · exact h1

theorem update_kind_binary (query : Query) (user : User) (period : LogPeriod)
    (entry : LogEntry) (key : HostServiceKey) (h : HostServiceState) (ou : Bool) (s : Sink)
    (ht : binary_transition entry) (hI : Binary h) :
    Binary (update_kind query user period entry key h ou s).2.1 := by
  have he := emit_binary query user period ou key h s hI
  have hs := started_binary entry
  unfold update_kind
  split
  all_goals first
    | exact hI
    | exact update_timeperiod_binary query user period entry key h ou s
        (ht (by assumption)) hI
    | (split_ifs <;> first
        | exact hI
        | exact he
        | exact ⟨he.1, he.2.1, he.2.2.1, he.2.2.2.1, hs⟩
        | exact ⟨he.1, he.2.1, hs, he.2.2.2.1, he.2.2.2.2⟩
        | exact ⟨he.1, he.2.1, hs, hs, he.2.2.2.2⟩
        | exact ⟨he.1, he.2.1, he.2.2.1, hs, he.2.2.2.2⟩
        | (refine ⟨he.1, he.2.1, ?_, hs, he.2.2.2.2⟩
           dsimp only
           split_ifs <;> first | exact hs | exact he.2.2.1))

theorem updateHostServiceState_binary (query : Query) (user : User) (period : LogPeriod)
    (entry : LogEntry) (key : HostServiceKey) (h : HostServiceState) (ou : Bool)
    (nps : notification_periods_t) (s : Sink) (hN : binary_periods nps)
    (ht : binary_transition entry) (hI : Binary h) :
    Binary (updateHostServiceState query user period entry key h ou nps s).2.1 := by
  unfold updateHostServiceState
  simp only []
  have h1 := revive_binary query user period entry key h ou nps s hN hI
  have h2 : Binary (update_basic entry (revive query user period entry key h ou nps s).1) := h1
  have h3 := update_kind_binary query user period entry key _ ou
    (revive query user period entry key h ou nps s).2 ht h2
  unfold update_log_output
  split_ifs
  · exact h3
  · exact h3

theorem update_services_binary (query : Query) (user : User) (period : LogPeriod)
    (entry : LogEntry) (ou : Bool) (nps : notification_periods_t)
    (hN : binary_periods nps) (ht : binary_transition entry) :
    ∀ (L : List HostServiceKey) (m : state_info_t) (s : Sink), AllStates Binary m →
      AllStates Binary (update_services query user period entry ou nps L m s).1 := by
  intro L
  induction L with
  | nil => intro m s hI; exact hI
  | cons svc svcs ih =>
    intro m s hI
    unfold update_services
    cases hsv : map_find svc m with
    | none => exact ih m s hI
    | some Z =>
      simp only []
      exact ih _ _ (allStates_map_modify hI (fun _ _ =>
        updateHostServiceState_binary query user period entry svc Z ou nps s hN ht
          (hI (svc, Z) (map_find_mem hsv))))

theorem update_binary (query : Query) (user : User) (period : LogPeriod)
    (entry : LogEntry) (key : HostServiceKey) (state : HostServiceState) (ou : Bool)
    (nps : notification_periods_t) (m : state_info_t) (s : Sink)
    (hN : binary_periods nps) (ht : binary_transition entry) (hI : AllStates Binary m)
    (hs : Binary state) :
    AllStates Binary (update query user period entry key state ou nps m s).1 := by
  have h1 : AllStates Binary (map_modify key (fun _ =>
      (updateHostServiceState query user period entry key state ou nps s).2.1) m) :=
    allStates_map_modify hI (fun _ _ =>
      updateHostServiceState_binary query user period entry key state ou nps s hN ht hs)
  unfold update
  simp only []
  split_ifs
  · exact update_services_binary query user period entry ou nps hN ht _ _ _ h1
  · exact h1

theorem insert_new_state_binary {query : Query} {user : User} {period : LogPeriod}
    {entry : LogEntry} {ou : Bool} {nps : notification_periods_t}
    {m m' : state_info_t} {bl bl' : object_blacklist_t}
    {eh : Option IHost} {es : Option IService} {key : HostServiceKey}
    (hN : binary_periods nps) (hI : AllStates Binary m)
    (h : insert_new_state query user entry ou nps m bl period eh es key = some (m', bl')) :
    AllStates Binary m' := by
  unfold insert_new_state at h
  simp only [] at h
  split_ifs at h
  · simp only [Option.some.injEq, Prod.mk.injEq] at h
    rw [← h.1]
    exact hI
  · split at h
    · exact absurd h (by simp)
    · rename_i state1 m1 hl
      split at h
      · exact absurd h (by simp)
      · rename_i state3 hinh
        simp only [Option.some.injEq, Prod.mk.injEq] at h
        rw [← h.1]
        obtain ⟨hI1, l, hl1⟩ := link_services_sound (I := Binary) (fun _ _ hh => hh) hI hl
        have hb0 : Binary (init_periods period nps state1) := by
          rw [hl1]
          exact ⟨period_status_binary hN _, period_status_binary hN _, Or.inl rfl, Or.inl rfl,
            Or.inl rfl⟩
        have hb3 : Binary state3 := by
          unfold inherit_host at hinh
          split_ifs at hinh
          · simp only [Option.some.injEq] at hinh
            rw [← hinh]
            exact hb0
          · cases hh : host_handle (init_periods period nps state1) with
            | none => rw [hh] at hinh; simp at hinh
            | some k =>
              rw [hh] at hinh
              simp only [Option.map_some', Option.some.injEq] at hinh
              rw [← hinh]
              cases hf : map_find k m1 with
              | none => exact hb0
              | some my_host =>
                have hm := hI1 (k, my_host) (map_find_mem hf)
                exact ⟨hb0.1, hb0.2.1, hb0.2.2.1, hm.2.2.2.1, hb0.2.2.2.2⟩
        refine allStates_map_set hI1 ?_
        unfold stamp_unmonitored
        split_ifs
        · exact hb3
        · exact hb3

theorem handle_state_entry_binary (query : Query) (user : User) (core : ICore)
    (entry : LogEntry) (is_host_entry : Bool) (period : LogPeriod) (r : Replay)
    (ht : binary_transition entry) (hN : binary_periods r.notification_periods)
    (hI : AllStates Binary r.state_info) :
    AllStates Binary (handle_state_entry query user core entry is_host_entry period r).state_info
    ∧ (handle_state_entry query user core entry is_host_entry period r).notification_periods
        = r.notification_periods := by
  unfold handle_state_entry
  simp only []
  split_ifs
  · exact ⟨hI, rfl⟩
  · exact ⟨hI, rfl⟩
  · split
    · exact ⟨hI, rfl⟩
    · rename_i m1 bl1 hins
      have hI1 : AllStates Binary m1 := by
        unfold insert_if_new at hins
        split_ifs at hins
        · simp only [Option.some.injEq, Prod.mk.injEq] at hins
          rw [← hins.1]
          exact hI
        · exact insert_new_state_binary hN hI hins
      split
      · exact ⟨hI1, rfl⟩
      · rename_i state hst
        exact ⟨update_binary query user period entry _ state r.only_update
          r.notification_periods m1 r.sink hN ht hI1 (hI1 _ (map_find_mem hst)), rfl⟩

theorem binary_periods_map_set {nps : notification_periods_t} (hN : binary_periods nps)
    (name : String) (v : Int) (hv : v = 0 ∨ v = 1) :
    binary_periods (map_set name_lt name v nps) := by
  intro nv hnv
  rcases mem_map_set hnv with h | h
  · rw [h]; exact hv
  · exact hN nv h

theorem handle_timeperiod_transition_binary (query : Query) (user : User)
    (period : LogPeriod) (entry : LogEntry) (r : Replay)
    (hk : entry.kind = LogEntryKind.timeperiod_transition)
    (ht : binary_transition entry) (hN : binary_periods r.notification_periods)
    (hI : AllStates Binary r.state_info) :
    AllStates Binary (handle_timeperiod_transition query user period entry r).state_info
    ∧ binary_periods (handle_timeperiod_transition query user period entry r).notification_periods
    := by
  unfold handle_timeperiod_transition
  split
  · exact ⟨hI, hN⟩
  · rename_i tpt hp
    simp only []
    have hN1 := binary_periods_map_set hN tpt.name_ tpt.to_ (ht hk tpt hp)
    refine ⟨(for_each_state_sound (I := Binary) (P := fun _ => True) (fun k h s hh =>
      ⟨updateHostServiceState_binary query user period entry k h r.only_update _ s hN1 ht hh,
       updateHostServiceState_grows query user period entry k h r.only_update _ s
        (fun _ _ _ => trivial)⟩) r.state_info r.sink hI).1, hN1⟩

theorem dispatch_binary (query : Query) (user : User) (core : ICore) (period : LogPeriod)
    (entry : LogEntry) (r : Replay) (ht : binary_transition entry)
    (hN : binary_periods r.notification_periods) (hI : AllStates Binary r.state_info) :
    AllStates Binary (dispatch query user core period entry r).state_info
    ∧ binary_periods (dispatch query user core period entry r).notification_periods := by
  have hu : AllStates Binary
      (set_unknown_to_unmonitored r.in_nagios_initial_states r.state_info) :=
    set_unknown_to_unmonitored_sound (I := Binary) (fun _ hh _ => hh) _ hI
  unfold dispatch
  simp only []
  split
  all_goals first
    | exact ⟨hu, hN⟩
    | exact ⟨(handle_state_entry_binary query user core entry _ period r ht hN hI).1,
        by rw [(handle_state_entry_binary query user core entry _ period r ht hN hI).2];
           exact hN⟩
    | exact ⟨(handle_state_entry_binary query user core entry _ period
          { r with state_info :=
              set_unknown_to_unmonitored r.in_nagios_initial_states r.state_info } ht hN hu).1,
        by rw [(handle_state_entry_binary query user core entry _ period
              { r with state_info :=
                  set_unknown_to_unmonitored r.in_nagios_initial_states r.state_info }
              ht hN hu).2];
           exact hN⟩
    | exact handle_timeperiod_transition_binary query user period entry
        { r with state_info :=
            set_unknown_to_unmonitored r.in_nagios_initial_states r.state_info }
        (by assumption) ht hN hu
    | exact ⟨handle_log_initial_states_sound (I := Binary) (fun _ hh _ => hh) hu, hN⟩

theorem handle_entry_binary (query : Query) (user : User) (core : ICore) (period : LogPeriod)
    (entry : LogEntry) (r : Replay) (ht : binary_transition entry)
    (hN : binary_periods r.notification_periods) (hI : AllStates Binary r.state_info) :
    AllStates Binary (handle_entry query user core period entry r).state_info
    ∧ binary_periods (handle_entry query user core period entry r).notification_periods := by
  unfold handle_entry
  refine dispatch_binary query user core period entry _ ht ?_ ?_
  · rw [start_of_timeframe_periods]
    exact hN
  · exact @start_of_timeframe_sound Binary Binary period entry r
      (fun _ _ _ hh => hh) (fun _ _ hh => hh) hI

theorem handle_entries_binary (query : Query) (user : User) (core : ICore)
    (period : LogPeriod) :
    ∀ (es : List LogEntry) (r : Replay), (∀ e ∈ es, binary_transition e) →
      binary_periods r.notification_periods → AllStates Binary r.state_info →
      AllStates Binary (handle_entries query user core period es r).state_info
      ∧ binary_periods (handle_entries query user core period es r).notification_periods := by
  intro es
  induction es with
  | nil => intro r _ hN hI; exact ⟨hI, hN⟩
  | cons e es ih =>
    intro r het hN hI
    obtain ⟨h1, h2⟩ := handle_entry_binary query user core period e r
      (het e (List.mem_cons_self _ _)) hN hI
    exact ih _ (fun e' he' => het e' (List.mem_cons_of_mem _ he')) h2 h1

/-- C24 fails as stated: the transition `np;1;5` is parsed, and after it the service `h;s`,
whose notification period is `np`, has `_in_notification_period == 5`. -/
theorem flags_binary_counterexample :
    TimeperiodTransition.parse "np;1;5" = some ⟨"np", 1, 5⟩
    ∧ (map_find 2 (handle_entries query_all user_all core_hs ⟨100, 200⟩
        entries_transition_to_5 {}).state_info).map (fun X => X._in_notification_period)
      = some 5 :=
  ⟨by decide, by decide⟩

/-- C24 (amended): when every `TIMEPERIOD TRANSITION` among the entries whose payload is
parsed leads to `0` or to `1`, then after the entries every object of the state table has
`0` or `1` in each of `_in_notification_period`, `_in_service_period`, `_in_downtime`,
`_in_host_downtime` and `_is_flapping`, and every period of the period map has the value `0`
or `1`. -/
theorem flags_are_binary (query : Query) (user : User) (core : ICore) (period : LogPeriod)
    (entries : List LogEntry) (h : ∀ e ∈ entries, binary_transition e) :
    (∀ k X, map_find k (handle_entries query user core period entries {}).state_info = some X →
      Binary X)
    ∧ binary_periods (handle_entries query user core period entries {}).notification_periods := by
  obtain ⟨h1, h2⟩ := handle_entries_binary query user core period entries {} h
    (fun nv hnv => by simp at hnv) (fun kh hkh => by simp at hkh)
  exact ⟨fun k X hX => h1 (k, X) (map_find_mem hX), h2⟩

/-- C24 (amended) at a `log_initial_states` entry, the transition `np;1;0` and the first
alert of the service `h;s`: the service has `0` or `1` in the five members (`0` in
`_in_notification_period`). -/
theorem flags_are_binary_witness :
    (∀ X, map_find 2 (handle_entries query_all user_all core_hs ⟨100, 1000⟩
        entries_vanish_transition {}).state_info = some X → Binary X)
    ∧ (map_find 2 (handle_entries query_all user_all core_hs ⟨100, 1000⟩
        entries_vanish_transition {}).state_info).map (fun X => X._in_notification_period)
      = some 0 := by
  refine ⟨fun X hX => (flags_are_binary query_all user_all core_hs ⟨100, 1000⟩
    entries_vanish_transition ?_).1 2 X hX, by decide⟩
  intro e he hk tpt hp
  simp only [entries_vanish_transition, List.mem_cons, List.mem_singleton,
    List.not_mem_nil, or_false] at he
  rcases he with he | he | he
  · rw [he] at hk; exact absurd hk (by decide)
  · rw [he] at hp
    have hq : TimeperiodTransition.parse "np;1;0" = some ⟨"np", 1, 0⟩ := by decide
    rw [hq] at hp
    simp only [Option.some.injEq] at hp
    rw [← hp]
    exact Or.inl rfl
  · rw [he] at hk; exact absurd hk (by decide)

theorem keys_of_services_table (m : state_info_t) :
    (services_table m).map Prod.fst = keys m := by
  unfold services_table keys
  rw [List.map_map]
  rfl

theorem services_table_keys {m m' : state_info_t} (h : services_table m' = services_table m) :
    keys m' = keys m := by
  rw [← keys_of_services_table, ← keys_of_services_table, h]

theorem map_find_services_table (k : HostServiceKey) : ∀ m : state_info_t,
    map_find k (services_table m) = (map_find k m).map (fun X => X._services) := by
  intro m
  induction m with
  | nil => rfl
  | cons x m ih =>
    obtain ⟨k', v⟩ := x
    simp only [services_table, List.map_cons, map_find] at ih ⊢
    split_ifs
    · rfl
    · exact ih

theorem find_of_services_table {m m' : state_info_t}
    (h : services_table m' = services_table m) {k : HostServiceKey} {H : HostServiceState}
    (hf : map_find k m = some H) :
    ∃ H', map_find k m' = some H' ∧ H'._services = H._services := by
  have h1 := map_find_services_table k m'
  rw [h, map_find_services_table, hf] at h1
  cases hf' : map_find k m' with
  | none => rw [hf'] at h1; simp at h1
  | some H' =>
    rw [hf'] at h1
    simp only [Option.map_some', Option.some.injEq] at h1
    exact ⟨H', rfl, h1.symm⟩

theorem find_none_of_services_table {m m' : state_info_t}
    (h : services_table m' = services_table m) {k : HostServiceKey}
    (hf : map_find k m = Option.none) : map_find k m' = Option.none := by
  have h1 := map_find_services_table k m'
  rw [h, map_find_services_table, hf] at h1
  cases hf' : map_find k m' with
  | none => rfl
  | some H' => rw [hf'] at h1; simp at h1

theorem BackLinksUnique.links_congr {m m' : state_info_t}
    (h : services_table m' = services_table m) (hb : BackLinksUnique m) :
    BackLinksUnique m' := by
  refine ⟨by rw [services_table_keys h]; exact hb.1, fun k H' hH' => ?_⟩
  obtain ⟨H, hH, hs⟩ := find_of_services_table h.symm hH'
  rw [← hs, services_table_keys h]
  exact hb.2 k H hH

theorem LinksGrow.links_of_eq {m m' : state_info_t} (h : services_table m' = services_table m) :
    LinksGrow m m' := by
  refine ⟨fun k H hH => ?_, fun k X hn hX => ?_⟩
  · obtain ⟨H', hH', hs⟩ := find_of_services_table h hH
    exact ⟨H', hH', Or.inl hs⟩
  · rw [find_none_of_services_table h hn] at hX
    exact absurd hX (by simp)

theorem LinksGrow.congr_right {m m1 m2 : state_info_t} (hg : LinksGrow m m1)
    (h : services_table m2 = services_table m1) : LinksGrow m m2 := by
  refine ⟨fun k H hH => ?_, fun k X hn hX => ?_⟩
  · obtain ⟨H1, hH1, hs1⟩ := hg.1 k H hH
    obtain ⟨H2, hH2, hs2⟩ := find_of_services_table h hH1
    refine ⟨H2, hH2, ?_⟩
    rw [hs2, services_table_keys h]
    exact hs1
  · obtain ⟨X1, hX1, hs⟩ := find_of_services_table h.symm hX
    rw [← hs]
    exact hg.2 k X1 hn hX1

theorem LinksGrow.congr_left {m m1 m2 : state_info_t}
    (h : services_table m1 = services_table m) (hg : LinksGrow m1 m2) : LinksGrow m m2 := by
  refine ⟨fun k H hH => ?_, fun k X hn hX => ?_⟩
  · obtain ⟨H1, hH1, hs1⟩ := find_of_services_table h hH
    obtain ⟨H2, hH2, hs2⟩ := hg.1 k H1 hH1
    refine ⟨H2, hH2, ?_⟩
    rw [← hs1, ← services_table_keys h]
    exact hs2
  · rw [← services_table_keys h]
    exact hg.2 k X (find_none_of_services_table h hn) hX

theorem services_table_map (f : HostServiceKey × HostServiceState →
      HostServiceKey × HostServiceState)
    (hf : ∀ kh, (f kh).1 = kh.1 ∧ (f kh).2._services = kh.2._services) (m : state_info_t) :
    services_table (m.map f) = services_table m := by
  unfold services_table
  rw [List.map_map]
  apply List.map_congr_left
  intro kh _
  simp only [Function.comp, Prod.mk.injEq]
  exact hf kh

theorem services_table_for_each_state
    (f : HostServiceKey → HostServiceState → Sink → HostServiceState × Sink)
    (hf : ∀ k h s, (f k h s).1._services = h._services) :
    ∀ (m : state_info_t) (s : Sink),
      services_table (for_each_state f m s).1 = services_table m := by
  intro m
  induction m with
  | nil => intro s; rfl
  | cons x m ih =>
    intro s
    obtain ⟨k, h⟩ := x
    unfold for_each_state
    simp only [services_table, List.map_cons, hf] at ih ⊢
    rw [ih]

theorem services_table_write {k : HostServiceKey} {X Y : HostServiceState}
    (hY : Y._services = X._services) :
    ∀ {m : state_info_t}, map_find k m = some X →
      services_table (map_modify k (fun _ => Y) m) = services_table m := by
  intro m
  induction m with
  | nil => intro _; rfl
  | cons x m ih =>
    intro hf
    obtain ⟨k', v⟩ := x
    unfold map_find at hf
    unfold map_modify
    split_ifs at hf ⊢ with hk
    · simp only [Option.some.injEq] at hf
      subst hf
      simp [services_table, hY]
    · simp only [services_table, List.map_cons] at ih ⊢
      rw [ih hf]

theorem services_table_update_services (query : Query) (user : User) (period : LogPeriod)
    (entry : LogEntry) (ou : Bool) (nps : notification_periods_t) :
    ∀ (L : List HostServiceKey) (m : state_info_t) (s : Sink),
      services_table (update_services query user period entry ou nps L m s).1
        = services_table m := by
  intro L
  induction L with
  | nil => intro m s; rfl
  | cons svc svcs ih =>
    intro m s
    unfold update_services
    cases hsv : map_find svc m with
    | none => exact ih m s
    | some Z =>
      simp only []
      rw [ih, services_table_write
        (updateHostServiceState_services query user period entry svc Z ou nps s) hsv]

theorem services_table_update (query : Query) (user : User) (period : LogPeriod)
    (entry : LogEntry) (key : HostServiceKey) (state : HostServiceState) (ou : Bool)
    (nps : notification_periods_t) (m : state_info_t) (s : Sink)
    (hf : map_find key m = some state) :
    services_table (update query user period entry key state ou nps m s).1
      = services_table m := by
  have h1 := services_table_write (k := key)
    (updateHostServiceState_services query user period entry key state ou nps s) hf
  unfold update
  simp only []
  split_ifs
  · rw [services_table_update_services, h1]
  · exact h1

theorem collect_services_sublist (state : HostServiceState) :
    ∀ (m : state_info_t) (l : List HostServiceKey), collect_services state m = some l →
      l.Sublist (keys m) := by
  intro m
  induction m with
  | nil =>
    intro l h
    simp only [collect_services, Option.some.injEq] at h
    rw [← h]
    exact List.Sublist.slnil
  | cons x m ih =>
    intro l h
    obtain ⟨k', v⟩ := x
    unfold collect_services at h
    split at h
    · exact (ih l h).cons _
    · split at h
      · exact absurd h (by simp)
      · cases hc : collect_services state m with
        | none => rw [hc] at h; simp at h
        | some l0 =>
          rw [hc] at h
          simp only [Option.map_some', Option.some.injEq] at h
          rw [← h]
          split_ifs
          · exact (ih l0 hc).cons₂ _
          · exact (ih l0 hc).cons _

/-- What `link_services` does to the lists `_services`: a new host gets the list of the
objects it collects from the table, which stays as it is; for a new service the key is
appended to the list of its host, if the table has it. -/
theorem link_services_links {state state1 : HostServiceState} {key : HostServiceKey}
    {m m1 : state_info_t} (h0 : state._services = [])
    (h : link_services state key m = some (state1, m1)) :
    (m1 = m ∧ state1._services.Sublist (keys m))
    ∨ (∃ kh, m1 = map_modify kh (fun h => { h with _services := h._services ++ [key] }) m
        ∧ state1._services = []) := by
  unfold link_services at h
  split_ifs at h
  · cases hc : collect_services state m with
    | none => rw [hc] at h; simp at h
    | some l =>
      rw [hc] at h
      simp only [Option.map_some', Option.some.injEq, Prod.mk.injEq] at h
      left
      refine ⟨h.2.symm, ?_⟩
      rw [← h.1]
      simp only [h0, List.nil_append]
      exact collect_services_sublist state m l hc
  · cases hh : host_handle state with
    | none => rw [hh] at h; simp at h
    | some kh =>
      rw [hh] at h
      simp only [Option.map_some', Option.some.injEq, Prod.mk.injEq] at h
      right
      exact ⟨kh, h.2.symm, by rw [← h.1]; exact h0⟩

theorem insert_new_state_links {query : Query} {user : User} {period : LogPeriod}
    {entry : LogEntry} {ou : Bool} {nps : notification_periods_t}
    {m m' : state_info_t} {bl bl' : object_blacklist_t}
    {eh : Option IHost} {es : Option IService} {key : HostServiceKey}
    (hb : BackLinksUnique m) (hk : map_find key m = Option.none)
    (h : insert_new_state query user entry ou nps m bl period eh es key = some (m', bl')) :
    BackLinksUnique m' ∧ LinksGrow m m' := by
  have hkey : key ∉ keys m := not_mem_keys_of_map_find_none hk
  unfold insert_new_state at h
  simp only [] at h
  split_ifs at h
  · simp only [Option.some.injEq, Prod.mk.injEq] at h
    rw [← h.1]
    exact ⟨hb, LinksGrow.links_of_eq rfl⟩
  · split at h
    · exact absurd h (by simp)
    · rename_i state1 m1 hl
      split at h
      · exact absurd h (by simp)
      · rename_i state3 hinh
        simp only [Option.some.injEq, Prod.mk.injEq] at h
        rw [← h.1]
        -- the list of the new object is the one `link_services` gave it
        have hs3 : state3._services = state1._services := by
          unfold inherit_host at hinh
          split_ifs at hinh
          · simp only [Option.some.injEq] at hinh
            rw [← hinh]; rfl
          · cases hh : host_handle (init_periods period nps state1) with
            | none => rw [hh] at hinh; simp at hinh
            | some k =>
              rw [hh] at hinh
              simp only [Option.map_some', Option.some.injEq] at hinh
              rw [← hinh]
              split <;> rfl
        have hnew : (stamp_unmonitored entry ou period state3)._services = state1._services := by
          unfold stamp_unmonitored
          split_ifs
          · exact hs3
          · exact hs3
        generalize stamp_unmonitored entry ou period state3 = new at hnew
        have hkeys1 : keys m1 = keys m := by
          rcases link_services_links rfl hl with ⟨h1, _⟩ | ⟨kh, h1, _⟩
          · rw [h1]
          · rw [h1, keys_map_modify]
        have hperm : (keys (map_set key_lt key new m1)).Perm (key :: keys m) := by
          have := keys_map_set_perm (k := key) (v := new) (m := m1) (by rw [hkeys1]; exact hkey)
          rw [hkeys1] at this
          exact this
        have hsub : ∀ z, z ∈ keys m → z ∈ keys (map_set key_lt key new m1) :=
          fun z hz => hperm.mem_iff.mpr (List.mem_cons_of_mem _ hz)
        have hkin : key ∈ keys (map_set key_lt key new m1) :=
          hperm.mem_iff.mpr (List.mem_cons_self _ _)
        -- the objects of the new table
        have hfind : ∀ k H', map_find k (map_set key_lt key new m1) = some H' →
            (k = key ∧ H' = new)
            ∨ (k ≠ key ∧ ∃ H, map_find k m = some H
                ∧ (H'._services = H._services ∨ H'._services = H._services ++ [key])) := by
          intro k H' hH'
          by_cases hkk : k = key
          · left
            rw [hkk, map_find_map_set_eq] at hH'
            simp only [Option.some.injEq] at hH'
            exact ⟨hkk, hH'.symm⟩
          · right
            rw [map_find_map_set_ne key_lt new (Ne.symm hkk)] at hH'
            refine ⟨hkk, ?_⟩
            rcases link_services_links rfl hl with ⟨h1, _⟩ | ⟨kh, h1, _⟩
            · rw [h1] at hH'
              exact ⟨H', hH', Or.inl rfl⟩
            · rw [h1, map_find_map_modify] at hH'
              split_ifs at hH' with hkh
              · cases hf : map_find kh m with
                | none => rw [hf] at hH'; simp at hH'
                | some H =>
                  rw [hf] at hH'
                  simp only [Option.map_some', Option.some.injEq] at hH'
                  exact ⟨H, by rw [hkh]; exact hf, Or.inr (by rw [← hH'])⟩
              · exact ⟨H', hH', Or.inl rfl⟩
        have hnews : state1._services.Sublist (keys m) := by
          rcases link_services_links rfl hl with ⟨_, h2⟩ | ⟨kh, _, h2⟩
          · exact h2
          · rw [h2]; exact List.nil_sublist _
        refine ⟨⟨hperm.nodup_iff.mpr (List.nodup_cons.mpr ⟨hkey, hb.1⟩), ?_⟩, ?_, ?_⟩
        · intro k H' hH'
          rcases hfind k H' hH' with ⟨_, h2⟩ | ⟨_, H, hH, h2 | h2⟩
          · rw [h2, hnew]
            exact ⟨hnews.nodup hb.1, fun z hz => hsub z (hnews.subset hz)⟩
          · rw [h2]
            exact ⟨(hb.2 k H hH).1, fun z hz => hsub z ((hb.2 k H hH).2 z hz)⟩
          · rw [h2]
            refine ⟨List.Nodup.append (hb.2 k H hH).1 (List.nodup_singleton _) ?_, ?_⟩
            · intro z hz1 hz2
              rw [List.mem_singleton] at hz2
              rw [hz2] at hz1
              exact hkey ((hb.2 k H hH).2 key hz1)
            · intro z hz
              rcases List.mem_append.mp hz with hz | hz
              · exact hsub z ((hb.2 k H hH).2 z hz)
              · rw [List.mem_singleton] at hz
                rw [hz]; exact hkin
        · intro k H hH
          have hne : k ≠ key := fun hc => by rw [hc, hk] at hH; simp at hH
          cases hf' : map_find k (map_set key_lt key new m1) with
          | none =>
            rw [map_find_map_set_ne key_lt new (Ne.symm hne)] at hf'
            rcases link_services_links rfl hl with ⟨h1, _⟩ | ⟨kh, h1, _⟩
            · rw [h1, hH] at hf'; simp at hf'
            · rw [h1, map_find_map_modify] at hf'
              split_ifs at hf' with hkh
              · rw [← hkh, hH] at hf'; simp at hf'
              · rw [hH] at hf'; simp at hf'
          | some H' =>
            rcases hfind k H' hf' with ⟨h1, _⟩ | ⟨_, H0, hH0, h2⟩
            · exact absurd h1 hne
            · rw [hH] at hH0
              simp only [Option.some.injEq] at hH0
              rw [← hH0] at h2
              rcases h2 with h2 | h2
              · exact ⟨H', rfl, Or.inl h2⟩
              · exact ⟨H', rfl, Or.inr ⟨key, hkey, hkin, h2⟩⟩
        · intro k X hn hX
          rcases hfind k X hX with ⟨_, h2⟩ | ⟨_, H, hH, _⟩
          · rw [h2, hnew]; exact hnews
          · rw [hn] at hH; simp at hH

theorem handle_state_entry_links (query : Query) (user : User) (core : ICore)
    (entry : LogEntry) (is_host_entry : Bool) (period : LogPeriod) (r : Replay)
    (hb : BackLinksUnique r.state_info) :
    BackLinksUnique (handle_state_entry query user core entry is_host_entry period r).state_info
    ∧ LinksGrow r.state_info
        (handle_state_entry query user core entry is_host_entry period r).state_info := by
  unfold handle_state_entry
  simp only []
  split_ifs
  · exact ⟨hb, LinksGrow.links_of_eq rfl⟩
  · exact ⟨hb, LinksGrow.links_of_eq rfl⟩
  · split
    · exact ⟨hb, LinksGrow.links_of_eq rfl⟩
    · rename_i m1 bl1 hins
      have h1 : BackLinksUnique m1 ∧ LinksGrow r.state_info m1 := by
        unfold insert_if_new map_contains at hins
        split_ifs at hins with hc
        · simp only [Option.some.injEq, Prod.mk.injEq] at hins
          rw [← hins.1]
          exact ⟨hb, LinksGrow.links_of_eq rfl⟩
        · have hk : map_find (entry_key core entry is_host_entry) r.state_info
              = Option.none := by
            cases hf : map_find (entry_key core entry is_host_entry) r.state_info with
            | none => rfl
            | some X => rw [hf] at hc; simp at hc
          exact insert_new_state_links hb hk hins
      split
      · exact h1
      · rename_i state hst
        have h2 := services_table_update query user period entry
          (entry_key core entry is_host_entry) state r.only_update r.notification_periods m1
          r.sink hst
        exact ⟨h1.1.links_congr h2, h1.2.congr_right h2⟩

theorem services_table_handle_timeperiod_transition (query : Query) (user : User)
    (period : LogPeriod) (entry : LogEntry) (r : Replay) :
    services_table (handle_timeperiod_transition query user period entry r).state_info
      = services_table r.state_info := by
  unfold handle_timeperiod_transition
  split
  · rfl
  · simp only []
    exact services_table_for_each_state _
      (fun k h s => updateHostServiceState_services query user period entry k h _ _ s) _ _

theorem services_table_set_unknown_to_unmonitored (b : Bool) (m : state_info_t) :
    services_table (set_unknown_to_unmonitored b m) = services_table m := by
  unfold set_unknown_to_unmonitored
  split_ifs
  · exact services_table_map _ (fun kh => by split_ifs <;> exact ⟨rfl, rfl⟩) m
  · rfl

theorem services_table_handle_log_initial_states (entry : LogEntry) (m : state_info_t) :
    services_table (handle_log_initial_states entry m) = services_table m := by
  unfold handle_log_initial_states
  exact services_table_map _ (fun kh => by split_ifs <;> exact ⟨rfl, rfl⟩) m

theorem services_table_start_of_timeframe (period : LogPeriod) (entry : LogEntry)
    (r : Replay) :
    services_table (start_of_timeframe period entry r).state_info
      = services_table r.state_info := by
  unfold start_of_timeframe
  split_ifs
  · exact services_table_map
      (fun kh => (kh.1, { kh.2 with _from := period.since, _until := period.since }))
      (fun kh => ⟨rfl, rfl⟩) r.state_info
  · rfl

theorem dispatch_links (query : Query) (user : User) (core : ICore) (period : LogPeriod)
    (entry : LogEntry) (r : Replay) (hb : BackLinksUnique r.state_info) :
    BackLinksUnique (dispatch query user core period entry r).state_info
    ∧ LinksGrow r.state_info (dispatch query user core period entry r).state_info := by
  have hu := services_table_set_unknown_to_unmonitored r.in_nagios_initial_states r.state_info
  have hbu := hb.links_congr hu
  unfold dispatch
  simp only []
  split
  all_goals first
    | exact ⟨hbu, LinksGrow.links_of_eq hu⟩
    | exact handle_state_entry_links query user core entry _ period r hb
    | exact ⟨(handle_state_entry_links query user core entry _ period
          { r with state_info :=
              set_unknown_to_unmonitored r.in_nagios_initial_states r.state_info } hbu).1,
        LinksGrow.congr_left hu (handle_state_entry_links query user core entry _ period
          { r with state_info :=
              set_unknown_to_unmonitored r.in_nagios_initial_states r.state_info } hbu).2⟩
    | exact ⟨hbu.links_congr (services_table_handle_timeperiod_transition query user period
          entry _),
        LinksGrow.links_of_eq ((services_table_handle_timeperiod_transition query user period
          entry _).trans hu)⟩
    | exact ⟨hbu.links_congr (services_table_handle_log_initial_states entry _),
        LinksGrow.links_of_eq ((services_table_handle_log_initial_states entry _).trans hu)⟩

theorem handle_entry_links (query : Query) (user : User) (core : ICore) (period : LogPeriod)
    (entry : LogEntry) (r : Replay) (hb : BackLinksUnique r.state_info) :
    BackLinksUnique (handle_entry query user core period entry r).state_info
    ∧ LinksGrow r.state_info (handle_entry query user core period entry r).state_info := by
  have hs := services_table_start_of_timeframe period entry r
  obtain ⟨h1, h2⟩ := dispatch_links query user core period entry
    (start_of_timeframe period entry r) (hb.links_congr hs)
  exact ⟨h1, LinksGrow.congr_left hs h2⟩

theorem handle_entries_links (query : Query) (user : User) (core : ICore)
    (period : LogPeriod) :
    ∀ (es : List LogEntry) (r : Replay), BackLinksUnique r.state_info →
      BackLinksUnique (handle_entries query user core period es r).state_info := by
  intro es
  induction es with
  | nil => intro r hb; exact hb
  | cons e es ih =>
    intro r hb
    exact ih _ (handle_entry_links query user core period e r hb).1

theorem chain_from_cases : ∀ (news : List Emission) (f0 f1 : Int), Chain f0 news f1 →
    ∀ e ∈ news, e.row._from = f0 ∨ ∃ e' ∈ news, e'.row._until = e.row._from := by
  intro news
  induction news with
  | nil => intro f0 f1 _ e he; simp at he
  | cons x xs ih =>
    intro f0 f1 hc e he
    obtain ⟨h1, h2⟩ := hc
    rcases List.mem_cons.mp he with he | he
    · left; rw [he]; exact h1
    · right
      rcases ih _ _ h2 e he with h | ⟨e', he', h⟩
      · exact ⟨x, List.mem_cons_self _ _, h.symm⟩
      · exact ⟨e', List.mem_cons_of_mem _ he', h⟩

theorem entrySound_until_since (query : Query) (user : User) (period : LogPeriod)
    (entry : LogEntry) (ou : Bool) (hou : ou = false → period.since ≤ entry.time) :
    EntrySound query user period entry ou (fun _ => True) (fun _ => True)
      (fun e => period.since ≤ e.row._until ∨ EndsAtLastKnown e.row) where
  update := by
    intro key h nps s _ _
    refine ⟨trivial, ?_⟩
    cases ou with
    | true =>
      exact Grows.of_eq (updateHostServiceState_only_update query user period entry key h nps s)
    | false =>
      refine updateHostServiceState_grows query user period entry key h false nps s ?_
      intro e _ hrow
      rcases hrow with hr | ⟨_, hv, hr⟩
      · left
        rw [hr.until_eq]
        exact hou rfl
      · right
        exact ⟨by rw [hr.until_eq, hr.last_known_eq]; rfl,
          Or.inl (by rw [hr.vanished_eq]; exact hv)⟩
  vanish := by intros; trivial
  initial_states := by intros; trivial
  link := by intros; trivial
  fresh := by intros; trivial
  periods := by intros; trivial

theorem replay_list_until_since (query : Query) (user : User) (core : ICore)
    (period : LogPeriod) :
    ∀ (es : List LogEntry) (r : Replay),
      es.Pairwise (fun x y => x.time ≤ y.time) →
      (r.only_update = false → ∀ e ∈ es, period.since ≤ e.time) →
      (∀ e ∈ r.sink.emitted, period.since ≤ e.row._until ∨ EndsAtLastKnown e.row) →
      ∀ e ∈ (replay_list query user core period es r).sink.emitted,
        period.since ≤ e.row._until ∨ EndsAtLastKnown e.row := by
  intro es
  induction es with
  | nil => intro r _ _ hP; exact hP
  | cons entry es ih =>
    intro r hsort hou hP
    unfold replay_list
    split_ifs with h1
    · exact hP
    · have hou' : (r.only_update && !decide (entry.time ≥ period.since)) = false →
          period.since ≤ entry.time := by
        intro hc
        by_cases hge : entry.time ≥ period.since
        · exact hge
        · simp only [hge, decide_False, Bool.not_false, Bool.and_true] at hc
          exact hou hc entry (List.mem_cons_self _ _)
      have := handle_entry_sound core (fun _ => True) (I := fun _ => True) r
        (fun _ _ _ _ => trivial) (fun _ _ _ => trivial)
        (entrySound_until_since query user period entry _ hou') trivial
        (fun _ _ => trivial)
      obtain ⟨_, hG, _, hou2⟩ := this
      simp only []
      split_ifs
      · exact hG.forall hP
      · refine ih _ (List.Pairwise.of_cons hsort) ?_ (hG.forall hP)
        intro hc e he
        rw [hou2] at hc
        exact le_trans (hou' hc) (List.rel_of_pairwise_cons hsort he)

theorem final_reports_until_since (query : Query) (user : User) (period : LogPeriod)
    (r : Replay) (hp : period.since < period.until) :
    Grows (fun e => period.since ≤ e.row._until ∨ EndsAtLastKnown e.row) r.sink
      (final_reports query user period r).sink := by
  unfold final_reports
  refine for_each_state_grows r.state_info ?_ r.sink
  intro k h s _
  refine (final_report_emits query user period k h s).grows.grows_mono ?_
  intro e ⟨_, hrow⟩
  rcases hrow with ⟨hmay, hst⟩ | ⟨hu, _⟩
  · right
    exact ⟨by rw [hst.until_eq, hst.last_known_eq]; rfl,
      Or.inr (by rw [hst.may_eq]; exact hmay)⟩
  · left
    rw [hu]
    omega

/-- When the entries of the log files are in the order of time, every interval handed to
`process` ends in the period, `period.since <= until`, except the interval that ends at the
last known time of an object flagged as vanished or as possibly no longer existing. -/
theorem emitted_since_le_until (query : Query) (user : User) (core : ICore)
    (period : LogPeriod) (log_files : List Logfile) (hord : time_ordered log_files) :
    ∀ e ∈ (answerQuery query user core period log_files).sink.emitted,
      period.since ≤ e.row._until ∨ EndsAtLastKnown e.row := by
  rw [answerQuery_eq]
  split_ifs with hemp
  · intro e he; simp at he
  · have hp : period.since < period.until := by
      simpa [LogPeriod.empty] using hemp
    split
    · intro e he; simp at he
    · rename_i it1 hrw
      obtain ⟨_, hsub, _⟩ := rewind_to_start_spec log_files period it1 hrw
      have hP' := replay_list_until_since query user core period it1.pending {}
        (List.Pairwise.sublist hsub hord) (by intro hc; simp at hc)
        (by intro e he; simp at he)
      simp only []
      split_ifs
      · exact hP'
      · exact (final_reports_until_since query user period _ hp).forall hP'
      · exact hP'

/-- C2, as amended: when the entries of the log files are in the order of time, every
interval handed to `process` during a query starts in the period, `period.since <= from`,
except possibly an interval that starts where an interval of the same object ends at the last
known time of an object flagged as vanished or as possibly no longer existing (the row of a
revival, and the first row of `final_reports` for such an object). -/
theorem emitted_since_le_from_of_time_ordered (query : Query) (user : User) (core : ICore)
    (period : LogPeriod) (log_files : List Logfile) (hord : time_ordered log_files) :
    ∀ e ∈ (answerQuery query user core period log_files).sink.emitted,
      period.since ≤ e.row._from
      ∨ ∃ e' ∈ (answerQuery query user core period log_files).sink.emitted,
          e'.key = e.key ∧ e'.row._until = e.row._from ∧ EndsAtLastKnown e'.row := by
  intro e he
  obtain ⟨f1, hc⟩ := answerQuery_chain query user core period log_files e.key
  have hmem : e ∈ emitted_for e.key
      (answerQuery query user core period log_files).sink.emitted :=
    List.mem_filter.mpr ⟨he, by simp⟩
  rcases chain_from_cases _ _ _ hc e hmem with h | ⟨e', he', h⟩
  · left; rw [h]
  · obtain ⟨he1, he2⟩ := List.mem_filter.mp he'
    have hk : e'.key = e.key := by simpa using he2
    rcases emitted_since_le_until query user core period log_files hord e' he1 with h1 | h1
    · left; rw [← h]; exact h1
    · right; exact ⟨e', he1, hk, h, h1⟩

/-- The amended C2 at two log files in the order of time with a restart before the period
`[100, 200)`. When the service is not logged again, its second row starts at `50`, where its
first row ends at the last known time; when the service is logged again after the restart,
its rows are `[100, 150)` and `[150, 199)`. -/
theorem emitted_since_le_from_of_time_ordered_witness :
    (time_ordered files_restart_before_period
      ∧ ∀ e ∈ (answerQuery query_all user_all core_hs ⟨100, 200⟩
          files_restart_before_period).sink.emitted,
        (100 : Int) ≤ e.row._from
        ∨ ∃ e' ∈ (answerQuery query_all user_all core_hs ⟨100, 200⟩
            files_restart_before_period).sink.emitted,
            e'.key = e.key ∧ e'.row._until = e.row._from ∧ EndsAtLastKnown e'.row)
    ∧ (time_ordered files_relogged
      ∧ (∀ e ∈ (answerQuery query_all user_all core_hs ⟨100, 200⟩
          files_relogged).sink.emitted,
        (100 : Int) ≤ e.row._from
        ∨ ∃ e' ∈ (answerQuery query_all user_all core_hs ⟨100, 200⟩
            files_relogged).sink.emitted,
            e'.key = e.key ∧ e'.row._until = e.row._from ∧ EndsAtLastKnown e'.row)
      ∧ (answerQuery query_all user_all core_hs ⟨100, 200⟩ files_relogged).sink.emitted.map
          (fun e => (e.key, e.row._from, e.row._until, e.row._state))
        = [(2, 100, 150, 0), (2, 150, 199, 2)]) := by
  have h1 : time_ordered files_restart_before_period := by unfold time_ordered; decide
  have h2 : time_ordered files_relogged := by unfold time_ordered; decide
  exact ⟨⟨h1, emitted_since_le_from_of_time_ordered query_all user_all core_hs ⟨100, 200⟩
      files_restart_before_period h1⟩,
    h2, emitted_since_le_from_of_time_ordered query_all user_all core_hs ⟨100, 200⟩
      files_relogged h2, by decide⟩

/-- The library function `std::stoi` skips every `isspace` character before the number, the
vertical tab and the form feed among them: the payload whose third field is a vertical tab
followed by `0` is well-formed, and so is one whose second field starts with a form feed. -/
theorem parse_skips_white_space :
    stoi [Char.ofNat 11, '0'] = some 0
    ∧ stoi [Char.ofNat 12, ' ', '-', '7', 'x'] = some (-7)
    ∧ TimeperiodTransition.parse (String.mk ("np;1;".data ++ [Char.ofNat 11, '0']))
        = some ⟨"np", 1, 0⟩
    ∧ TimeperiodTransition.parse (String.mk ("np;".data ++ [Char.ofNat 12] ++ "1;5".data))
        = some ⟨"np", 1, 5⟩
    ∧ stoi [Char.ofNat 11] = Option.none
    ∧ stoi "+-1".data = Option.none
    ∧ stoi "2147483648".data = Option.none := by
  refine ⟨by decide, by decide, by decide, by decide, by decide, by decide, by decide⟩

theorem updateHostServiceState_hasHost (query : Query) (user : User) (period : LogPeriod)
    (entry : LogEntry) (key : HostServiceKey) (h : HostServiceState) (ou : Bool)
    (nps : notification_periods_t) (s : Sink) (hI : HasHost h) :
    HasHost (updateHostServiceState query user period entry key h ou nps s).2.1 := by
  unfold HasHost
  rw [(updateHostServiceState_emits query user period entry key h ou nps s).2.host_eq]
  exact hI

theorem update_services_hasHost (query : Query) (user : User) (period : LogPeriod)
    (entry : LogEntry) (ou : Bool) (nps : notification_periods_t) :
    ∀ (L : List HostServiceKey) (m : state_info_t) (s : Sink), AllStates HasHost m →
      AllStates HasHost (update_services query user period entry ou nps L m s).1 := by
  intro L
  induction L with
  | nil => intro m s hI; exact hI
  | cons svc svcs ih =>
    intro m s hI
    unfold update_services
    cases hsv : map_find svc m with
    | none => exact ih m s hI
    | some Z =>
      simp only []
      exact ih _ _ (allStates_map_modify hI (fun _ _ =>
        updateHostServiceState_hasHost query user period entry svc Z ou nps s
          (hI (svc, Z) (map_find_mem hsv))))

theorem update_hasHost (query : Query) (user : User) (period : LogPeriod)
    (entry : LogEntry) (key : HostServiceKey) (state : HostServiceState) (ou : Bool)
    (nps : notification_periods_t) (m : state_info_t) (s : Sink)
    (hI : AllStates HasHost m) (hs : HasHost state) :
    AllStates HasHost (update query user period entry key state ou nps m s).1 := by
  have h1 : AllStates HasHost (map_modify key (fun _ =>
      (updateHostServiceState query user period entry key state ou nps s).2.1) m) :=
    allStates_map_modify hI (fun _ _ =>
      updateHostServiceState_hasHost query user period entry key state ou nps s hs)
  unfold update
  simp only []
  split_ifs
  · exact update_services_hasHost query user period entry ou nps _ _ _ h1
  · exact h1

theorem insert_new_state_hasHost {query : Query} {user : User} {period : LogPeriod}
    {entry : LogEntry} {ou : Bool} {nps : notification_periods_t}
    {m m' : state_info_t} {bl bl' : object_blacklist_t}
    {eh : Option IHost} {es : Option IService} {key : HostServiceKey}
    (heh : eh ≠ Option.none) (hI : AllStates HasHost m)
    (h : insert_new_state query user entry ou nps m bl period eh es key = some (m', bl')) :
    AllStates HasHost m' := by
  unfold insert_new_state at h
  simp only [] at h
  split_ifs at h
  · simp only [Option.some.injEq, Prod.mk.injEq] at h
    rw [← h.1]
    exact hI
  · split at h
    · exact absurd h (by simp)
    · rename_i state1 m1 hl
      split at h
      · exact absurd h (by simp)
      · rename_i state3 hinh
        simp only [Option.some.injEq, Prod.mk.injEq] at h
        rw [← h.1]
        obtain ⟨hI1, l, hl1⟩ := link_services_sound (I := HasHost) (fun _ _ hh => hh) hI hl
        have hb0 : HasHost (init_periods period nps state1) := by
          rw [hl1]
          exact heh
        have hb3 : HasHost state3 := by
          unfold inherit_host at hinh
          split_ifs at hinh
          · simp only [Option.some.injEq] at hinh
            rw [← hinh]
            exact hb0
          · cases hh : host_handle (init_periods period nps state1) with
            | none => rw [hh] at hinh; simp at hinh
            | some k =>
              rw [hh] at hinh
              simp only [Option.map_some', Option.some.injEq] at hinh
              rw [← hinh]
              split
              · exact hb0
              · exact hb0
        refine allStates_map_set hI1 ?_
        unfold stamp_unmonitored
        split_ifs
        · exact hb3
        · exact hb3

theorem handle_state_entry_hasHost (query : Query) (user : User) (core : ICore)
    (entry : LogEntry) (is_host_entry : Bool) (period : LogPeriod) (r : Replay)
    (hc : hosts_resolved core) (hI : AllStates HasHost r.state_info) :
    AllStates HasHost
      (handle_state_entry query user core entry is_host_entry period r).state_info := by
  unfold handle_state_entry
  simp only []
  split_ifs with hk hbl
  · exact hI
  · exact hI
  · have heh : core.find_host entry.host_name ≠ Option.none := by
      unfold entry_key at hk
      cases is_host_entry with
      | true =>
        intro hn
        rw [hn] at hk
        exact hk rfl
      | false =>
        cases hs : core.find_service entry.host_name entry.service_description with
        | none => rw [hs] at hk; exact absurd rfl hk
        | some s => exact hc _ _ s hs
    split
    · exact hI
    · rename_i m1 bl1 hins
      have hI1 : AllStates HasHost m1 := by
        unfold insert_if_new at hins
        split_ifs at hins
        · simp only [Option.some.injEq, Prod.mk.injEq] at hins
          rw [← hins.1]
          exact hI
        · exact insert_new_state_hasHost heh hI hins
      split
      · exact hI1
      · rename_i state hst
        exact update_hasHost query user period entry _ state r.only_update
          r.notification_periods m1 r.sink hI1 (hI1 _ (map_find_mem hst))

theorem dispatch_hasHost (query : Query) (user : User) (core : ICore) (period : LogPeriod)
    (entry : LogEntry) (r : Replay) (hc : hosts_resolved core)
    (hI : AllStates HasHost r.state_info) :
    AllStates HasHost (dispatch query user core period entry r).state_info := by
  have hu : AllStates HasHost
      (set_unknown_to_unmonitored r.in_nagios_initial_states r.state_info) :=
    set_unknown_to_unmonitored_sound (I := HasHost) (fun _ hh _ => hh) _ hI
  unfold dispatch
  simp only []
  split
  all_goals first
    | exact hu
    | exact handle_state_entry_hasHost query user core entry _ period r hc hI
    | exact handle_state_entry_hasHost query user core entry _ period
        { r with state_info :=
            set_unknown_to_unmonitored r.in_nagios_initial_states r.state_info } hc hu
    | exact handle_log_initial_states_sound (I := HasHost) (fun _ hh _ => hh) hu
    | (unfold handle_timeperiod_transition
       split
       · exact hu
       · simp only []
         exact (for_each_state_sound (I := HasHost) (P := fun _ => True) (fun k h s hh =>
           ⟨updateHostServiceState_hasHost query user period entry k h _ _ s hh,
            updateHostServiceState_grows query user period entry k h _ _ s
              (fun _ _ _ => trivial)⟩) _ _ hu).1)

theorem handle_entries_hasHost (query : Query) (user : User) (core : ICore)
    (period : LogPeriod) (hc : hosts_resolved core) :
    ∀ (es : List LogEntry) (r : Replay), AllStates HasHost r.state_info →
      AllStates HasHost (handle_entries query user core period es r).state_info := by
  intro es
  induction es with
  | nil => intro r hI; exact hI
  | cons e es ih =>
    intro r hI
    refine ih _ ?_
    unfold handle_entry
    exact dispatch_hasHost query user core period e _ hc
      (@start_of_timeframe_sound HasHost HasHost period e r (fun _ _ _ hh => hh)
        (fun _ _ hh => hh) hI)

/-- C10: for a registry that has the host of every service it has, after a
`TIMEPERIOD TRANSITION` entry with a well-formed payload naming the period `P` with the
target value `v` has been handled, every tracked object whose notification period is `P` has
`in_notification_period == v`, and this stays so, also for objects inserted or revived later,
while the entries handled are no well-formed transitions for `P`. -/
theorem in_notification_period_after_transition (query : Query) (user : User) (core : ICore)
    (period : LogPeriod) (before : List LogEntry) (entry : LogEntry)
    (tpt : TimeperiodTransition) (after : List LogEntry)
    (hc : hosts_resolved core)
    (hk : entry.kind = LogEntryKind.timeperiod_transition)
    (hp : TimeperiodTransition.parse entry.options = some tpt)
    (hes : ∀ e ∈ after, no_transition_for tpt.name_ e) :
    ∀ k X, map_find k (handle_entries query user core period (before ++ entry :: after)
        {}).state_info = some X →
      X._notification_period = tpt.name_ → X._in_notification_period = tpt.to_ := by
  intro k X hX hn
  have hsplit : handle_entries query user core period (before ++ entry :: after) {}
      = handle_entries query user core period after
          (handle_entry query user core period entry
            (handle_entries query user core period before {})) := by
    unfold handle_entries
    rw [List.foldl_append, List.foldl_cons]
  have hh : HasHost X :=
    handle_entries_hasHost query user core period hc (before ++ entry :: after) {}
      (fun kh hkh => by simp at hkh) (k, X) (map_find_mem hX)
  rw [hsplit] at hX
  exact in_notification_period_of_host query user core period _ entry tpt after hk hp hes
    (k, X) (map_find_mem hX) hh hn

/-- C10 on the registry `core_hs`: the service `h;s` (notification period `np`) is tracked,
the transition `np;1;0` is handled, an alert of the service follows; and the service is
inserted only after the transition. In both runs the service has
`in_notification_period == 0`. -/
theorem in_notification_period_after_transition_witness :
    hosts_resolved core_hs
    ∧ (∀ X, map_find 2 (handle_entries query_all user_all core_hs ⟨100, 1000⟩
          ([alert_at 150]
            ++ { time := 300, kind := LogEntryKind.timeperiod_transition, options := "np;1;0" }
              :: [alert_at 700]) {}).state_info = some X → X._in_notification_period = 0)
    ∧ (map_find 2 (handle_entries query_all user_all core_hs ⟨100, 1000⟩
          ([alert_at 150]
            ++ { time := 300, kind := LogEntryKind.timeperiod_transition, options := "np;1;0" }
              :: [alert_at 700]) {}).state_info).map
          (fun X => (X._notification_period, X._in_notification_period)) = some ("np", 0)
    ∧ (map_find 2 (handle_entries query_all user_all core_hs ⟨100, 1000⟩
          ([] ++ { time := 300, kind := LogEntryKind.timeperiod_transition,
                   options := "np;1;0" } :: [alert_at 700]) {}).state_info).map
          (fun X => (X._notification_period, X._in_notification_period)) = some ("np", 0) := by
  have hc : hosts_resolved core_hs := by
    intro n d s hs
    simp only [core_hs] at hs ⊢
    split_ifs at hs with h
    rw [if_pos h.1]
    simp
  have hnp : (map_find 2 (handle_entries query_all user_all core_hs ⟨100, 1000⟩
          ([alert_at 150]
            ++ { time := 300, kind := LogEntryKind.timeperiod_transition, options := "np;1;0" }
              :: [alert_at 700]) {}).state_info).map
          (fun X => (X._notification_period, X._in_notification_period)) = some ("np", 0) := by
    decide
  refine ⟨hc, fun X hX => ?_, hnp, by decide⟩
  rw [hX] at hnp
  simp only [Option.map_some', Option.some.injEq, Prod.mk.injEq] at hnp
  exact in_notification_period_after_transition query_all user_all core_hs ⟨100, 1000⟩
    [alert_at 150]
    { time := 300, kind := LogEntryKind.timeperiod_transition, options := "np;1;0" }
    ⟨"np", 1, 0⟩ [alert_at 700] hc rfl (by decide)
    (by
      intro e he
      simp only [List.mem_singleton] at he
      subst he
      intro hk
      exact absurd hk (by decide))
    2 X hX hnp.1

/-- Lines 525-531 of `insert_new_state`: a new object with an empty service description whose
host the registry has is stored with the list of the objects of the table that have its host,
each once. -/
theorem insert_new_state_collects (query : Query) (user : User) (entry : LogEntry) (ou : Bool)
    (nps : notification_periods_t) (m : state_info_t) (bl : object_blacklist_t)
    (period : LogPeriod) (h : IHost) (es : Option IService) (key : HostServiceKey)
    (hd : entry.service_description = "") (hn : (keys m).Nodup) :
    ∃ X, insert_new_state query user entry ou nps m bl period (some h) es key
        = some (map_set key_lt key X m, bl)
      ∧ X._services.Nodup
      ∧ ∀ z, z ∈ X._services ↔
          ∃ Z, map_find z m = some Z ∧ host_handle Z = some h.handleForStateHistory := by
  have hih : (nascent entry (some h) es)._is_host = true := by simp [nascent, hd]
  have hhh : host_handle (nascent entry (some h) es) = some h.handleForStateHistory := rfl
  obtain ⟨l, hl, hsub, hmem⟩ := collect_services_spec _ _ hhh m
  refine ⟨stamp_unmonitored entry ou period (init_periods period nps
    { (nascent entry (some h) es) with
      _services := (nascent entry (some h) es)._services ++ l }), ?_, ?_, ?_⟩
  · unfold insert_new_state
    simp only []
    rw [if_neg (fun hc => hc.1 hd)]
    unfold link_services
    rw [if_pos hih, hl]
    simp only [Option.map_some']
    unfold inherit_host
    rw [if_pos (by exact hih)]
  · have hs : (stamp_unmonitored entry ou period (init_periods period nps
        { (nascent entry (some h) es) with
          _services := (nascent entry (some h) es)._services ++ l }))._services = l := by
      unfold stamp_unmonitored
      split_ifs <;> simp [init_periods, nascent]
    rw [hs]
    exact hsub.nodup hn
  · intro z
    have hs : (stamp_unmonitored entry ou period (init_periods period nps
        { (nascent entry (some h) es) with
          _services := (nascent entry (some h) es)._services ++ l }))._services = l := by
      unfold stamp_unmonitored
      split_ifs <;> simp [init_periods, nascent]
    rw [hs, hmem z]
    constructor
    · rintro ⟨Z, hZ, hZh⟩
      exact ⟨Z, map_find_of_mem hn hZ, hZh⟩
    · rintro ⟨Z, hZ, hZh⟩
      exact ⟨Z, map_find_mem hZ, hZh⟩

/-- Lines 532-537 of `insert_new_state`: a new object with a service description that the
filter accepts and whose host the registry has is stored with an empty list, and its key is
appended to the list of the object stored under the handle of its host. -/
theorem insert_new_state_appends (query : Query) (user : User) (entry : LogEntry) (ou : Bool)
    (nps : notification_periods_t) (m : state_info_t) (bl : object_blacklist_t)
    (period : LogPeriod) (h : IHost) (es : Option IService) (key : HostServiceKey)
    (hd : entry.service_description ≠ "")
    (hacc : query.object_filter (nascent entry (some h) es) user query.timezoneOffset = true) :
    ∃ X, insert_new_state query user entry ou nps m bl period (some h) es key
        = some (map_set key_lt key X
            (map_modify h.handleForStateHistory
              (fun H => { H with _services := H._services ++ [key] }) m), bl)
      ∧ X._services = [] := by
  have hih : (nascent entry (some h) es)._is_host = false := by simp [nascent, hd]
  have hhh : host_handle (nascent entry (some h) es) = some h.handleForStateHistory := rfl
  have hih2 : (init_periods period nps (nascent entry (some h) es))._is_host = false := hih
  have hhh2 : host_handle (init_periods period nps (nascent entry (some h) es))
      = some h.handleForStateHistory := rfl
  have hstep : insert_new_state query user entry ou nps m bl period (some h) es key
      = some (map_set key_lt key (stamp_unmonitored entry ou period
          (match map_find h.handleForStateHistory (map_modify h.handleForStateHistory
              (fun H => { H with _services := H._services ++ [key] }) m) with
            | some my_host =>
              { (init_periods period nps (nascent entry (some h) es)) with
                _in_host_downtime := my_host._in_host_downtime,
                _host_down := my_host._host_down }
            | Option.none => init_periods period nps (nascent entry (some h) es)))
          (map_modify h.handleForStateHistory
            (fun H => { H with _services := H._services ++ [key] }) m), bl) := by
    unfold insert_new_state
    simp only []
    rw [if_neg (fun hc => by rw [hacc] at hc; exact absurd hc.2 (by simp))]
    unfold link_services
    rw [if_neg (by rw [hih]; simp), hhh]
    simp only [Option.map_some']
    unfold inherit_host
    rw [if_neg (by rw [hih2]; simp), hhh2]
    rfl
  refine ⟨_, hstep, ?_⟩
  unfold stamp_unmonitored
  split_ifs <;> split <;> simp [init_periods, nascent]

/-- C27: in every state of the replay, no list `_services` of an object of the state table
has an object twice, and the objects of the list are objects of the state table, whose keys
are distinct. An entry changes the lists by insertion only: the list of an object that was
in the table stays as it is or gets the one object appended that the entry inserts, and a
new object gets a list of objects that were in the table, none of them twice
(`insert_new_state` collects them in the order of the table). And the insertion links: on
every state table with these properties, `handle_state_entry` for an object that is not in the
table, is not blacklisted and whose host the registry has stores, when the service description
is empty, the object with the list of exactly the objects of the table that have its host,
each once (collected once); and when the description is not empty and the filter accepts the
object, it stores the object with an empty list and appends its key, which was not in that
list, to the list of the object stored under the handle of its host (appended once). -/
theorem back_links_unique (query : Query) (user : User) (core : ICore) (period : LogPeriod)
    (entries : List LogEntry) :
    (keys (handle_entries query user core period entries {}).state_info).Nodup
    ∧ (∀ k H, map_find k (handle_entries query user core period entries {}).state_info
          = some H →
        H._services.Nodup
        ∧ ∀ z ∈ H._services,
            z ∈ keys (handle_entries query user core period entries {}).state_info)
    ∧ (∀ entry : LogEntry,
        (∀ k H, map_find k (handle_entries query user core period entries {}).state_info
            = some H →
          ∃ H', map_find k (handle_entry query user core period entry
              (handle_entries query user core period entries {})).state_info = some H'
            ∧ (H'._services = H._services
              ∨ ∃ z, z ∉ keys (handle_entries query user core period entries {}).state_info
                ∧ z ∈ keys (handle_entry query user core period entry
                    (handle_entries query user core period entries {})).state_info
                ∧ H'._services = H._services ++ [z]))
        ∧ (∀ k X, map_find k (handle_entries query user core period entries {}).state_info
            = Option.none →
          map_find k (handle_entry query user core period entry
              (handle_entries query user core period entries {})).state_info = some X →
          X._services.Nodup
          ∧ X._services.Sublist
              (keys (handle_entries query user core period entries {}).state_info)))
    ∧ ∀ (r : Replay) (entry : LogEntry) (is_host_entry : Bool) (h : IHost),
        BackLinksUnique r.state_info →
        entry_key core entry is_host_entry ≠ 0 →
        r.object_blacklist.contains (entry_key core entry is_host_entry) = false →
        map_find (entry_key core entry is_host_entry) r.state_info = Option.none →
        core.find_host entry.host_name = some h →
        (entry.service_description = "" →
          ∃ X, map_find (entry_key core entry is_host_entry)
              (handle_state_entry query user core entry is_host_entry period r).state_info
              = some X
            ∧ X._services.Nodup
            ∧ ∀ z, z ∈ X._services ↔
                ∃ Z, map_find z r.state_info = some Z
                  ∧ host_handle Z = some h.handleForStateHistory)
        ∧ (entry.service_description ≠ "" →
          query.object_filter
            (nascent entry (some h)
              (core.find_service entry.host_name entry.service_description))
            user query.timezoneOffset = true →
          (∃ X, map_find (entry_key core entry is_host_entry)
              (handle_state_entry query user core entry is_host_entry period r).state_info
              = some X ∧ X._services = [])
          ∧ ∀ H, map_find h.handleForStateHistory r.state_info = some H →
              entry_key core entry is_host_entry ∉ H._services
              ∧ ∃ H', map_find h.handleForStateHistory
                  (handle_state_entry query user core entry is_host_entry period r).state_info
                  = some H'
                ∧ H'._services = H._services ++ [entry_key core entry is_host_entry]) := by
  have hb : BackLinksUnique (handle_entries query user core period entries {}).state_info :=
    handle_entries_links query user core period entries {}
      ⟨List.nodup_nil, fun k H h => by simp [map_find] at h⟩
  refine ⟨hb.1, hb.2, fun entry => ?_, ?_⟩
  · obtain ⟨h1, h2⟩ := handle_entry_links query user core period entry _ hb
    exact ⟨h2.1, fun k X hn hX => ⟨(h2.2 k X hn hX).nodup hb.1, h2.2 k X hn hX⟩⟩
  intro r entry is_host_entry h hbr hk hbl hnone hh
  -- the state table after the insertion and the update of the new object
  have key_step : ∀ (X : HostServiceState) (m1 : state_info_t),
      insert_new_state query user entry r.only_update r.notification_periods r.state_info
        r.object_blacklist period (some h)
        (core.find_service entry.host_name entry.service_description)
        (entry_key core entry is_host_entry)
        = some (map_set key_lt (entry_key core entry is_host_entry) X m1, r.object_blacklist) →
      services_table
          (handle_state_entry query user core entry is_host_entry period r).state_info
        = services_table (map_set key_lt (entry_key core entry is_host_entry) X m1) := by
    intro X m1 hins
    unfold handle_state_entry
    simp only []
    rw [if_neg hk, if_neg (by rw [hbl]; simp)]
    unfold insert_if_new map_contains
    rw [hnone, hh]
    simp only [Option.isSome_none, Bool.false_eq_true, if_false]
    rw [hins]
    simp only []
    rw [map_find_map_set_eq key_lt (entry_key core entry is_host_entry) X m1]
    simp only []
    exact services_table_update query user period entry _ X r.only_update
      r.notification_periods _ r.sink
      (map_find_map_set_eq key_lt (entry_key core entry is_host_entry) X m1)
  constructor
  · intro hd
    obtain ⟨X, hins, hnd, hspec⟩ := insert_new_state_collects query user entry r.only_update
      r.notification_periods r.state_info r.object_blacklist period h
      (core.find_service entry.host_name entry.service_description)
      (entry_key core entry is_host_entry) hd hbr.1
    obtain ⟨X', hX', hs⟩ := find_of_services_table (key_step X _ hins)
      (map_find_map_set_eq key_lt (entry_key core entry is_host_entry) X r.state_info)
    exact ⟨X', hX', by rw [hs]; exact hnd, fun z => by rw [hs]; exact hspec z⟩
  · intro hd hacc
    obtain ⟨X, hins, hnil⟩ := insert_new_state_appends query user entry r.only_update
      r.notification_periods r.state_info r.object_blacklist period h
      (core.find_service entry.host_name entry.service_description)
      (entry_key core entry is_host_entry) hd hacc
    constructor
    · obtain ⟨X', hX', hs⟩ := find_of_services_table (key_step X _ hins)
        (map_find_map_set_eq key_lt (entry_key core entry is_host_entry) X _)
      exact ⟨X', hX', by rw [hs]; exact hnil⟩
    · intro H hH
      have hne : entry_key core entry is_host_entry ≠ h.handleForStateHistory := by
        intro he
        rw [← he, hnone] at hH
        exact absurd hH (by simp)
      refine ⟨fun hin => not_mem_keys_of_map_find_none hnone
        ((hbr.2 _ H hH).2 _ hin), ?_⟩
      have hf : map_find h.handleForStateHistory
          (map_set key_lt (entry_key core entry is_host_entry) X
            (map_modify h.handleForStateHistory
              (fun H => { H with _services := H._services ++ [entry_key core entry
                is_host_entry] }) r.state_info))
          = some { H with _services := H._services ++ [entry_key core entry
              is_host_entry] } := by
        rw [map_find_map_set_ne key_lt X hne, map_find_map_modify, if_pos rfl, hH]
        rfl
      obtain ⟨H', hH', hs⟩ := find_of_services_table (key_step X _ hins) hf
      exact ⟨H', hH', hs⟩

/-- C27 on the host `h` and its services `s1` and `s2`: logged after the host, the services
are appended to its list in turn; logged before the host, they are collected when the host
is inserted. In both cases the list of the host is `[2, 3]`. -/
theorem back_links_unique_witness :
    (∀ H, map_find 1 (handle_entries query_all user_all core_h2 ⟨0, 1000⟩
        entries_host_and_services {}).state_info = some H → H._services.Nodup)
    ∧ (map_find 1 (handle_entries query_all user_all core_h2 ⟨0, 1000⟩
        entries_host_and_services {}).state_info).map (fun H => H._services) = some [2, 3]
    ∧ (map_find 1 (handle_entries query_all user_all core_h2 ⟨0, 1000⟩
        (entries_host_and_services.tail ++ [host_down_at_100]) {}).state_info).map
        (fun H => H._services) = some [2, 3] :=
  ⟨fun H hH => ((back_links_unique query_all user_all core_h2 ⟨0, 1000⟩
      entries_host_and_services).2.1 1 H hH).1,
   by decide, by decide⟩

end StateHistory
